import Mathlib

/-! # Outbound server-to-server dispatch: a shallow embedding of `s2s/out.c`

The engine state of `s2s/out.c` is kept as an explicit record (`s2s_st`) that is
passed through every operation.  Pointers to connections are addresses into a
table of `conn_st` records; hash tables are association lists whose list order
is the iteration order.  The stream codec (SX), the resolver and the reactor are
external collaborators: calls into SX are recorded, in program order, in
`s2s_st.sx_log`; answers of the outside world (does `mio_connect` succeed, what
does `rand()` return, how does a string parse as a JID) are read from a `world`.
`time(NULL)` is the field `now`, constant during one operation.

Operations that may loop for ever or abort (a failed `assert`, a NULL
dereference) return `Except fault _`; recursion is driven by a fuel argument.
-/

set_option autoImplicit false

namespace S2S

/-! ## Generic containers -/

/-- Modelled from the spec: the generic hash table (`util/xhash.c` is not under
src/) is a finite mapping.  Lookup returns the value stored under the key. -/
def xhash_get {κ α : Type} [DecidableEq κ] : List (κ × α) → κ → Option α
  | [], _ => none
  | (k', v) :: t, k => if k' = k then some v else xhash_get t k

/-- Modelled from the spec: removal of a key from the generic hash table. -/
def xhash_zap {κ α : Type} [DecidableEq κ] : List (κ × α) → κ → List (κ × α)
  | [], _ => []
  | (k', v) :: t, k => if k' = k then xhash_zap t k else (k', v) :: xhash_zap t k

/-- Replace the value stored under a key that is present. -/
def xhash_replace {κ α : Type} [DecidableEq κ] : List (κ × α) → κ → α → List (κ × α)
  | [], _, _ => []
  | (k', v') :: t, k, v =>
    if k' = k then (k', v) :: xhash_replace t k v else (k', v') :: xhash_replace t k v

/-- Modelled from the spec: insertion into the generic hash table; an existing
key keeps its node and gets the new value, a new key gets a new node. -/
def xhash_put {κ α : Type} [DecidableEq κ] (h : List (κ × α)) (k : κ) (v : α) : List (κ × α) :=
  match xhash_get h k with
  | some _ => xhash_replace h k v
  | none => h ++ [(k, v)]

/-- Number of entries (`xhash_count`). -/
def xhash_count {κ α : Type} (h : List (κ × α)) : Nat := h.length

/-- String-keyed hash table, as used throughout the engine. -/
abbrev xht (α : Type) := List (String × α)

/-- Modelled from the spec: the per-route queue (`util/jqueue.c` is not under
src/): a FIFO of packets together with the time the queue was created, which is
the time its first packet was enqueued.  The field `q->key` is the storage of
the key under which the queue sits in `outq`, so it is that key and is not kept
a second time. -/
structure jqueue_st (α : Type) where
  items : List α
  init_time : Int
deriving DecidableEq, Repr

/-- Create an empty queue (`jqueue_new`). -/
def jqueue_new {α : Type} (now : Int) : jqueue_st α := { items := [], init_time := now }

/-- Append at the back (`jqueue_push` with priority 0). -/
def jqueue_push {α : Type} (q : jqueue_st α) (x : α) : jqueue_st α := { q with items := q.items ++ [x] }

/-- Take from the front (`jqueue_pull`); `none` on an empty queue. -/
def jqueue_pull {α : Type} (q : jqueue_st α) : Option α × jqueue_st α :=
  match q.items with
  | [] => (none, q)
  | x :: t => (some x, { q with items := t })

/-- Number of queued items (`jqueue_size`). -/
def jqueue_size {α : Type} (q : jqueue_st α) : Int := q.items.length

/-- Age of the queue (`jqueue_age`): seconds since it was created. -/
def jqueue_age {α : Type} (now : Int) (q : jqueue_st α) : Int := now - q.init_time

/-! ## Strings -/

/-- Split a C string at the first occurrence of a character, as the code does
with `strchr`/`memchr` followed by `c++`: the part before and the part after.
`none` when the character does not occur (`strchr` returns NULL). -/
def strchr_split (s : String) (ch : Char) : Option (String × String) :=
  match s.data.span (fun c => c != ch) with
  | (_, []) => none
  | (a, _ :: b) => some (String.mk a, String.mk b)

/-- Modelled from the spec: the route key `"from-domain/to-domain"`
(`s2s_route_key` lives in `s2s/util.c`, not under src/). -/
def s2s_route_key (from_ to_ : String) : String := from_ ++ "/" ++ to_

/-- Value of a decimal digit string, most significant digit first. -/
def atoi_digits : List Char → Nat → Nat
  | [], acc => acc
  | c :: t, acc => if c.isDigit then atoi_digits t (acc * 10 + (c.toNat - 48)) else acc

/-- C `atoi` on the port part of an `ip/port` key: an optional minus sign and
leading decimal digits. -/
def atoi (s : String) : Int :=
  match s.data with
  | '-' :: t => - (atoi_digits t 0 : Int)
  | l => (atoi_digits l 0 : Int)

/-- The key `"%s/%d"` composed by `snprintf` and by `dns_make_ipport`. -/
def fmt_ipport (ip : String) (port : Int) : String := ip ++ "/" ++ toString port

/-! ## XML documents, JIDs and packets -/

/-- Modelled from the spec: one element of a NAD (the XML document
representation, `util/nad.c`, is not under src/), reduced to what `out.c`
observes: the name, the URI of the element's namespace (`none` when
`NAD_ENS` is negative), the URIs declared on the element (`my_ns`), the
attributes and the character data. -/
structure nad_elem where
  name : String
  ns : Option String
  my_ns : List String
  attrs : List (String × String)
  cdata : String
deriving DecidableEq, Repr

/-- Modelled from the spec: a NAD is its array of elements; element 0 is the
root and element 1 its first child. -/
structure nad_st where
  elems : List nad_elem
deriving DecidableEq, Repr

def uri_DIALBACK : String := "jabber:server:dialback"
def uri_CLIENT : String := "jabber:client"
def uri_STREAMS : String := "http://etherx.jabber.org/streams"
def uri_TLS : String := "urn:ietf:params:xml:ns:xmpp-tls"

/-- Name of an element (`NAD_ENAME`); the empty string past the end. -/
def NAD_ENAME (n : nad_st) (e : Nat) : String :=
  match n.elems.get? e with
  | some el => el.name
  | none => ""

/-- URI of an element's namespace (`NAD_NURI(nad, NAD_ENS(nad, e))`). -/
def NAD_ENS_URI (n : nad_st) (e : Nat) : Option String :=
  match n.elems.get? e with
  | some el => el.ns
  | none => none

/-- Number of elements (`nad->ecur`). -/
def nad_ecur (n : nad_st) : Nat := n.elems.length

/-- Modelled from the spec: `nad_find_attr(nad, e, -1, name, val)`: the value of
the first attribute of element `e` with that name and, when `val` is given,
that value; `none` stands for a negative return. -/
def nad_find_attr (n : nad_st) (e : Nat) (name : String) (val : Option String) : Option String :=
  match n.elems.get? e with
  | none => none
  | some el =>
    match el.attrs.find? (fun a => decide (a.1 = name) &&
        (match val with | none => true | some v => decide (a.2 = v))) with
    | some a => some a.2
    | none => none

/-- Modelled from the spec: `nad_find_namespace(nad, 1, uri, NULL) >= 0`: the
URI is declared on element 1 or on its parent, element 0. -/
def nad_find_namespace1 (n : nad_st) (uri : String) : Bool :=
  (match n.elems.get? 1 with | some el => decide (uri ∈ el.my_ns) | none => false) ||
  (match n.elems.get? 0 with | some el => decide (uri ∈ el.my_ns) | none => false)

/-- Clear the namespace of one element: `elems[i].ns = -1; elems[i].my_ns = -1`. -/
def nad_clear_ns (n : nad_st) (i : Nat) : nad_st :=
  match n.elems.get? i with
  | some el => { elems := n.elems.set i { el with ns := none, my_ns := [] } }
  | none => n

/-- A parsed JID; the engine reads only the domain. -/
structure jid_st where
  node : String
  domain : String
  resource : String
deriving DecidableEq, Repr

/-- A packet handed to the dispatch engine (`pkt_t`). -/
structure pkt_st where
  nad : nad_st
  from_ : jid_st
  to_ : jid_st
  db : Bool
deriving DecidableEq, Repr

/-- Route key of a packet, as computed at the head of `out_packet` and of
`_out_packet_queue`. -/
def pkt_rkey (p : pkt_st) : String := s2s_route_key p.from_.domain p.to_.domain

/-! ## Connections, DNS records and the engine state -/

/-- Modelled from the spec: authentication state of a route on a connection;
a route without an entry in `states` reads as `conn_NONE` (the NULL that
`xhash_get` returns). -/
inductive conn_state_t where
  | conn_NONE
  | conn_INPROGRESS
  | conn_VALID
deriving DecidableEq, Repr

open conn_state_t

/-- Modelled from the spec: a connection record (`struct conn_st` is declared in
`s2s/s2s.h`, not under src/).  `s_id`, `res_version` and `ssf` are the fields of
the stream `out->s` that the engine reads; `fd_closed` is the reactor's view of
the descriptor. -/
structure conn_st where
  ip : String
  port : Int
  key : String
  dkey : Option String
  s_id : String
  res_version : Option String
  ssf : Int
  routes : xht Unit
  states : xht conn_state_t
  states_time : xht Int
  online : Bool
  verify : Int
  last_packet : Int
  last_activity : Int
  last_verify : Int
  packet_count : Int
  init_time : Int
  fd_closed : Bool
deriving DecidableEq, Repr

/-- A zeroed connection, as returned by `calloc`. -/
def conn_zero : conn_st :=
  { ip := "", port := 0, key := "", dkey := none, s_id := "", res_version := none, ssf := 0,
    routes := [], states := [], states_time := [], online := false, verify := 0,
    last_packet := 0, last_activity := 0, last_verify := 0, packet_count := 0,
    init_time := 0, fd_closed := false }

/-- The state of a route on a connection: `(conn_state_t) xhash_get(out->states, rkey)`. -/
def conn_state (c : conn_st) (rkey : String) : conn_state_t :=
  match xhash_get c.states rkey with
  | some st => st
  | none => conn_NONE

/-- One resolved address (`dnsres_t`); `weight` is stored pre-shifted. -/
structure dnsres_st where
  key : String
  prio : Int
  weight : Int
  expiry : Int
deriving DecidableEq, Repr

/-- Record type of a resolver request. -/
inductive ub_rrtype where
  | SRV
  | AAAA
  | A
deriving DecidableEq, Repr

/-- An in-flight resolution (`dnsquery_t`); `async_req` is the request that
`async_id` stands for. -/
structure dnsquery_st where
  name : String
  srv_i : Int
  hosts : xht dnsres_st
  results : xht dnsres_st
  expiry : Int
  cur_host : Option String
  cur_port : Int
  cur_prio : Int
  cur_weight : Int
  cur_expiry : Int
  have_async_id : Bool
  async_req : Option (ub_rrtype × String)
deriving DecidableEq, Repr

/-- A resolver cache entry (`dnscache_t`); `results = none` is the NULL of a
negative entry. -/
structure dnscache_st where
  name : String
  pending : Bool
  expiry : Int
  init_time : Int
  query : Option dnsquery_st
  results : Option (xht dnsres_st)
deriving DecidableEq, Repr

/-- A stream handle (`sx_t`): the router link, the stream of an outgoing
connection (by address) or the stream of an incoming connection (by id). -/
inductive sx_t where
  | router
  | out (c : Nat)
  | inc (id : String)
deriving DecidableEq, Repr

/-- Stanza and stream error conditions used by the engine. -/
inductive err_t where
  | stanza_err_SERVICE_UNAVAILABLE
  | stanza_err_REMOTE_SERVER_NOT_FOUND
  | stream_err_INVALID_ID
deriving DecidableEq, Repr

open err_t

/-- A call into the stream codec. `bounce` is
`sx_nad_write(router, stanza_tofrom(stanza_tofrom(stanza_error(nad, 1, err), 1), 0))`. -/
inductive sx_call where
  | nad_write (n : nad_st)
  | nad_write_elem (n : nad_st) (elem : Nat)
  | bounce (n : nad_st) (err : err_t)
  | error (err : err_t) (text : String)
  | close
  | kill
  | client_init (to_ : Option String) (from_ : Option String) (version : Option String)
  | starttls
deriving DecidableEq, Repr

/-- One entry of the trace of codec calls: the stream, the call, and the route
key that was in scope at the call site (an annotation of the trace; the empty
string where the call site has none). -/
structure sx_rec where
  s : sx_t
  rkey : String
  call : sx_call
deriving DecidableEq, Repr

/-- The engine (`s2s_t`): configuration, tables, the heap of outgoing
connections, and the interface to the outside (clock, counters of calls to
`mio_connect` and `rand`, trace of codec calls). -/
structure s2s_st where
  local_secret : String
  retry_limit : Int
  dns_bad_timeout : Int
  dns_min_ttl : Int
  dns_max_ttl : Int
  dns_cache_enabled : Bool
  out_reuse : Bool
  resolve_aaaa : Bool
  lookup_nsrv : Int
  sx_ssl : Bool
  outq : xht (jqueue_st pkt_st)
  out_host : xht Nat
  out_dest : xht Nat
  dnscache : xht dnscache_st
  dns_bad : xht dnsres_st
  inc : xht conn_st
  conns : List (Nat × conn_st)
  next_conn : Nat
  dead : List sx_t
  dead_conn : List Nat
  packet_count : Int
  now : Int
  n_connect : Nat
  n_rand : Nat
  sx_log : List sx_rec
deriving DecidableEq, Repr

/-- Answers of the external collaborators. `mio_connect n ip port` tells whether
the `n`-th call of `mio_connect` returns a descriptor; `rand n` is the value of
the `n`-th call of `rand()`; `jid_new` is the JID parser; `s2s_db_key` the
dialback key (SHA1 of secret, remote domain and stream id); `starttls c` tells
whether `sx_ssl_client_starttls` succeeds on connection `c`; `idna_to_ascii` and
`idna_to_unicode` are the IDNA encoder and decoder (`none` on failure). -/
structure world where
  mio_connect : Nat → String → Int → Bool
  rand : Nat → Nat
  jid_new : String → Option jid_st
  s2s_db_key : String → String → String → String
  starttls : Nat → Bool
  idna_to_ascii : String → Option String
  idna_to_unicode : String → Option String

/-- Why an operation produced no result: the process aborted (failed `assert`,
NULL or dangling pointer), or the fuel of the model ran out. -/
inductive fault where
  | abort
  | fuel
deriving DecidableEq, Repr

/-- Append a call to the trace of codec calls. -/
def sx_do (s : s2s_st) (sx : sx_t) (rkey : String) (c : sx_call) : s2s_st :=
  { s with sx_log := s.sx_log ++ [{ s := sx, rkey := rkey, call := c }] }

/-- Write back a connection record at its address. -/
def conn_store (s : s2s_st) (c : Nat) (o : conn_st) : s2s_st :=
  { s with conns := xhash_put s.conns c o }

/-- Write back the cache entry stored under a domain. -/
def dns_store (s : s2s_st) (dkey : String) (dns : dnscache_st) : s2s_st :=
  { s with dnscache := xhash_put s.dnscache dkey dns }

/-! ## Queueing and dialback -/

/-- Queue the packet under its route key (`_out_packet_queue`). -/
def _out_packet_queue (s : s2s_st) (pkt : pkt_st) : s2s_st :=
  let rkey := s2s_route_key pkt.from_.domain pkt.to_.domain
  { s with outq :=
      match xhash_get s.outq rkey with
      | none => xhash_put s.outq rkey (jqueue_push (jqueue_new s.now) pkt)
      | some q => xhash_replace s.outq rkey (jqueue_push q pkt) }

/-- Offset of the first occurrence of a character (`strchr`), `none` for NULL. -/
def strchr : List Char → Char → Option Nat
  | [], _ => none
  | c :: t, ch => if c = ch then some 0 else (strchr t ch).map (fun i => i + 1)

/-- The C string that starts at an offset of a buffer: it ends before the
first NUL. -/
def cstr_at (buf : List Char) (i : Nat) : String :=
  String.mk ((buf.drop i).takeWhile (fun c => c != '\x00'))

/-- The `<db:result from= to=>dbkey</db:result>` document built in `_out_dialback`. -/
def db_result_nad (from_ to_ dbkey : String) : nad_st :=
  { elems := [{ name := "result", ns := some uri_DIALBACK, my_ns := [uri_DIALBACK],
                attrs := [("from", from_), ("to", to_)], cdata := dbkey }] }

/-- Start dialback for a route on a connection (`_out_dialback`).  The route key
buffer is cut in place at the first `/` while the document is built and is
restored afterwards; the restored buffer is the key stored in `states` and
`states_time` and is returned with the new state. -/
def _out_dialback (w : world) (s : s2s_st) (out : Nat) (rkey : String) :
    Except fault (s2s_st × String) :=
  match xhash_get s.conns out with
  | none => .error .abort
  | some o =>
    match strchr rkey.data '/' with
    | none => .error .abort
    | some i =>
      let buf1 := rkey.data.set i '\x00'
      let from_ := cstr_at buf1 0
      let c := cstr_at buf1 (i + 1)
      let dbkey := w.s2s_db_key s.local_secret c o.s_id
      let nad := db_result_nad from_ c dbkey
      let buf2 := buf1.set i '/'
      let rkey2 := String.mk buf2
      let s1 := sx_do s (sx_t.out out) rkey2 (sx_call.nad_write nad)
      let o1 := { o with states := xhash_put o.states rkey2 conn_INPROGRESS,
                         states_time := xhash_put o.states_time rkey2 s.now }
      .ok (conn_store s1 out o1, rkey2)

/-! ## DNS selection and routing -/

/-- First step of the resolution chain, the tail of `_dns_result_srv`: move to
the next SRV prefix and submit its lookup, or, past the last prefix, start the
address lookups.  The resolver accepts the request and answers later. -/
def dns_srv_next (s : s2s_st) (q : dnsquery_st) : dnsquery_st :=
  let q1 := { q with srv_i := q.srv_i + 1 }
  if q1.srv_i < s.lookup_nsrv then
    { q1 with have_async_id := true, async_req := some (ub_rrtype.SRV, q1.name) }
  else if xhash_count q1.hosts > 0 then
    { q1 with cur_host := none, have_async_id := true, async_req := some (ub_rrtype.A, q1.name) }
  else
    { q1 with cur_host := some q1.name, cur_port := 5269, cur_prio := 0, cur_weight := 0,
              cur_expiry := 0, have_async_id := true,
              async_req := some (if s.resolve_aaaa then ub_rrtype.AAAA else ub_rrtype.A, q1.name) }

/-- Start the resolution of a domain (`dns_resolve_domain`): a fresh query is
attached to the cache entry and its first request is submitted. -/
def dns_resolve_domain (w : world) (s : s2s_st) (dns : dnscache_st) : dnscache_st :=
  let q : dnsquery_st :=
    { name := (match w.idna_to_ascii dns.name with | some n => n | none => dns.name),
      srv_i := -1, hosts := [], results := [], expiry := 0, cur_host := none, cur_port := 0,
      cur_prio := 0, cur_weight := 0, cur_expiry := 0, have_async_id := false, async_req := none }
  { dns with query := some (dns_srv_next s { q with have_async_id := false }) }

/-- The block "resolution required" of `out_route`: mark the entry pending and
start the resolution; the entry is the one stored under `dkey`. -/
def dns_kick (w : world) (s : s2s_st) (dkey : String) (dns : dnscache_st) : s2s_st :=
  dns_store s dkey (dns_resolve_domain w s { dns with init_time := s.now, pending := true })

/-- One of the three candidate lists of `dns_select` with its running weight
sums, its priority and its weight total (`l_x`, `rw_x`, `p_x`, `wt_x`;
the count `s_x` is the length of `l`). -/
structure sel_list where
  l : List dnsres_st
  rw : List Int
  p : Int
  wt : Int
deriving DecidableEq, Repr

/-- The block that `dns_select` repeats for the reusable, IPv6 and IPv4 lists:
reset the list on a new minimum priority, then add the result if its priority
is not above the list's. -/
def sel_add (L : sel_list) (res : dnsres_st) : sel_list :=
  let L1 : sel_list :=
    if L.l.length = 0 ∨ L.p > res.prio then { l := [], rw := [], p := res.prio, wt := 0 } else L
  if res.prio ≤ L1.p then
    { L1 with l := L1.l ++ [res], wt := L1.wt + res.weight, rw := L1.rw ++ [L1.wt + res.weight] }
  else L1

/-- Local variables of the partition loop of `dns_select`. -/
structure sel_acc where
  reuse : sel_list
  aaaa : sel_list
  a : sel_list
  bad : List dnsres_st
  c_expired_good : Int
deriving DecidableEq, Repr

def sel_acc_zero : sel_acc :=
  { reuse := { l := [], rw := [], p := 0, wt := 0 }, aaaa := { l := [], rw := [], p := 0, wt := 0 },
    a := { l := [], rw := [], p := 0, wt := 0 }, bad := [], c_expired_good := 0 }

/-- Body of the partition loop of `dns_select` for one entry of `dns->results`. -/
def dns_select_step (s : s2s_st) (now : Int) (acc : sel_acc) (e : String × dnsres_st) : sel_acc :=
  let ipport := e.1
  let res := e.2
  let bad : Option dnsres_st := if s.dns_bad_timeout > 0 then xhash_get s.dns_bad ipport else none
  if now > res.expiry then
    (if bad.isNone then { acc with c_expired_good := acc.c_expired_good + 1 } else acc)
  else if (match bad with | some b => !(decide (now > b.expiry)) | none => false) then
    { acc with bad := acc.bad ++ [res] }
  else if s.out_reuse && (xhash_get s.out_host ipport).isSome then
    { acc with reuse := sel_add acc.reuse res }
  else if ipport.data.contains ':' then
    { acc with aaaa := sel_add acc.aaaa res }
  else
    { acc with a := sel_add acc.a res }

/-- Weighted pick: the key of the first entry whose running weight is at least `r`. -/
def sel_pick (L : sel_list) (r : Int) : Option String :=
  match (L.l.zip L.rw).find? (fun x => decide (x.2 ≥ r)) with
  | some x => some x.1.key
  | none => none

/-- Tail of `dns_select`: `assert(ipport != NULL)`, then split the key into
address and port. -/
def dns_select_finish (n_rand : Nat) (dns : dnscache_st) (ipport : Option String) :
    Except fault (Nat × dnscache_st × Int × String × Int) :=
  match ipport with
  | none => .error .abort
  | some k =>
    match strchr_split k '/' with
    | none => .error .abort
    | some (ip, port) => .ok (n_rand, dns, 0, ip, atoi port)

/-- Choose an address for a cache entry (`dns_select`).  Returns the number of
calls of `rand()` made so far (one more than before when a list was drawn from),
the cache entry (its expiry is zeroed when only bad hosts are left and good ones
have expired), the return value and the address. -/
def dns_select (w : world) (s : s2s_st) (now : Int) (dns : dnscache_st) (allow_bad : Bool) :
    Except fault (Nat × dnscache_st × Int × String × Int) :=
  match dns.results with
  | none => .ok (s.n_rand, dns, -1, "", 0)
  | some results =>
    let acc := results.foldl (dns_select_step s now) sel_acc_zero
    let rnd : Int := (w.rand s.n_rand : Int)
    let s1 := s.n_rand + 1
    if acc.reuse.l.length > 0 then
      (if acc.reuse.wt + 1 > 0 then
        dns_select_finish s1 dns (sel_pick acc.reuse (Int.tmod rnd (acc.reuse.wt + 1)))
       else .error .abort)
    else if acc.aaaa.l.length > 0 ∧ (acc.a.l.length = 0 ∨ acc.aaaa.p ≤ acc.a.p) then
      (if acc.aaaa.wt + 1 > 0 then
        dns_select_finish s1 dns (sel_pick acc.aaaa (Int.tmod rnd (acc.aaaa.wt + 1)))
       else .error .abort)
    else if acc.a.l.length > 0 then
      (if acc.a.wt + 1 > 0 then
        dns_select_finish s1 dns (sel_pick acc.a (Int.tmod rnd (acc.a.wt + 1)))
       else .error .abort)
    else if acc.bad.length > 0 then
      let ipport := (acc.bad.get? (w.rand s.n_rand % acc.bad.length)).map (fun r => r.key)
      let dns1 := if acc.c_expired_good > 0 then { dns with expiry := 0 } else dns
      if !allow_bad then .ok (s1, dns1, -1, "", 0) else dns_select_finish s1 dns1 ipport
    else .error .abort

/-- The update of `routes` at the tail of `out_route`, on the heap of
connections: the route is added when the connection is not online or is being
re-used, and does not carry the route yet. -/
def add_route (conns : List (Nat × conn_st)) (c : Nat) (o : conn_st) (route : String)
    (reuse : Bool) : List (Nat × conn_st) :=
  if (!o.online || reuse) && (xhash_get o.routes route).isNone then
    xhash_put conns c { o with routes := xhash_put o.routes route () }
  else conns

/-- Tail of `out_route`: "connection in progress, or re-using connection: add
to routes list". -/
def out_route_add (s : s2s_st) (route : String) (c : Nat) (reuse : Bool) :
    Except fault (s2s_st × Int × Option Nat) :=
  match xhash_get s.conns c with
  | none => .error .abort
  | some o => .ok ({ s with conns := add_route s.conns c o route reuse }, 0, some c)

/-- Record an address in the bad-host cache with expiry `now + dns_bad_timeout`
(the block "mark this host as bad"). -/
def mark_bad (s : s2s_st) (ipport : String) : s2s_st :=
  { s with dns_bad :=
      if s.dns_bad_timeout > 0 then
        match xhash_get s.dns_bad ipport with
        | some b => xhash_put s.dns_bad ipport { b with expiry := s.now + s.dns_bad_timeout }
        | none => xhash_put s.dns_bad ipport
            { key := ipport, prio := 0, weight := 0, expiry := s.now + s.dns_bad_timeout }
      else s.dns_bad }

/-- Outcome of one pass through the body of `out_route`: it returned (engine,
return value, `*out`), or it reached the recursive call
`out_route(s2s, route, out, 0)` in the given engine. -/
inductive route_res where
  | done (s : s2s_st) (ret : Int) (out : Option Nat)
  | retry (s : s2s_st)
deriving DecidableEq, Repr

/-- The connection record that `out_route` allocates for an address. -/
def new_conn (s2 : s2s_st) (route dkey ip : String) (port : Int) : conn_st :=
  { conn_zero with key := fmt_ipport ip port, dkey := (if s2.out_reuse then none else some dkey),
                   ip := ip, port := port, init_time := s2.now,
                   routes := xhash_put [] route () }

/-- Register the new connection: on the heap, in `out_host` (when connections
are re-used) and in `out_dest`; one more call of `mio_connect` is counted. -/
def out_route_register (s2 : s2s_st) (route dkey ip : String) (port : Int) : s2s_st :=
  { s2 with next_conn := s2.next_conn + 1,
            conns := xhash_put s2.conns s2.next_conn (new_conn s2 route dkey ip port),
            out_host := (if s2.out_reuse then
                           xhash_put s2.out_host (new_conn s2 route dkey ip port).key s2.next_conn
                         else s2.out_host),
            out_dest := xhash_put s2.out_dest dkey s2.next_conn,
            n_connect := s2.n_connect + 1 }

/-- Undo the registration of connection `c` after a failed `mio_connect` and
free the record. -/
def out_route_unregister (s4 : s2s_st) (key dkey : String) (c : Nat) : s2s_st :=
  { s4 with out_host := (if s4.out_reuse then xhash_zap s4.out_host key else s4.out_host),
            out_dest := xhash_zap s4.out_dest dkey,
            conns := xhash_zap s4.conns c }

/-- The `sx_client_init` call of `out_route`: stream version 1.0 with the
domains when STARTTLS is possible. -/
def client_init_call (s : s2s_st) (rfrom dkey : String) : sx_call :=
  if s.sx_ssl then sx_call.client_init (some dkey) (some rfrom) (some "1.0")
  else sx_call.client_init none none none

/-- The block "no conn, create one" of `out_route`: allocate and register a
connection and initiate the TCP connect; on failure mark the address bad, undo
the registration and retry without bad hosts. -/
def out_route_connect (w : world) (s2 : s2s_st) (route rfrom dkey ip : String) (port : Int) :
    route_res :=
  let s3 := out_route_register s2 route dkey ip port
  if w.mio_connect s2.n_connect ip port then
    route_res.done (sx_do s3 (sx_t.out s2.next_conn) route (client_init_call s3 rfrom dkey)) 0
      (some s2.next_conn)
  else
    route_res.retry
      (out_route_unregister (mark_bad s3 (fmt_ipport ip port))
        (new_conn s2 route dkey ip port).key dkey s2.next_conn)

/-- The cache entry that `out_route` works on: the one stored for the domain,
or a zeroed one. -/
def dns_entry (s : s2s_st) (dkey : String) : dnscache_st :=
  match xhash_get s.dnscache dkey with
  | some d => d
  | none => { name := dkey, pending := false, expiry := 0, init_time := 0,
              query := none, results := none }

/-- The engine after `out_route` made sure that a cache entry exists. -/
def dns_ensure (s : s2s_st) (dkey : String) : s2s_st :=
  { s with dnscache :=
      match xhash_get s.dnscache dkey with
      | some _ => s.dnscache
      | none => xhash_put s.dnscache dkey (dns_entry s dkey) }

/-- One pass through the body of `out_route`. -/
def out_route_try (w : world) (s : s2s_st) (route : String) (allow_bad : Bool) :
    Except fault route_res :=
  match strchr_split route '/' with
  | none => .error .abort
  | some (rfrom, dkey) =>
    match xhash_get s.out_dest dkey with
    | some c =>
      match out_route_add s route c false with
      | .error f => .error f
      | .ok (s1, ret, out) => .ok (route_res.done s1 ret out)
    | none =>
      let dns := dns_entry s dkey
      let s0 := dns_ensure s dkey
      if dns.pending then .ok (route_res.done s0 0 none)
      else if s0.now > dns.expiry then .ok (route_res.done (dns_kick w s0 dkey dns) 0 none)
      else
        match dns_select w s0 s0.now dns allow_bad with
        | .error f => .error f
        | .ok (n_rand1, dns1, ret, ip, port) =>
          let s2 := dns_store { s0 with n_rand := n_rand1 } dkey dns1
          if ret ≠ 0 then .ok (route_res.done s2 (-1) none)
          else if s2.now > dns1.expiry then .ok (route_res.done (dns_kick w s2 dkey dns1) 0 none)
          else
            match (if s2.out_reuse then xhash_get s2.out_host (fmt_ipport ip port) else none) with
            | some c =>
              match out_route_add { s2 with out_dest := xhash_put s2.out_dest dkey c } route c true with
              | .error f => .error f
              | .ok (s3, ret3, out) => .ok (route_res.done s3 ret3 out)
            | none => .ok (out_route_connect w s2 route rfrom dkey ip port)

/-- Find or make a connection for a route (`out_route`).  Returns the engine,
the return value and `*out` (`none` for NULL). -/
def out_route (w : world) : Nat → s2s_st → String → Bool → Except fault (s2s_st × Int × Option Nat)
  | 0, _, _, _ => .error .fuel
  | fuel + 1, s, route, allow_bad =>
    match out_route_try w s route allow_bad with
    | .error f => .error f
    | .ok (route_res.done s1 ret out) => .ok (s1, ret, out)
    | .ok (route_res.retry s1) => out_route w fuel s1 route false

/-! ## Bouncing, sending and flushing -/

/-- Body of the loop of `out_bounce_route_queue` for one packet: only packets
with content, in namespace jabber:client and not already errors are returned
to the router; the others are dropped. -/
def bounce_pkt (rkey : String) (err : err_t) (acc : s2s_st × Int) (pkt : pkt_st) : s2s_st × Int :=
  if nad_ecur pkt.nad > 1 ∧ NAD_ENS_URI pkt.nad 1 = some uri_CLIENT ∧
      nad_find_attr pkt.nad 0 "error" none = none then
    (sx_do acc.1 sx_t.router rkey (sx_call.bounce pkt.nad err), acc.2 + 1)
  else acc

/-- Bounce all packets in the queue for a route and delete the queue
(`out_bounce_route_queue`); returns the number of packets returned to the router. -/
def out_bounce_route_queue (s : s2s_st) (rkey : String) (err : err_t) : s2s_st × Int :=
  match xhash_get s.outq rkey with
  | none => (s, 0)
  | some q =>
    let r := q.items.foldl (bounce_pkt rkey err) (s, 0)
    ({ r.1 with outq := xhash_zap r.1.outq rkey }, r.2)

/-- The document written for a stanza: when element 1 is in the jabber:client
namespace, the namespaces of elements 0 and 1 are cleared (XMPP 11.2.2). -/
def strip_client_ns (n : nad_st) : nad_st :=
  if nad_find_namespace1 n uri_CLIENT then nad_clear_ns (nad_clear_ns n 0) 1 else n

/-- Send a packet out (`out_packet`). Returns the engine and the return value. -/
def out_packet (w : world) (fuel : Nat) (s : s2s_st) (pkt : pkt_st) : Except fault (s2s_st × Int) :=
  let rkey := s2s_route_key pkt.from_.domain pkt.to_.domain
  match out_route w fuel s rkey true with
  | .error f => .error f
  | .ok (s1, ret, none) =>
    let s2 := _out_packet_queue s1 pkt
    if ret ≠ 0 then .ok ((out_bounce_route_queue s2 rkey stanza_err_SERVICE_UNAVAILABLE).1, -1)
    else .ok (s2, 0)
  | .ok (s1, _, some c) =>
    match xhash_get s1.conns c with
    | none => .error .abort
    | some o =>
      if !o.online then .ok (_out_packet_queue s1 pkt, 0)
      else
        let state := conn_state o rkey
        if state = conn_VALID ∨ pkt.db = true then
          if pkt.db then
            let is_verify : Bool := decide (NAD_ENAME pkt.nad 0 = "verify")
            let s2 := sx_do s1 (sx_t.out c) rkey (sx_call.nad_write pkt.nad)
            .ok (conn_store s2 c
                  { o with verify := (if is_verify then o.verify + 1 else o.verify),
                           last_verify := (if is_verify then s1.now else o.last_verify),
                           last_packet := s1.now }, 0)
          else
            let s2 := sx_do s1 (sx_t.out c) rkey (sx_call.nad_write_elem (strip_client_ns pkt.nad) 1)
            .ok (conn_store s2 c { o with last_packet := s1.now }, 0)
        else
          let s2 := _out_packet_queue s1 pkt
          if state = conn_INPROGRESS then .ok (s2, 0)
          else
            match _out_dialback w s2 c rkey with
            | .error f => .error f
            | .ok (s3, _) => .ok (s3, 0)

/-- The loop of `out_flush_route_queue`: `n` times pull a packet from the queue
of the route and hand it to `out_packet`; stop when `out_packet` reports that
the queue was deleted.  Returns the engine, whether the loop stopped early, and
the packets that were handed to `out_packet`, in the order of the calls (the
last argument collects them). -/
def flush_loop (w : world) (fuel : Nat) :
    Nat → s2s_st → String → List pkt_st → Except fault (s2s_st × Bool × List pkt_st)
  | 0, s, _, handed => .ok (s, false, handed)
  | n + 1, s, rkey, handed =>
    match xhash_get s.outq rkey with
    | none => .error .abort
    | some q =>
      match jqueue_pull q with
      | (none, _) => flush_loop w fuel n s rkey handed
      | (some pkt, q1) =>
        match out_packet w fuel { s with outq := xhash_replace s.outq rkey q1 } pkt with
        | .error f => .error f
        | .ok (s1, ret) =>
          if ret ≠ 0 then .ok (s1, true, handed ++ [pkt])
          else flush_loop w fuel n s1 rkey (handed ++ [pkt])

/-- Hand the queued packets of a route to `out_packet` and delete the queue when
it is empty afterwards (`out_flush_route_queue`). -/
def out_flush_route_queue (w : world) (fuel : Nat) (s : s2s_st) (rkey : String) :
    Except fault s2s_st :=
  match xhash_get s.outq rkey with
  | none => .ok s
  | some q =>
    match flush_loop w fuel q.items.length s rkey [] with
    | .error f => .error f
    | .ok (s1, true, _) => .ok s1
    | .ok (s1, false, _) =>
      match xhash_get s1.outq rkey with
      | none => .error .abort
      | some q1 =>
        if jqueue_size q1 = 0 then .ok { s1 with outq := xhash_zap s1.outq rkey } else .ok s1

/-! ## Packets received on outgoing connections -/

/-- Process an incoming auth response (`_out_result`) on connection `out`. -/
def _out_result (w : world) (fuel : Nat) (s : s2s_st) (out : Nat) (nad : nad_st) :
    Except fault s2s_st :=
  match xhash_get s.conns out with
  | none => .error .abort
  | some o =>
    match (nad_find_attr nad 0 "from" none).bind w.jid_new with
    | none => .ok s
    | some from_ =>
      match (nad_find_attr nad 0 "to" none).bind w.jid_new with
      | none => .ok s
      | some to_ =>
        let rkey := s2s_route_key to_.domain from_.domain
        if (nad_find_attr nad 0 "type" (some "valid")).isSome then
          out_flush_route_queue w fuel
            (conn_store s out { o with states := xhash_put o.states rkey conn_VALID }) rkey
        else
          let s1 := sx_do s (sx_t.out out) rkey
            (sx_call.error stream_err_INVALID_ID "dialback negotiation failed")
          let s2 := sx_do s1 (sx_t.out out) rkey sx_call.close
          .ok (out_bounce_route_queue s2 rkey stanza_err_SERVICE_UNAVAILABLE).1

/-- The `<db:result to= from= type=>` document built in `_out_verify`. -/
def db_verify_reply (to_ from_ : String) (valid : Bool) : nad_st :=
  { elems := [{ name := "result", ns := some uri_DIALBACK, my_ns := [uri_DIALBACK],
                attrs := [("to", to_), ("from", from_),
                          ("type", if valid then "valid" else "invalid")],
                cdata := "" }] }

/-- An incoming stream was authenticated or rejected by its authoritative
server (`_out_verify`), reported on outgoing connection `out`. -/
def _out_verify (w : world) (s : s2s_st) (out : Nat) (nad : nad_st) : Except fault s2s_st :=
  match xhash_get s.conns out with
  | none => .error .abort
  | some o =>
    match (nad_find_attr nad 0 "from" none).bind w.jid_new with
    | none => .ok s
    | some from_ =>
      match (nad_find_attr nad 0 "to" none).bind w.jid_new with
      | none => .ok s
      | some to_ =>
        match nad_find_attr nad 0 "id" none with
        | none => .ok s
        | some id =>
          match xhash_get s.inc id with
          | none => .ok s
          | some i =>
            let rkey := s2s_route_key to_.domain from_.domain
            let valid := (nad_find_attr nad 0 "type" (some "valid")).isSome
            let i1 := if valid then { i with states := xhash_put i.states rkey conn_VALID } else i
            let s1 : s2s_st := { s with inc := xhash_replace s.inc id i1 }
            let s2 := conn_store s1 out { o with verify := o.verify - 1 }
            let s3 := sx_do s2 (sx_t.inc id) rkey
              (sx_call.nad_write (db_verify_reply from_.domain to_.domain valid))
            if !valid then
              .ok (sx_do (sx_do s3 (sx_t.inc id) rkey
                    (sx_call.error stream_err_INVALID_ID "dialback negotiation failed"))
                    (sx_t.inc id) rkey sx_call.close)
            else .ok s3

/-- The loop of `send_dialbacks`: `_out_dialback` for each route key in turn. -/
def send_dialbacks_loop (w : world) (out : Nat) : List String → s2s_st → Except fault s2s_st
  | [], s => .ok s
  | rkey :: t, s =>
    match _out_dialback w s out rkey with
    | .error f => .error f
    | .ok (s1, _) => send_dialbacks_loop w out t s1

/-- The connection is usable: forget that its address was bad and start
dialback for every route it carries (`send_dialbacks`). -/
def send_dialbacks (w : world) (s : s2s_st) (out : Nat) : Except fault s2s_st :=
  match xhash_get s.conns out with
  | none => .error .abort
  | some o =>
    let s1 : s2s_st :=
      { s with dns_bad :=
          if s.dns_bad_timeout > 0 then
            (match xhash_get s.dns_bad o.key with
             | some _ => xhash_zap s.dns_bad o.key
             | none => s.dns_bad)
          else s.dns_bad }
    send_dialbacks_loop w out (o.routes.map (fun e => e.1)) s1

/-- Does the needle occur in the haystack (`strstr(...) != NULL`). -/
def strstr (hay needle : String) : Bool :=
  hay.data.tails.any (fun t => needle.data.isPrefixOf t)

/-- The stream errors after which the peer's address is recorded as bad. -/
def fatal_stream_errors : List String :=
  ["host-gone", "host-unknown", "not-authorized", "see-other-host", "system-shutdown",
   "policy-violation", "remote-connection-failed", "unsupported-encoding",
   "undefined-condition", "internal-server-error", "unsupported-version"]

/-- Compose an `ip/port` key (`dns_make_ipport`); aborts on the failed
assertion `port > 0 && port < 65536`. -/
def dns_make_ipport (host : String) (port : Int) : Except fault String :=
  if port > 0 ∧ port < 65536 then .ok (fmt_ipport host port) else .error .abort

/-- The block "mark this host as bad" of the stream callback, which composes the
key with `dns_make_ipport`. -/
def mark_bad_conn (s : s2s_st) (o : conn_st) : Except fault s2s_st :=
  if s.dns_bad_timeout > 0 then
    match dns_make_ipport o.ip o.port with
    | .error f => .error f
    | .ok ipport => .ok (mark_bad s ipport)
  else .ok s

/-- Events delivered by the stream codec.  `READ` and `WRITE` carry the result of
`recv`/`send` and whether the error was would-block; `ERROR` carries whether the
code is `SX_ERR_STREAM` and the specific text. -/
inductive sx_event_t where
  | event_WANT_READ
  | event_WANT_WRITE
  | event_READ (len : Int) (wouldblock : Bool)
  | event_WRITE (len : Int) (wouldblock : Bool)
  | event_ERROR (is_stream : Bool) (specific : String)
  | event_OPEN
  | event_STREAM
  | event_PACKET (nad : nad_st)
  | event_CLOSED
deriving DecidableEq, Repr

/-- Actions delivered by the reactor; `action_READ` carries the byte count that
`FIONREAD` reports. -/
inductive mio_action_t where
  | action_ACCEPT
  | action_READ (nbytes : Int)
  | action_WRITE
  | action_CLOSE
deriving DecidableEq, Repr

/-- One round of the loop "remove all the out_dest entries" of the close action. -/
def close_zap_dest (acc : Except fault s2s_st) (rkey : String) : Except fault s2s_st :=
  match acc with
  | .error f => .error f
  | .ok s =>
    match strchr_split rkey '/' with
    | none => .error .abort
    | some (_, c) =>
      .ok { s with out_dest :=
              match xhash_get s.out_dest c with
              | some _ => xhash_zap s.out_dest c
              | none => s.out_dest }

/-- The queue that the close action retries for a route: the route's queue,
unless `retry_limit` is positive and the queue is older than it. -/
def close_retry_queue (s : s2s_st) (rkey : String) : Option (jqueue_st pkt_st) :=
  match xhash_get s.outq rkey with
  | none => none
  | some q => if s.retry_limit > 0 ∧ jqueue_age s.now q > s.retry_limit then none else some q

/-- One round of the loop "retry all the routes" of the close action. -/
def close_retry_route (w : world) (fuel : Nat) (s : s2s_st) (rkey : String) : Except fault s2s_st :=
  match close_retry_queue s rkey with
  | none => .ok (out_bounce_route_queue s rkey stanza_err_SERVICE_UNAVAILABLE).1
  | some q =>
    if jqueue_size q > 0 then
      match out_route w fuel s rkey false with
      | .error f => .error f
      | .ok (s1, ret, retry) =>
        if ret = 0 then
          (match retry with
           | some _ => out_flush_route_queue w fuel s1 rkey
           | none => .ok s1)
        else .ok (out_bounce_route_queue s1 rkey stanza_err_SERVICE_UNAVAILABLE).1
    else .ok (out_bounce_route_queue s rkey stanza_err_SERVICE_UNAVAILABLE).1

/-- The loop "retry all the routes" over the route keys of the connection. -/
def close_retry_loop (w : world) (fuel : Nat) : List String → s2s_st → Except fault s2s_st
  | [], s => .ok s
  | rkey :: t, s =>
    match close_retry_route w fuel s rkey with
    | .error f => .error f
    | .ok s1 => close_retry_loop w fuel t s1

/-- The engine after the first half of the close action: the stream is handed
to the dead list, the address leaves `out_host` and the destinations of all
routes leave `out_dest`. -/
def close_unregister (s : s2s_st) (out : Nat) (o : conn_st) : Except fault s2s_st :=
  let s1 : s2s_st := { s with dead := s.dead ++ [sx_t.out out] }
  let s2 : s2s_st :=
    { s1 with out_host :=
        if s1.out_reuse then xhash_zap s1.out_host (fmt_ipport o.ip o.port) else s1.out_host }
  (o.routes.map (fun e => e.1)).foldl close_zap_dest (.ok s2)

/-- Reactor callback for outgoing connections (`_out_mio_callback`).  The read
and write actions hand over to the codec, whose events arrive separately. -/
def _out_mio_callback (w : world) (fuel : Nat) (s : s2s_st) (a : mio_action_t) (out : Nat) :
    Except fault s2s_st :=
  match xhash_get s.conns out with
  | none => .error .abort
  | some o =>
    match a with
    | .action_READ nbytes =>
      let s1 := conn_store s out { o with last_activity := s.now }
      if nbytes = 0 then .ok (sx_do s1 (sx_t.out out) "" sx_call.kill) else .ok s1
    | .action_WRITE => .ok (conn_store s out { o with last_activity := s.now })
    | .action_CLOSE =>
      match close_unregister s out o with
      | .error f => .error f
      | .ok s1 =>
        match close_retry_loop w fuel (o.routes.map (fun e => e.1)) s1 with
        | .error f => .error f
        | .ok s2 => .ok { s2 with dead_conn := s2.dead_conn ++ [out] }
    | .action_ACCEPT => .ok s

/-- Close a descriptor (`_mio_close`): nothing on a descriptor that is already
closed, otherwise the close action runs and the descriptor becomes closed. -/
def mio_close (w : world) (fuel : Nat) (s : s2s_st) (out : Nat) : Except fault s2s_st :=
  match xhash_get s.conns out with
  | none => .error .abort
  | some o =>
    if o.fd_closed then .ok s
    else
      match _out_mio_callback w fuel s .action_CLOSE out with
      | .error f => .error f
      | .ok s1 =>
        match xhash_get s1.conns out with
        | none => .error .abort
        | some o1 => .ok (conn_store s1 out { o1 with fd_closed := true })

/-- Is the packet the stream features packet. -/
def is_features (nad : nad_st) : Bool :=
  decide (NAD_ENS_URI nad 0 = some uri_STREAMS) && decide (NAD_ENAME nad 0 = "features")

/-- Does the features packet offer STARTTLS: an element `starttls` in the TLS
namespace below the root. -/
def offers_starttls (nad : nad_st) : Bool :=
  nad.elems.tail.any (fun el => decide (el.name = "starttls") && decide (el.ns = some uri_TLS))

/-- Bring the connection online and start dialback for its routes. -/
def go_online (w : world) (s : s2s_st) (out : Nat) (o : conn_st) : Except fault s2s_st :=
  send_dialbacks w (conn_store s out { o with online := true }) out

/-- The block "watch for the features packet" of the stream callback.  The flag
tells whether STARTTLS was started, in which case the callback returns at once. -/
def sx_features (w : world) (s : s2s_st) (out : Nat) (o : conn_st) (nad : nad_st) :
    Except fault (s2s_st × Bool) :=
  if o.res_version.isSome && is_features nad then
    (if s.sx_ssl && decide (o.ssf = 0) && offers_starttls nad then
      (if w.starttls out then .ok (sx_do s (sx_t.out out) "" sx_call.starttls, true)
       else
        match go_online w (sx_do s (sx_t.out out) "" sx_call.starttls) out o with
        | .error f => .error f
        | .ok s2 => .ok (s2, false))
     else
      match go_online w s out o with
      | .error f => .error f
      | .ok s2 => .ok (s2, false))
  else .ok (s, false)

/-- "We're counting packets": one more on the connection and on the engine. -/
def count_packet (s : s2s_st) (out : Nat) (o : conn_st) : s2s_st :=
  { s with conns := xhash_put s.conns out { o with packet_count := o.packet_count + 1 },
           packet_count := s.packet_count + 1 }

/-- The `event_PACKET` case of the stream callback. -/
def sx_packet (w : world) (fuel : Nat) (s : s2s_st) (out : Nat) (o : conn_st) (nad : nad_st) :
    Except fault s2s_st :=
  match sx_features w (count_packet s out o) out { o with packet_count := o.packet_count + 1 }
      nad with
  | .error f => .error f
  | .ok (s2, true) => .ok s2
  | .ok (s2, false) =>
    if NAD_ENS_URI nad 0 ≠ some uri_DIALBACK then .ok s2
    else if NAD_ENAME nad 0 = "result" then _out_result w fuel s2 out nad
    else if NAD_ENAME nad 0 = "verify" then _out_verify w s2 out nad
    else .ok s2

/-- Stream callback for outgoing connections (`_out_sx_callback`); returns the
engine and the return value. -/
def _out_sx_callback (w : world) (fuel : Nat) (s : s2s_st) (out : Nat) (e : sx_event_t) :
    Except fault (s2s_st × Int) :=
  match xhash_get s.conns out with
  | none => .error .abort
  | some o =>
    match e with
    | .event_WANT_READ => .ok (s, 0)
    | .event_WANT_WRITE => .ok (s, 0)
    | .event_READ len wouldblock =>
      if len < 0 then
        (if wouldblock then .ok (s, 0)
         else
          match (if !o.online then mark_bad_conn s o else .ok s) with
          | .error f => .error f
          | .ok s1 => .ok (sx_do s1 (sx_t.out out) "" sx_call.kill, -1))
      else if len = 0 then .ok (sx_do s (sx_t.out out) "" sx_call.kill, -1)
      else .ok (s, len)
    | .event_WRITE len wouldblock =>
      if len ≥ 0 then .ok (s, len)
      else if wouldblock then .ok (s, 0)
      else
        match (if !o.online then mark_bad_conn s o else .ok s) with
        | .error f => .error f
        | .ok s1 => .ok (sx_do s1 (sx_t.out out) "" sx_call.kill, -1)
    | .event_ERROR is_stream specific =>
      match (if !o.online || (is_stream && fatal_stream_errors.any (fun e => strstr specific e))
             then mark_bad_conn s o else .ok s) with
      | .error f => .error f
      | .ok s1 => .ok (sx_do s1 (sx_t.out out) "" sx_call.kill, -1)
    | .event_OPEN => .ok (s, 0)
    | .event_STREAM =>
      if !o.online then
        (if o.res_version.isNone || !s.sx_ssl then
          match go_online w s out o with
          | .error f => .error f
          | .ok s1 => .ok (s1, 0)
         else .ok (s, 0))
      else .ok (s, 0)
    | .event_PACKET nad =>
      match sx_packet w fuel s out o nad with
      | .error f => .error f
      | .ok s1 => .ok (s1, 0)
    | .event_CLOSED =>
      match mio_close w fuel s out with
      | .error f => .error f
      | .ok s1 => .ok (s1, -1)

/-! ## Answers of the resolver -/

/-- Modelled from the spec: `s2s_route_key_match(NULL, domain, rkey)` (in
`s2s/util.c`, not under src/): the route key's to-domain is the domain. -/
def s2s_route_key_match (domain : String) (rkey : String) : Bool :=
  match strchr_split rkey '/' with
  | some (_, c) => decide (c = domain)
  | none => false

/-- Bounce the queues of all routes to a domain (`out_bounce_domain_queues`). -/
def out_bounce_domain_queues (s : s2s_st) (domain : String) (err : err_t) : s2s_st × Int :=
  (s.outq.map (fun e => e.1)).foldl
    (fun acc rkey =>
      if s2s_route_key_match domain rkey then
        let r := out_bounce_route_queue acc.1 rkey err
        (r.1, acc.2 + r.2)
      else acc)
    (s, 0)

/-- The test `!strncmp(domain, c, n)` of `out_flush_domain_queues`, `n` being
the length of the to-domain `c` of the route key: the first `n` characters of
the domain are the to-domain. -/
def flush_domain_match (domain : String) (c : String) : Bool :=
  c.data.isPrefixOf domain.data

/-- The loop of `out_flush_domain_queues` over the route keys of `outq`. -/
def flush_domain_loop (w : world) (fuel : Nat) (domain : String) :
    List String → s2s_st → Except fault s2s_st
  | [], s => .ok s
  | rkey :: t, s =>
    match strchr_split rkey '/' with
    | none => .error .abort
    | some (_, c) =>
      if flush_domain_match domain c then
        match out_flush_route_queue w fuel s rkey with
        | .error f => .error f
        | .ok s1 => flush_domain_loop w fuel domain t s1
      else flush_domain_loop w fuel domain t s

/-- Flush the queues of the routes to a domain (`out_flush_domain_queues`). -/
def out_flush_domain_queues (w : world) (fuel : Nat) (s : s2s_st) (domain : String) :
    Except fault s2s_st :=
  flush_domain_loop w fuel domain (s.outq.map (fun e => e.1)) s

/-- Responses from the resolver (`out_resolve`). -/
def out_resolve (w : world) (fuel : Nat) (s : s2s_st) (domain : String)
    (results : xht dnsres_st) (expiry : Int) : Except fault s2s_st :=
  if xhash_count results = 0 then
    let s1 : s2s_st :=
      match xhash_get s.dnscache domain with
      | some dns =>
        dns_store s domain { dns with query := none, results := none, expiry := expiry, pending := false }
      | none => s
    .ok (out_bounce_domain_queues s1 domain stanza_err_REMOTE_SERVER_NOT_FOUND).1
  else
    match xhash_get s.dnscache domain with
    | none => .ok s
    | some dns =>
      let s1 := dns_store s domain
        { dns with query := none, results := some results, expiry := expiry, pending := false }
      match out_flush_domain_queues w fuel s1 domain with
      | .error f => .error f
      | .ok s2 =>
        match xhash_get s2.dnscache domain with
        | none => .error .abort
        | some d =>
          if !s2.dns_cache_enabled && !d.pending then
            .ok { s2 with dnscache := xhash_zap s2.dnscache domain }
          else .ok s2

/-! ## The resolver driver -/

/-- Modelled from the spec: the cap on the entries of `results` and of `hosts`
(`DNS_MAX_RESULTS` is defined in `s2s/s2s.h`, not under src/; the spec sizes
the weight sums for at most 50 hosts). -/
def DNS_MAX_RESULTS : Nat := 50

/-- Conversion of an integer to a 32-bit `int`. -/
def to_int32 (x : Int) : Int := (x + 2147483648) % 4294967296 - 2147483648

/-- Conversion of an integer to `unsigned int`. -/
def to_uint32 (x : Int) : Int := x % 4294967296

/-- Conversion of an integer to `unsigned long long`. -/
def to_uint64 (x : Int) : Int := x % 18446744073709551616

/-- Conversion of an integer to `uint16_t`. -/
def to_uint16 (x : Int) : Int := x % 65536

/-- The update of an entry that is already present, the same in
`_dns_add_result` and `_dns_add_host`: lower the priority, then reset or add
the weight (capped at `65535 << 8`), then raise the expiry. -/
def dns_merge (res : dnsres_st) (prio weight ttl : Int) : dnsres_st :=
  let r1 : dnsres_st := if prio < res.prio then { res with prio := prio } else res
  let r2 : dnsres_st :=
    if prio < r1.prio then { r1 with weight := weight }
    else if prio = r1.prio then
      { r1 with weight := if r1.weight + weight > 16776960 then 16776960 else r1.weight + weight }
    else r1
  if ttl > r2.expiry then { r2 with expiry := ttl } else r2

/-- Record an address of the current host (`_dns_add_result`); `ttl_arg` is the
`int` that the caller passes for the `unsigned int` parameter. -/
def _dns_add_result (q : dnsquery_st) (ip : String) (port prio weight ttl_arg : Int) :
    Except fault dnsquery_st :=
  match dns_make_ipport ip port with
  | .error f => .error f
  | .ok ipport =>
    let ttl := to_uint32 ttl_arg
    match xhash_get q.results ipport with
    | some res =>
      .ok { q with results := xhash_replace q.results ipport (dns_merge res prio weight ttl),
                   expiry := if ttl > q.expiry then ttl else q.expiry }
    | none =>
      if xhash_count q.results < DNS_MAX_RESULTS then
        .ok { q with results := xhash_put q.results ipport
                                  { key := ipport, prio := prio, weight := weight, expiry := ttl },
                     expiry := if ttl > q.expiry then ttl else q.expiry }
      else .ok q

/-- The weight as `_dns_add_host` stores it: raw 0 becomes 16, any other raw
weight is shifted left by 8. -/
def host_weight (weight : Int) : Int := if weight = 0 then 16 else to_int32 (weight * 256)

/-- Record a host of an SRV answer (`_dns_add_host`). -/
def _dns_add_host (q : dnsquery_st) (ip : String) (port prio weight ttl_arg : Int) :
    Except fault dnsquery_st :=
  match dns_make_ipport ip port with
  | .error f => .error f
  | .ok ipport =>
    let ttl := to_uint32 ttl_arg
    match xhash_get q.hosts ipport with
    | some res =>
      .ok { q with hosts := xhash_replace q.hosts ipport (dns_merge res prio (host_weight weight) ttl) }
    | none =>
      if xhash_count q.hosts < DNS_MAX_RESULTS then
        .ok { q with hosts := xhash_put q.hosts ipport
                                { key := ipport, prio := prio, weight := host_weight weight,
                                  expiry := ttl } }
      else .ok q

/-- One record of the answer section of an SRV reply: its class and type, the
number of its fields, its TTL (32 bits, unsigned) and its four fields (the
three numbers are read into `uint16_t` variables); `name` is
the target as `ldns_rdf2buffer_str_dname` writes it (`none` when that fails)
and `fits` tells whether the buffer has room for the terminator. -/
structure srv_rr where
  class_in : Bool
  type_srv : Bool
  rd_count : Nat
  ttl : Int
  priority : Int
  weight : Int
  port : Int
  name : Option String
  fits : Bool
deriving DecidableEq, Repr

/-- An answer of the resolver: the error code and the `struct ub_result`
(`result = false` for a NULL result).  `data` lists the addresses of an A or
AAAA answer, each as `inet_ntop` renders it (`none` when it fails); `parses`
tells whether `ldns_wire2pkt` accepts the packet of an SRV answer and `rrs` is
its answer section. -/
structure ub_answer where
  err : Int
  result : Bool
  nxdomain : Bool
  bogus : Bool
  havedata : Bool
  ttl : Int
  data : List (Option String)
  parses : Bool
  rrs : List srv_rr
deriving DecidableEq, Repr

/-- The test `err == 0 && result != NULL && !nxdomain && !bogus && havedata`. -/
def ans_usable (ans : ub_answer) : Bool :=
  decide (ans.err = 0) && ans.result && !ans.nxdomain && !ans.bogus && ans.havedata

/-- The TTL that a record is entered with: the record's own, limited to the TTL
of the SRV record that named the host when there is one. -/
def ttl_limit (q : dnsquery_st) (ttl : Int) : Int :=
  if q.cur_expiry > 0 ∧ ttl > q.cur_expiry then to_int32 q.cur_expiry else ttl

/-- Body of the loop of `_dns_result_srv` for one record. -/
def srv_add (q : dnsquery_st) (rr : srv_rr) : Except fault dnsquery_st :=
  if !rr.class_in then .ok q
  else if !rr.type_srv then .ok q
  else if rr.rd_count ≠ 4 then .ok q
  else
    match rr.name with
    | none => .ok q
    | some name =>
      if name.length < 2 then .ok q
      else if !rr.fits then .ok q
      else _dns_add_host q name (to_uint16 rr.port) (to_uint16 rr.priority) (to_uint16 rr.weight)
        (ttl_limit q (to_int32 rr.ttl))

/-- The loop of `_dns_result_srv` over the answer section. -/
def srv_loop : List srv_rr → dnsquery_st → Except fault dnsquery_st
  | [], q => .ok q
  | rr :: t, q =>
    match srv_add q rr with
    | .error f => .error f
    | .ok q1 => srv_loop t q1

/-- An SRV answer arrives (`_dns_result_srv`): its hosts are recorded, then the
next SRV prefix or the first address lookup is submitted.  The scratch buffer
is taken to be allocated. -/
def _dns_result_srv (s : s2s_st) (q : dnsquery_st) (ans : ub_answer) : Except fault dnsquery_st :=
  let q0 := { q with have_async_id := false }
  match (if ans_usable ans && !ans.parses then .ok q0
         else if ans_usable ans then srv_loop ans.rrs q0
         else .ok q0) with
  | .error f => .error f
  | .ok q1 => .ok (dns_srv_next s q1)

/-- Submit the A lookup of the current host (`_dns_start_a`). -/
def _dns_start_a (q : dnsquery_st) : dnsquery_st :=
  { q with have_async_id := true,
           async_req := some (ub_rrtype.A, match q.cur_host with | some h => h | none => q.name) }

/-- Submit the AAAA lookup of the current host (`_dns_start_aaaa`). -/
def _dns_start_aaaa (q : dnsquery_st) : dnsquery_st :=
  { q with have_async_id := true,
           async_req := some (ub_rrtype.AAAA, match q.cur_host with | some h => h | none => q.name) }

/-- The loop over `result->data` of `_dns_result_a` and `_dns_result_aaaa`. -/
def addr_loop (ttl : Int) : List (Option String) → dnsquery_st → Except fault dnsquery_st
  | [], q => .ok q
  | none :: t, q => addr_loop ttl t q
  | some ip :: t, q =>
    match _dns_add_result q ip q.cur_port q.cur_prio q.cur_weight (ttl_limit q ttl) with
    | .error f => .error f
    | .ok q1 => addr_loop ttl t q1

/-- The first block of `_dns_result_a` and `_dns_result_aaaa`: the addresses of
a usable answer are recorded. -/
def addr_add (q : dnsquery_st) (ans : ub_answer) : Except fault dnsquery_st :=
  if ans_usable ans && !ans.data.isEmpty then addr_loop ans.ttl ans.data q else .ok q

/-- An AAAA answer arrives (`_dns_result_aaaa`): record it and ask for the A
records of the same host. -/
def _dns_result_aaaa (q : dnsquery_st) (ans : ub_answer) : Except fault dnsquery_st :=
  match addr_add { q with have_async_id := false } ans with
  | .error f => .error f
  | .ok q1 => .ok (_dns_start_a q1)

/-- The port text that `_dns_result_a` reads back from a key of `hosts`: the
digits are copied into a buffer of `strlen(port) + 1` bytes and the terminator
is written at offset `strlen(host) + 1`.  Inside the digits it cuts the text
short; at the end it terminates it; beyond the end the write is out of bounds
and the text has no terminator (a memory error). -/
def host_port_str (host port : String) : Except fault String :=
  if host.length + 1 < port.length then .ok (String.mk (port.data.take (host.length + 1)))
  else if host.length + 1 = port.length then .ok port
  else .error .abort

/-- The clamp of a TTL to `[dns_min_ttl, dns_max_ttl]`, as `_dns_result_a`
writes it: first the upper bound, then the lower. -/
def clamp_ttl (s : s2s_st) (e : Int) : Int :=
  let e1 := if e > s.dns_max_ttl then s.dns_max_ttl else e
  if e1 < s.dns_min_ttl then s.dns_min_ttl else e1

/-- The mapping that the block "finished" hands to `out_resolve`: every result
with its TTL clamped and made absolute. -/
def final_results (s : s2s_st) (q : dnsquery_st) : xht dnsres_st :=
  q.results.map (fun e => (e.1, { e.2 with expiry := clamp_ttl s e.2.expiry + s.now }))

/-- The block "finished" of `_dns_result_a`: clamp the TTLs, make them absolute
and hand the results to `out_resolve` under the decoded domain name. -/
def dns_finish (w : world) (fuel : Nat) (s : s2s_st) (q : dnsquery_st) : Except fault s2s_st :=
  out_resolve w fuel s
    (match w.idna_to_unicode q.name with | some d => d | none => q.name)
    (final_results s q) (clamp_ttl s q.expiry + s.now)

/-- An A answer arrives (`_dns_result_a`): record it, then either move to the
next host of `hosts` (the query goes on) or finish (the query is freed). -/
def _dns_result_a (w : world) (fuel : Nat) (s : s2s_st) (q : dnsquery_st) (ans : ub_answer) :
    Except fault (s2s_st × Option dnsquery_st) :=
  match addr_add { q with have_async_id := false } ans with
  | .error f => .error f
  | .ok q1 =>
    match q1.hosts with
    | (ipport, res) :: rest =>
      match strchr_split ipport '/' with
      | none => .error .abort
      | some (host, port) =>
        match host_port_str host port with
        | .error f => .error f
        | .ok port_str =>
          let q2 := { q1 with hosts := rest, cur_host := some host, cur_port := atoi port_str,
                              cur_prio := res.prio, cur_weight := res.weight,
                              cur_expiry := res.expiry }
          .ok (s, some (if s.resolve_aaaa then _dns_start_aaaa q2 else _dns_start_a q2))
    | [] =>
      match dns_finish w fuel s { q1 with cur_host := none } with
      | .error f => .error f
      | .ok s1 => .ok (s1, none)

/-- The states of a query between its creation by `dns_resolve_domain` and its
end: each is reached by an answer of the resolver, whatever the answer and
whatever the engine does in between. -/
inductive query_run (w : world) : dnsquery_st → Prop where
  | start (s : s2s_st) (dns : dnscache_st) (q : dnsquery_st) :
      (dns_resolve_domain w s dns).query = some q → query_run w q
  | srv (s : s2s_st) (q q1 : dnsquery_st) (ans : ub_answer) :
      query_run w q → _dns_result_srv s q ans = .ok q1 → query_run w q1
  | aaaa (q q1 : dnsquery_st) (ans : ub_answer) :
      query_run w q → _dns_result_aaaa q ans = .ok q1 → query_run w q1
  | a (fuel : Nat) (s s1 : s2s_st) (q q1 : dnsquery_st) (ans : ub_answer) :
      query_run w q → _dns_result_a w fuel s q ans = .ok (s1, some q1) → query_run w q1

/-! ## Executions of the engine -/

/-- What can happen to the engine from outside: the router hands over a packet;
a queue is flushed or bounced; the resolver answers; the codec or the reactor
calls back on an outgoing connection; the codec learns the peer's stream header
(id, version, security strength); the clock advances. -/
inductive op_t where
  | packet (pkt : pkt_st)
  | flush (rkey : String)
  | bounce (rkey : String) (err : err_t)
  | resolve (domain : String) (results : xht dnsres_st) (expiry : Int)
  | sx (out : Nat) (e : sx_event_t)
  | mio (out : Nat) (a : mio_action_t)
  | stream_header (out : Nat) (id : String) (res_version : Option String) (ssf : Int)
  | tick (dt : Nat)
deriving DecidableEq, Repr

/-- One top-level operation of the engine. -/
def step (w : world) (fuel : Nat) (s : s2s_st) : op_t → Except fault s2s_st
  | .packet pkt =>
    match out_packet w fuel s pkt with
    | .error f => .error f
    | .ok (s1, _) => .ok s1
  | .flush rkey => out_flush_route_queue w fuel s rkey
  | .bounce rkey err => .ok (out_bounce_route_queue s rkey err).1
  | .resolve domain results expiry => out_resolve w fuel s domain results expiry
  | .sx out e =>
    match _out_sx_callback w fuel s out e with
    | .error f => .error f
    | .ok (s1, _) => .ok s1
  | .mio out .action_CLOSE => mio_close w fuel s out
  | .mio out a => _out_mio_callback w fuel s a out
  | .stream_header out id res_version ssf =>
    match xhash_get s.conns out with
    | none => .error .abort
    | some o => .ok (conn_store s out { o with s_id := id, res_version := res_version, ssf := ssf })
  | .tick dt => .ok { s with now := s.now + dt }

/-- The engine at start-up: the given configuration and incoming connections,
all tables of the outbound side empty. -/
def s2s_start (cfg : s2s_st) : s2s_st :=
  { cfg with outq := [], out_host := [], out_dest := [], dnscache := [], dns_bad := [],
             conns := [], next_conn := 0, dead := [], dead_conn := [], sx_log := [] }

/-- States reachable from start-up by operations that each satisfy `ok`. -/
inductive reachable_by (w : world) (ok : s2s_st → op_t → Prop) : s2s_st → Prop where
  | start (cfg : s2s_st) : reachable_by w ok (s2s_start cfg)
  | step (s s1 : s2s_st) (fuel : Nat) (o : op_t) :
      reachable_by w ok s → ok s o → step w fuel s o = .ok s1 → reachable_by w ok s1

/-- States reachable from start-up by any sequence of operations. -/
def reachable (w : world) (s : s2s_st) : Prop := reachable_by w (fun _ _ => True) s

/-- Run a list of operations. -/
def run (w : world) (fuel : Nat) : s2s_st → List op_t → Except fault s2s_st
  | s, [] => .ok s
  | s, o :: t =>
    match step w fuel s o with
    | .error f => .error f
    | .ok s1 => run w fuel s1 t

/-! ## Vocabulary of the statements -/

/-- A call that only initialises a stream. -/
def is_client_init : sx_call → Bool
  | .client_init _ _ _ => true
  | _ => false

/-- The codec call by which `out_packet` writes a packet: the whole document
for a dialback packet, element 1 (after the namespace rewrite) for a stanza. -/
def pkt_write (p : pkt_st) : sx_call :=
  if p.db then sx_call.nad_write p.nad else sx_call.nad_write_elem (strip_client_ns p.nad) 1

/-- The part of the engine that routing leaves alone: configuration, clock,
queues, incoming connections, dead lists and the packet counter (the other
fields are blanked). -/
def static_part (s : s2s_st) : s2s_st :=
  { s with out_host := [], out_dest := [], dnscache := [], dns_bad := [], conns := [],
           next_conn := 0, n_connect := 0, n_rand := 0, sx_log := [] }

/-- The test of `out_bounce_route_queue`: a packet with content, in namespace
jabber:client and not already an error is returned to the router. -/
def bounceable (p : pkt_st) : Bool :=
  decide (nad_ecur p.nad > 1 ∧ NAD_ENS_URI p.nad 1 = some uri_CLIENT ∧
    nad_find_attr p.nad 0 "error" none = none)

/-- The codec calls by which a list of packets is bounced: one error stanza to
the router for each packet that can be bounced, in order. -/
def bounce_recs (rkey : String) (err : err_t) (items : List pkt_st) : List sx_rec :=
  (items.filter bounceable).map
    (fun p => { s := sx_t.router, rkey := rkey, call := sx_call.bounce p.nad err })

/-- Well-formedness of the table of queues: every packet sits in the queue of
its own route, and no queue is empty, except possibly the queue of route `ex`
(the one that `out_flush_route_queue` is working on). -/
def outq_ok (ex : Option String) (outq : xht (jqueue_st pkt_st)) : Prop :=
  ∀ k q, xhash_get outq k = some q →
    (∀ p ∈ q.items, s2s_route_key p.from_.domain p.to_.domain = k) ∧
    (some k ≠ ex → q.items ≠ [])

/-- Does the close action retry the route: it has a queue that is not empty and,
when `retry_limit` is positive, not older than `retry_limit`. -/
def close_retries (s : s2s_st) (rkey : String) : Bool :=
  match close_retry_queue s rkey with
  | some q => decide (jqueue_size q > 0)
  | none => false

/-- The route is VALID on a connection that lives at an address that the engine
has handed out (addresses are handed out in increasing order). -/
def route_valid (s : s2s_st) (out : Nat) (rkey : String) : Prop :=
  out < s.next_conn ∧ ∃ o, xhash_get s.conns out = some o ∧ conn_state o rkey = conn_VALID

/-- The route key for which a received packet is a positive answer to an auth
request: the packet is a `<db:result>` in the dialback namespace with
`type="valid"` whose `from` and `to` parse; the key is "to-domain/from-domain". -/
def valid_result_key (w : world) (nad : nad_st) : Option String :=
  if NAD_ENS_URI nad 0 = some uri_DIALBACK ∧ NAD_ENAME nad 0 = "result" ∧
      (nad_find_attr nad 0 "type" (some "valid")).isSome = true then
    match (nad_find_attr nad 0 "from" none).bind w.jid_new,
          (nad_find_attr nad 0 "to" none).bind w.jid_new with
    | some from_, some to_ => some (s2s_route_key to_.domain from_.domain)
    | _, _ => none
  else none

/-- A property `L` of the trace of codec calls and a property `Q` of a
connection (given the trace and the address of the connection) that the engine
maintains by itself: `Q` survives growth of the trace and changes of fields other
than `online` and `states`, holds for a new connection, survives the start of
dialback for a route and going online; `L` survives every call that is not the
write of a stanza, and the write of a stanza on an online connection on which
the route is VALID and `Q` holds. -/
structure conn_inv (L : List sx_rec → Prop) (Q : List sx_rec → Nat → conn_st → Prop) : Prop where
  mono : ∀ l l1 c o, Q l c o → Q (l ++ l1) c o
  frame : ∀ l c o o1, o1.online = o.online → o1.states = o.states → Q l c o → Q l c o1
  fresh : ∀ l c o, o.online = false → o.states = [] → Q l c o
  dialback : ∀ l c o rkey n t, NAD_ENAME n 0 = "result" → NAD_ENS_URI n 0 = some uri_DIALBACK →
    Q l c o →
    Q (l ++ [{ s := sx_t.out c, rkey := rkey, call := sx_call.nad_write n }]) c
      { o with states := xhash_put o.states rkey conn_INPROGRESS, states_time := t }
  online : ∀ l c o, Q l c o → Q l c { o with online := true }
  other : ∀ l r, L l → (∀ n e, r.call ≠ sx_call.nad_write_elem n e) → L (l ++ [r])
  stanza : ∀ l c o rkey n e, L l → Q l c o → o.online = true → conn_state o rkey = conn_VALID →
    L (l ++ [{ s := sx_t.out c, rkey := rkey, call := sx_call.nad_write_elem n e }])

/-- The engine satisfies `L` and `Q`: the trace satisfies `L` and every
connection on the heap satisfies `Q`. -/
def engine_inv (L : List sx_rec → Prop) (Q : List sx_rec → Nat → conn_st → Prop)
    (s : s2s_st) : Prop :=
  L s.sx_log ∧ ∀ c o, xhash_get s.conns c = some o → Q s.sx_log c o

/-- Accepting a positive answer for a route on a connection keeps `Q`: the
condition under which `_out_result` may set the route to VALID. -/
def valid_keeps (Q : List sx_rec → Nat → conn_st → Prop) (s : s2s_st) (out : Nat)
    (rkey : String) : Prop :=
  ∀ o o1, xhash_get s.conns out = some o → o1.online = o.online → o1.states = o.states →
    Q s.sx_log out o1 → Q s.sx_log out { o1 with states := xhash_put o1.states rkey conn_VALID }

/-- The packets queued for a route, in queue order; empty without a queue. -/
def queued (s : s2s_st) (rkey : String) : List pkt_st :=
  match xhash_get s.outq rkey with
  | some q => q.items
  | none => []

/-- The restriction of an execution on the positive answers it receives: when
the operation delivers a packet that is a positive answer for route `rkey` on
a connection `o`, then `good o rkey` holds; every other operation is free. -/
def accepts_valid (w : world) (good : conn_st → String → Bool) (s : s2s_st) : op_t → Bool
  | .sx out (.event_PACKET nad) =>
    match valid_result_key w nad, xhash_get s.conns out with
    | some rkey, some o => good o rkey
    | _, _ => true
  | _ => true

/-- Positive answers arrive only on connections that are online. -/
def valid_when_online (o : conn_st) (_rkey : String) : Bool := o.online

/-- Positive answers arrive only for routes for which dialback was started on
the connection. -/
def valid_when_asked (o : conn_st) (rkey : String) : Bool :=
  decide (conn_state o rkey ≠ conn_state_t.conn_NONE)

/-- Is the call the write of a `<db:result>` for route `r` on the outgoing
connection `c`.  The route of a call is the route key with which the writing
function was called. -/
def is_dbr (c : Nat) (r : String) (x : sx_rec) : Bool :=
  decide (x.s = sx_t.out c) && decide (x.rkey = r) &&
    (match x.call with
     | .nad_write n => decide (NAD_ENAME n 0 = "result") && decide (NAD_ENS_URI n 0 = some uri_DIALBACK)
     | _ => false)

/-- Was a `<db:result>` for route `r` written on connection `c` in the trace. -/
def has_dbr (l : List sx_rec) (c : Nat) (r : String) : Bool := l.any (is_dbr c r)

/-- The check of one call against the trace before it: the write of a stanza
on an outgoing connection needs an earlier `<db:result>` for its route on that
connection. -/
def dbr_before (pre : List sx_rec) (x : sx_rec) : Bool :=
  match x.s, x.call with
  | .out c, .nad_write_elem _ _ => has_dbr pre c x.rkey
  | _, _ => true

/-- Every write of a stanza in `l` has an earlier `<db:result>` for its route
on its connection, `pre` being the trace before `l`. -/
def dialback_first_from : List sx_rec → List sx_rec → Bool
  | _, [] => true
  | pre, x :: t => dbr_before pre x && dialback_first_from (pre ++ [x]) t

/-- Dialback before data, for a whole trace. -/
def dialback_first (l : List sx_rec) : Bool := dialback_first_from [] l

/-- Run a list of operations, each of which has to pass the test `ok` in the
state it starts in. -/
def run_by (w : world) (fuel : Nat) (ok : s2s_st → op_t → Bool) :
    s2s_st → List op_t → Option s2s_st
  | s, [] => some s
  | s, o :: t =>
    if ok s o then
      match step w fuel s o with
      | .error _ => none
      | .ok s1 => run_by w fuel ok s1 t
    else none

/-! ## A concrete scenario

A small world and configuration on which the statements are instantiated:
server `a.example` (and `c.example`, hosted by the same engine) sends to
`b.example`, which resolves to one address. -/

/-- A JID parser for bare domains: the empty string does not parse. -/
def demo_jid (d : String) : Option jid_st :=
  if d = "" then none else some { node := "", domain := d, resource := "" }

/-- Every connect succeeds, `rand()` returns 0, STARTTLS never starts. -/
def demo_world : world :=
  { mio_connect := fun _ _ _ => true, rand := fun _ => 0, jid_new := demo_jid,
    s2s_db_key := fun secret dom id => secret ++ dom ++ id, starttls := fun _ => false,
    idna_to_ascii := fun d => some d, idna_to_unicode := fun d => some d }

/-- The configuration, with one incoming connection `in1`; TLS and the retry
limit are the parameters. -/
def demo_cfg (ssl : Bool) (limit : Int) : s2s_st :=
  { local_secret := "k", retry_limit := limit, dns_bad_timeout := 60, dns_min_ttl := 30,
    dns_max_ttl := 3600, dns_cache_enabled := true, out_reuse := true, resolve_aaaa := false,
    lookup_nsrv := 1, sx_ssl := ssl, outq := [], out_host := [], out_dest := [], dnscache := [],
    dns_bad := [], inc := [("in1", conn_zero)], conns := [], next_conn := 0, dead := [],
    dead_conn := [], packet_count := 0, now := 1000, n_connect := 0, n_rand := 0, sx_log := [] }

/-- A message stanza from domain `f` to domain `t`, wrapped by the router. -/
def demo_msg (f t : String) : pkt_st :=
  { nad := { elems := [{ name := "route", ns := none, my_ns := [], attrs := [], cdata := "" },
                        { name := "message", ns := some uri_CLIENT, my_ns := [uri_CLIENT],
                          attrs := [("from", f), ("to", t)], cdata := "hi" }] },
    from_ := { node := "", domain := f, resource := "" },
    to_ := { node := "", domain := t, resource := "" }, db := false }

/-- A dialback packet `<db:name from= to= id= type=>` as received from the peer. -/
def demo_db (name f t id ty : String) : nad_st :=
  { elems := [{ name := name, ns := some uri_DIALBACK, my_ns := [uri_DIALBACK],
                attrs := [("from", f), ("to", t), ("id", id), ("type", ty)], cdata := "" }] }

/-- The answer of the resolver for `b.example`. -/
def demo_res : xht dnsres_st :=
  [("1.2.3.4/5269", { key := "1.2.3.4/5269", prio := 10, weight := 5120, expiry := 1100 })]

/-- The result of a computation, or a default when it fails. -/
def except_get {α : Type} (d : α) : Except fault α → α
  | .ok a => a
  | .error _ => d

/-- The state after the operations `ops`, each passing the test `ok`, from
start-up with configuration `cfg` (the start state if the run fails). -/
def demo_run (ok : s2s_st → op_t → Bool) (cfg : s2s_st) (ops : List op_t) : s2s_st :=
  (run_by demo_world 5 ok (s2s_start cfg) ops).getD (s2s_start cfg)

/-- The connection at an address (a zeroed one if there is none). -/
def demo_conn (s : s2s_st) (c : Nat) : conn_st := (xhash_get s.conns c).getD conn_zero

/-- A message for `b.example` arrives, the resolver answers and the engine
connects: connection 0 exists and is not yet online. -/
def ops_connect : List op_t :=
  [.packet (demo_msg "a.example" "b.example"), .resolve "b.example" demo_res 1100]

/-- The peer's stream header arrives (no version): the connection goes online
and dialback starts. -/
def ops_online : List op_t := ops_connect ++ [.sx 0 .event_STREAM]

/-- The peer accepts the dialback key: the route is valid and the queue is sent. -/
def ops_valid : List op_t :=
  ops_online ++ [.sx 0 (.event_PACKET (demo_db "result" "b.example" "a.example" "" "valid"))]

/-- A peer that speaks version 1.0 on a TLS-enabled engine answers the stream
header with a positive dialback result instead of its features. -/
def ops_early_valid : List op_t :=
  ops_connect ++ [.stream_header 0 "s1" (some "1.0") 0, .sx 0 .event_STREAM,
    .sx 0 (.event_PACKET (demo_db "result" "b.example" "a.example" "" "valid"))]

/-- The peer sends a positive dialback result for a route that was never
dialled on the connection, and a stanza for that route follows. -/
def ops_unasked_valid : List op_t :=
  ops_online ++ [.sx 0 (.event_PACKET (demo_db "result" "b.example" "c.example" "" "valid")),
    .packet (demo_msg "c.example" "b.example")]

/-- The connection closes five seconds after the message was queued. -/
def ops_close : List op_t := ops_online ++ [.tick 5, .mio 0 .action_CLOSE]

/-- No restriction on the operations. -/
def any_op : s2s_st → op_t → Bool := fun _ _ => true

/-- The engine after `ops_connect`: connection 0 exists, not online; the message
waits in the queue of its route. -/
def st_connect : s2s_st := demo_run any_op (demo_cfg false 300) ops_connect

/-- The engine after `ops_online`: connection 0 is online, dialback for
`a.example/b.example` is in progress. -/
def st_online : s2s_st := demo_run any_op (demo_cfg false 300) ops_online

/-- The engine after `ops_valid`: the route is VALID and the message was sent. -/
def st_valid : s2s_st := demo_run any_op (demo_cfg false 300) ops_valid

/-- The engine after `ops_early_valid`, with TLS enabled. -/
def st_early_valid : s2s_st := demo_run any_op (demo_cfg true 300) ops_early_valid

/-- The engine after `ops_unasked_valid`. -/
def st_unasked_valid : s2s_st := demo_run any_op (demo_cfg false 300) ops_unasked_valid

/-- The engine with `retry_limit = 0`, five seconds after the message was
queued, before the connection closes. -/
def st_aged : s2s_st := demo_run any_op (demo_cfg false 0) (ops_online ++ [.tick 5])

/-- The engine with `retry_limit = 0` after the close of connection 0. -/
def st_closed : s2s_st := demo_run any_op (demo_cfg false 0) ops_close

/-- The engine after `ops_connect`, run under the restriction that positive
answers arrive only on online connections. -/
def st_connect_online : s2s_st :=
  demo_run (accepts_valid demo_world valid_when_online) (demo_cfg false 300) ops_connect

/-- The engine after `ops_valid`, run under the restriction that positive
answers arrive only for routes that were dialled. -/
def st_valid_asked : s2s_st :=
  demo_run (accepts_valid demo_world valid_when_asked) (demo_cfg false 300) ops_valid

/-- Equality of results is decidable. -/
instance except_decEq {α : Type} [DecidableEq α] : DecidableEq (Except fault α)
  | .ok a, .ok b => if h : a = b then isTrue (by rw [h]) else isFalse (fun e => h (by cases e; rfl))
  | .error a, .error b =>
    if h : a = b then isTrue (by rw [h]) else isFalse (fun e => h (by cases e; rfl))
  | .ok _, .error _ => isFalse (fun e => by cases e)
  | .error _, .ok _ => isFalse (fun e => by cases e)

/-- The queue of a route (a new one if there is none). -/
def demo_queue (s : s2s_st) (rkey : String) : jqueue_st pkt_st :=
  (xhash_get s.outq rkey).getD (jqueue_new 0)

/-- The engine and the connection that `out_route` yields for a route. -/
def demo_route (s : s2s_st) (rkey : String) : s2s_st × Int × Option Nat :=
  except_get (s, -1, none) (out_route demo_world 5 s rkey true)

/-- The result of the flush loop over the queue of a route. -/
def demo_flush (s : s2s_st) (rkey : String) : s2s_st × Bool × List pkt_st :=
  except_get (s, true, [])
    (flush_loop demo_world 5 (demo_queue s rkey).items.length s rkey [])

/-- The relation between the aggregate TTL of a query and the TTLs of its
results that the resolver driver maintains: no result has a larger TTL than the
query, and a query without results has TTL 0. -/
def query_ok (q : dnsquery_st) : Prop :=
  (∀ e ∈ q.results, e.2.expiry ≤ q.expiry) ∧ (q.results = [] → q.expiry = 0)

/-- The aggregate TTL of a query that has results is attained: some result has
the TTL of the query. -/
def query_max (q : dnsquery_st) : Prop :=
  q.results ≠ [] → ∃ k r, xhash_get q.results k = some r ∧ r.expiry = q.expiry

/-! ## The reactor's timed queue -/

/-- A wall-clock reading (`struct timeval`). -/
structure timeval where
  tv_sec : Int
  tv_usec : Int
deriving DecidableEq, Repr

/-- A timeout record (`struct mio_timeout_st`).  `id` stands for the address of
the record, `fn` for the callback (`none` for NULL). -/
structure mio_timeout_st where
  id : Nat
  fn : Option Nat
  data1 : Nat
  data2 : Nat
  msec : Int
  t_0 : timeval
deriving DecidableEq, Repr

/-- A node of the timed queue with its `int priority`. -/
structure jqueue_node where
  priority : Int
  data : mio_timeout_st
deriving DecidableEq, Repr

/-- Modelled from the spec: the timed queue of the reactor (`util/jqueue.c` is
not under src/): the nodes from front to back and the epoch `init_time` of the
priorities. -/
structure timed_queue where
  nodes : List jqueue_node
  init_time : Int
deriving DecidableEq, Repr

/-- Modelled from the spec: ordered insertion (`jqueue_push` with a priority):
the new node goes behind the last node whose priority is not larger than its
own, so the front holds the smallest priority and equal priorities keep their
order of arrival. -/
def jqueue_push_prio (q : timed_queue) (t : mio_timeout_st) (priority : Int) : timed_queue :=
  { q with nodes :=
      (q.nodes.reverse.dropWhile (fun n => decide (n.priority > priority))).reverse ++
        [{ priority := priority, data := t }] ++
        (q.nodes.reverse.takeWhile (fun n => decide (n.priority > priority))).reverse }

/-- Register a timed timeout (`_mio_add_timeout`) at wall-clock time `now`;
returns the queue and the new record. -/
def _mio_add_timeout (q : timed_queue) (now : timeval) (id : Nat) (fn : Option Nat)
    (data1 data2 : Nat) (msec : Int) : timed_queue × mio_timeout_st :=
  let t : mio_timeout_st :=
    { id := id, fn := fn, data1 := data1, data2 := data2, msec := to_uint64 msec, t_0 := now }
  (jqueue_push_prio q t
    (to_int32 (to_uint64 (now.tv_usec.tdiv 1000 + (now.tv_sec - q.init_time) * 1000 + t.msec))), t)

/-- The block of `_mio_run` that rebases the timed queue: when the queue is not
empty and `init_time` is more than an hour old, `init_time - now.tv_sec` is
added to every priority and `init_time` becomes `now.tv_sec`. -/
def _mio_run_rebase (q : timed_queue) (now : timeval) : timed_queue :=
  if q.nodes.length > 0 ∧ now.tv_sec - q.init_time > 3600 then
    { nodes := q.nodes.map
        (fun n => { n with priority := to_int32 (n.priority + (q.init_time - now.tv_sec)) }),
      init_time := now.tv_sec }
  else q

/-- The absolute deadline of a timeout in milliseconds: its registration time
in milliseconds plus `msec`. -/
def deadline_ms (t : mio_timeout_st) : Int :=
  t.t_0.tv_sec * 1000 + t.t_0.tv_usec.tdiv 1000 + t.msec

/-- Every stored priority is the deadline of its entry measured from
`init_time`. -/
def priority_ok (q : timed_queue) : Bool :=
  q.nodes.all (fun n => decide (n.priority = deadline_ms n.data - q.init_time * 1000))

/-- An empty timed queue created at second 0. -/
def tq_empty : timed_queue := { nodes := [], init_time := 0 }

/-- One timeout of two hours, registered at second 10. -/
def tq_one : timed_queue :=
  (_mio_add_timeout tq_empty { tv_sec := 10, tv_usec := 0 } 1 none 0 0 7200000).1

/-- The queue `tq_one` after the rebase of a run at second 3700. -/
def tq_rebased : timed_queue := _mio_run_rebase tq_one { tv_sec := 3700, tv_usec := 0 }

/-- A second timeout, of one hour, registered at second 3701 after the rebase. -/
def tq_two : timed_queue :=
  (_mio_add_timeout tq_rebased { tv_sec := 3701, tv_usec := 0 } 2 none 0 0 3600000).1

/-! ## Vocabulary of the statements about `dns_select` -/

/-- An address is bad at time `now`: it is in the bad-host cache and the expiry
of its entry there has not passed. -/
def is_bad (s : s2s_st) (now : Int) (ipport : String) : Bool :=
  match xhash_get s.dns_bad ipport with
  | some b => decide (b.expiry ≥ now)
  | none => false

/-- A result has not expired at time `now`. -/
def unexpired (now : Int) (e : String × dnsres_st) : Bool := decide (e.2.expiry ≥ now)

/-- The three classes of results that can be chosen. -/
inductive res_class where
  | reusable
  | ipv6
  | ipv4
deriving DecidableEq, Repr

/-- The class of a result: reusable when connections are re-used and a
connection to its address exists; otherwise IPv6 when its key holds a colon,
else IPv4. -/
def class_of (s : s2s_st) (e : String × dnsres_st) : res_class :=
  if s.out_reuse && (xhash_get s.out_host e.1).isSome then res_class.reusable
  else if e.1.data.contains ':' then res_class.ipv6
  else res_class.ipv4

/-- The unexpired, non-bad results of a class, in iteration order. -/
def class_members (s : s2s_st) (now : Int) (cls : res_class) (results : xht dnsres_st) :
    List dnsres_st :=
  (results.filter
    (fun e => unexpired now e && !is_bad s now e.1 && decide (class_of s e = cls))).map (fun e => e.2)

/-- The unexpired results whose address is bad, in iteration order. -/
def bad_members (s : s2s_st) (now : Int) (results : xht dnsres_st) : List dnsres_st :=
  (results.filter (fun e => unexpired now e && is_bad s now e.1)).map (fun e => e.2)

/-- The members of a list whose prio is the minimum prio occurring in the list. -/
def min_prio_members (l : List dnsres_st) : List dnsres_st :=
  l.filter (fun r => decide (∀ r' ∈ l, r.prio ≤ r'.prio))

/-- The running sums of a list of weights: the `i`-th is the sum of the entries
0..i. -/
def running_sums (ws : List Int) : List Int :=
  (List.range ws.length).map (fun i => (ws.take (i + 1)).sum)

/-- The list that the claim's order of preference chooses from: the reusable
list when it is not empty; else, of the IPv6 and IPv4 lists, the one with the
lower prio (IPv6 on a tie) when both are not empty, and the one that is not
empty otherwise; `none` when all three are empty. -/
def sel_order (acc : sel_acc) : Option sel_list :=
  if acc.reuse.l ≠ [] then some acc.reuse
  else if acc.aaaa.l ≠ [] ∧ acc.a.l ≠ [] then
    (if acc.aaaa.p ≤ acc.a.p then some acc.aaaa else some acc.a)
  else if acc.aaaa.l ≠ [] then some acc.aaaa
  else if acc.a.l ≠ [] then some acc.a
  else none

/-- The index at which the loop of the weighted pick of `dns_select` stops: the
first `i` with `rw[i] >= r`; `none` when the loop runs to its end. -/
def sel_index : List Int → Int → Option Nat
  | [], _ => none
  | x :: t, r => if x ≥ r then some 0 else (sel_index t r).map (fun i => i + 1)

/-- The number of draws `r` in `0..W` for which the weighted pick stops at
index `i`. -/
def pick_count (rw : List Int) (W : Nat) (i : Nat) : Nat :=
  ((List.range (W + 1)).filter (fun (r : Nat) => decide (sel_index rw (r : Int) = some i))).length

/-- The state of one candidate list after the results `done` of its class were
offered to it. -/
def sel_inv (L : sel_list) (done : List dnsres_st) : Prop :=
  (done = [] → L.l = []) ∧
  (done ≠ [] → (∀ r ∈ done, L.p ≤ r.prio) ∧ (∃ r ∈ done, r.prio = L.p) ∧
    L.l = done.filter (fun r => decide (r.prio = L.p))) ∧
  L.wt = (L.l.map (fun r => r.weight)).sum ∧
  L.rw = running_sums (L.l.map (fun r => r.weight))

/-- The keys of a results mapping are in the form that `dns_make_ipport` and
the `snprintf` of `out_route` compose: every entry sits under its own key, and
composing the address and the port that `dns_select` reads from the key gives
the key back. -/
def results_keyed (results : xht dnsres_st) : Prop :=
  ∀ e ∈ results, e.2.key = e.1 ∧
    ∀ ip p, strchr_split e.1 '/' = some (ip, p) → fmt_ipport ip (atoi p) = e.1

/-! ## Concrete resolutions -/

/-- An answer without data (NXDOMAIN). -/
def ans_none : ub_answer :=
  { err := 0, result := true, nxdomain := true, bogus := false, havedata := false, ttl := 0,
    data := [], parses := true, rrs := [] }

/-- An A or AAAA answer with the given TTL and addresses. -/
def ans_addr (ttl : Int) (ips : List String) : ub_answer :=
  { err := 0, result := true, nxdomain := false, bogus := false, havedata := true, ttl := ttl,
    data := ips.map some, parses := true, rrs := [] }

/-- The configuration with AAAA lookups and a given `dns_min_ttl`. -/
def demo_cfg_aaaa (min_ttl : Int) : s2s_st :=
  { demo_cfg false 300 with resolve_aaaa := true, dns_min_ttl := min_ttl }

/-- The engine after a message for `b.example` was queued and the resolution
of `b.example` was started. -/
def st_asked (min_ttl : Int) : s2s_st :=
  demo_run any_op (demo_cfg_aaaa min_ttl) [.packet (demo_msg "a.example" "b.example")]

/-- The query of `b.example` as `dns_resolve_domain` creates it. -/
def q_start : dnsquery_st :=
  ((dns_resolve_domain demo_world (st_asked 30)
      { name := "b.example", pending := true, expiry := 0, init_time := 1000, query := none,
        results := none }).query).getD
    { name := "", srv_i := 0, hosts := [], results := [], expiry := 0, cur_host := none,
      cur_port := 0, cur_prio := 0, cur_weight := 0, cur_expiry := 0, have_async_id := false,
      async_req := none }

/-- The query after an SRV answer without data: the domain itself is looked up
on port 5269. -/
def q_srv : dnsquery_st := except_get q_start (_dns_result_srv (st_asked 30) q_start ans_none)

/-- The query after an AAAA answer with TTL 100. -/
def q_aaaa : dnsquery_st := except_get q_srv (_dns_result_aaaa q_srv (ans_addr 100 ["::1"]))

/-- The query after an AAAA answer without data. -/
def q_aaaa_none : dnsquery_st := except_get q_srv (_dns_result_aaaa q_srv ans_none)

/-- The engine after the A answer with TTL 200 that ends the resolution. -/
def st_resolved : s2s_st :=
  (except_get (st_asked 30, none)
    (_dns_result_a demo_world 5 (st_asked 30) q_aaaa (ans_addr 200 ["1.2.3.4"]))).1

/-- The engine with `dns_min_ttl = 300` after the A answer with TTL 200 that
ends the resolution. -/
def st_clamped : s2s_st :=
  (except_get (st_asked 300, none)
    (_dns_result_a demo_world 5 (st_asked 300) q_aaaa (ans_addr 200 ["1.2.3.4"]))).1

/-- The engine with `dns_min_ttl = m` after the A answer without data that ends
a resolution without results. -/
def st_unresolved (m : Int) : s2s_st :=
  (except_get (st_asked m, none) (_dns_result_a demo_world 5 (st_asked m) q_aaaa_none ans_none)).1

/-- A world in which only the first call of `mio_connect` fails. -/
def world_fail_once : world := { demo_world with mio_connect := fun n _ _ => decide (n ≠ 0) }

/-- A world in which every call of `mio_connect` fails. -/
def world_fail : world := { demo_world with mio_connect := fun _ _ _ => false }

/-- The engine with the given `dns_bad_timeout` at the moment `out_resolve`
has stored the results for `b.example` and is about to flush the queue: a
message is queued, the cache entry holds `demo_res`. -/
def st_cached (bad_timeout : Int) : s2s_st :=
  dns_store
    (demo_run any_op { demo_cfg false 300 with dns_bad_timeout := bad_timeout }
      [.packet (demo_msg "a.example" "b.example")])
    "b.example"
    { name := "b.example", pending := false, expiry := 1100, init_time := 1000, query := none,
      results := some demo_res }

/-- The engine in which `out_route` continues after `mio_connect` failed. -/
def demo_retry (w : world) (s : s2s_st) (route : String) (ab : Bool) : s2s_st :=
  match out_route_try w s route ab with
  | .ok (route_res.retry s1) => s1
  | _ => s

/-- A candidate list of two entries of weight 16. -/
def demo_list : sel_list :=
  { l := [{ key := "1.2.3.4/5269", prio := 10, weight := 16, expiry := 1100 },
          { key := "1.2.3.5/5269", prio := 10, weight := 16, expiry := 1100 }],
    rw := [16, 32], p := 10, wt := 32 }

/-- The query `q_aaaa` after the addresses of the last A answer (TTL 200) were
recorded. -/
def q_last : dnsquery_st :=
  except_get q_aaaa (addr_add { q_aaaa with have_async_id := false } (ans_addr 200 ["1.2.3.4"]))

/-- The query `q_aaaa_none` after the last A answer, without data, was looked at. -/
def q_last_none : dnsquery_st :=
  except_get q_aaaa_none (addr_add { q_aaaa_none with have_async_id := false } ans_none)

/-- The cache entry of a domain (a zeroed one if there is none). -/
def demo_dns (s : s2s_st) (domain : String) : dnscache_st :=
  (xhash_get s.dnscache domain).getD
    { name := domain, pending := false, expiry := 0, init_time := 0, query := none,
      results := none }

/-- An empty query for the domain `b.example`. -/
def q_empty : dnsquery_st :=
  { name := "b.example", srv_i := 0, hosts := [], results := [], expiry := 0, cur_host := none,
    cur_port := 0, cur_prio := 0, cur_weight := 0, cur_expiry := 0, have_async_id := false,
    async_req := none }

/-! ## The reactor: descriptors -/

/-- The type tag `type_CLOSED` of `mio_type_t`. -/
def type_CLOSED : Nat := 0x00

/-- The type tag `type_NORMAL` of `mio_type_t`. -/
def type_NORMAL : Nat := 0x01

/-- The type tag `type_LISTEN` of `mio_type_t`. -/
def type_LISTEN : Nat := 0x02

/-- The type tag `type_CONNECT` of `mio_type_t`. -/
def type_CONNECT : Nat := 0x10

/-- The type tag `type_CONNECT_READ` of `mio_type_t`. -/
def type_CONNECT_READ : Nat := 0x11

/-- The type tag `type_CONNECT_WRITE` of `mio_type_t`. -/
def type_CONNECT_WRITE : Nat := 0x12

/-- A descriptor record (`struct mio_priv_fd_st`): the OS descriptor, the type
tag, the handler `app` and its context `arg` (`none` for NULL).  Modelled from
the spec: the state that the backend keeps for the descriptor (the backend
headers are not under src/): membership in the poll set, read interest, write
interest; `os_open` tells whether the OS descriptor is open and `freed` whether
the slot was released by `MIO_FREE_FD`. -/
structure mio_priv_fd_st where
  fd : Int
  type : Nat
  app : Option Nat
  arg : Option Nat
  in_set : Bool
  rd : Bool
  wr : Bool
  os_open : Bool
  freed : Bool
deriving DecidableEq, Repr

/-- One call of a handler through `ACT`: the handler, the action, the
descriptor and the context that were passed. -/
structure act_rec where
  handler : Nat
  a : mio_action_t
  fd : Nat
  arg : Option Nat
deriving DecidableEq, Repr

/-- What happened to timeouts: the callback of the record `t` was invoked, or
`cancel_timeout` was called for the registered handle `t`. -/
inductive timer_ev where
  | fire (t : Nat)
  | cancel (t : Nat)
deriving DecidableEq, Repr

/-- The reactor (`struct mio_priv_st`): the descriptors by handle, the two
timeout queues (the immediate one from front to back), and, as a record of
what the reactor did, the handler calls and the timer events in order.
`can_free` is the answer of the backend to `MIO_CAN_FREE`; `next_timeout` is
the handle that the next `calloc` of a timeout record returns (a record gets a
handle that no earlier record had). -/
structure mio_priv_st where
  fds : List (Nat × mio_priv_fd_st)
  can_free : Bool
  immed_timeout : List mio_timeout_st
  timed_timeout : timed_queue
  next_timeout : Nat
  acts : List act_rec
  events : List timer_ev
deriving DecidableEq, Repr

/-- The application behind the reactor: the return value of a handler for an
action on a descriptor and of a timeout callback for its two data references;
the last argument is the number of calls made before, so that a handler can
answer differently each time.  What the application does to the reactor inside
a callback is not part of a call; it appears as the operations that follow. -/
structure mio_world where
  app : Nat → mio_action_t → Nat → Nat → Int
  timeout_fn : Nat → Nat → Nat → Nat → Int

/-- The record behind a descriptor handle; a handle that names no record or a
released one is a dangling pointer. -/
def mio_fd (m : mio_priv_st) (h : Nat) : Except fault mio_priv_fd_st :=
  match xhash_get m.fds h with
  | none => .error .abort
  | some f => if f.freed then .error .abort else .ok f

/-- Write a descriptor record back. -/
def mio_fd_store (m : mio_priv_st) (h : Nat) (f : mio_priv_fd_st) : mio_priv_st :=
  { m with fds := xhash_put m.fds h f }

/-- The call `ACT(m, fd, a, NULL)` of the handler of a descriptor; a NULL
handler cannot be called. -/
def ACT (w : mio_world) (m : mio_priv_st) (h : Nat) (f : mio_priv_fd_st) (a : mio_action_t) :
    Except fault (mio_priv_st × Int) :=
  match f.app with
  | none => .error .abort
  | some app =>
    .ok ({ m with acts := m.acts ++ [{ handler := app, a := a, fd := h, arg := f.arg }] },
         w.app app a h m.acts.length)

/-- The step of `_mio_close` that lets the application know: the handler is
called with `action_CLOSE` when there is one. -/
def close_notify (w : mio_world) (m : mio_priv_st) (h : Nat) (f : mio_priv_fd_st) :
    Except fault mio_priv_st :=
  if f.app ≠ none then
    match ACT w m h f mio_action_t.action_CLOSE with
    | .error e => .error e
    | .ok r => .ok r.1
  else .ok m

/-- Internal close function (`_mio_close`). -/
def _mio_close (w : mio_world) (m : mio_priv_st) (h : Nat) : Except fault mio_priv_st :=
  match mio_fd m h with
  | .error e => .error e
  | .ok f =>
    if f.type = type_CLOSED then .ok m
    else
      let f1 : mio_priv_fd_st := { f with in_set := false }
      match close_notify w (mio_fd_store m h f1) h f1 with
      | .error e => .error e
      | .ok m2 =>
        let f2 : mio_priv_fd_st :=
          { f1 with os_open := false, type := type_CLOSED, app := none, arg := none }
        .ok (mio_fd_store m2 h (if m2.can_free then { f2 with freed := true } else f2))

/-- Start processing read events (`_mio_read`). -/
def _mio_read (m : mio_priv_st) (h : Nat) : Except fault mio_priv_st :=
  match mio_fd m h with
  | .error e => .error e
  | .ok f =>
    if f.type &&& type_CONNECT ≠ 0 then
      .ok (mio_fd_store m h { f with type := f.type ||| type_CONNECT_READ })
    else .ok (mio_fd_store m h { f with rd := true })

/-- Try writing to the socket via the application (`_mio_write`). -/
def _mio_write (w : mio_world) (m : mio_priv_st) (h : Nat) : Except fault mio_priv_st :=
  match mio_fd m h with
  | .error e => .error e
  | .ok f =>
    if f.type &&& type_CONNECT ≠ 0 then
      .ok (mio_fd_store m h { f with type := f.type ||| type_CONNECT_WRITE })
    else if f.type ≠ type_NORMAL then .ok m
    else
      match ACT w m h f mio_action_t.action_WRITE with
      | .error e => .error e
      | .ok (m1, r) => if r = 0 then .ok m1 else .ok (mio_fd_store m1 h { f with wr := true })

/-- Change a connecting socket to a normal one (`_mio__connect`). -/
def _mio__connect (w : mio_world) (m : mio_priv_st) (h : Nat) : Except fault mio_priv_st :=
  match mio_fd m h with
  | .error e => .error e
  | .ok f =>
    let type := f.type
    let m1 := mio_fd_store m h { f with type := type_NORMAL, wr := false }
    let r : Except fault mio_priv_st :=
      if type &&& type_CONNECT_READ ≠ 0 then _mio_read m1 h else .ok m1
    match r with
    | .error e => .error e
    | .ok m2 => if type &&& type_CONNECT_WRITE ≠ 0 then _mio_write w m2 h else .ok m2

/-! ## The reactor: timeouts and the start of a run -/

/-- Conversion of an integer to `long long`. -/
def to_int64 (x : Int) : Int :=
  (x + 9223372036854775808) % 18446744073709551616 - 9223372036854775808

/-- The time in milliseconds that a timeout has left at the clock reading
`now`, as `_mio_run` and `_mio_check_timed_timeouts` compute it into a
`long long`: `msec` less the milliseconds since registration. -/
def timeout_msec (f : mio_timeout_st) (now : timeval) : Int :=
  to_int64 (f.msec - (now.tv_sec - f.t_0.tv_sec) * 1000 - (now.tv_usec - f.t_0.tv_usec).tdiv 1000)

/-- The loop of `_mio_run` over the immediate timeouts: pull the front, call
its callback if it has one, stop the run when the callback returns non-zero.
Returns the reactor and whether the run stops. -/
def run_immed (w : mio_world) : List mio_timeout_st → mio_priv_st → mio_priv_st × Bool
  | [], m => ({ m with immed_timeout := [] }, false)
  | t :: rest, m =>
    let m1 : mio_priv_st := { m with immed_timeout := rest }
    match t.fn with
    | none => run_immed w rest m1
    | some fn =>
      let r := w.timeout_fn fn t.data1 t.data2 m1.events.length
      let m2 : mio_priv_st := { m1 with events := m1.events ++ [timer_ev.fire t.id] }
      if r ≠ 0 then (m2, true) else run_immed w rest m2

/-- The choice of the poll timeout in `_mio_run` for the timed queue `q` (after
the rebase) and the caller's `timeout`: with a front entry whose remaining time
`msec` is below `timeout`, or with a negative `timeout`, it is `(int) msec + 5`
(the `int` sum wraps); a negative outcome becomes -1. -/
def run_timeout (q : timed_queue) (now : timeval) (timeout : Int) : Int :=
  let timeout1 : Int :=
    match q.nodes with
    | [] => timeout
    | n :: _ =>
      let msec := timeout_msec n.data now
      if timeout < 0 ∨ msec < timeout then to_int32 (to_int32 msec + 5) else timeout
  if timeout1 ≥ 0 then timeout1 else -1

/-- The part of `_mio_run` before the poll, with the clock reading `now`: the
immediate timeouts, the rebase of the timed queue, the choice of the timeout.
Returns the reactor and the timeout handed to `MIO_CHECK`, `none` when the run
returned before the poll. -/
def _mio_run_poll (w : mio_world) (m : mio_priv_st) (now : timeval) (timeout : Int) :
    mio_priv_st × Option Int :=
  match run_immed w m.immed_timeout m with
  | (m1, true) => (m1, none)
  | (m1, false) =>
    let q := _mio_run_rebase m1.timed_timeout now
    ({ m1 with timed_timeout := q }, some (run_timeout q now timeout))

/-- The scan of `_mio_cancel_timeout` and `_mio_run_timeout_early` from the
front for the node whose data is the record `t`, and its removal from the
list: the node and the remaining nodes, `none` when no node matches. -/
def jqueue_unlink : List jqueue_node → Nat → Option (jqueue_node × List jqueue_node)
  | [], _ => none
  | n :: rest, t =>
    if n.data.id = t then some (n, rest)
    else
      match jqueue_unlink rest t with
      | none => none
      | some (x, r) => some (x, n :: r)

/-- Number of entries of the timed queue (`jqueue_size`). -/
def timed_size (m : mio_priv_st) : Nat := m.timed_timeout.nodes.length

/-- Register a timed timeout in the reactor: the record gets the next handle
and `_mio_add_timeout` queues it.  Returns the reactor and the handle. -/
def mio_add_timeout (m : mio_priv_st) (now : timeval) (fn : Option Nat) (data1 data2 : Nat)
    (msec : Int) : mio_priv_st × Nat :=
  ({ m with
      timed_timeout := (_mio_add_timeout m.timed_timeout now m.next_timeout fn data1 data2 msec).1,
      next_timeout := m.next_timeout + 1 }, m.next_timeout)

/-- Cancel a timed timeout (`_mio_cancel_timeout`): unlink the node of the
record `t`, release the record; no callback is called.  The event is recorded
when `t` is a handle that was handed out. -/
def _mio_cancel_timeout (m : mio_priv_st) (t : Nat) : mio_priv_st :=
  let m1 : mio_priv_st :=
    if t < m.next_timeout then { m with events := m.events ++ [timer_ev.cancel t] } else m
  match jqueue_unlink m1.timed_timeout.nodes t with
  | none => m1
  | some (_, rest) => { m1 with timed_timeout := { m1.timed_timeout with nodes := rest } }

/-- Run a timed timeout before its time (`_mio_run_timeout_early`): unlink the
node of the record `t`, call its callback if it has one, release the record. -/
def _mio_run_timeout_early (m : mio_priv_st) (t : Nat) : mio_priv_st :=
  match jqueue_unlink m.timed_timeout.nodes t with
  | none => m
  | some (n, rest) =>
    let m1 : mio_priv_st := { m with timed_timeout := { m.timed_timeout with nodes := rest } }
    match n.data.fn with
    | none => m1
    | some _ => { m1 with events := m1.events ++ [timer_ev.fire n.data.id] }

/-- The loop of `_mio_check_timed_timeouts` over the nodes from the front, the
clock readings of the iterations taken as one reading `now`: stop at the first
front entry that has time left; otherwise pull it and call its callback if it
has one. -/
def check_loop (now : timeval) : List jqueue_node → mio_priv_st → mio_priv_st
  | [], m => { m with timed_timeout := { m.timed_timeout with nodes := [] } }
  | n :: rest, m =>
    if timeout_msec n.data now > 0 then
      { m with timed_timeout := { m.timed_timeout with nodes := n :: rest } }
    else
      match n.data.fn with
      | none => check_loop now rest m
      | some _ => check_loop now rest { m with events := m.events ++ [timer_ev.fire n.data.id] }

/-- Fire the timed timeouts that are due (`_mio_check_timed_timeouts`). -/
def _mio_check_timed_timeouts (m : mio_priv_st) (now : timeval) : mio_priv_st :=
  check_loop now m.timed_timeout.nodes m

/-- A call of the timer interface of the reactor. -/
inductive timer_op where
  | add (now : timeval) (fn : Option Nat) (data1 data2 : Nat) (msec : Int)
  | cancel (t : Nat)
  | early (t : Nat)
  | rebase (now : timeval)
  | check (now : timeval)
deriving DecidableEq, Repr

/-- The effect of one call of the timer interface. -/
def timer_step (m : mio_priv_st) : timer_op → mio_priv_st
  | .add now fn d1 d2 msec => (mio_add_timeout m now fn d1 d2 msec).1
  | .cancel t => _mio_cancel_timeout m t
  | .early t => _mio_run_timeout_early m t
  | .rebase now => { m with timed_timeout := _mio_run_rebase m.timed_timeout now }
  | .check now => _mio_check_timed_timeouts m now

/-- The reactor after a sequence of calls of the timer interface. -/
def timer_run (m : mio_priv_st) (ops : List timer_op) : mio_priv_st := ops.foldl timer_step m

/-- A reactor without descriptors and timeouts, created at second 0. -/
def mio_new : mio_priv_st :=
  { fds := [], can_free := true, immed_timeout := [], timed_timeout := tq_empty,
    next_timeout := 0, acts := [], events := [] }

/-- A timer trace is in order: no callback is invoked twice, and none after
its timeout was cancelled. -/
def fires_once : List timer_ev → Bool
  | [] => true
  | timer_ev.fire t :: rest => decide (timer_ev.fire t ∉ rest) && fires_once rest
  | timer_ev.cancel t :: rest => decide (timer_ev.fire t ∉ rest) && fires_once rest

/-- An event is the invocation of a callback. -/
def is_fire : timer_ev → Bool
  | timer_ev.fire _ => true
  | timer_ev.cancel _ => false

/-- The relation between the timed queue, the next handle and the trace that
the timer interface maintains: the records in the queue are distinct and were
handed out; a record whose callback was invoked or that was cancelled was
handed out and is not in the queue; the trace is in order. -/
def timer_ok (nodes : List jqueue_node) (next : Nat) (events : List timer_ev) : Prop :=
  (nodes.map (fun n => n.data.id)).Nodup ∧
  (∀ n ∈ nodes, n.data.id < next) ∧
  (∀ t, timer_ev.fire t ∈ events ∨ timer_ev.cancel t ∈ events →
    t < next ∧ ∀ n ∈ nodes, n.data.id ≠ t) ∧
  fires_once events = true

/-- Number of calls of the handler with `action_CLOSE` for the descriptor `h`. -/
def close_count (m : mio_priv_st) (h : Nat) : Nat :=
  (m.acts.filter (fun r => decide (r.fd = h ∧ r.a = mio_action_t.action_CLOSE))).length

/-- A sequence of `n` calls of `_mio_close` on one descriptor. -/
def close_many (w : mio_world) (h : Nat) : Nat → mio_priv_st → Except fault mio_priv_st
  | 0, m => .ok m
  | n + 1, m =>
    match _mio_close w m h with
    | .error e => .error e
    | .ok m1 => close_many w h n m1

/-- An application whose handlers return 1 and whose timeout callbacks return
0, except callback 7, which returns 1. -/
def demo_app : mio_world :=
  { app := fun _ _ _ _ => 1, timeout_fn := fun fn _ _ _ => if fn = 7 then 1 else 0 }

/-- A descriptor record of the given type with handler 1 and context 2 in the
poll set. -/
def demo_fd (type : Nat) (rd wr : Bool) : mio_priv_fd_st :=
  { fd := 9, type := type, app := some 1, arg := some 2, in_set := true, rd := rd, wr := wr,
    os_open := true, freed := false }

/-- A reactor whose only descriptor, handle 3, is connecting: write interest is
armed, neither `mio_read` nor `mio_write` was called on it. -/
def mio_connecting : mio_priv_st :=
  { mio_new with fds := [(3, demo_fd type_CONNECT false true)] }

/-- A reactor inside a dispatch iteration (the backend does not release slots)
whose only descriptor, handle 3, is an established connection. -/
def mio_normal : mio_priv_st :=
  { mio_new with fds := [(3, demo_fd type_NORMAL true false)], can_free := false }

/-- A reactor with one timed timeout of one second, registered at second 10. -/
def mio_timer : mio_priv_st :=
  (mio_add_timeout mio_new { tv_sec := 10, tv_usec := 0 } (some 1) 0 0 1000).1

/-- A reactor with the timed timeout of `mio_timer` and an immediate timeout
whose callback is callback 7. -/
def mio_immed : mio_priv_st :=
  { mio_timer with
      immed_timeout := [{ id := 1, fn := some 7, data1 := 0, data2 := 0, msec := 0,
                          t_0 := { tv_sec := 0, tv_usec := 0 } }],
      next_timeout := 2 }

/-- An SRV record of class IN with four fields. -/
def srv_rec (name : String) (port prio weight ttl : Int) : srv_rr :=
  { class_in := true, type_srv := true, rd_count := 4, ttl := ttl, priority := prio,
    weight := weight, port := port, name := some name, fits := true }

/-- An SRV answer with the given records. -/
def ans_srv (rrs : List srv_rr) : ub_answer :=
  { err := 0, result := true, nxdomain := false, bogus := false, havedata := true, ttl := 0,
    data := [], parses := true, rrs := rrs }

/-- The query after an SRV answer that names the host `xmpp.b.example.` on
port 5269: the address of the domain itself is asked for next. -/
def q_srv_host : dnsquery_st :=
  except_get q_start
    (_dns_result_srv (st_asked 30) q_start (ans_srv [srv_rec "xmpp.b.example." 5269 10 5 300]))

/-- The query after an SRV answer with two records for the same host and port,
the first with priority 20 and weight 10, the second with priority 10 and
weight 5. -/
def q_srv_twice : dnsquery_st :=
  except_get q_start
    (_dns_result_srv (st_asked 30) q_start
      (ans_srv [srv_rec "xmpp.b.example." 5269 20 10 300, srv_rec "xmpp.b.example." 5269 10 5 300]))

/-- A query whose only host is `host` on port 5269. -/
def q_host (host : String) : dnsquery_st :=
  except_get q_empty (_dns_add_host q_empty host 5269 10 5 300)

/-- A query that holds the result `1.2.3.4/5269` with priority 20 and weight
2560 and whose current host has priority 10 and weight 1280. -/
def q_result : dnsquery_st :=
  { q_empty with
      results := [("1.2.3.4/5269", { key := "1.2.3.4/5269", prio := 20, weight := 2560,
                                     expiry := 300 })],
      expiry := 300, cur_host := some "xmpp.b.example.", cur_port := 5269, cur_prio := 10,
      cur_weight := 1280, cur_expiry := 300 }

/-- A weight as the resolver driver stores it in `results`: 0, or at least 16,
and at most `65535 << 8`. -/
def weight_ok (x : Int) : Prop := (x = 0 ∨ 16 ≤ x) ∧ x ≤ 16776960

/-- The weights of a query are in range: those of `hosts` lie in
16..16776960, those of `results` and of the current host are 0 or lie in
16..16776960, and `results` holds at most `DNS_MAX_RESULTS` entries. -/
def weights_ok (q : dnsquery_st) : Prop :=
  (∀ e ∈ q.hosts, 16 ≤ e.2.weight ∧ e.2.weight ≤ 16776960) ∧
  (∀ e ∈ q.results, weight_ok e.2.weight) ∧
  weight_ok q.cur_weight ∧
  xhash_count q.results ≤ DNS_MAX_RESULTS

/-- The engine after the route `a.example/b.example` became VALID on the online
connection 0 and a message from a second local domain, `c.example`, for
`b.example` arrived. -/
def st_second : s2s_st :=
  demo_run any_op (demo_cfg false 300) (ops_valid ++ [.packet (demo_msg "c.example" "b.example")])

/-- The engine `st_second` after connection 0 closed. -/
def st_second_closed : s2s_st :=
  demo_run any_op (demo_cfg false 300)
    (ops_valid ++ [.packet (demo_msg "c.example" "b.example"), .mio 0 .action_CLOSE])

/-- The engine `st_cached 0` after `k` failed connects: only the counters of
the calls of `mio_connect` and `rand` and of the connection records differ. -/
def st_loop (k : Nat) : s2s_st :=
  { st_cached 0 with n_connect := k, n_rand := k, next_conn := k }

/-- The packet with which a verification request for `t` is sent from `f`
(dialback, `db` set). -/
def demo_verify (f t : String) : pkt_st :=
  { nad := demo_db "verify" f t "id1" "",
    from_ := { node := "", domain := f, resource := "" },
    to_ := { node := "", domain := t, resource := "" }, db := true }

/-- Is the call the write of a stanza (`sx_nad_write_elem`). -/
def is_elem_write : sx_call → Bool
  | .nad_write_elem _ _ => true
  | _ => false

/-- The record of the write of a packet on connection `c` by `out_packet`. -/
def write_rec (c : Nat) (rkey : String) (p : pkt_st) : sx_rec :=
  { s := sx_t.out c, rkey := rkey, call := pkt_write p }

/-- No connection is registered for the destination and its resolution is
pending: `out_route` yields no connection and returns 0. -/
def route_blocked (s : s2s_st) (dkey : String) : Prop :=
  xhash_get s.out_dest dkey = none ∧ (dns_entry s dkey).pending = true

/-- Connection `c` is registered for the destination, with the given `online`
flag, and `v` tells whether the route is VALID on it. -/
def route_on (s : s2s_st) (rkey dkey : String) (c : Nat) (onl v : Bool) : Prop :=
  xhash_get s.out_dest dkey = some c ∧
    ∃ o, xhash_get s.conns c = some o ∧ o.online = onl ∧ decide (conn_state o rkey = conn_VALID) = v

/-- The situation of a route during a flush: blocked (`none`), or on a
connection with its `online` flag and the validity of the route. -/
def flush_inv (s : s2s_st) (rkey dkey : String) : Option (Nat × Bool × Bool) → Prop
  | none => route_blocked s dkey
  | some (c, onl, v) => route_on s rkey dkey c onl v

/-- Does `out_packet` write the packet in the given situation: the connection
is online and the route is VALID or the packet is a dialback packet. -/
def mode_writes : Option (Nat × Bool × Bool) → pkt_st → Bool
  | none, _ => false
  | some (_, onl, v), p => onl && (v || p.db)

/-- The connection of a situation (0 when blocked). -/
def mode_conn : Option (Nat × Bool × Bool) → Nat
  | none => 0
  | some (c, _, _) => c

/-- A message and then a verification request for `b.example` arrive before the
domain is resolved; the resolver answers and the engine connects; the peer's
stream header arrives: connection 0 is online, dialback for
`a.example/b.example` is in progress, and both packets wait in the queue. -/
def ops_mixed : List op_t :=
  [.packet (demo_msg "a.example" "b.example"), .packet (demo_verify "a.example" "b.example"),
   .resolve "b.example" demo_res 1100, .sx 0 .event_STREAM]

/-- The engine after `ops_mixed`. -/
def st_mixed : s2s_st := demo_run any_op (demo_cfg false 300) ops_mixed

/-- The engine after the queue of `a.example/b.example` was flushed in `st_mixed`. -/
def st_mixed_flushed : s2s_st :=
  except_get st_mixed (out_flush_route_queue demo_world 5 st_mixed "a.example/b.example")

/-- The engine after the peer then accepted the dialback key. -/
def st_mixed_valid : s2s_st :=
  except_get st_mixed_flushed
    (step demo_world 5 st_mixed_flushed
      (.sx 0 (.event_PACKET (demo_db "result" "b.example" "a.example" "" "valid"))))

/-- The answer of the resolver for `b.example.net`. -/
def demo_res_net : xht dnsres_st :=
  [("1.2.3.9/5269", { key := "1.2.3.9/5269", prio := 10, weight := 5120, expiry := 1100 })]

/-- After `ops_mixed`, a message for `b.example.net` arrives and the resolver
answers for that domain: `out_flush_domain_queues` flushes the queues of the
routes whose to-domain is an initial part of `b.example.net`. -/
def ops_mixed_net : List op_t :=
  ops_mixed ++ [.packet (demo_msg "a.example" "b.example.net"),
    .resolve "b.example.net" demo_res_net 1100]

/-- The engine after `ops_mixed_net`. -/
def st_mixed_net : s2s_st := demo_run any_op (demo_cfg false 300) ops_mixed_net

end S2S

/-! # Theorems -/

namespace S2S

open conn_state_t err_t

/-! ## Facts about the hash table -/

section tables
variable {κ α : Type} [DecidableEq κ]

theorem xhash_get_replace_same (h : List (κ × α)) (k : κ) (v : α) :
    xhash_get (xhash_replace h k v) k = (xhash_get h k).map (fun _ => v) := by
  induction h with
  | nil => simp [xhash_replace, xhash_get]
  | cons e t ih =>
    obtain ⟨k', v'⟩ := e
    by_cases hk : k' = k
    · simp [xhash_replace, xhash_get, hk]
    · simp [xhash_replace, xhash_get, hk, ih]

theorem xhash_get_replace_other (h : List (κ × α)) (k k' : κ) (v : α) (hne : k' ≠ k) :
    xhash_get (xhash_replace h k v) k' = xhash_get h k' := by
  induction h with
  | nil => simp [xhash_replace, xhash_get]
  | cons e t ih =>
    obtain ⟨k0, v0⟩ := e
    by_cases hk : k0 = k
    · subst hk
      have : ¬ k0 = k' := fun h => hne h.symm
      simp [xhash_replace, xhash_get, this, ih]
    · by_cases hk' : k0 = k'
      · subst hk'; simp [xhash_replace, xhash_get, hk]
      · simp [xhash_replace, xhash_get, hk, hk', ih]

theorem xhash_get_append (h : List (κ × α)) (k k' : κ) (v : α) :
    xhash_get (h ++ [(k, v)]) k' =
      match xhash_get h k' with
      | some x => some x
      | none => if k = k' then some v else none := by
  induction h with
  | nil => simp [xhash_get]
  | cons e t ih =>
    obtain ⟨k0, v0⟩ := e
    by_cases hk : k0 = k'
    · simp [xhash_get, hk]
    · simp [xhash_get, hk, ih]

theorem xhash_get_put_same (h : List (κ × α)) (k : κ) (v : α) :
    xhash_get (xhash_put h k v) k = some v := by
  unfold xhash_put
  cases hg : xhash_get h k with
  | none => simp [xhash_get_append, hg]
  | some x => simp [xhash_get_replace_same, hg]

theorem xhash_get_put_other (h : List (κ × α)) (k k' : κ) (v : α) (hne : k' ≠ k) :
    xhash_get (xhash_put h k v) k' = xhash_get h k' := by
  unfold xhash_put
  cases hg : xhash_get h k with
  | none =>
    have : ¬ k = k' := fun h => hne h.symm
    simp only [xhash_get_append, this, if_false]
    cases xhash_get h k' <;> rfl
  | some x => simp [xhash_get_replace_other _ _ _ _ hne]

theorem xhash_get_zap_same (h : List (κ × α)) (k : κ) : xhash_get (xhash_zap h k) k = none := by
  induction h with
  | nil => simp [xhash_zap, xhash_get]
  | cons e t ih =>
    obtain ⟨k0, v0⟩ := e
    by_cases hk : k0 = k
    · simp [xhash_zap, hk, ih]
    · simp [xhash_zap, xhash_get, hk, ih]

theorem xhash_get_zap_other (h : List (κ × α)) (k k' : κ) (hne : k' ≠ k) :
    xhash_get (xhash_zap h k) k' = xhash_get h k' := by
  induction h with
  | nil => simp [xhash_zap, xhash_get]
  | cons e t ih =>
    obtain ⟨k0, v0⟩ := e
    by_cases hk : k0 = k
    · subst hk
      have : ¬ k0 = k' := fun h => hne h.symm
      simp [xhash_zap, xhash_get, this, ih]
    · by_cases hk' : k0 = k'
      · subst hk'; simp [xhash_zap, xhash_get, hk]
      · simp [xhash_zap, xhash_get, hk, hk', ih]

end tables

/-! ## Routing -/

theorem out_route_add_inv {s s1 : s2s_st} {route : String} {c : Nat} {reuse : Bool} {ret : Int}
    {out : Option Nat} (h : out_route_add s route c reuse = .ok (s1, ret, out)) :
    ∃ o, xhash_get s.conns c = some o ∧
      s1 = { s with conns := add_route s.conns c o route reuse } ∧ ret = 0 ∧ out = some c := by
  unfold out_route_add at h
  split at h
  · simp at h
  · rename_i o ho
    simp only [Except.ok.injEq, Prod.mk.injEq] at h
    obtain ⟨h1, h2, h3⟩ := h
    exact ⟨o, ho, h1 ▸ rfl, h2.symm, h3.symm⟩

theorem out_route_try_inv {w : world} {s : s2s_st} {route : String} {ab : Bool} {r : route_res}
    (h : out_route_try w s route ab = .ok r) :
    ∃ rfrom dkey, strchr_split route '/' = some (rfrom, dkey) ∧
      ((∃ c o, xhash_get s.out_dest dkey = some c ∧ xhash_get s.conns c = some o ∧
          r = route_res.done { s with conns := add_route s.conns c o route false } 0 (some c)) ∨
       (xhash_get s.out_dest dkey = none ∧ ∃ dc nr ret,
          r = route_res.done { s with dnscache := dc, n_rand := nr } ret none) ∨
       (xhash_get s.out_dest dkey = none ∧ ∃ dc nr c o ip port,
          s.out_reuse = true ∧ xhash_get s.out_host (fmt_ipport ip port) = some c ∧
          xhash_get s.conns c = some o ∧
          r = route_res.done { s with dnscache := dc, n_rand := nr,
                                      out_dest := xhash_put s.out_dest dkey c,
                                      conns := add_route s.conns c o route true } 0 (some c)) ∨
       (xhash_get s.out_dest dkey = none ∧ ∃ dc nr ip port,
          r = out_route_connect w { s with dnscache := dc, n_rand := nr } route rfrom dkey ip port)) := by
  unfold out_route_try at h
  split at h
  · simp at h
  · rename_i rfrom dkey hsplit
    refine ⟨rfrom, dkey, hsplit, ?_⟩
    split at h
    · rename_i c hc
      split at h
      · simp at h
      · rename_i s1 ret out hadd
        obtain ⟨o, ho, hs1, hret, hout⟩ := out_route_add_inv hadd
        left
        simp only [Except.ok.injEq] at h
        exact ⟨c, o, hc, ho, by rw [← h, hs1, hret, hout]⟩
    · rename_i hc
      right
      simp only at h
      split at h
      · left
        simp only [Except.ok.injEq] at h
        exact ⟨hc, _, _, 0, by rw [← h]; rfl⟩
      · split at h
        · left
          simp only [Except.ok.injEq] at h
          exact ⟨hc, _, _, 0, by rw [← h]; rfl⟩
        · split at h
          · simp at h
          · rename_i nr dns1 ret ip port hsel
            split at h
            · left
              simp only [Except.ok.injEq] at h
              exact ⟨hc, _, _, -1, by rw [← h]; rfl⟩
            · split at h
              · left
                simp only [Except.ok.injEq] at h
                exact ⟨hc, _, _, 0, by rw [← h]; rfl⟩
              · split at h
                · rename_i c hfound
                  split at h
                  · simp at h
                  · rename_i s3 ret3 out hadd
                    obtain ⟨o, ho, hs1, hret, hout⟩ := out_route_add_inv hadd
                    right; left
                    simp only [Except.ok.injEq] at h
                    have hre : s.out_reuse = true := by
                      by_contra hno
                      simp [dns_store, dns_ensure, hno] at hfound
                    simp only [dns_store, dns_ensure, hre, if_true] at hfound
                    exact ⟨hc, _, _, c, o, ip, port, hre, hfound, ho, by rw [← h, hs1, hret, hout]; rfl⟩
                · right; right
                  simp only [Except.ok.injEq] at h
                  exact ⟨hc, _, _, ip, port, by rw [← h]; rfl⟩

theorem add_route_get_same {conns : List (Nat × conn_st)} {c : Nat} {o : conn_st} (route : String)
    (reuse : Bool) (ho : xhash_get conns c = some o) :
    ∃ o1, xhash_get (add_route conns c o route reuse) c = some o1 ∧ o1.online = o.online ∧
      o1.states = o.states ∧ o1.verify = o.verify := by
  unfold add_route
  split
  · exact ⟨_, xhash_get_put_same _ _ _, rfl, rfl, rfl⟩
  · exact ⟨o, ho, rfl, rfl, rfl⟩

theorem add_route_get_other {conns : List (Nat × conn_st)} {c c1 : Nat} {o : conn_st} (route : String)
    (reuse : Bool) (hne : c1 ≠ c) :
    xhash_get (add_route conns c o route reuse) c1 = xhash_get conns c1 := by
  unfold add_route
  split
  · exact xhash_get_put_other _ _ _ _ hne
  · rfl

theorem is_client_init_call (s : s2s_st) (rfrom dkey : String) :
    is_client_init (client_init_call s rfrom dkey) = true := by
  unfold client_init_call; split <;> rfl

/-- What one pass of `out_route` that returns does to the queues and to the
trace: the queues are untouched; the trace grows by stream initialisations only,
and not at all when the pass yields a connection that is online. -/
theorem out_route_try_done_props {w : world} {s s1 : s2s_st} {route : String} {ab : Bool}
    {ret : Int} {out : Option Nat}
    (h : out_route_try w s route ab = .ok (route_res.done s1 ret out)) :
    s1.outq = s.outq ∧
    (∃ extra, s1.sx_log = s.sx_log ++ extra ∧ ∀ x ∈ extra, is_client_init x.call = true) ∧
    (∀ c, out = some c → ∃ o, xhash_get s1.conns c = some o ∧
      (o.online = true → s1.sx_log = s.sx_log)) := by
  obtain ⟨rfrom, dkey, _, hcase⟩ := out_route_try_inv h
  rcases hcase with ⟨c, o, _, ho, hr⟩ | ⟨_, dc, nr, ret, hr⟩ | ⟨_, dc, nr, c, o, ip, port, _, _, ho, hr⟩ |
      ⟨_, dc, nr, ip, port, hr⟩
  · simp only [route_res.done.injEq] at hr
    obtain ⟨h1, h2, h3⟩ := hr
    subst h1 h2 h3
    refine ⟨rfl, ⟨[], by simp, by simp⟩, ?_⟩
    intro c1 hc1
    simp only [Option.some.injEq] at hc1
    subst hc1
    obtain ⟨o1, h1, _⟩ := add_route_get_same route false ho
    exact ⟨o1, h1, fun _ => rfl⟩
  · simp only [route_res.done.injEq] at hr
    obtain ⟨h1, h2, h3⟩ := hr
    subst h1 h2 h3
    exact ⟨rfl, ⟨[], by simp, by simp⟩, by simp⟩
  · simp only [route_res.done.injEq] at hr
    obtain ⟨h1, h2, h3⟩ := hr
    subst h1 h2 h3
    refine ⟨rfl, ⟨[], by simp, by simp⟩, ?_⟩
    intro c1 hc1
    simp only [Option.some.injEq] at hc1
    subst hc1
    obtain ⟨o1, h1, _⟩ := add_route_get_same route true ho
    exact ⟨o1, h1, fun _ => rfl⟩
  · unfold out_route_connect at hr
    split at hr
    · simp only [route_res.done.injEq] at hr
      obtain ⟨h1, h2, h3⟩ := hr
      subst h1 h2 h3
      refine ⟨rfl, ⟨[_], rfl, ?_⟩, ?_⟩
      · simp [is_client_init_call]
      · intro c1 hc1
        simp only [Option.some.injEq] at hc1
        subst hc1
        exact ⟨_, xhash_get_put_same _ _ _, fun hon => by simp [new_conn, conn_zero] at hon⟩
    · simp at hr

theorem out_route_try_retry_props {w : world} {s s1 : s2s_st} {route : String} {ab : Bool}
    (h : out_route_try w s route ab = .ok (route_res.retry s1)) :
    s1.outq = s.outq ∧ s1.sx_log = s.sx_log := by
  obtain ⟨rfrom, dkey, _, hcase⟩ := out_route_try_inv h
  rcases hcase with ⟨c, o, _, ho, hr⟩ | ⟨_, dc, nr, ret, hr⟩ | ⟨_, dc, nr, c, o, ip, port, _, _, ho, hr⟩ |
      ⟨_, dc, nr, ip, port, hr⟩
  · simp at hr
  · simp at hr
  · simp at hr
  · unfold out_route_connect at hr
    split at hr
    · simp at hr
    · simp only [route_res.retry.injEq] at hr
      subst hr
      exact ⟨rfl, rfl⟩

theorem out_route_props {w : world} : ∀ (fuel : Nat) {s s1 : s2s_st} {route : String} {ab : Bool}
    {ret : Int} {out : Option Nat}, out_route w fuel s route ab = .ok (s1, ret, out) →
    s1.outq = s.outq ∧
    (∃ extra, s1.sx_log = s.sx_log ++ extra ∧ ∀ x ∈ extra, is_client_init x.call = true) ∧
    (∀ c, out = some c → ∃ o, xhash_get s1.conns c = some o ∧
      (o.online = true → s1.sx_log = s.sx_log))
  | 0, _, _, _, _, _, _, h => by simp [out_route] at h
  | fuel + 1, s, s1, route, ab, ret, out, h => by
    unfold out_route at h
    split at h
    · simp at h
    · rename_i s2 ret2 out2 htry
      simp only [Except.ok.injEq, Prod.mk.injEq] at h
      obtain ⟨h1, h2, h3⟩ := h
      subst h1 h2 h3
      exact out_route_try_done_props htry
    · rename_i s2 htry
      have hp := out_route_try_retry_props htry
      obtain ⟨hq, ⟨extra, hlog, hex⟩, hc⟩ := out_route_props fuel h
      refine ⟨hq.trans hp.1, ⟨extra, by rw [hlog, hp.2], hex⟩, ?_⟩
      intro c hcout
      obtain ⟨o, ho, hon⟩ := hc c hcout
      exact ⟨o, ho, fun h => (hon h).trans hp.2⟩

/-! ## Queueing and dialback -/

theorem queued_out_packet_queue (s : s2s_st) (p : pkt_st) :
    ∃ q, xhash_get (_out_packet_queue s p).outq (s2s_route_key p.from_.domain p.to_.domain) = some q ∧
      q.items = queued s (s2s_route_key p.from_.domain p.to_.domain) ++ [p] := by
  unfold _out_packet_queue queued
  cases hq : xhash_get s.outq (s2s_route_key p.from_.domain p.to_.domain) with
  | none =>
    simp only [hq, xhash_get_put_same]
    exact ⟨_, rfl, by simp [jqueue_push, jqueue_new]⟩
  | some q =>
    simp only [hq, xhash_get_replace_same, Option.map_some']
    exact ⟨_, rfl, rfl⟩

theorem strchr_append (l r : List Char) (ch : Char) (h : ch ∉ l) :
    strchr (l ++ ch :: r) ch = some l.length := by
  induction l with
  | nil => simp [strchr]
  | cons c t ih =>
    have hc : c ≠ ch := fun e => h (by simp [e])
    have ht : ch ∉ t := fun e => h (by simp [e])
    simp [strchr, hc, ih ht]

theorem strchr_some_of_mem (l : List Char) (ch : Char) (h : ch ∈ l) : ∃ i, strchr l ch = some i := by
  induction l with
  | nil => simp at h
  | cons c t ih =>
    by_cases hc : c = ch
    · exact ⟨0, by simp [strchr, hc]⟩
    · have ht : ch ∈ t := by
        rcases List.mem_cons.mp h with e | e
        · exact absurd e.symm hc
        · exact e
      obtain ⟨i, hi⟩ := ih ht
      exact ⟨i + 1, by simp [strchr, hc, hi]⟩

theorem strchr_restore (l : List Char) (ch x : Char) (i : Nat) (h : strchr l ch = some i) :
    (l.set i x).set i ch = l := by
  induction l generalizing i with
  | nil => simp [strchr] at h
  | cons c t ih =>
    unfold strchr at h
    split at h
    · rename_i hc
      simp only [Option.some.injEq] at h
      subst h
      simp [hc]
    · cases ht : strchr t ch with
      | none => simp [ht] at h
      | some j =>
        simp only [ht, Option.map_some', Option.some.injEq] at h
        subst h
        simp [ih j ht]

theorem route_key_data (a b : String) : (s2s_route_key a b).data = a.data ++ '/' :: b.data := by
  simp [s2s_route_key, String.data_append]

theorem route_key_has_slash (a b : String) : ∃ i, strchr (s2s_route_key a b).data '/' = some i := by
  apply strchr_some_of_mem
  simp [route_key_data]

/-- The effect of `_out_dialback` on a connection that exists, for a route key
that contains a slash: one document is written, the route becomes INPROGRESS
with the current time, and the key buffer is returned as it was handed in. -/
theorem out_dialback_ok (w : world) (s : s2s_st) (c : Nat) (o : conn_st) (rkey : String) (i : Nat)
    (ho : xhash_get s.conns c = some o) (hi : strchr rkey.data '/' = some i) :
    _out_dialback w s c rkey =
      .ok (conn_store (sx_do s (sx_t.out c) rkey
              (sx_call.nad_write (db_result_nad (cstr_at (rkey.data.set i '\x00') 0)
                (cstr_at (rkey.data.set i '\x00') (i + 1))
                (w.s2s_db_key s.local_secret (cstr_at (rkey.data.set i '\x00') (i + 1)) o.s_id))))
            c { o with states := xhash_put o.states rkey conn_INPROGRESS,
                       states_time := xhash_put o.states_time rkey s.now }, rkey) := by
  unfold _out_dialback
  simp only [ho, hi]
  have hr : String.mk ((rkey.data.set i '\x00').set i '/') = rkey := by
    rw [strchr_restore _ _ _ _ hi]
  simp only [hr]

/-! ## C1: `out_packet` writes or queues -/

/-- C1. Whenever `out_route` yields a connection for the packet's route,
`out_packet` returns 0 and either writes or queues the packet: if the connection
is online and the route is VALID or the packet is a dialback packet, the trace of
codec calls grows by exactly the write of the packet on that connection and the
queues are unchanged; in every other case no write of the packet is added to the
trace and the packet is appended to the queue of its route.  In particular a
packet for a route that is already VALID on an online connection causes exactly
one codec call. -/
theorem C1_out_packet_writes_or_queues (w : world) (fuel : Nat) (s s1 : s2s_st) (p : pkt_st)
    (ret : Int) (c : Nat)
    (hr : out_route w fuel s (s2s_route_key p.from_.domain p.to_.domain) true
            = .ok (s1, ret, some c)) :
    ∃ o s2, xhash_get s1.conns c = some o ∧ out_packet w fuel s p = .ok (s2, 0) ∧
      ((o.online = true ∧
          (conn_state o (s2s_route_key p.from_.domain p.to_.domain) = conn_VALID ∨ p.db = true)) →
        s2.sx_log = s.sx_log ++
          [{ s := sx_t.out c, rkey := s2s_route_key p.from_.domain p.to_.domain,
             call := pkt_write p }] ∧
        s2.outq = s.outq) ∧
      (¬ (o.online = true ∧
          (conn_state o (s2s_route_key p.from_.domain p.to_.domain) = conn_VALID ∨ p.db = true)) →
        (∃ extra, s2.sx_log = s.sx_log ++ extra ∧ ∀ x ∈ extra, x.call ≠ pkt_write p) ∧
        ∃ q, xhash_get s2.outq (s2s_route_key p.from_.domain p.to_.domain) = some q ∧
          q.items = queued s (s2s_route_key p.from_.domain p.to_.domain) ++ [p]) := by
  obtain ⟨hq, ⟨extra, hlog, hextra⟩, hc⟩ := out_route_props fuel hr
  obtain ⟨o, ho, hon⟩ := hc c rfl
  have hnw : ∀ x ∈ extra, x.call ≠ pkt_write p := by
    intro x hx hcall
    have := hextra x hx
    rw [hcall] at this
    unfold pkt_write at this
    split at this <;> simp [is_client_init] at this
  have hqd : queued s1 (s2s_route_key p.from_.domain p.to_.domain)
      = queued s (s2s_route_key p.from_.domain p.to_.domain) := by
    unfold queued; rw [hq]
  suffices hmain : ∃ s2, out_packet w fuel s p = .ok (s2, 0) ∧
      ((o.online = true ∧
          (conn_state o (s2s_route_key p.from_.domain p.to_.domain) = conn_VALID ∨ p.db = true)) →
        s2.sx_log = s.sx_log ++
          [{ s := sx_t.out c, rkey := s2s_route_key p.from_.domain p.to_.domain,
             call := pkt_write p }] ∧
        s2.outq = s.outq) ∧
      (¬ (o.online = true ∧
          (conn_state o (s2s_route_key p.from_.domain p.to_.domain) = conn_VALID ∨ p.db = true)) →
        (∃ extra, s2.sx_log = s.sx_log ++ extra ∧ ∀ x ∈ extra, x.call ≠ pkt_write p) ∧
        ∃ q, xhash_get s2.outq (s2s_route_key p.from_.domain p.to_.domain) = some q ∧
          q.items = queued s (s2s_route_key p.from_.domain p.to_.domain) ++ [p]) by
    obtain ⟨s2, h1, h2, h3⟩ := hmain
    exact ⟨o, s2, ho, h1, h2, h3⟩
  unfold out_packet
  simp only [hr, ho]
  by_cases honl : o.online = true
  · simp only [honl, Bool.not_true, Bool.false_eq_true, if_false, true_and]
    have hlog1 : s1.sx_log = s.sx_log := hon honl
    by_cases hcond : conn_state o (s2s_route_key p.from_.domain p.to_.domain) = conn_VALID ∨ p.db = true
    · simp only [hcond, if_true]
      by_cases hdb : p.db = true
      · simp only [hdb, if_true]
        refine ⟨_, rfl, ?_, ?_⟩
        · intro _
          exact ⟨by simp [conn_store, sx_do, hlog1, pkt_write, hdb], by simp [conn_store, sx_do, hq]⟩
        · intro hn; exact absurd trivial hn
      · simp only [hdb, if_false]
        refine ⟨_, rfl, ?_, ?_⟩
        · intro _
          exact ⟨by simp [conn_store, sx_do, hlog1, pkt_write, hdb], by simp [conn_store, sx_do, hq]⟩
        · intro hn; exact absurd trivial hn
    · simp only [hcond, if_false]
      have hdb : p.db = false := by
        cases hp : p.db with
        | false => rfl
        | true => exact absurd (Or.inr hp) hcond
      obtain ⟨q, hq1, hq2⟩ := queued_out_packet_queue s1 p
      by_cases hip : conn_state o (s2s_route_key p.from_.domain p.to_.domain) = conn_INPROGRESS
      · simp only [hip, if_true]
        refine ⟨_, rfl, fun hn => absurd hn (by simp), fun _ => ?_⟩
        exact ⟨⟨[], by simp [_out_packet_queue, hlog1], by simp⟩, q, hq1, by rw [hq2, hqd]⟩
      · simp only [hip, if_false]
        obtain ⟨i, hi⟩ := route_key_has_slash p.from_.domain p.to_.domain
        have ho2 : xhash_get (_out_packet_queue s1 p).conns c = some o := ho
        rw [out_dialback_ok w _ c o _ i ho2 hi]
        refine ⟨_, rfl, fun hn => absurd hn (by simp), fun _ => ?_⟩
        refine ⟨⟨[_], by simp [conn_store, sx_do, _out_packet_queue, hlog1]; rfl, ?_⟩, q, hq1, by rw [hq2, hqd]⟩
        intro x hx
        simp only [List.mem_singleton] at hx
        subst hx
        simp [pkt_write, hdb]
  · have honf : o.online = false := by cases h : o.online <;> simp_all
    simp only [honf, Bool.not_false, if_true]
    obtain ⟨q, hq1, hq2⟩ := queued_out_packet_queue s1 p
    refine ⟨_, rfl, fun hn => absurd hn.1 (by simp), fun _ => ?_⟩
    exact ⟨⟨extra, by simp [_out_packet_queue, hlog], hnw⟩, q, hq1, by rw [hq2, hqd]⟩

/-! ## C3: piggy-backed dialback -/

theorem set_append_length (a b : List Char) (x y : Char) :
    (a ++ x :: b).set a.length y = a ++ y :: b := by
  induction a with
  | nil => simp
  | cons c t ih => simp [ih]

theorem takeWhile_not_nul (a : List Char) (h : '\x00' ∉ a) :
    a.takeWhile (fun c => c != '\x00') = a := by
  induction a with
  | nil => simp
  | cons c t ih =>
    have hc : c ≠ '\x00' := fun e => h (by simp [e])
    have ht : '\x00' ∉ t := fun e => h (by simp [e])
    have hb : (c != '\x00') = true := by simp [hc]
    simp [List.takeWhile, hb, ih ht]

theorem takeWhile_nul_append (a b : List Char) (h : '\x00' ∉ a) :
    (a ++ '\x00' :: b).takeWhile (fun c => c != '\x00') = a := by
  induction a with
  | nil => simp [List.takeWhile]
  | cons c t ih =>
    have hc : c ≠ '\x00' := fun e => h (by simp [e])
    have ht : '\x00' ∉ t := fun e => h (by simp [e])
    have hb : (c != '\x00') = true := by simp [hc]
    simp [List.takeWhile, hb, ih ht]

/-- Cutting the route key of two domains at its first slash gives back the
domains, when the from-domain has no slash and neither domain has a NUL. -/
theorem route_key_cut (a b : String) (hs : '/' ∉ a.data) (ha : '\x00' ∉ a.data)
    (hb : '\x00' ∉ b.data) :
    strchr (s2s_route_key a b).data '/' = some a.data.length ∧
    cstr_at ((s2s_route_key a b).data.set a.data.length '\x00') 0 = a ∧
    cstr_at ((s2s_route_key a b).data.set a.data.length '\x00') (a.data.length + 1) = b := by
  rw [route_key_data]
  refine ⟨strchr_append _ _ _ hs, ?_, ?_⟩
  · unfold cstr_at
    rw [set_append_length, List.drop_zero, takeWhile_nul_append _ _ ha]
  · unfold cstr_at
    rw [set_append_length]
    have : List.drop (a.data.length + 1) (a.data ++ '\x00' :: b.data) = b.data := by
      rw [List.drop_append_eq_append_drop]
      simp
    rw [this, takeWhile_not_nul _ hb]

theorem out_route_try_static {w : world} {s : s2s_st} {route : String} {ab : Bool} {r : route_res}
    (h : out_route_try w s route ab = .ok r) :
    (∀ s1 ret out, r = route_res.done s1 ret out → static_part s1 = static_part s) ∧
    (∀ s1, r = route_res.retry s1 → static_part s1 = static_part s) := by
  obtain ⟨rfrom, dkey, _, hcase⟩ := out_route_try_inv h
  rcases hcase with ⟨c, o, _, ho, hr⟩ | ⟨_, dc, nr, ret, hr⟩ | ⟨_, dc, nr, c, o, ip, port, _, _, ho, hr⟩ |
      ⟨_, dc, nr, ip, port, hr⟩
  · subst hr
    refine ⟨?_, by simp⟩
    intro s1 ret out he
    simp only [route_res.done.injEq] at he
    rw [← he.1]; rfl
  · subst hr
    refine ⟨?_, by simp⟩
    intro s1 ret out he
    simp only [route_res.done.injEq] at he
    rw [← he.1]; rfl
  · subst hr
    refine ⟨?_, by simp⟩
    intro s1 ret out he
    simp only [route_res.done.injEq] at he
    rw [← he.1]; rfl
  · subst hr
    unfold out_route_connect
    split
    · refine ⟨?_, by simp⟩
      intro s1 ret out he
      simp only [route_res.done.injEq] at he
      rw [← he.1]; rfl
    · refine ⟨by simp, ?_⟩
      intro s1 he
      simp only [route_res.retry.injEq] at he
      rw [← he]; rfl

theorem out_route_static {w : world} : ∀ (fuel : Nat) {s s1 : s2s_st} {route : String} {ab : Bool}
    {ret : Int} {out : Option Nat}, out_route w fuel s route ab = .ok (s1, ret, out) →
    static_part s1 = static_part s
  | 0, _, _, _, _, _, _, h => by simp [out_route] at h
  | fuel + 1, s, s1, route, ab, ret, out, h => by
    unfold out_route at h
    split at h
    · simp at h
    · rename_i s2 ret2 out2 htry
      simp only [Except.ok.injEq, Prod.mk.injEq] at h
      obtain ⟨h1, h2, h3⟩ := h
      subst h1 h2 h3
      exact (out_route_try_static htry).1 _ _ _ rfl
    · rename_i s2 htry
      exact (out_route_static fuel h).trans ((out_route_try_static htry).2 _ rfl)

theorem static_now {s s1 : s2s_st} (h : static_part s1 = static_part s) : s1.now = s.now :=
  (congrArg s2s_st.now h : (static_part s1).now = (static_part s).now)

theorem static_local_secret {s s1 : s2s_st} (h : static_part s1 = static_part s) :
    s1.local_secret = s.local_secret :=
  (congrArg s2s_st.local_secret h : (static_part s1).local_secret = (static_part s).local_secret)

theorem static_outq {s s1 : s2s_st} (h : static_part s1 = static_part s) : s1.outq = s.outq :=
  (congrArg s2s_st.outq h : (static_part s1).outq = (static_part s).outq)

/-- C3. For a non-dialback packet whose route gets an online connection:
when the route key has no entry in `states`, `out_packet` queues the packet,
writes exactly one `<db:result>` on that connection whose `from` is the
packet's from-domain and whose `to` is its to-domain, sets `states[rkey]` to
INPROGRESS and `states_time[rkey]` to the current time, and `_out_dialback`
hands the route key back unchanged; when the state is already INPROGRESS the
packet is queued and nothing is written.  (Domains are C strings from the JID
parser: the from-domain holds no slash and neither domain holds a NUL.) -/
theorem C3_out_packet_starts_dialback (w : world) (fuel : Nat) (s s1 : s2s_st) (p : pkt_st)
    (ret : Int) (c : Nat) (o : conn_st)
    (hr : out_route w fuel s (s2s_route_key p.from_.domain p.to_.domain) true
            = .ok (s1, ret, some c))
    (ho : xhash_get s1.conns c = some o) (hon : o.online = true) (hdb : p.db = false)
    (hs : '/' ∉ p.from_.domain.data) (ha : '\x00' ∉ p.from_.domain.data)
    (hb : '\x00' ∉ p.to_.domain.data) :
    (xhash_get o.states (s2s_route_key p.from_.domain p.to_.domain) = none →
      ∃ s2 o2, out_packet w fuel s p = .ok (s2, 0) ∧
        _out_dialback w (_out_packet_queue s1 p) c (s2s_route_key p.from_.domain p.to_.domain)
          = .ok (s2, s2s_route_key p.from_.domain p.to_.domain) ∧
        (∃ q, xhash_get s2.outq (s2s_route_key p.from_.domain p.to_.domain) = some q ∧
          q.items = queued s (s2s_route_key p.from_.domain p.to_.domain) ++ [p]) ∧
        s2.sx_log = s.sx_log ++
          [{ s := sx_t.out c, rkey := s2s_route_key p.from_.domain p.to_.domain,
             call := sx_call.nad_write (db_result_nad p.from_.domain p.to_.domain
                       (w.s2s_db_key s.local_secret p.to_.domain o.s_id)) }] ∧
        xhash_get s2.conns c = some o2 ∧
        xhash_get o2.states (s2s_route_key p.from_.domain p.to_.domain) = some conn_INPROGRESS ∧
        xhash_get o2.states_time (s2s_route_key p.from_.domain p.to_.domain) = some s.now) ∧
    (conn_state o (s2s_route_key p.from_.domain p.to_.domain) = conn_INPROGRESS →
      ∃ s2, out_packet w fuel s p = .ok (s2, 0) ∧ s2.sx_log = s.sx_log ∧
        ∃ q, xhash_get s2.outq (s2s_route_key p.from_.domain p.to_.domain) = some q ∧
          q.items = queued s (s2s_route_key p.from_.domain p.to_.domain) ++ [p]) := by
  obtain ⟨hq, _, hc⟩ := out_route_props fuel hr
  obtain ⟨o', ho', hlog'⟩ := hc c rfl
  rw [ho] at ho'
  simp only [Option.some.injEq] at ho'
  subst ho'
  have hlog : s1.sx_log = s.sx_log := hlog' hon
  have hst := out_route_static fuel hr
  have hqd : queued s1 (s2s_route_key p.from_.domain p.to_.domain)
      = queued s (s2s_route_key p.from_.domain p.to_.domain) := by
    unfold queued; rw [hq]
  obtain ⟨q, hq1, hq2⟩ := queued_out_packet_queue s1 p
  obtain ⟨hi, hfrom, hto⟩ := route_key_cut p.from_.domain p.to_.domain hs ha hb
  have ho2 : xhash_get (_out_packet_queue s1 p).conns c = some o := ho
  have hdial := out_dialback_ok w (_out_packet_queue s1 p) c o _ _ ho2 hi
  rw [hfrom, hto] at hdial
  constructor
  · intro hnone
    have hstate : conn_state o (s2s_route_key p.from_.domain p.to_.domain) = conn_NONE := by
      unfold conn_state; rw [hnone]
    refine ⟨_, _, ?_, hdial, ⟨q, hq1, by rw [hq2, hqd]⟩, ?_, xhash_get_put_same _ _ _,
      xhash_get_put_same _ _ _, ?_⟩
    · unfold out_packet
      simp only [hr, ho, hon, hstate, hdb, hdial]
      simp
    · simp only [conn_store, sx_do, _out_packet_queue, hlog]
      rw [static_local_secret hst]
    · simp only [_out_packet_queue]
      rw [xhash_get_put_same, static_now hst]
  · intro hip
    refine ⟨_out_packet_queue s1 p, ?_, by simp [_out_packet_queue, hlog], q, hq1, by rw [hq2, hqd]⟩
    unfold out_packet
    simp only [hr, ho, hon, hip, hdb]
    simp

/-! ## C4: no connection -/

theorem bounce_fold (rkey : String) (err : err_t) (items : List pkt_st) (s : s2s_st) (n : Int) :
    items.foldl (bounce_pkt rkey err) (s, n) =
      ({ s with sx_log := s.sx_log ++ bounce_recs rkey err items },
        n + ((items.filter bounceable).length : Int)) := by
  induction items generalizing s n with
  | nil => simp [bounce_recs]
  | cons p t ih =>
    simp only [List.foldl_cons]
    by_cases hb : bounceable p = true
    · have hb' := hb
      unfold bounceable at hb'
      simp only [decide_eq_true_eq] at hb'
      simp only [bounce_pkt, hb', and_self, if_true]
      rw [ih]
      simp [bounce_recs, hb, sx_do, List.filter_cons]
      omega
    · have hb' := hb
      unfold bounceable at hb'
      simp only [decide_eq_true_eq] at hb'
      simp only [bounce_pkt, hb', if_false]
      rw [ih]
      simp [bounce_recs, hb, List.filter_cons]

/-- Bouncing the queue of a route writes one error stanza to the router for each
packet that can be bounced and removes the queue. -/
theorem out_bounce_route_queue_some (s : s2s_st) (rkey : String) (err : err_t)
    (q : jqueue_st pkt_st) (hq : xhash_get s.outq rkey = some q) :
    out_bounce_route_queue s rkey err =
      ({ s with sx_log := s.sx_log ++ bounce_recs rkey err q.items,
                outq := xhash_zap s.outq rkey },
        ((q.items.filter bounceable).length : Int)) := by
  unfold out_bounce_route_queue
  simp only [hq, bounce_fold]
  simp

/-- The ways in which `out_packet` returns. -/
theorem out_packet_inv {w : world} {fuel : Nat} {s s2 : s2s_st} {p : pkt_st} {r : Int}
    (h : out_packet w fuel s p = .ok (s2, r)) :
    ∃ s1 ret out, out_route w fuel s (s2s_route_key p.from_.domain p.to_.domain) true
        = .ok (s1, ret, out) ∧
      ((out = none ∧ ret = 0 ∧ r = 0 ∧ s2 = _out_packet_queue s1 p) ∨
       (out = none ∧ ret ≠ 0 ∧ r = -1 ∧
          s2 = (out_bounce_route_queue (_out_packet_queue s1 p)
                  (s2s_route_key p.from_.domain p.to_.domain) stanza_err_SERVICE_UNAVAILABLE).1) ∨
       (∃ c o, out = some c ∧ xhash_get s1.conns c = some o ∧ r = 0 ∧
          ((o.online = false ∧ s2 = _out_packet_queue s1 p) ∨
           (o.online = true ∧
              (conn_state o (s2s_route_key p.from_.domain p.to_.domain) = conn_VALID ∨ p.db = true) ∧
              ∃ o1, o1.online = o.online ∧ o1.states = o.states ∧ o1.routes = o.routes ∧
                s2 = conn_store (sx_do s1 (sx_t.out c) (s2s_route_key p.from_.domain p.to_.domain)
                        (pkt_write p)) c o1) ∨
           (o.online = true ∧ p.db = false ∧
              conn_state o (s2s_route_key p.from_.domain p.to_.domain) = conn_INPROGRESS ∧
              s2 = _out_packet_queue s1 p) ∨
           (o.online = true ∧ p.db = false ∧
              conn_state o (s2s_route_key p.from_.domain p.to_.domain) = conn_NONE ∧
              _out_dialback w (_out_packet_queue s1 p) c (s2s_route_key p.from_.domain p.to_.domain)
                = .ok (s2, s2s_route_key p.from_.domain p.to_.domain))))) := by
  unfold out_packet at h
  simp only at h
  cases hr : out_route w fuel s (s2s_route_key p.from_.domain p.to_.domain) true with
  | error f => rw [hr] at h; simp at h
  | ok x =>
  obtain ⟨s1, ret, out⟩ := x
  rw [hr] at h
  cases out with
  | none =>
    refine ⟨s1, ret, none, rfl, ?_⟩
    simp only at h
    by_cases hne : ret = 0
    · simp only [hne, ne_eq, not_true_eq_false, if_false, Except.ok.injEq, Prod.mk.injEq] at h
      left
      exact ⟨rfl, hne, h.2.symm, h.1.symm⟩
    · simp only [hne, ne_eq, not_false_eq_true, if_true, Except.ok.injEq, Prod.mk.injEq] at h
      right; left
      exact ⟨rfl, hne, h.2.symm, h.1.symm⟩
  | some c =>
    refine ⟨s1, ret, some c, rfl, ?_⟩
    simp only at h
    right; right
    cases ho : xhash_get s1.conns c with
    | none => rw [ho] at h; simp at h
    | some o =>
      rw [ho] at h
      simp only at h
      by_cases honl : o.online = true
      · simp only [honl, Bool.not_true, Bool.false_eq_true, if_false] at h
        by_cases hcond : conn_state o (s2s_route_key p.from_.domain p.to_.domain) = conn_VALID ∨ p.db = true
        · simp only [hcond, if_true] at h
          by_cases hdb : p.db = true
          · simp only [hdb, if_true, Except.ok.injEq, Prod.mk.injEq] at h
            refine ⟨c, o, rfl, ho, h.2.symm, Or.inr (Or.inl ⟨honl, hcond,
              { o with verify := (if decide (NAD_ENAME p.nad 0 = "verify") then o.verify + 1
                                  else o.verify),
                       last_verify := (if decide (NAD_ENAME p.nad 0 = "verify") then s1.now
                                       else o.last_verify),
                       last_packet := s1.now }, rfl, rfl, rfl, ?_⟩)⟩
            rw [← h.1]; simp only [pkt_write, hdb, if_true, honl]
          · have hdbf : p.db = false := by cases hp : p.db <;> simp_all
            simp only [hdbf, Bool.false_eq_true, if_false, Except.ok.injEq, Prod.mk.injEq] at h
            refine ⟨c, o, rfl, ho, h.2.symm, Or.inr (Or.inl ⟨honl, hcond,
              { o with last_packet := s1.now }, rfl, rfl, rfl, ?_⟩)⟩
            rw [← h.1]; simp only [pkt_write, hdbf, honl]; rfl
        · simp only [hcond, if_false] at h
          have hdb : p.db = false := by
            cases hp : p.db with
            | false => rfl
            | true => exact absurd (Or.inr hp) hcond
          have hnv : conn_state o (s2s_route_key p.from_.domain p.to_.domain) ≠ conn_VALID :=
            fun e => hcond (Or.inl e)
          by_cases hip : conn_state o (s2s_route_key p.from_.domain p.to_.domain) = conn_INPROGRESS
          · simp only [hip, if_true, Except.ok.injEq, Prod.mk.injEq] at h
            exact ⟨c, o, rfl, ho, h.2.symm, Or.inr (Or.inr (Or.inl ⟨honl, hdb, hip, h.1.symm⟩))⟩
          · simp only [hip, if_false] at h
            have hnone : conn_state o (s2s_route_key p.from_.domain p.to_.domain) = conn_NONE := by
              cases hcs : conn_state o (s2s_route_key p.from_.domain p.to_.domain) with
              | conn_NONE => rfl
              | conn_INPROGRESS => exact absurd hcs hip
              | conn_VALID => exact absurd hcs hnv
            obtain ⟨i, hi⟩ := route_key_has_slash p.from_.domain p.to_.domain
            have ho2 : xhash_get (_out_packet_queue s1 p).conns c = some o := ho
            have hd := out_dialback_ok w _ c o _ i ho2 hi
            rw [hd] at h
            simp only [Except.ok.injEq, Prod.mk.injEq] at h
            refine ⟨c, o, rfl, ho, h.2.symm, Or.inr (Or.inr (Or.inr ⟨honl, hdb, hnone, ?_⟩))⟩
            rw [hd, h.1]
      · have honf : o.online = false := by cases h' : o.online <;> simp_all
        simp only [honf, Bool.not_false, if_true, Except.ok.injEq, Prod.mk.injEq] at h
        exact ⟨c, o, rfl, ho, h.2.symm, Or.inl ⟨honf, h.1.symm⟩⟩

/-! ## C5: flushing keeps the order -/

theorem out_packet_queue_other (s : s2s_st) (p : pkt_st) (r : String)
    (hne : r ≠ s2s_route_key p.from_.domain p.to_.domain) :
    xhash_get (_out_packet_queue s p).outq r = xhash_get s.outq r := by
  unfold _out_packet_queue
  simp only
  split
  · exact xhash_get_put_other _ _ _ _ hne
  · exact xhash_get_replace_other _ _ _ _ hne

theorem out_packet_queue_congr (s s1 : s2s_st) (p : pkt_st) (hq : s1.outq = s.outq)
    (hn : s1.now = s.now) : (_out_packet_queue s1 p).outq = (_out_packet_queue s p).outq := by
  unfold _out_packet_queue
  simp only [hq, hn]

theorem out_dialback_outq {w : world} {s s2 : s2s_st} {c : Nat} {rkey k2 : String}
    (h : _out_dialback w s c rkey = .ok (s2, k2)) : s2.outq = s.outq := by
  unfold _out_dialback at h
  split at h
  · simp at h
  · split at h
    · simp at h
    · simp only [Except.ok.injEq, Prod.mk.injEq] at h
      rw [← h.1]; rfl

/-- What `out_packet` does to the table of queues: when it returns 0 the table
is unchanged or the packet was queued; otherwise it returns -1 and the packet
was queued and the queue of its route was then deleted. -/
theorem out_packet_outq {w : world} {fuel : Nat} {s s2 : s2s_st} {p : pkt_st} {r : Int}
    (h : out_packet w fuel s p = .ok (s2, r)) :
    (r = 0 ∧ (s2.outq = s.outq ∨ s2.outq = (_out_packet_queue s p).outq)) ∨
    (r = -1 ∧ s2.outq = xhash_zap (_out_packet_queue s p).outq
                (s2s_route_key p.from_.domain p.to_.domain)) := by
  obtain ⟨s1, ret, out, hr, hcase⟩ := out_packet_inv h
  have hst := out_route_static fuel hr
  have hqq := out_packet_queue_congr s s1 p (static_outq hst) (static_now hst)
  rcases hcase with ⟨_, _, hr0, hs2⟩ | ⟨_, _, hr1, hs2⟩ | ⟨c, o, _, ho, hr0, hc⟩
  · left; exact ⟨hr0, Or.inr (by rw [hs2, hqq])⟩
  · right
    refine ⟨hr1, ?_⟩
    obtain ⟨q, hq1, _⟩ := queued_out_packet_queue s1 p
    rw [hs2, out_bounce_route_queue_some _ _ _ q hq1]
    simp only [hqq]
  · left
    refine ⟨hr0, ?_⟩
    rcases hc with ⟨_, hs2⟩ | ⟨_, _, o1, _, _, _, hs2⟩ | ⟨_, _, _, hs2⟩ | ⟨_, _, _, hd⟩
    · right; rw [hs2, hqq]
    · left; rw [hs2]; exact static_outq hst
    · right; rw [hs2, hqq]
    · right; rw [out_dialback_outq hd, hqq]

/-- After `out_packet` returned 0, the queue of any route is as before or has
the packet appended, and no queue has disappeared. -/
theorem out_packet_queued {w : world} {fuel : Nat} {s s2 : s2s_st} {p : pkt_st}
    (h : out_packet w fuel s p = .ok (s2, 0)) (r : String) :
    (queued s2 r = queued s r ∨ queued s2 r = queued s r ++ [p]) ∧
    ((xhash_get s.outq r).isSome = true → (xhash_get s2.outq r).isSome = true) := by
  rcases out_packet_outq h with ⟨_, hq | hq⟩ | ⟨h1, _⟩
  · exact ⟨Or.inl (by unfold queued; rw [hq]), fun hs => by rw [hq]; exact hs⟩
  · by_cases hr : r = s2s_route_key p.from_.domain p.to_.domain
    · subst hr
      obtain ⟨q, hq1, hq2⟩ := queued_out_packet_queue s p
      refine ⟨Or.inr ?_, fun _ => by rw [hq, hq1]; rfl⟩
      rw [← hq2]
      unfold queued
      rw [hq, hq1]
    · have := out_packet_queue_other s p r hr
      exact ⟨Or.inl (by unfold queued; rw [hq, this]), fun hs => by rw [hq, this]; exact hs⟩
  · omega

theorem queued_of_get {s : s2s_st} {r : String} {q : jqueue_st pkt_st}
    (h : xhash_get s.outq r = some q) : queued s r = q.items := by
  unfold queued; rw [h]

/-- Invariant of the loop of `out_flush_route_queue`.  With `rest` the packets
still to be pulled and `R` the packets queued behind them: the packets handed to
`out_packet` are the first ones of `rest`, in order; and when the loop runs to
its end the queue is still there and holds `R` followed by packets of `rest` in
their original order. -/
theorem flush_loop_order (w : world) (fuel : Nat) (rkey : String) :
    ∀ (n : Nat) (s : s2s_st) (handed rest R : List pkt_st) (s1 : s2s_st) (early : Bool)
      (h1 : List pkt_st),
      queued s rkey = rest ++ R → (xhash_get s.outq rkey).isSome = true → rest.length = n →
      flush_loop w fuel n s rkey handed = .ok (s1, early, h1) →
      ∃ k, k ≤ n ∧ h1 = handed ++ rest.take k ∧
        (early = false → k = n ∧ (xhash_get s1.outq rkey).isSome = true ∧
          ∃ R', queued s1 rkey = R ++ R' ∧ List.Sublist R' rest) := by
  intro n
  induction n with
  | zero =>
    intro s handed rest R s1 early h1 hq hsome hlen h
    simp only [flush_loop, Except.ok.injEq, Prod.mk.injEq] at h
    obtain ⟨hs, he, hh⟩ := h
    subst hs he hh
    have hrest : rest = [] := List.length_eq_zero.mp hlen
    subst hrest
    exact ⟨0, le_refl _, by simp, fun _ => ⟨rfl, hsome, [], by simpa using hq, List.Sublist.refl _⟩⟩
  | succ n ih =>
    intro s handed rest R s1 early h1 hq hsome hlen h
    cases rest with
    | nil => simp at hlen
    | cons p rest' =>
      simp only [List.length_cons, Nat.add_right_cancel_iff] at hlen
      cases hg : xhash_get s.outq rkey with
      | none => rw [hg] at hsome; simp at hsome
      | some q =>
        have hitems : q.items = p :: (rest' ++ R) := by
          rw [← queued_of_get hg, hq]; rfl
        unfold flush_loop at h
        simp only [hg, jqueue_pull, hitems] at h
        cases hop : out_packet w fuel
            { s with outq := xhash_replace s.outq rkey { q with items := rest' ++ R } } p with
        | error f => rw [hop] at h; simp at h
        | ok x =>
          obtain ⟨sb, ret⟩ := x
          rw [hop] at h
          simp only at h
          by_cases hret : ret = 0
          · subst hret
            simp only [ne_eq, not_true_eq_false, if_false] at h
            have hga : xhash_get
                ({ s with outq := xhash_replace s.outq rkey { q with items := rest' ++ R } } : s2s_st).outq
                rkey = some { q with items := rest' ++ R } := by
              simp only [xhash_get_replace_same, hg, Option.map_some']
            obtain ⟨hqd, hpres⟩ := out_packet_queued hop rkey
            have hsb : (xhash_get sb.outq rkey).isSome = true := hpres (by rw [hga]; rfl)
            rw [queued_of_get hga] at hqd
            rcases hqd with hqd | hqd
            · obtain ⟨k, hk, hh, hrest⟩ := ih sb (handed ++ [p]) rest' R s1 early h1 hqd hsb hlen h
              refine ⟨k + 1, by omega, by simp [hh], fun he => ?_⟩
              obtain ⟨hkn, hs1, R', hR', hsub⟩ := hrest he
              exact ⟨by omega, hs1, R', hR', List.Sublist.cons _ hsub⟩
            · have hqd' : queued sb rkey = rest' ++ (R ++ [p]) := by
                rw [hqd]; simp
              obtain ⟨k, hk, hh, hrest⟩ :=
                ih sb (handed ++ [p]) rest' (R ++ [p]) s1 early h1 hqd' hsb hlen h
              refine ⟨k + 1, by omega, by simp [hh], fun he => ?_⟩
              obtain ⟨hkn, hs1, R', hR', hsub⟩ := hrest he
              exact ⟨by omega, hs1, p :: R', by rw [hR']; simp, List.Sublist.cons₂ _ hsub⟩
          · simp only [ne_eq, hret, not_false_eq_true, if_true, Except.ok.injEq, Prod.mk.injEq] at h
            obtain ⟨_, he, hh⟩ := h
            subst he hh
            exact ⟨1, by omega, by simp, fun he => by simp at he⟩

/-! ## C6: the table of queues -/

theorem outq_ok_weaken {outq : xht (jqueue_st pkt_st)} (ex : Option String)
    (h : outq_ok none outq) : outq_ok ex outq := by
  intro k q hk
  exact ⟨(h k q hk).1, fun _ => (h k q hk).2 (by simp)⟩

theorem outq_ok_zap {ex : Option String} {outq : xht (jqueue_st pkt_st)} (r : String)
    (h : outq_ok ex outq) : outq_ok ex (xhash_zap outq r) := by
  intro k q hk
  by_cases hkr : k = r
  · subst hkr; rw [xhash_get_zap_same] at hk; simp at hk
  · rw [xhash_get_zap_other _ _ _ hkr] at hk
    exact h k q hk

theorem outq_ok_zap_ex {outq : xht (jqueue_st pkt_st)} (r : String)
    (h : outq_ok (some r) outq) : outq_ok none (xhash_zap outq r) := by
  intro k q hk
  by_cases hkr : k = r
  · subst hkr; rw [xhash_get_zap_same] at hk; simp at hk
  · rw [xhash_get_zap_other _ _ _ hkr] at hk
    exact ⟨(h k q hk).1, fun _ => (h k q hk).2 (by simpa using hkr)⟩

theorem outq_ok_push {ex : Option String} (s : s2s_st) (p : pkt_st) (h : outq_ok ex s.outq) :
    outq_ok ex (_out_packet_queue s p).outq := by
  intro k q hk
  by_cases hkr : k = s2s_route_key p.from_.domain p.to_.domain
  · subst hkr
    obtain ⟨q', hq1, hq2⟩ := queued_out_packet_queue s p
    rw [hq1] at hk
    simp only [Option.some.injEq] at hk
    subst hk
    refine ⟨?_, fun _ => by rw [hq2]; simp⟩
    intro x hx
    rw [hq2] at hx
    rcases List.mem_append.mp hx with hx | hx
    · unfold queued at hx
      cases hg : xhash_get s.outq (s2s_route_key p.from_.domain p.to_.domain) with
      | none => rw [hg] at hx; simp at hx
      | some q0 => rw [hg] at hx; exact (h _ q0 hg).1 x hx
    · simp only [List.mem_singleton] at hx
      rw [hx]
  · rw [out_packet_queue_other s p k hkr] at hk
    exact h k q hk

theorem outq_ok_pull {outq : xht (jqueue_st pkt_st)} (r : String) (q : jqueue_st pkt_st)
    (items : List pkt_st) (h : outq_ok (some r) outq) (hq : xhash_get outq r = some q)
    (hsub : ∀ p ∈ items, p ∈ q.items) :
    outq_ok (some r) (xhash_replace outq r { q with items := items }) := by
  intro k q' hk
  by_cases hkr : k = r
  · subst hkr
    rw [xhash_get_replace_same, hq] at hk
    simp only [Option.map_some', Option.some.injEq] at hk
    subst hk
    exact ⟨fun p hp => (h k q hq).1 p (hsub p hp), fun hne => absurd rfl hne⟩
  · rw [xhash_get_replace_other _ _ _ _ hkr] at hk
    exact h k q' hk

/-- `out_packet` keeps the table of queues well-formed. -/
theorem out_packet_outq_ok {w : world} {fuel : Nat} {s s2 : s2s_st} {p : pkt_st} {r : Int}
    {ex : Option String} (h : out_packet w fuel s p = .ok (s2, r)) (hok : outq_ok ex s.outq) :
    outq_ok ex s2.outq := by
  rcases out_packet_outq h with ⟨_, hq | hq⟩ | ⟨_, hq⟩
  · rw [hq]; exact hok
  · rw [hq]; exact outq_ok_push s p hok
  · rw [hq]; exact outq_ok_zap _ (outq_ok_push s p hok)

theorem out_bounce_route_queue_outq (s : s2s_st) (rkey : String) (err : err_t) :
    (out_bounce_route_queue s rkey err).1.outq = xhash_zap s.outq rkey ∨
    ((out_bounce_route_queue s rkey err).1.outq = s.outq ∧ xhash_get s.outq rkey = none) := by
  cases hq : xhash_get s.outq rkey with
  | none => right; unfold out_bounce_route_queue; simp [hq]
  | some q => left; rw [out_bounce_route_queue_some s rkey err q hq]

theorem out_bounce_route_queue_outq_ok (s : s2s_st) (rkey : String) (err : err_t)
    {ex : Option String} (hok : outq_ok ex s.outq) :
    outq_ok ex (out_bounce_route_queue s rkey err).1.outq := by
  rcases out_bounce_route_queue_outq s rkey err with h | ⟨h, _⟩
  · rw [h]; exact outq_ok_zap _ hok
  · rw [h]; exact hok

theorem flush_loop_outq_ok (w : world) (fuel : Nat) (rkey : String) :
    ∀ (n : Nat) (s : s2s_st) (handed : List pkt_st) (s1 : s2s_st) (early : Bool)
      (h1 : List pkt_st),
      outq_ok (some rkey) s.outq →
      flush_loop w fuel n s rkey handed = .ok (s1, early, h1) →
      outq_ok (some rkey) s1.outq ∧ (early = true → xhash_get s1.outq rkey = none) := by
  intro n
  induction n with
  | zero =>
    intro s handed s1 early h1 hok h
    simp only [flush_loop, Except.ok.injEq, Prod.mk.injEq] at h
    obtain ⟨hs, he, _⟩ := h
    subst hs he
    exact ⟨hok, fun h => by simp at h⟩
  | succ n ih =>
    intro s handed s1 early h1 hok h
    unfold flush_loop at h
    cases hg : xhash_get s.outq rkey with
    | none => rw [hg] at h; simp at h
    | some q =>
      rw [hg] at h
      simp only at h
      cases hit : q.items with
      | nil =>
        simp only [jqueue_pull, hit] at h
        exact ih s handed s1 early h1 hok h
      | cons p t =>
        simp only [jqueue_pull, hit] at h
        have hpk : s2s_route_key p.from_.domain p.to_.domain = rkey :=
          (hok rkey q hg).1 p (by rw [hit]; simp)
        have hok1 : outq_ok (some rkey)
            ({ s with outq := xhash_replace s.outq rkey { q with items := t } } : s2s_st).outq :=
          outq_ok_pull rkey q t hok hg (fun x hx => by rw [hit]; simp [hx])
        cases hop : out_packet w fuel
            { s with outq := xhash_replace s.outq rkey { q with items := t } } p with
        | error f => rw [hop] at h; simp at h
        | ok x =>
          obtain ⟨sb, ret⟩ := x
          rw [hop] at h
          simp only at h
          have hok2 := out_packet_outq_ok hop hok1
          by_cases hret : ret = 0
          · simp only [hret, ne_eq, not_true_eq_false, if_false] at h
            exact ih sb _ s1 early h1 hok2 h
          · simp only [ne_eq, hret, not_false_eq_true, if_true, Except.ok.injEq, Prod.mk.injEq] at h
            obtain ⟨hs, he, _⟩ := h
            subst hs he
            refine ⟨hok2, fun _ => ?_⟩
            rcases out_packet_outq hop with ⟨h0, _⟩ | ⟨_, hq⟩
            · exact absurd h0 hret
            · rw [hq, hpk]; exact xhash_get_zap_same _ _

theorem outq_ok_of_absent {outq : xht (jqueue_st pkt_st)} (r : String)
    (h : outq_ok (some r) outq) (hn : xhash_get outq r = none) : outq_ok none outq := by
  intro k q hk
  refine ⟨(h k q hk).1, fun _ => (h k q hk).2 ?_⟩
  intro hkr
  simp only [Option.some.injEq] at hkr
  subst hkr
  rw [hn] at hk; simp at hk

/-- `out_flush_route_queue` keeps the table of queues well-formed: it leaves no
empty queue behind. -/
theorem out_flush_route_queue_outq_ok {w : world} {fuel : Nat} {s s2 : s2s_st} {rkey : String}
    (h : out_flush_route_queue w fuel s rkey = .ok s2) (hok : outq_ok none s.outq) :
    outq_ok none s2.outq := by
  unfold out_flush_route_queue at h
  cases hg : xhash_get s.outq rkey with
  | none => rw [hg] at h; simp only [Except.ok.injEq] at h; rw [← h]; exact hok
  | some q =>
    rw [hg] at h
    simp only at h
    cases hl : flush_loop w fuel q.items.length s rkey [] with
    | error f => rw [hl] at h; simp at h
    | ok x =>
      obtain ⟨s1, early, h1⟩ := x
      rw [hl] at h
      obtain ⟨hok1, hearly⟩ := flush_loop_outq_ok w fuel rkey _ s [] s1 early h1
        (outq_ok_weaken _ hok) hl
      cases early with
      | true =>
        simp only [Except.ok.injEq] at h
        rw [← h]
        exact outq_ok_of_absent rkey hok1 (hearly rfl)
      | false =>
        simp only at h
        cases hg1 : xhash_get s1.outq rkey with
        | none => rw [hg1] at h; simp at h
        | some q1 =>
          rw [hg1] at h
          simp only at h
          by_cases hsz : jqueue_size q1 = 0
          · simp only [hsz, if_true, Except.ok.injEq] at h
            rw [← h]
            exact outq_ok_zap_ex rkey hok1
          · simp only [hsz, if_false, Except.ok.injEq] at h
            rw [← h]
            intro k q' hk
            refine ⟨(hok1 k q' hk).1, fun _ => ?_⟩
            by_cases hkr : k = rkey
            · subst hkr
              rw [hg1] at hk
              simp only [Option.some.injEq] at hk
              subst hk
              intro hnil
              apply hsz
              unfold jqueue_size
              rw [hnil]; rfl
            · exact (hok1 k q' hk).2 (by simpa using hkr)

theorem send_dialbacks_loop_outq (w : world) (out : Nat) :
    ∀ (l : List String) (s s1 : s2s_st), send_dialbacks_loop w out l s = .ok s1 → s1.outq = s.outq := by
  intro l
  induction l with
  | nil => intro s s1 h; simp only [send_dialbacks_loop, Except.ok.injEq] at h; rw [← h]
  | cons r t ih =>
    intro s s1 h
    unfold send_dialbacks_loop at h
    cases hd : _out_dialback w s out r with
    | error f => rw [hd] at h; simp at h
    | ok x =>
      obtain ⟨sa, k⟩ := x
      rw [hd] at h
      exact (ih sa s1 h).trans (out_dialback_outq hd)

theorem send_dialbacks_outq {w : world} {s s1 : s2s_st} {out : Nat}
    (h : send_dialbacks w s out = .ok s1) : s1.outq = s.outq := by
  unfold send_dialbacks at h
  split at h
  · simp at h
  · simp only at h
    have := send_dialbacks_loop_outq w out _ _ _ h
    exact this

theorem go_online_outq {w : world} {s s1 : s2s_st} {out : Nat} {o : conn_st}
    (h : go_online w s out o = .ok s1) : s1.outq = s.outq := by
  unfold go_online at h
  have := send_dialbacks_outq h
  exact this

theorem mark_bad_conn_outq {s s1 : s2s_st} {o : conn_st} (h : mark_bad_conn s o = .ok s1) :
    s1.outq = s.outq := by
  unfold mark_bad_conn at h
  split at h
  · split at h
    · simp at h
    · simp only [Except.ok.injEq] at h; rw [← h]; rfl
  · simp only [Except.ok.injEq] at h; rw [← h]

theorem out_verify_outq {w : world} {s s1 : s2s_st} {out : Nat} {nad : nad_st}
    (h : _out_verify w s out nad = .ok s1) : s1.outq = s.outq := by
  unfold _out_verify at h
  split at h
  · simp at h
  · split at h
    · simp only [Except.ok.injEq] at h; rw [← h]
    · split at h
      · simp only [Except.ok.injEq] at h; rw [← h]
      · split at h
        · simp only [Except.ok.injEq] at h; rw [← h]
        · split at h
          · simp only [Except.ok.injEq] at h; rw [← h]
          · simp only at h
            split at h
            · simp only [Except.ok.injEq] at h; rw [← h]; rfl
            · simp only [Except.ok.injEq] at h; rw [← h]; rfl

theorem out_result_outq_ok {w : world} {fuel : Nat} {s s1 : s2s_st} {out : Nat} {nad : nad_st}
    (h : _out_result w fuel s out nad = .ok s1) (hok : outq_ok none s.outq) :
    outq_ok none s1.outq := by
  unfold _out_result at h
  split at h
  · simp at h
  · split at h
    · simp only [Except.ok.injEq] at h; rw [← h]; exact hok
    · split at h
      · simp only [Except.ok.injEq] at h; rw [← h]; exact hok
      · simp only at h
        split at h
        · exact out_flush_route_queue_outq_ok h hok
        · simp only [Except.ok.injEq] at h
          rw [← h]
          exact out_bounce_route_queue_outq_ok _ _ _ hok

/-- The cases of the features block: not a features packet (nothing happens);
STARTTLS started; or the connection goes online and dialback is sent, after a
failed STARTTLS attempt or without one. -/
theorem sx_features_inv {w : world} {s s2 : s2s_st} {out : Nat} {o : conn_st} {nad : nad_st}
    {b : Bool} (h : sx_features w s out o nad = .ok (s2, b)) :
    (b = false ∧ s2 = s ∧ (o.res_version.isSome && is_features nad) = false) ∨
    (b = true ∧ s2 = sx_do s (sx_t.out out) "" sx_call.starttls) ∨
    (b = false ∧ is_features nad = true ∧
      (go_online w s out o = .ok s2 ∨
       go_online w (sx_do s (sx_t.out out) "" sx_call.starttls) out o = .ok s2)) := by
  unfold sx_features at h
  by_cases hf : (o.res_version.isSome && is_features nad) = true
  · simp only [hf, if_true] at h
    have hfe : is_features nad = true := by
      simp only [Bool.and_eq_true] at hf; exact hf.2
    by_cases ht : (s.sx_ssl && decide (o.ssf = 0) && offers_starttls nad) = true
    · simp only [ht, if_true] at h
      by_cases hs : w.starttls out = true
      · simp only [hs, if_true, Except.ok.injEq, Prod.mk.injEq] at h
        right; left; exact ⟨h.2.symm, h.1.symm⟩
      · simp only [hs] at h
        cases hg : go_online w (sx_do s (sx_t.out out) "" sx_call.starttls) out o with
        | error f => rw [hg] at h; simp at h
        | ok s3 =>
          rw [hg] at h
          simp only [Bool.false_eq_true, if_false, Except.ok.injEq, Prod.mk.injEq] at h
          right; right
          exact ⟨h.2.symm, hfe, Or.inr (by rw [← h.1])⟩
    · simp only [ht] at h
      cases hg : go_online w s out o with
      | error f => rw [hg] at h; simp at h
      | ok s3 =>
        rw [hg] at h
        simp only [Bool.false_eq_true, if_false, Except.ok.injEq, Prod.mk.injEq] at h
        right; right
        exact ⟨h.2.symm, hfe, Or.inl (by rw [← h.1])⟩
  · simp only [hf] at h
    simp only [Bool.false_eq_true, if_false, Except.ok.injEq, Prod.mk.injEq] at h
    left
    exact ⟨h.2.symm, h.1.symm, by simpa using hf⟩

/-- The cases of the `event_PACKET` handler, after the packet was counted and
the features block ran: it returned because STARTTLS started; the packet was
not a dialback packet, or neither result nor verify; it was handed to
`_out_result`; or it was handed to `_out_verify`. -/
theorem sx_packet_inv {w : world} {fuel : Nat} {s s3 : s2s_st} {out : Nat} {o : conn_st}
    {nad : nad_st} (h : sx_packet w fuel s out o nad = .ok s3) :
    ∃ s2 b, sx_features w (count_packet s out o) out
        { o with packet_count := o.packet_count + 1 } nad = .ok (s2, b) ∧
      (s3 = s2 ∨
       (b = false ∧ NAD_ENS_URI nad 0 = some uri_DIALBACK ∧ NAD_ENAME nad 0 = "result" ∧
          _out_result w fuel s2 out nad = .ok s3) ∨
       (b = false ∧ NAD_ENS_URI nad 0 = some uri_DIALBACK ∧ NAD_ENAME nad 0 = "verify" ∧
          _out_verify w s2 out nad = .ok s3)) := by
  unfold sx_packet at h
  cases hf : sx_features w (count_packet s out o) out
        { o with packet_count := o.packet_count + 1 } nad with
  | error f => rw [hf] at h; simp at h
  | ok x =>
    obtain ⟨s2, b⟩ := x
    rw [hf] at h
    refine ⟨s2, b, rfl, ?_⟩
    cases b with
    | true => simp only [Except.ok.injEq] at h; left; exact h.symm
    | false =>
      simp only at h
      by_cases hd : NAD_ENS_URI nad 0 = some uri_DIALBACK
      · simp only [hd, ne_eq, not_true_eq_false, if_false] at h
        by_cases hr : NAD_ENAME nad 0 = "result"
        · simp only [hr, if_true] at h
          right; left; exact ⟨rfl, hd, hr, h⟩
        · simp only [hr, if_false] at h
          by_cases hv : NAD_ENAME nad 0 = "verify"
          · simp only [hv, if_true] at h
            right; right; exact ⟨rfl, hd, hv, h⟩
          · simp only [hv, if_false, Except.ok.injEq] at h
            left; exact h.symm
      · simp only [ne_eq, hd, not_false_eq_true, if_true, Except.ok.injEq] at h
        left; exact h.symm

theorem sx_features_outq {w : world} {s s2 : s2s_st} {out : Nat} {o : conn_st} {nad : nad_st}
    {b : Bool} (h : sx_features w s out o nad = .ok (s2, b)) : s2.outq = s.outq := by
  rcases sx_features_inv h with ⟨_, h2, _⟩ | ⟨_, h2⟩ | ⟨_, _, h2 | h2⟩
  · rw [h2]
  · rw [h2]; rfl
  · exact go_online_outq h2
  · have := go_online_outq h2
    exact this

theorem sx_packet_outq_ok {w : world} {fuel : Nat} {s s1 : s2s_st} {out : Nat} {o : conn_st}
    {nad : nad_st} (h : sx_packet w fuel s out o nad = .ok s1) (hok : outq_ok none s.outq) :
    outq_ok none s1.outq := by
  obtain ⟨s2, b, hf, hcase⟩ := sx_packet_inv h
  have hq : s2.outq = s.outq := by
    have := sx_features_outq hf
    exact this
  have hok2 : outq_ok none s2.outq := by rw [hq]; exact hok
  rcases hcase with h3 | ⟨_, _, _, h3⟩ | ⟨_, _, _, h3⟩
  · rw [h3]; exact hok2
  · exact out_result_outq_ok h3 hok2
  · rw [out_verify_outq h3]; exact hok2

/-! ## The cases of the callbacks -/

theorem close_zap_dest_fold (keys : List String) :
    ∀ (acc : Except fault s2s_st) (s sb : s2s_st), acc = .ok s →
      keys.foldl close_zap_dest acc = .ok sb → sb = { s with out_dest := sb.out_dest } := by
  induction keys with
  | nil =>
    intro acc s sb hacc h
    simp only [List.foldl_nil] at h
    rw [hacc] at h
    simp only [Except.ok.injEq] at h
    rw [← h]
  | cons k t ih =>
    intro acc s sb hacc h
    simp only [List.foldl_cons] at h
    subst hacc
    unfold close_zap_dest at h
    simp only at h
    cases hsp : strchr_split k '/' with
    | none =>
      rw [hsp] at h
      simp only at h
      exfalso
      have : ∀ (l : List String) (f : fault), l.foldl close_zap_dest (.error f) ≠ .ok sb := by
        intro l
        induction l with
        | nil => intro f hh; simp at hh
        | cons a b ihh => intro f hh; simp only [List.foldl_cons, close_zap_dest] at hh; exact ihh f hh
      exact this t _ h
    | some x =>
      obtain ⟨a, c⟩ := x
      rw [hsp] at h
      simp only at h
      have := ih _ _ sb rfl h
      rw [this]

/-- The first half of the close action touches only the dead list, `out_host`
and `out_dest`. -/
theorem close_unregister_frame {s sb : s2s_st} {out : Nat} {o : conn_st}
    (h : close_unregister s out o = .ok sb) :
    sb = { s with dead := s.dead ++ [sx_t.out out], out_host := sb.out_host,
                  out_dest := sb.out_dest } := by
  unfold close_unregister at h
  simp only at h
  have := close_zap_dest_fold _ _ _ sb rfl h
  rw [this]

theorem out_mio_callback_inv {w : world} {fuel : Nat} {s s1 : s2s_st} {a : mio_action_t} {out : Nat}
    (h : _out_mio_callback w fuel s a out = .ok s1) :
    ∃ o, xhash_get s.conns out = some o ∧
      ((a ≠ mio_action_t.action_CLOSE ∧
          (s1 = s ∨ s1 = conn_store s out { o with last_activity := s.now } ∨
           s1 = sx_do (conn_store s out { o with last_activity := s.now }) (sx_t.out out) ""
                  sx_call.kill)) ∨
       (a = mio_action_t.action_CLOSE ∧ ∃ sb sc, close_unregister s out o = .ok sb ∧
          close_retry_loop w fuel (o.routes.map (fun e => e.1)) sb = .ok sc ∧
          s1 = { sc with dead_conn := sc.dead_conn ++ [out] })) := by
  unfold _out_mio_callback at h
  cases ho : xhash_get s.conns out with
  | none => rw [ho] at h; simp at h
  | some o =>
    rw [ho] at h
    refine ⟨o, rfl, ?_⟩
    cases a with
    | action_ACCEPT =>
      simp only [Except.ok.injEq] at h
      left; exact ⟨by simp, Or.inl h.symm⟩
    | action_READ n =>
      simp only at h
      left
      refine ⟨by simp, ?_⟩
      split at h
      · simp only [Except.ok.injEq] at h; right; right; exact h.symm
      · simp only [Except.ok.injEq] at h; right; left; exact h.symm
    | action_WRITE =>
      simp only [Except.ok.injEq] at h
      left; exact ⟨by simp, Or.inr (Or.inl h.symm)⟩
    | action_CLOSE =>
      simp only at h
      right
      refine ⟨rfl, ?_⟩
      cases hu : close_unregister s out o with
      | error f => rw [hu] at h; simp at h
      | ok sb =>
        rw [hu] at h
        simp only at h
        cases hl : close_retry_loop w fuel (o.routes.map (fun e => e.1)) sb with
        | error f => rw [hl] at h; simp at h
        | ok sc =>
          rw [hl] at h
          simp only [Except.ok.injEq] at h
          exact ⟨sb, sc, rfl, hl, h.symm⟩

theorem mio_close_inv {w : world} {fuel : Nat} {s s1 : s2s_st} {out : Nat}
    (h : mio_close w fuel s out = .ok s1) :
    s1 = s ∨ ∃ sa o1, _out_mio_callback w fuel s mio_action_t.action_CLOSE out = .ok sa ∧
      xhash_get sa.conns out = some o1 ∧ s1 = conn_store sa out { o1 with fd_closed := true } := by
  unfold mio_close at h
  cases ho : xhash_get s.conns out with
  | none => rw [ho] at h; simp at h
  | some o =>
    rw [ho] at h
    simp only at h
    split at h
    · simp only [Except.ok.injEq] at h; left; exact h.symm
    · cases hc : _out_mio_callback w fuel s mio_action_t.action_CLOSE out with
      | error f => rw [hc] at h; simp at h
      | ok sa =>
        rw [hc] at h
        simp only at h
        cases ho1 : xhash_get sa.conns out with
        | none => rw [ho1] at h; simp at h
        | some o1 =>
          rw [ho1] at h
          simp only [Except.ok.injEq] at h
          right; exact ⟨sa, o1, rfl, ho1, h.symm⟩

theorem out_sx_callback_inv {w : world} {fuel : Nat} {s s1 : s2s_st} {out : Nat} {e : sx_event_t}
    {r : Int} (h : _out_sx_callback w fuel s out e = .ok (s1, r)) :
    ∃ o, xhash_get s.conns out = some o ∧
      (s1 = s ∨
       (∃ s', (s' = s ∨ mark_bad_conn s o = .ok s') ∧
          s1 = sx_do s' (sx_t.out out) "" sx_call.kill) ∨
       (e = sx_event_t.event_STREAM ∧ o.online = false ∧ go_online w s out o = .ok s1) ∨
       (∃ nad, e = sx_event_t.event_PACKET nad ∧ sx_packet w fuel s out o nad = .ok s1) ∨
       (e = sx_event_t.event_CLOSED ∧ mio_close w fuel s out = .ok s1)) := by
  unfold _out_sx_callback at h
  cases ho : xhash_get s.conns out with
  | none => rw [ho] at h; simp at h
  | some o =>
    rw [ho] at h
    refine ⟨o, rfl, ?_⟩
    have hmb : ∀ (x : Except fault s2s_st),
        (x = .ok s ∨ x = mark_bad_conn s o) →
        (match x with
          | .error f => (.error f : Except fault (s2s_st × Int))
          | .ok s1' => .ok (sx_do s1' (sx_t.out out) "" sx_call.kill, -1)) = .ok (s1, r) →
        ∃ s', (s' = s ∨ mark_bad_conn s o = .ok s') ∧
          s1 = sx_do s' (sx_t.out out) "" sx_call.kill := by
      intro x hx hm
      cases x with
      | error f => simp at hm
      | ok s' =>
        simp only [Except.ok.injEq, Prod.mk.injEq] at hm
        refine ⟨s', ?_, hm.1.symm⟩
        rcases hx with hx | hx
        · left; simpa using hx
        · right; exact hx.symm
    cases e with
    | event_WANT_READ => simp only [Except.ok.injEq, Prod.mk.injEq] at h; left; exact h.1.symm
    | event_WANT_WRITE => simp only [Except.ok.injEq, Prod.mk.injEq] at h; left; exact h.1.symm
    | event_OPEN => simp only [Except.ok.injEq, Prod.mk.injEq] at h; left; exact h.1.symm
    | event_READ len wb =>
      simp only at h
      split at h
      · split at h
        · simp only [Except.ok.injEq, Prod.mk.injEq] at h; left; exact h.1.symm
        · right; left
          refine hmb _ ?_ h
          split
          · right; rfl
          · left; rfl
      · split at h
        · simp only [Except.ok.injEq, Prod.mk.injEq] at h
          right; left; exact ⟨s, Or.inl rfl, h.1.symm⟩
        · simp only [Except.ok.injEq, Prod.mk.injEq] at h; left; exact h.1.symm
    | event_WRITE len wb =>
      simp only at h
      split at h
      · simp only [Except.ok.injEq, Prod.mk.injEq] at h; left; exact h.1.symm
      · split at h
        · simp only [Except.ok.injEq, Prod.mk.injEq] at h; left; exact h.1.symm
        · right; left
          refine hmb _ ?_ h
          split
          · right; rfl
          · left; rfl
    | event_ERROR is_stream specific =>
      simp only at h
      right; left
      refine hmb _ ?_ h
      split
      · right; rfl
      · left; rfl
    | event_STREAM =>
      simp only at h
      split at h
      · split at h
        · cases hg : go_online w s out o with
          | error f => rw [hg] at h; simp at h
          | ok s2 =>
            rw [hg] at h
            simp only [Except.ok.injEq, Prod.mk.injEq] at h
            right; right; left
            rename_i hon _
            exact ⟨rfl, by simpa using hon, by rw [← h.1]⟩
        · simp only [Except.ok.injEq, Prod.mk.injEq] at h; left; exact h.1.symm
      · simp only [Except.ok.injEq, Prod.mk.injEq] at h; left; exact h.1.symm
    | event_PACKET nad =>
      simp only at h
      cases hp : sx_packet w fuel s out o nad with
      | error f => rw [hp] at h; simp at h
      | ok s2 =>
        rw [hp] at h
        simp only [Except.ok.injEq, Prod.mk.injEq] at h
        right; right; right; left
        exact ⟨nad, rfl, by rw [← h.1]; exact hp⟩
    | event_CLOSED =>
      simp only at h
      cases hp : mio_close w fuel s out with
      | error f => rw [hp] at h; simp at h
      | ok s2 =>
        rw [hp] at h
        simp only [Except.ok.injEq, Prod.mk.injEq] at h
        right; right; right; right
        exact ⟨rfl, by rw [← h.1]⟩

/-- The cases of one round of the retry loop of the close action. -/
theorem close_retry_route_inv {w : world} {fuel : Nat} {s s1 : s2s_st} {rkey : String}
    (h : close_retry_route w fuel s rkey = .ok s1) :
    (close_retries s rkey = false ∧
      s1 = (out_bounce_route_queue s rkey stanza_err_SERVICE_UNAVAILABLE).1) ∨
    (close_retries s rkey = true ∧ ∃ sa ret retry,
      out_route w fuel s rkey false = .ok (sa, ret, retry) ∧
      ((ret = 0 ∧ retry = none ∧ s1 = sa) ∨
       (ret = 0 ∧ (∃ c, retry = some c) ∧ out_flush_route_queue w fuel sa rkey = .ok s1) ∨
       (ret ≠ 0 ∧ s1 = (out_bounce_route_queue sa rkey stanza_err_SERVICE_UNAVAILABLE).1))) := by
  unfold close_retry_route at h
  unfold close_retries
  cases hq : close_retry_queue s rkey with
  | none =>
    rw [hq] at h
    simp only [Except.ok.injEq] at h
    left; exact ⟨rfl, h.symm⟩
  | some q =>
    rw [hq] at h
    simp only at h
    by_cases hsz : jqueue_size q > 0
    · simp only [hsz, if_true] at h
      right
      refine ⟨by simp [hsz], ?_⟩
      cases hr : out_route w fuel s rkey false with
      | error f => rw [hr] at h; simp at h
      | ok x =>
        obtain ⟨sa, ret, retry⟩ := x
        rw [hr] at h
        simp only at h
        refine ⟨sa, ret, retry, rfl, ?_⟩
        by_cases hret : ret = 0
        · simp only [hret, if_true] at h
          cases retry with
          | none =>
            simp only [Except.ok.injEq] at h
            left; exact ⟨hret, rfl, h.symm⟩
          | some c =>
            simp only at h
            right; left; exact ⟨hret, ⟨c, rfl⟩, h⟩
        · simp only [hret, if_false, Except.ok.injEq] at h
          right; right; exact ⟨hret, h.symm⟩
    · simp only [hsz, if_false, Except.ok.injEq] at h
      left; exact ⟨by simp [hsz], h.symm⟩

theorem close_retry_route_outq_ok {w : world} {fuel : Nat} {s s1 : s2s_st} {rkey : String}
    (h : close_retry_route w fuel s rkey = .ok s1) (hok : outq_ok none s.outq) :
    outq_ok none s1.outq := by
  rcases close_retry_route_inv h with ⟨_, hs⟩ | ⟨_, sa, ret, retry, hr, hc⟩
  · rw [hs]; exact out_bounce_route_queue_outq_ok _ _ _ hok
  · have hsa : outq_ok none sa.outq := by
      rw [static_outq (out_route_static fuel hr)]; exact hok
    rcases hc with ⟨_, _, hs⟩ | ⟨_, _, hf⟩ | ⟨_, hs⟩
    · rw [hs]; exact hsa
    · exact out_flush_route_queue_outq_ok hf hsa
    · rw [hs]; exact out_bounce_route_queue_outq_ok _ _ _ hsa

theorem close_retry_loop_outq_ok (w : world) (fuel : Nat) :
    ∀ (l : List String) (s s1 : s2s_st), close_retry_loop w fuel l s = .ok s1 →
      outq_ok none s.outq → outq_ok none s1.outq := by
  intro l
  induction l with
  | nil => intro s s1 h hok; simp only [close_retry_loop, Except.ok.injEq] at h; rw [← h]; exact hok
  | cons r t ih =>
    intro s s1 h hok
    unfold close_retry_loop at h
    cases hr : close_retry_route w fuel s r with
    | error f => rw [hr] at h; simp at h
    | ok sa =>
      rw [hr] at h
      exact ih sa s1 h (close_retry_route_outq_ok hr hok)

theorem out_mio_callback_outq_ok {w : world} {fuel : Nat} {s s1 : s2s_st} {a : mio_action_t}
    {out : Nat} (h : _out_mio_callback w fuel s a out = .ok s1) (hok : outq_ok none s.outq) :
    outq_ok none s1.outq := by
  obtain ⟨o, ho, hc⟩ := out_mio_callback_inv h
  rcases hc with ⟨_, hs | hs | hs⟩ | ⟨_, sb, sc, hu, hl, hs⟩
  · rw [hs]; exact hok
  · rw [hs]; exact hok
  · rw [hs]; exact hok
  · have hsb : outq_ok none sb.outq := by
      rw [close_unregister_frame hu]; exact hok
    rw [hs]
    have := close_retry_loop_outq_ok w fuel _ _ _ hl hsb
    exact this

theorem mio_close_outq_ok {w : world} {fuel : Nat} {s s1 : s2s_st} {out : Nat}
    (h : mio_close w fuel s out = .ok s1) (hok : outq_ok none s.outq) : outq_ok none s1.outq := by
  rcases mio_close_inv h with hs | ⟨sa, o1, hc, _, hs⟩
  · rw [hs]; exact hok
  · rw [hs]
    have := out_mio_callback_outq_ok hc hok
    exact this

theorem out_sx_callback_outq_ok {w : world} {fuel : Nat} {s s1 : s2s_st} {out : Nat}
    {e : sx_event_t} {r : Int} (h : _out_sx_callback w fuel s out e = .ok (s1, r))
    (hok : outq_ok none s.outq) : outq_ok none s1.outq := by
  obtain ⟨o, ho, hc⟩ := out_sx_callback_inv h
  rcases hc with hs | ⟨s', hs', hs⟩ | ⟨_, _, hg⟩ | ⟨nad, _, hp⟩ | ⟨_, hm⟩
  · rw [hs]; exact hok
  · rw [hs]
    rcases hs' with hs' | hs'
    · rw [hs']; exact hok
    · have := mark_bad_conn_outq hs'
      show outq_ok none s'.outq
      rw [this]; exact hok
  · rw [go_online_outq hg]; exact hok
  · exact sx_packet_outq_ok hp hok
  · exact mio_close_outq_ok hm hok

theorem out_bounce_domain_queues_outq_ok (s : s2s_st) (domain : String) (err : err_t)
    (hok : outq_ok none s.outq) : outq_ok none (out_bounce_domain_queues s domain err).1.outq := by
  unfold out_bounce_domain_queues
  generalize (s.outq.map (fun e => e.1)) = keys
  have : ∀ (keys : List String) (acc : s2s_st × Int), outq_ok none acc.1.outq →
      outq_ok none (keys.foldl
        (fun acc rkey =>
          if s2s_route_key_match domain rkey then
            ((out_bounce_route_queue acc.1 rkey err).1, acc.2 + (out_bounce_route_queue acc.1 rkey err).2)
          else acc) acc).1.outq := by
    intro keys
    induction keys with
    | nil => intro acc h; exact h
    | cons k t ih =>
      intro acc h
      simp only [List.foldl_cons]
      apply ih
      split
      · exact out_bounce_route_queue_outq_ok _ _ _ h
      · exact h
  exact this keys (s, 0) hok

theorem flush_domain_loop_outq_ok (w : world) (fuel : Nat) (domain : String) :
    ∀ (l : List String) (s s1 : s2s_st), flush_domain_loop w fuel domain l s = .ok s1 →
      outq_ok none s.outq → outq_ok none s1.outq := by
  intro l
  induction l with
  | nil => intro s s1 h hok; simp only [flush_domain_loop, Except.ok.injEq] at h; rw [← h]; exact hok
  | cons r t ih =>
    intro s s1 h hok
    unfold flush_domain_loop at h
    split at h
    · simp at h
    · split at h
      · cases hf : out_flush_route_queue w fuel s r with
        | error f => rw [hf] at h; simp at h
        | ok sa =>
          rw [hf] at h
          exact ih sa s1 h (out_flush_route_queue_outq_ok hf hok)
      · exact ih s s1 h hok

theorem out_resolve_outq_ok {w : world} {fuel : Nat} {s s1 : s2s_st} {domain : String}
    {results : xht dnsres_st} {expiry : Int}
    (h : out_resolve w fuel s domain results expiry = .ok s1) (hok : outq_ok none s.outq) :
    outq_ok none s1.outq := by
  unfold out_resolve at h
  split at h
  · simp only [Except.ok.injEq] at h
    rw [← h]
    apply out_bounce_domain_queues_outq_ok
    split
    · exact hok
    · exact hok
  · split at h
    · simp only [Except.ok.injEq] at h; rw [← h]; exact hok
    · simp only at h
      split at h
      · simp at h
      · rename_i s2 hf
        have h2 : outq_ok none s2.outq := by
          unfold out_flush_domain_queues at hf
          exact flush_domain_loop_outq_ok w fuel domain _ _ _ hf hok
        split at h
        · simp at h
        · split at h
          · simp only [Except.ok.injEq] at h; rw [← h]; exact h2
          · simp only [Except.ok.injEq] at h; rw [← h]; exact h2

/-- Every top-level operation keeps the table of queues well-formed. -/
theorem step_outq_ok {w : world} {fuel : Nat} {s s1 : s2s_st} {o : op_t}
    (h : step w fuel s o = .ok s1) (hok : outq_ok none s.outq) : outq_ok none s1.outq := by
  cases o with
  | packet pkt =>
    simp only [step] at h
    cases hp : out_packet w fuel s pkt with
    | error f => rw [hp] at h; simp at h
    | ok x =>
      obtain ⟨s2, r⟩ := x
      rw [hp] at h
      simp only [Except.ok.injEq] at h
      rw [← h]
      exact out_packet_outq_ok hp hok
  | flush rkey => simp only [step] at h; exact out_flush_route_queue_outq_ok h hok
  | bounce rkey err =>
    simp only [step, Except.ok.injEq] at h
    rw [← h]; exact out_bounce_route_queue_outq_ok _ _ _ hok
  | resolve domain results expiry => simp only [step] at h; exact out_resolve_outq_ok h hok
  | sx out e =>
    simp only [step] at h
    cases hp : _out_sx_callback w fuel s out e with
    | error f => rw [hp] at h; simp at h
    | ok x =>
      obtain ⟨s2, r⟩ := x
      rw [hp] at h
      simp only [Except.ok.injEq] at h
      rw [← h]
      exact out_sx_callback_outq_ok hp hok
  | mio out a =>
    cases a with
    | action_CLOSE => simp only [step] at h; exact mio_close_outq_ok h hok
    | action_ACCEPT => simp only [step] at h; exact out_mio_callback_outq_ok h hok
    | action_READ n => simp only [step] at h; exact out_mio_callback_outq_ok h hok
    | action_WRITE => simp only [step] at h; exact out_mio_callback_outq_ok h hok
  | stream_header out id rv ssf =>
    simp only [step] at h
    split at h
    · simp at h
    · simp only [Except.ok.injEq] at h; rw [← h]; exact hok
  | tick dt =>
    simp only [step, Except.ok.injEq] at h
    rw [← h]; exact hok

theorem reachable_outq_ok {w : world} {ok : s2s_st → op_t → Prop} {s : s2s_st}
    (h : reachable_by w ok s) : outq_ok none s.outq := by
  induction h with
  | start cfg =>
    intro k q hk
    simp [s2s_start, xhash_get] at hk
  | step s s1 fuel o _ _ hstep ih => exact step_outq_ok hstep ih

/-- C6. In every state that the engine reaches by its top-level operations
(`out_packet`, `out_flush_route_queue`, `out_bounce_route_queue`, `out_resolve`,
the stream and reactor callbacks including connection close), the table `outq`
has an entry for a route if and only if at least one packet is pending for that
route; and every pending packet sits in the queue of its own route. -/
theorem C6_outq_entry_iff_pending (w : world) (s : s2s_st) (h : reachable w s) (k : String) :
    ((xhash_get s.outq k).isSome = true ↔ queued s k ≠ []) ∧
    (∀ p ∈ queued s k, s2s_route_key p.from_.domain p.to_.domain = k) := by
  have hok := reachable_outq_ok h
  unfold queued
  cases hg : xhash_get s.outq k with
  | none => simp
  | some q =>
    have := hok k q hg
    exact ⟨by simpa using this.2 (by simp), this.1⟩

/-! ## C8: answers to our auth requests -/

theorem conn_state_congr {o o1 : conn_st} (h : o1.states = o.states) (r : String) :
    conn_state o1 r = conn_state o r := by
  unfold conn_state; rw [h]

theorem route_valid_add_route {s : s2s_st} {out : Nat} {rkey : String} (c : Nat) (o : conn_st)
    (route : String) (reuse : Bool) (ho : xhash_get s.conns c = some o)
    (h : route_valid s out rkey) (conns1 : List (Nat × conn_st))
    (hc : conns1 = add_route s.conns c o route reuse) (s1 : s2s_st)
    (hs1 : s1.conns = conns1) (hn : s1.next_conn = s.next_conn) : route_valid s1 out rkey := by
  obtain ⟨hlt, o0, ho0, hv⟩ := h
  refine ⟨by rw [hn]; exact hlt, ?_⟩
  rw [hs1, hc]
  by_cases hco : out = c
  · subst hco
    obtain ⟨o1, h1, _, hst, _⟩ := add_route_get_same route reuse ho
    rw [ho] at ho0
    simp only [Option.some.injEq] at ho0
    subst ho0
    exact ⟨o1, h1, by rw [conn_state_congr hst]; exact hv⟩
  · rw [add_route_get_other route reuse hco]
    exact ⟨o0, ho0, hv⟩

theorem out_route_try_route_valid {w : world} {s : s2s_st} {route : String} {ab : Bool}
    {r : route_res} {out : Nat} {rkey : String}
    (h : out_route_try w s route ab = .ok r) (hv : route_valid s out rkey) :
    (∀ s1 ret o, r = route_res.done s1 ret o → route_valid s1 out rkey) ∧
    (∀ s1, r = route_res.retry s1 → route_valid s1 out rkey) := by
  obtain ⟨rfrom, dkey, _, hcase⟩ := out_route_try_inv h
  rcases hcase with ⟨c, o, _, ho, hr⟩ | ⟨_, dc, nr, ret, hr⟩ | ⟨_, dc, nr, c, o, ip, port, _, _, ho, hr⟩ |
      ⟨_, dc, nr, ip, port, hr⟩
  · subst hr
    refine ⟨?_, by simp⟩
    intro s1 ret o' he
    simp only [route_res.done.injEq] at he
    rw [← he.1]
    exact route_valid_add_route c o route false ho hv _ rfl _ rfl rfl
  · subst hr
    refine ⟨?_, by simp⟩
    intro s1 ret o' he
    simp only [route_res.done.injEq] at he
    rw [← he.1]
    exact hv
  · subst hr
    refine ⟨?_, by simp⟩
    intro s1 ret o' he
    simp only [route_res.done.injEq] at he
    rw [← he.1]
    exact route_valid_add_route c o route true ho hv _ rfl _ rfl rfl
  · subst hr
    obtain ⟨hlt, o0, ho0, hst⟩ := hv
    have hne : out ≠ s.next_conn := Nat.ne_of_lt hlt
    unfold out_route_connect
    split
    · refine ⟨?_, by simp⟩
      intro s1 ret o' he
      simp only [route_res.done.injEq] at he
      rw [← he.1]
      refine ⟨?_, o0, ?_, hst⟩
      · show out < s.next_conn + 1
        omega
      · show xhash_get (xhash_put s.conns s.next_conn _) out = some o0
        rw [xhash_get_put_other _ _ _ _ hne]; exact ho0
    · refine ⟨by simp, ?_⟩
      intro s1 he
      simp only [route_res.retry.injEq] at he
      rw [← he]
      refine ⟨?_, o0, ?_, hst⟩
      · show out < s.next_conn + 1
        omega
      · show xhash_get (xhash_zap (xhash_put s.conns s.next_conn _) s.next_conn) out = some o0
        rw [xhash_get_zap_other _ _ _ hne, xhash_get_put_other _ _ _ _ hne]; exact ho0

theorem out_route_route_valid {w : world} {out : Nat} {rkey : String} :
    ∀ (fuel : Nat) {s s1 : s2s_st} {route : String} {ab : Bool} {ret : Int} {o : Option Nat},
    out_route w fuel s route ab = .ok (s1, ret, o) → route_valid s out rkey →
    route_valid s1 out rkey
  | 0, _, _, _, _, _, _, h, _ => by simp [out_route] at h
  | fuel + 1, s, s1, route, ab, ret, o, h, hv => by
    unfold out_route at h
    split at h
    · simp at h
    · rename_i s2 ret2 out2 htry
      simp only [Except.ok.injEq, Prod.mk.injEq] at h
      obtain ⟨h1, h2, h3⟩ := h
      subst h1 h2 h3
      exact (out_route_try_route_valid htry hv).1 _ _ _ rfl
    · rename_i s2 htry
      exact out_route_route_valid fuel h ((out_route_try_route_valid htry hv).2 _ rfl)

/-- Bouncing touches only the trace and the table of queues. -/
theorem out_bounce_route_queue_frame (s : s2s_st) (rkey : String) (err : err_t) :
    (out_bounce_route_queue s rkey err).1 =
      { s with sx_log := (out_bounce_route_queue s rkey err).1.sx_log,
               outq := (out_bounce_route_queue s rkey err).1.outq } := by
  cases hq : xhash_get s.outq rkey with
  | none => unfold out_bounce_route_queue; simp [hq]
  | some q => rw [out_bounce_route_queue_some s rkey err q hq]

theorem route_valid_of_conns {s s1 : s2s_st} {out : Nat} {rkey : String}
    (hc : s1.conns = s.conns) (hn : s1.next_conn = s.next_conn) (h : route_valid s out rkey) :
    route_valid s1 out rkey := by
  unfold route_valid at *
  rw [hc, hn]; exact h

theorem route_valid_bounce {s : s2s_st} {out : Nat} {rkey : String} (r : String) (err : err_t)
    (h : route_valid s out rkey) : route_valid (out_bounce_route_queue s r err).1 out rkey := by
  rw [out_bounce_route_queue_frame]
  exact route_valid_of_conns rfl rfl h

theorem route_valid_store {s : s2s_st} {out : Nat} {rkey : String} (c : Nat) (o o1 : conn_st)
    (ho : xhash_get s.conns c = some o) (hst : conn_state o1 rkey = conn_state o rkey)
    (s1 : s2s_st) (hc : s1.conns = xhash_put s.conns c o1) (hn : s1.next_conn = s.next_conn)
    (h : route_valid s out rkey) : route_valid s1 out rkey := by
  obtain ⟨hlt, o0, ho0, hv⟩ := h
  refine ⟨by rw [hn]; exact hlt, ?_⟩
  rw [hc]
  by_cases hco : out = c
  · subst hco
    rw [ho] at ho0
    simp only [Option.some.injEq] at ho0
    subst ho0
    exact ⟨o1, xhash_get_put_same _ _ _, by rw [hst]; exact hv⟩
  · rw [xhash_get_put_other _ _ _ _ hco]
    exact ⟨o0, ho0, hv⟩

/-- `out_packet` never takes the VALID state of a route away. -/
theorem out_packet_route_valid {w : world} {fuel : Nat} {s s2 : s2s_st} {p : pkt_st} {r : Int}
    {out : Nat} {rkey : String}
    (h : out_packet w fuel s p = .ok (s2, r)) (hv : route_valid s out rkey) :
    route_valid s2 out rkey := by
  obtain ⟨s1, ret, o', hr, hcase⟩ := out_packet_inv h
  have hv1 := out_route_route_valid fuel hr hv
  rcases hcase with ⟨_, _, _, hs2⟩ | ⟨_, _, _, hs2⟩ | ⟨c, o, _, ho, _, hc⟩
  · rw [hs2]; exact route_valid_of_conns rfl rfl hv1
  · rw [hs2]; exact route_valid_bounce _ _ (route_valid_of_conns rfl rfl hv1)
  · rcases hc with ⟨_, hs2⟩ | ⟨_, _, o1, _, hst, _, hs2⟩ | ⟨_, _, _, hs2⟩ | ⟨_, _, hnone, hd⟩
    · rw [hs2]; exact route_valid_of_conns rfl rfl hv1
    · rw [hs2]
      exact route_valid_store c o o1 ho (conn_state_congr hst _) _ rfl rfl hv1
    · rw [hs2]; exact route_valid_of_conns rfl rfl hv1
    · obtain ⟨i, hi⟩ := route_key_has_slash p.from_.domain p.to_.domain
      have ho2 : xhash_get (_out_packet_queue s1 p).conns c = some o := ho
      rw [out_dialback_ok w _ c o _ i ho2 hi] at hd
      simp only [Except.ok.injEq, Prod.mk.injEq, and_true] at hd
      rw [← hd]
      by_cases hco : out = c
      · subst hco
        have hne : rkey ≠ s2s_route_key p.from_.domain p.to_.domain := by
          intro he
          obtain ⟨_, o0, ho0, hv0⟩ := hv1
          rw [ho] at ho0
          simp only [Option.some.injEq] at ho0
          subst ho0
          rw [he, hnone] at hv0
          simp at hv0
        refine route_valid_store out o _ ho ?_ _ rfl rfl hv1
        unfold conn_state
        simp only
        rw [xhash_get_put_other _ _ _ _ hne]
      · obtain ⟨hlt, o0, ho0, hv0⟩ := hv1
        refine ⟨hlt, o0, ?_, hv0⟩
        show xhash_get (xhash_put s1.conns c _) out = some o0
        rw [xhash_get_put_other _ _ _ _ hco]; exact ho0

theorem flush_loop_route_valid (w : world) (fuel : Nat) (rkey : String) (out : Nat) (r : String) :
    ∀ (n : Nat) (s : s2s_st) (handed : List pkt_st) (s1 : s2s_st) (early : Bool)
      (h1 : List pkt_st),
      route_valid s out r →
      flush_loop w fuel n s rkey handed = .ok (s1, early, h1) → route_valid s1 out r := by
  intro n
  induction n with
  | zero =>
    intro s handed s1 early h1 hv h
    simp only [flush_loop, Except.ok.injEq, Prod.mk.injEq] at h
    rw [← h.1]; exact hv
  | succ n ih =>
    intro s handed s1 early h1 hv h
    unfold flush_loop at h
    cases hg : xhash_get s.outq rkey with
    | none => rw [hg] at h; simp at h
    | some q =>
      rw [hg] at h
      simp only at h
      cases hit : q.items with
      | nil =>
        simp only [jqueue_pull, hit] at h
        exact ih s handed s1 early h1 hv h
      | cons p t =>
        simp only [jqueue_pull, hit] at h
        cases hop : out_packet w fuel
            { s with outq := xhash_replace s.outq rkey { q with items := t } } p with
        | error f => rw [hop] at h; simp at h
        | ok x =>
          obtain ⟨sb, ret⟩ := x
          rw [hop] at h
          simp only at h
          have hvb : route_valid sb out r :=
            out_packet_route_valid hop (route_valid_of_conns rfl rfl hv)
          by_cases hret : ret = 0
          · simp only [hret, ne_eq, not_true_eq_false, if_false] at h
            exact ih sb _ s1 early h1 hvb h
          · simp only [ne_eq, hret, not_false_eq_true, if_true, Except.ok.injEq, Prod.mk.injEq] at h
            rw [← h.1]; exact hvb

theorem out_flush_route_queue_route_valid {w : world} {fuel : Nat} {s s2 : s2s_st} {rkey : String}
    {out : Nat} {r : String}
    (h : out_flush_route_queue w fuel s rkey = .ok s2) (hv : route_valid s out r) :
    route_valid s2 out r := by
  unfold out_flush_route_queue at h
  cases hg : xhash_get s.outq rkey with
  | none => rw [hg] at h; simp only [Except.ok.injEq] at h; rw [← h]; exact hv
  | some q =>
    rw [hg] at h
    simp only at h
    cases hl : flush_loop w fuel q.items.length s rkey [] with
    | error f => rw [hl] at h; simp at h
    | ok x =>
      obtain ⟨s1, early, h1⟩ := x
      rw [hl] at h
      have hv1 := flush_loop_route_valid w fuel rkey out r _ s [] s1 early h1 hv hl
      cases early with
      | true => simp only [Except.ok.injEq] at h; rw [← h]; exact hv1
      | false =>
        simp only at h
        split at h
        · simp at h
        · split at h
          · simp only [Except.ok.injEq] at h; rw [← h]; exact route_valid_of_conns rfl rfl hv1
          · simp only [Except.ok.injEq] at h; rw [← h]; exact hv1

theorem xhash_zap_absent {κ α : Type} [DecidableEq κ] (h : List (κ × α)) (k : κ)
    (hk : xhash_get h k = none) : xhash_zap h k = h := by
  induction h with
  | nil => rfl
  | cons e t ih =>
    obtain ⟨k0, v0⟩ := e
    by_cases hek : k0 = k
    · simp [xhash_get, hek] at hk
    · simp only [xhash_get, hek, if_false] at hk
      simp [xhash_zap, hek, ih hk]

/-- Bouncing the queue of a route, in one equation: the packets queued for the
route that can be bounced go to the router as error stanzas, in queue order, and
the route has no queue afterwards. -/
theorem out_bounce_route_queue_eq (s : s2s_st) (rkey : String) (err : err_t) :
    (out_bounce_route_queue s rkey err).1 =
      { s with sx_log := s.sx_log ++ bounce_recs rkey err (queued s rkey),
               outq := xhash_zap s.outq rkey } := by
  cases hq : xhash_get s.outq rkey with
  | none =>
    unfold out_bounce_route_queue queued
    simp [hq, bounce_recs, xhash_zap_absent _ _ hq]
  | some q =>
    rw [out_bounce_route_queue_some s rkey err q hq, queued_of_get hq]

/-- C8. For a `<db:result>` received on an outgoing connection whose `from` and
`to` attributes parse as JIDs, with route key "to-domain/from-domain": if the
packet carries `type="valid"`, `_out_result` sets the route to VALID on the
connection and flushes the queue of the route, and the route is still VALID when
it returns; for every other packet (another type or none) the connection table
is left as it was (the state is not set), an invalid-id stream error and the
closing of the stream are recorded on the connection, the queue of the route is
bounced to the router with service-unavailable, and no queue remains. -/
theorem C8_out_result_valid_or_bounce (w : world) (fuel : Nat) (s : s2s_st) (out : Nat)
    (o : conn_st) (nad : nad_st) (from_ to_ : jid_st)
    (ho : xhash_get s.conns out = some o) (hlt : out < s.next_conn)
    (hf : (nad_find_attr nad 0 "from" none).bind w.jid_new = some from_)
    (ht : (nad_find_attr nad 0 "to" none).bind w.jid_new = some to_) :
    ((nad_find_attr nad 0 "type" (some "valid")).isSome = true →
      _out_result w fuel s out nad =
        out_flush_route_queue w fuel
          (conn_store s out
            { o with states := xhash_put o.states (s2s_route_key to_.domain from_.domain) conn_VALID })
          (s2s_route_key to_.domain from_.domain) ∧
      ∀ s1, _out_result w fuel s out nad = .ok s1 →
        route_valid s1 out (s2s_route_key to_.domain from_.domain)) ∧
    ((nad_find_attr nad 0 "type" (some "valid")).isSome = false →
      ∃ s1, _out_result w fuel s out nad = .ok s1 ∧ s1.conns = s.conns ∧
        s1.sx_log = s.sx_log ++
          [{ s := sx_t.out out, rkey := s2s_route_key to_.domain from_.domain,
             call := sx_call.error stream_err_INVALID_ID "dialback negotiation failed" },
           { s := sx_t.out out, rkey := s2s_route_key to_.domain from_.domain,
             call := sx_call.close }] ++
          bounce_recs (s2s_route_key to_.domain from_.domain) stanza_err_SERVICE_UNAVAILABLE
            (queued s (s2s_route_key to_.domain from_.domain)) ∧
        xhash_get s1.outq (s2s_route_key to_.domain from_.domain) = none) := by
  constructor
  · intro hv
    have heq : _out_result w fuel s out nad =
        out_flush_route_queue w fuel
          (conn_store s out
            { o with states := xhash_put o.states (s2s_route_key to_.domain from_.domain) conn_VALID })
          (s2s_route_key to_.domain from_.domain) := by
      unfold _out_result
      simp only [ho, hf, ht, hv, if_true]
    refine ⟨heq, fun s1 h1 => ?_⟩
    rw [heq] at h1
    refine out_flush_route_queue_route_valid h1 ⟨hlt, _, xhash_get_put_same _ _ _, ?_⟩
    unfold conn_state
    simp only [xhash_get_put_same]
  · intro hv
    refine ⟨(out_bounce_route_queue
        (sx_do (sx_do s (sx_t.out out) (s2s_route_key to_.domain from_.domain)
            (sx_call.error stream_err_INVALID_ID "dialback negotiation failed"))
          (sx_t.out out) (s2s_route_key to_.domain from_.domain) sx_call.close)
        (s2s_route_key to_.domain from_.domain) stanza_err_SERVICE_UNAVAILABLE).1, ?_, ?_, ?_, ?_⟩
    · unfold _out_result
      simp only [ho, hf, ht, hv, Bool.false_eq_true, if_false]
    · rw [out_bounce_route_queue_eq]; rfl
    · rw [out_bounce_route_queue_eq]
      simp [sx_do, queued]
    · rw [out_bounce_route_queue_eq]
      exact xhash_get_zap_same _ _

/-! ## C9: verify answers -/

theorem db_verify_reply_type (a b : String) (v : Bool) :
    (nad_find_attr (db_verify_reply a b v) 0 "type" (some "valid")).isSome = v := by
  cases v <;> simp [db_verify_reply, nad_find_attr]

/-- C9 (amended). For a `<db:verify>` received on an outgoing connection whose
`from` and `to` attributes parse as JIDs and whose `id` attribute names an
existing incoming connection: `_out_verify` decrements `out->verify` by exactly
one and first writes, on that incoming connection, a `<db:result>` from the
to-domain to the from-domain whose type is "valid" if and only if the received
type is "valid".  Conversely `out_packet` increments `verify` by exactly one
when it writes a dialback packet named `verify` on an online connection. -/
theorem C9_out_verify_counts_and_replies (w : world) (s : s2s_st) (out : Nat) (o : conn_st)
    (nad : nad_st) (from_ to_ : jid_st) (id : String) (i : conn_st)
    (ho : xhash_get s.conns out = some o)
    (hf : (nad_find_attr nad 0 "from" none).bind w.jid_new = some from_)
    (ht : (nad_find_attr nad 0 "to" none).bind w.jid_new = some to_)
    (hid : nad_find_attr nad 0 "id" none = some id)
    (hin : xhash_get s.inc id = some i) :
    (∃ s1 o1 rest reply, _out_verify w s out nad = .ok s1 ∧
      xhash_get s1.conns out = some o1 ∧ o1.verify = o.verify - 1 ∧
      s1.sx_log = s.sx_log ++
        [{ s := sx_t.inc id, rkey := s2s_route_key to_.domain from_.domain,
           call := sx_call.nad_write reply }] ++ rest ∧
      reply = db_verify_reply from_.domain to_.domain
                (nad_find_attr nad 0 "type" (some "valid")).isSome ∧
      (nad_find_attr reply 0 "type" (some "valid")).isSome =
        (nad_find_attr nad 0 "type" (some "valid")).isSome ∧
      nad_find_attr reply 0 "to" none = some from_.domain ∧
      nad_find_attr reply 0 "from" none = some to_.domain) ∧
    (∀ (fuel : Nat) (sa sb : s2s_st) (ret : Int) (c : Nat) (oc : conn_st) (p : pkt_st),
      out_route w fuel sa (s2s_route_key p.from_.domain p.to_.domain) true = .ok (sb, ret, some c) →
      xhash_get sb.conns c = some oc → oc.online = true → p.db = true →
      NAD_ENAME p.nad 0 = "verify" →
      ∃ s2 o2, out_packet w fuel sa p = .ok (s2, 0) ∧ xhash_get s2.conns c = some o2 ∧
        o2.verify = oc.verify + 1) := by
  constructor
  · by_cases hv : (nad_find_attr nad 0 "type" (some "valid")).isSome = true
    · refine ⟨sx_do (conn_store
          { s with
            inc := xhash_replace s.inc id
                     { i with
                       states := xhash_put i.states (s2s_route_key to_.domain from_.domain)
                                   conn_VALID } }
          out { o with verify := o.verify - 1 })
          (sx_t.inc id) (s2s_route_key to_.domain from_.domain)
          (sx_call.nad_write (db_verify_reply from_.domain to_.domain true)),
        { o with verify := o.verify - 1 }, [], _, ?_, xhash_get_put_same _ _ _, rfl, ?_, rfl,
        db_verify_reply_type _ _ _, ?_, ?_⟩
      · unfold _out_verify
        simp only [ho, hf, ht, hid, hin, hv, Bool.not_true, Bool.false_eq_true, if_false, if_true]
      · simp [sx_do, conn_store, hv]
      · simp [db_verify_reply, nad_find_attr]
      · simp [db_verify_reply, nad_find_attr]
    · have hv' : (nad_find_attr nad 0 "type" (some "valid")).isSome = false := by
        simpa using hv
      refine ⟨sx_do (sx_do (sx_do (conn_store { s with inc := xhash_replace s.inc id i }
          out { o with verify := o.verify - 1 })
          (sx_t.inc id) (s2s_route_key to_.domain from_.domain)
          (sx_call.nad_write (db_verify_reply from_.domain to_.domain false)))
          (sx_t.inc id) (s2s_route_key to_.domain from_.domain)
          (sx_call.error stream_err_INVALID_ID "dialback negotiation failed"))
          (sx_t.inc id) (s2s_route_key to_.domain from_.domain) sx_call.close,
        { o with verify := o.verify - 1 },
        [{ s := sx_t.inc id, rkey := s2s_route_key to_.domain from_.domain,
           call := sx_call.error stream_err_INVALID_ID "dialback negotiation failed" },
         { s := sx_t.inc id, rkey := s2s_route_key to_.domain from_.domain,
           call := sx_call.close }], _, ?_, xhash_get_put_same _ _ _, rfl, ?_, rfl,
        db_verify_reply_type _ _ _, ?_, ?_⟩
      · unfold _out_verify
        simp only [ho, hf, ht, hid, hin, hv', Bool.not_false, if_true, Bool.false_eq_true, if_false]
      · simp [sx_do, conn_store, hv']
      · simp [db_verify_reply, nad_find_attr]
      · simp [db_verify_reply, nad_find_attr]
  · intro fuel sa sb ret c oc p hr hoc hon hdb hname
    refine ⟨conn_store (sx_do sb (sx_t.out c) (s2s_route_key p.from_.domain p.to_.domain)
        (sx_call.nad_write p.nad)) c
        { oc with verify := oc.verify + 1, last_verify := sb.now, last_packet := sb.now },
      { oc with verify := oc.verify + 1, last_verify := sb.now, last_packet := sb.now },
      ?_, xhash_get_put_same _ _ _, rfl⟩
    unfold out_packet
    simp only [hr, hoc, hon, hdb, hname]
    simp

/-! ## C10: closing a connection -/

theorem close_zap_dest_fold_none (keys : List String) (c : String) :
    ∀ (s sb : s2s_st), keys.foldl close_zap_dest (.ok s) = .ok sb →
      xhash_get s.out_dest c = none → xhash_get sb.out_dest c = none := by
  induction keys with
  | nil =>
    intro s sb h hn
    simp only [List.foldl_nil, Except.ok.injEq] at h
    rw [← h]; exact hn
  | cons k t ih =>
    intro s sb h hn
    simp only [List.foldl_cons] at h
    cases hsp : strchr_split k '/' with
    | none =>
      exfalso
      simp only [close_zap_dest, hsp] at h
      have : ∀ (l : List String) (f : fault), l.foldl close_zap_dest (.error f) ≠ .ok sb := by
        intro l
        induction l with
        | nil => intro f hh; simp at hh
        | cons a b ihh => intro f hh; simp only [List.foldl_cons, close_zap_dest] at hh; exact ihh f hh
      exact this t _ h
    | some x =>
      obtain ⟨a, c'⟩ := x
      simp only [close_zap_dest, hsp] at h
      refine ih _ sb h ?_
      simp only
      split
      · by_cases hcc : c = c'
        · subst hcc; exact xhash_get_zap_same _ _
        · rw [xhash_get_zap_other _ _ _ hcc]; exact hn
      · exact hn

theorem close_zap_dest_fold_removes (keys : List String) :
    ∀ (s sb : s2s_st), keys.foldl close_zap_dest (.ok s) = .ok sb →
      ∀ rkey ∈ keys, ∀ a c, strchr_split rkey '/' = some (a, c) →
        xhash_get sb.out_dest c = none := by
  induction keys with
  | nil => intro s sb _ rkey hr; simp at hr
  | cons k t ih =>
    intro s sb h rkey hr a c hsp
    simp only [List.foldl_cons] at h
    cases hspk : strchr_split k '/' with
    | none =>
      exfalso
      simp only [close_zap_dest, hspk] at h
      have : ∀ (l : List String) (f : fault), l.foldl close_zap_dest (.error f) ≠ .ok sb := by
        intro l
        induction l with
        | nil => intro f hh; simp at hh
        | cons a b ihh => intro f hh; simp only [List.foldl_cons, close_zap_dest] at hh; exact ihh f hh
      exact this t _ h
    | some x =>
      obtain ⟨a', c'⟩ := x
      simp only [close_zap_dest, hspk] at h
      rcases List.mem_cons.mp hr with hrk | hrt
      · subst hrk
        rw [hspk] at hsp
        simp only [Option.some.injEq, Prod.mk.injEq] at hsp
        obtain ⟨_, hcc⟩ := hsp
        subst hcc
        refine close_zap_dest_fold_none t c' _ sb h ?_
        simp only
        split
        · exact xhash_get_zap_same _ _
        · rename_i hnone; exact hnone
      · exact ih _ sb h rkey hrt a c hsp

theorem close_retries_iff (s : s2s_st) (rkey : String) :
    close_retries s rkey = true ↔
      ∃ q, xhash_get s.outq rkey = some q ∧ q.items ≠ [] ∧
        (s.retry_limit ≤ 0 ∨ jqueue_age s.now q ≤ s.retry_limit) := by
  unfold close_retries close_retry_queue
  cases hq : xhash_get s.outq rkey with
  | none => simp
  | some q =>
    simp only [Option.some.injEq, exists_eq_left']
    have hsz : jqueue_size q > 0 ↔ q.items ≠ [] := by
      unfold jqueue_size
      cases q.items <;> simp
    by_cases hlim : s.retry_limit > 0 ∧ jqueue_age s.now q > s.retry_limit
    · simp only [hlim, and_self, if_true]
      constructor
      · intro h; simp at h
      · rintro ⟨_, h | h⟩ <;> omega
    · simp only [hlim, if_false, decide_eq_true_eq, hsz]
      constructor
      · intro h
        refine ⟨h, ?_⟩
        by_contra hc
        apply hlim
        constructor <;> omega
      · exact fun h => h.1

/-- C10 (amended). When an outgoing connection closes, the first half of the
close action removes from `out_dest` the to-domain of every route on the
connection; the action then runs the retry loop over the routes and hands the
connection to the dead list.  For each route in turn: `out_route(rkey, allow_bad = 0)` is
attempted if and only if the route has a non-empty queue and `retry_limit` is not
positive or the queue is no older than `retry_limit`; when it is attempted, the
queue is flushed if a connection came back, left alone if resolution is under
way, and bounced if `out_route` failed; when it is not attempted, the queue is
bounced with service-unavailable, no queue remains, and nothing else changes (no
connection, no resolution, no `mio_connect`). -/
theorem C10_close_retries_or_bounces (w : world) (fuel : Nat) (s sb : s2s_st) (out : Nat)
    (o : conn_st) (ho : xhash_get s.conns out = some o)
    (hu : close_unregister s out o = .ok sb) :
    (∀ rkey ∈ o.routes.map (fun e => e.1), ∀ a c, strchr_split rkey '/' = some (a, c) →
      xhash_get sb.out_dest c = none) ∧
    (∀ s1, _out_mio_callback w fuel s mio_action_t.action_CLOSE out = .ok s1 →
      ∃ sc, close_retry_loop w fuel (o.routes.map (fun e => e.1)) sb = .ok sc ∧
        s1 = { sc with dead_conn := sc.dead_conn ++ [out] }) ∧
    (∀ (t : s2s_st) (rkey : String),
      (close_retries t rkey = true ↔
        ∃ q, xhash_get t.outq rkey = some q ∧ q.items ≠ [] ∧
          (t.retry_limit ≤ 0 ∨ jqueue_age t.now q ≤ t.retry_limit)) ∧
      (close_retries t rkey = true →
        close_retry_route w fuel t rkey =
          match out_route w fuel t rkey false with
          | .error f => .error f
          | .ok (t1, ret, retry) =>
            if ret = 0 then
              (match retry with
               | some _ => out_flush_route_queue w fuel t1 rkey
               | none => .ok t1)
            else .ok (out_bounce_route_queue t1 rkey stanza_err_SERVICE_UNAVAILABLE).1) ∧
      (close_retries t rkey = false →
        close_retry_route w fuel t rkey =
          .ok { t with sx_log := t.sx_log ++
                         bounce_recs rkey stanza_err_SERVICE_UNAVAILABLE (queued t rkey),
                       outq := xhash_zap t.outq rkey } ∧
        xhash_get (xhash_zap t.outq rkey) rkey = none)) := by
  refine ⟨?_, ?_, ?_⟩
  · unfold close_unregister at hu
    simp only at hu
    exact close_zap_dest_fold_removes _ _ sb hu
  · intro s1 h1
    obtain ⟨o', ho', hc⟩ := out_mio_callback_inv h1
    rw [ho] at ho'
    simp only [Option.some.injEq] at ho'
    subst ho'
    rcases hc with ⟨hne, _⟩ | ⟨_, sb', sc, hu', hl, hs⟩
    · exact absurd rfl hne
    · rw [hu] at hu'
      simp only [Except.ok.injEq] at hu'
      subst hu'
      exact ⟨sc, hl, hs⟩
  · intro t rkey
    refine ⟨close_retries_iff t rkey, ?_, ?_⟩
    · intro hr
      unfold close_retries at hr
      unfold close_retry_route
      cases hq : close_retry_queue t rkey with
      | none => rw [hq] at hr; simp at hr
      | some q =>
        rw [hq] at hr
        simp only [decide_eq_true_eq] at hr
        simp only [hr, if_true]
    · intro hr
      refine ⟨?_, xhash_get_zap_same _ _⟩
      unfold close_retries at hr
      unfold close_retry_route
      cases hq : close_retry_queue t rkey with
      | none => simp only [out_bounce_route_queue_eq]
      | some q =>
        rw [hq] at hr
        simp only [decide_eq_false_iff_not] at hr
        simp only [hr, if_false, out_bounce_route_queue_eq]

/-! ## Invariants of the connections and of the trace -/

section invariants
variable {L : List sx_rec → Prop} {Q : List sx_rec → Nat → conn_st → Prop}

theorem engine_inv_of_same {s s1 : s2s_st} (hc : s1.conns = s.conns) (hl : s1.sx_log = s.sx_log)
    (h : engine_inv L Q s) : engine_inv L Q s1 := by
  unfold engine_inv at *
  rw [hc, hl]; exact h

theorem engine_inv_add_route (hI : conn_inv L Q) {s s1 : s2s_st} (c : Nat) (o : conn_st)
    (route : String) (reuse : Bool) (ho : xhash_get s.conns c = some o)
    (hc : s1.conns = add_route s.conns c o route reuse) (hl : s1.sx_log = s.sx_log)
    (h : engine_inv L Q s) : engine_inv L Q s1 := by
  refine ⟨by rw [hl]; exact h.1, ?_⟩
  intro c1 o1 h1
  rw [hc] at h1
  rw [hl]
  by_cases hcc : c1 = c
  · subst hcc
    obtain ⟨o2, h2, hon, hst, _⟩ := add_route_get_same route reuse ho
    rw [h2] at h1
    simp only [Option.some.injEq] at h1
    subst h1
    exact hI.frame _ _ o _ hon hst (h.2 _ _ ho)
  · rw [add_route_get_other route reuse hcc] at h1
    exact h.2 _ _ h1

theorem engine_inv_store (hI : conn_inv L Q) {s s1 : s2s_st} (c : Nat) (o o1 : conn_st)
    (ho : xhash_get s.conns c = some o) (hon : o1.online = o.online) (hst : o1.states = o.states)
    (hc : s1.conns = xhash_put s.conns c o1) (hl : s1.sx_log = s.sx_log)
    (h : engine_inv L Q s) : engine_inv L Q s1 := by
  refine ⟨by rw [hl]; exact h.1, ?_⟩
  intro c1 o2 h1
  rw [hc] at h1
  rw [hl]
  by_cases hcc : c1 = c
  · subst hcc
    rw [xhash_get_put_same] at h1
    simp only [Option.some.injEq] at h1
    subst h1
    exact hI.frame _ _ o _ hon hst (h.2 _ _ ho)
  · rw [xhash_get_put_other _ _ _ _ hcc] at h1
    exact h.2 _ _ h1

/-- Appending a call that is not the write of a stanza keeps the invariant. -/
theorem engine_inv_log (hI : conn_inv L Q) {s : s2s_st} (r : sx_rec)
    (hr : ∀ n e, r.call ≠ sx_call.nad_write_elem n e) (h : engine_inv L Q s) :
    engine_inv L Q { s with sx_log := s.sx_log ++ [r] } :=
  ⟨hI.other _ _ h.1 hr, fun c o ho => hI.mono _ _ _ _ (h.2 c o ho)⟩

theorem engine_inv_logs (hI : conn_inv L Q) (rs : List sx_rec) :
    ∀ (s : s2s_st), (∀ r ∈ rs, ∀ n e, r.call ≠ sx_call.nad_write_elem n e) →
      engine_inv L Q s → engine_inv L Q { s with sx_log := s.sx_log ++ rs } := by
  induction rs with
  | nil => intro s _ h; simpa using h
  | cons r t ih =>
    intro s hr h
    have h1 := engine_inv_log hI r (hr r (by simp)) h
    have h2 := ih _ (fun x hx => hr x (by simp [hx])) h1
    simpa using h2

theorem out_route_try_engine_inv (hI : conn_inv L Q) {w : world} {s : s2s_st} {route : String}
    {ab : Bool} {r : route_res} (h : out_route_try w s route ab = .ok r)
    (hinv : engine_inv L Q s) :
    (∀ s1 ret o, r = route_res.done s1 ret o → engine_inv L Q s1) ∧
    (∀ s1, r = route_res.retry s1 → engine_inv L Q s1) := by
  obtain ⟨rfrom, dkey, _, hcase⟩ := out_route_try_inv h
  rcases hcase with ⟨c, o, _, ho, hr⟩ | ⟨_, dc, nr, ret, hr⟩ | ⟨_, dc, nr, c, o, ip, port, _, _, ho, hr⟩ |
      ⟨_, dc, nr, ip, port, hr⟩
  · subst hr
    refine ⟨?_, by simp⟩
    intro s1 ret o' he
    simp only [route_res.done.injEq] at he
    rw [← he.1]
    exact engine_inv_add_route hI c o route false ho rfl rfl hinv
  · subst hr
    refine ⟨?_, by simp⟩
    intro s1 ret o' he
    simp only [route_res.done.injEq] at he
    rw [← he.1]
    exact engine_inv_of_same rfl rfl hinv
  · subst hr
    refine ⟨?_, by simp⟩
    intro s1 ret o' he
    simp only [route_res.done.injEq] at he
    rw [← he.1]
    exact engine_inv_add_route hI c o route true ho rfl rfl hinv
  · subst hr
    have hput : ∀ (c1 : Nat) (o1 : conn_st) (l : List sx_rec),
        xhash_get (xhash_put s.conns s.next_conn
          (new_conn { s with dnscache := dc, n_rand := nr } route dkey ip port)) c1 = some o1 →
        Q (s.sx_log ++ l) c1 o1 := by
      intro c1 o1 l h1
      by_cases hcc : c1 = s.next_conn
      · subst hcc
        rw [xhash_get_put_same] at h1
        simp only [Option.some.injEq] at h1
        subst h1
        exact hI.fresh _ _ _ rfl rfl
      · rw [xhash_get_put_other _ _ _ _ hcc] at h1
        exact hI.mono _ _ _ _ (hinv.2 _ _ h1)
    unfold out_route_connect
    split
    · refine ⟨?_, by simp⟩
      intro s1 ret o' he
      simp only [route_res.done.injEq] at he
      rw [← he.1]
      refine ⟨?_, ?_⟩
      · refine hI.other _ _ hinv.1 ?_
        intro n e hcall
        have := is_client_init_call (out_route_register { s with dnscache := dc, n_rand := nr }
          route dkey ip port) rfrom dkey
        simp only at hcall
        rw [hcall] at this
        simp [is_client_init] at this
      · intro c1 o1 h1
        exact hput c1 o1 _ h1
    · refine ⟨by simp, ?_⟩
      intro s1 he
      simp only [route_res.retry.injEq] at he
      rw [← he]
      refine ⟨hinv.1, ?_⟩
      intro c1 o1 h1
      have h1' : xhash_get (xhash_zap (xhash_put s.conns s.next_conn
          (new_conn { s with dnscache := dc, n_rand := nr } route dkey ip port)) s.next_conn) c1
          = some o1 := h1
      by_cases hcc : c1 = s.next_conn
      · subst hcc
        rw [xhash_get_zap_same] at h1'
        simp at h1'
      · rw [xhash_get_zap_other _ _ _ hcc] at h1'
        have := hput c1 o1 [] h1'
        simpa using this

theorem out_route_engine_inv (hI : conn_inv L Q) {w : world} :
    ∀ (fuel : Nat) {s s1 : s2s_st} {route : String} {ab : Bool} {ret : Int} {o : Option Nat},
    out_route w fuel s route ab = .ok (s1, ret, o) → engine_inv L Q s → engine_inv L Q s1
  | 0, _, _, _, _, _, _, h, _ => by simp [out_route] at h
  | fuel + 1, s, s1, route, ab, ret, o, h, hv => by
    unfold out_route at h
    split at h
    · simp at h
    · rename_i s2 ret2 out2 htry
      simp only [Except.ok.injEq, Prod.mk.injEq] at h
      obtain ⟨h1, h2, h3⟩ := h
      subst h1 h2 h3
      exact (out_route_try_engine_inv hI htry hv).1 _ _ _ rfl
    · rename_i s2 htry
      exact out_route_engine_inv hI fuel h ((out_route_try_engine_inv hI htry hv).2 _ rfl)

end invariants

section invariants
variable {L : List sx_rec → Prop} {Q : List sx_rec → Nat → conn_st → Prop}

theorem out_dialback_engine_inv (hI : conn_inv L Q) {w : world} {s s1 : s2s_st} {c : Nat}
    {rkey k2 : String} (h : _out_dialback w s c rkey = .ok (s1, k2))
    (hinv : engine_inv L Q s) : engine_inv L Q s1 := by
  cases ho : xhash_get s.conns c with
  | none => unfold _out_dialback at h; rw [ho] at h; simp at h
  | some o =>
    cases hi : strchr rkey.data '/' with
    | none => unfold _out_dialback at h; rw [ho, hi] at h; simp at h
    | some i =>
      rw [out_dialback_ok w s c o rkey i ho hi] at h
      simp only [Except.ok.injEq, Prod.mk.injEq] at h
      rw [← h.1]
      refine ⟨?_, ?_⟩
      · exact hI.other _ _ hinv.1 (by intro n e hc; simp at hc)
      · intro c1 o1 h1
        have h1' : xhash_get (xhash_put s.conns c
            { o with states := xhash_put o.states rkey conn_INPROGRESS,
                     states_time := xhash_put o.states_time rkey s.now }) c1 = some o1 := h1
        by_cases hcc : c1 = c
        · subst hcc
          rw [xhash_get_put_same] at h1'
          simp only [Option.some.injEq] at h1'
          subst h1'
          exact hI.dialback _ _ o rkey _ _ rfl rfl (hinv.2 _ _ ho)
        · rw [xhash_get_put_other _ _ _ _ hcc] at h1'
          exact hI.mono _ _ _ _ (hinv.2 _ _ h1')

theorem bounce_recs_not_stanza (rkey : String) (err : err_t) (items : List pkt_st) :
    ∀ r ∈ bounce_recs rkey err items, ∀ n e, r.call ≠ sx_call.nad_write_elem n e := by
  intro r hr n e hc
  unfold bounce_recs at hr
  simp only [List.mem_map] at hr
  obtain ⟨p, _, hp⟩ := hr
  rw [← hp] at hc
  simp at hc

theorem bounce_engine_inv (hI : conn_inv L Q) (s : s2s_st) (rkey : String) (err : err_t)
    (hinv : engine_inv L Q s) : engine_inv L Q (out_bounce_route_queue s rkey err).1 := by
  rw [out_bounce_route_queue_eq]
  have := engine_inv_logs hI (bounce_recs rkey err (queued s rkey)) s
    (bounce_recs_not_stanza _ _ _) hinv
  exact engine_inv_of_same rfl rfl this

/-- `out_packet` keeps the invariant: a stanza is written only on an online
connection on which the route is VALID. -/
theorem out_packet_engine_inv (hI : conn_inv L Q) {w : world} {fuel : Nat} {s s2 : s2s_st}
    {p : pkt_st} {r : Int} (h : out_packet w fuel s p = .ok (s2, r))
    (hinv : engine_inv L Q s) : engine_inv L Q s2 := by
  obtain ⟨s1, ret, o', hr, hcase⟩ := out_packet_inv h
  have h1 := out_route_engine_inv hI fuel hr hinv
  have hq : engine_inv L Q (_out_packet_queue s1 p) := engine_inv_of_same rfl rfl h1
  rcases hcase with ⟨_, _, _, hs2⟩ | ⟨_, _, _, hs2⟩ | ⟨c, o, _, ho, _, hc⟩
  · rw [hs2]; exact hq
  · rw [hs2]; exact bounce_engine_inv hI _ _ _ hq
  · rcases hc with ⟨_, hs2⟩ | ⟨hon, hcond, o1, hon1, hst, _, hs2⟩ | ⟨_, _, _, hs2⟩ | ⟨_, _, _, hd⟩
    · rw [hs2]; exact hq
    · rw [hs2]
      have hlog : engine_inv L Q (sx_do s1 (sx_t.out c)
          (s2s_route_key p.from_.domain p.to_.domain) (pkt_write p)) := by
        refine ⟨?_, fun c1 o2 h2 => hI.mono _ _ _ _ (h1.2 c1 o2 h2)⟩
        unfold pkt_write
        by_cases hdb : p.db = true
        · simp only [hdb, if_true]
          exact hI.other _ _ h1.1 (by intro n e hc; simp at hc)
        · have hdbf : p.db = false := by cases hp : p.db <;> simp_all
          simp only [hdbf, Bool.false_eq_true, if_false]
          rcases hcond with hv | hx
          · exact hI.stanza _ c o _ _ _ h1.1 (h1.2 _ _ ho) hon hv
          · exact absurd hx hdb
      refine engine_inv_store hI c o o1 ?_ hon1 hst ?_ ?_ hlog
      · exact ho
      · rfl
      · rfl
    · rw [hs2]; exact hq
    · exact out_dialback_engine_inv hI hd hq

theorem flush_loop_engine_inv (hI : conn_inv L Q) (w : world) (fuel : Nat) (rkey : String) :
    ∀ (n : Nat) (s : s2s_st) (handed : List pkt_st) (s1 : s2s_st) (early : Bool)
      (h1 : List pkt_st), engine_inv L Q s →
      flush_loop w fuel n s rkey handed = .ok (s1, early, h1) → engine_inv L Q s1 := by
  intro n
  induction n with
  | zero =>
    intro s handed s1 early h1 hv h
    simp only [flush_loop, Except.ok.injEq, Prod.mk.injEq] at h
    rw [← h.1]; exact hv
  | succ n ih =>
    intro s handed s1 early h1 hv h
    unfold flush_loop at h
    cases hg : xhash_get s.outq rkey with
    | none => rw [hg] at h; simp at h
    | some q =>
      rw [hg] at h
      simp only at h
      cases hit : q.items with
      | nil =>
        simp only [jqueue_pull, hit] at h
        exact ih s handed s1 early h1 hv h
      | cons p t =>
        simp only [jqueue_pull, hit] at h
        cases hop : out_packet w fuel
            { s with outq := xhash_replace s.outq rkey { q with items := t } } p with
        | error f => rw [hop] at h; simp at h
        | ok x =>
          obtain ⟨sb, ret⟩ := x
          rw [hop] at h
          simp only at h
          have hvb : engine_inv L Q sb :=
            out_packet_engine_inv hI hop (engine_inv_of_same rfl rfl hv)
          by_cases hret : ret = 0
          · simp only [hret, ne_eq, not_true_eq_false, if_false] at h
            exact ih sb _ s1 early h1 hvb h
          · simp only [ne_eq, hret, not_false_eq_true, if_true, Except.ok.injEq, Prod.mk.injEq] at h
            rw [← h.1]; exact hvb

theorem out_flush_route_queue_engine_inv (hI : conn_inv L Q) {w : world} {fuel : Nat}
    {s s2 : s2s_st} {rkey : String}
    (h : out_flush_route_queue w fuel s rkey = .ok s2) (hv : engine_inv L Q s) :
    engine_inv L Q s2 := by
  unfold out_flush_route_queue at h
  cases hg : xhash_get s.outq rkey with
  | none => rw [hg] at h; simp only [Except.ok.injEq] at h; rw [← h]; exact hv
  | some q =>
    rw [hg] at h
    simp only at h
    cases hl : flush_loop w fuel q.items.length s rkey [] with
    | error f => rw [hl] at h; simp at h
    | ok x =>
      obtain ⟨s1, early, h1⟩ := x
      rw [hl] at h
      have hv1 := flush_loop_engine_inv hI w fuel rkey _ s [] s1 early h1 hv hl
      cases early with
      | true => simp only [Except.ok.injEq] at h; rw [← h]; exact hv1
      | false =>
        simp only at h
        split at h
        · simp at h
        · split at h
          · simp only [Except.ok.injEq] at h; rw [← h]; exact engine_inv_of_same rfl rfl hv1
          · simp only [Except.ok.injEq] at h; rw [← h]; exact hv1

theorem send_dialbacks_loop_engine_inv (hI : conn_inv L Q) (w : world) (out : Nat) :
    ∀ (l : List String) (s s1 : s2s_st), send_dialbacks_loop w out l s = .ok s1 →
      engine_inv L Q s → engine_inv L Q s1 := by
  intro l
  induction l with
  | nil => intro s s1 h hv; simp only [send_dialbacks_loop, Except.ok.injEq] at h; rw [← h]; exact hv
  | cons r t ih =>
    intro s s1 h hv
    unfold send_dialbacks_loop at h
    cases hd : _out_dialback w s out r with
    | error f => rw [hd] at h; simp at h
    | ok x =>
      obtain ⟨sa, k⟩ := x
      rw [hd] at h
      exact ih sa s1 h (out_dialback_engine_inv hI hd hv)

theorem send_dialbacks_engine_inv (hI : conn_inv L Q) {w : world} {s s1 : s2s_st} {out : Nat}
    (h : send_dialbacks w s out = .ok s1) (hv : engine_inv L Q s) : engine_inv L Q s1 := by
  unfold send_dialbacks at h
  split at h
  · simp at h
  · simp only at h
    exact send_dialbacks_loop_engine_inv hI w out _ _ _ h (engine_inv_of_same rfl rfl hv)

theorem go_online_engine_inv (hI : conn_inv L Q) {w : world} {s s1 : s2s_st} {out : Nat}
    {o o0 : conn_st} (ho : xhash_get s.conns out = some o0) (hon : o.online = o0.online)
    (hst : o.states = o0.states)
    (h : go_online w s out o = .ok s1) (hv : engine_inv L Q s) : engine_inv L Q s1 := by
  unfold go_online at h
  refine send_dialbacks_engine_inv hI h ⟨hv.1, ?_⟩
  intro c1 o1 h1
  have h1' : xhash_get (xhash_put s.conns out { o with online := true }) c1 = some o1 := h1
  by_cases hcc : c1 = out
  · subst hcc
    rw [xhash_get_put_same] at h1'
    simp only [Option.some.injEq] at h1'
    subst h1'
    exact hI.online _ _ _ (hI.frame _ _ o0 _ hon hst (hv.2 _ _ ho))
  · rw [xhash_get_put_other _ _ _ _ hcc] at h1'
    exact hv.2 _ _ h1'

end invariants

/-- What `_out_verify` does to the heap of outgoing connections and to the
trace: nothing, or the connection gets a new `verify` count and calls that are
not writes of stanzas are appended. -/
theorem out_verify_frame {w : world} {s s1 : s2s_st} {out : Nat} {nad : nad_st}
    (h : _out_verify w s out nad = .ok s1) :
    ∃ o, xhash_get s.conns out = some o ∧
      (s1 = s ∨ ∃ o1 rs, o1.online = o.online ∧ o1.states = o.states ∧
        s1.conns = xhash_put s.conns out o1 ∧ s1.sx_log = s.sx_log ++ rs ∧
        ∀ r ∈ rs, ∀ n e, r.call ≠ sx_call.nad_write_elem n e) := by
  unfold _out_verify at h
  cases ho : xhash_get s.conns out with
  | none => rw [ho] at h; simp at h
  | some o =>
    rw [ho] at h
    refine ⟨o, rfl, ?_⟩
    simp only at h
    split at h
    · simp only [Except.ok.injEq] at h; left; exact h.symm
    · split at h
      · simp only [Except.ok.injEq] at h; left; exact h.symm
      · split at h
        · simp only [Except.ok.injEq] at h; left; exact h.symm
        · split at h
          · simp only [Except.ok.injEq] at h; left; exact h.symm
          · right
            rename_i _ from_ _ _ to_ _ _ id _ _ i _
            split at h
            · simp only [Except.ok.injEq] at h
              refine ⟨{ o with verify := o.verify - 1 },
                [{ s := sx_t.inc id, rkey := s2s_route_key to_.domain from_.domain,
                   call := sx_call.nad_write (db_verify_reply from_.domain to_.domain
                            (nad_find_attr nad 0 "type" (some "valid")).isSome) },
                 { s := sx_t.inc id, rkey := s2s_route_key to_.domain from_.domain,
                   call := sx_call.error stream_err_INVALID_ID "dialback negotiation failed" },
                 { s := sx_t.inc id, rkey := s2s_route_key to_.domain from_.domain,
                   call := sx_call.close }], rfl, rfl, ?_, ?_, ?_⟩
              · rw [← h]; rfl
              · rw [← h]
                simp only [sx_do, conn_store, List.append_assoc]
                rfl
              · intro r hr n e hc
                simp only [List.mem_cons, List.mem_singleton, List.not_mem_nil, or_false] at hr
                rcases hr with hr | hr | hr <;> (rw [hr] at hc; simp at hc)
            · simp only [Except.ok.injEq] at h
              refine ⟨{ o with verify := o.verify - 1 },
                [{ s := sx_t.inc id, rkey := s2s_route_key to_.domain from_.domain,
                   call := sx_call.nad_write (db_verify_reply from_.domain to_.domain
                            (nad_find_attr nad 0 "type" (some "valid")).isSome) }],
                rfl, rfl, ?_, ?_, ?_⟩
              · rw [← h]; rfl
              · rw [← h]; rfl
              · intro r hr n e hc
                simp only [List.mem_singleton] at hr
                rw [hr] at hc; simp at hc

section invariants
variable {L : List sx_rec → Prop} {Q : List sx_rec → Nat → conn_st → Prop}

theorem mark_bad_conn_engine_inv {s s1 : s2s_st} {o : conn_st} (h : mark_bad_conn s o = .ok s1)
    (hv : engine_inv L Q s) : engine_inv L Q s1 := by
  unfold mark_bad_conn at h
  split at h
  · split at h
    · simp at h
    · simp only [Except.ok.injEq] at h; rw [← h]; exact engine_inv_of_same rfl rfl hv
  · simp only [Except.ok.injEq] at h; rw [← h]; exact hv

theorem out_verify_engine_inv (hI : conn_inv L Q) {w : world} {s s1 : s2s_st} {out : Nat}
    {nad : nad_st} (h : _out_verify w s out nad = .ok s1) (hv : engine_inv L Q s) :
    engine_inv L Q s1 := by
  obtain ⟨o, ho, hc⟩ := out_verify_frame h
  rcases hc with hs | ⟨o1, rs, hon, hst, hconns, hlog, hrs⟩
  · rw [hs]; exact hv
  · have h1 := engine_inv_logs hI rs s hrs hv
    refine engine_inv_store hI out o o1 ?_ hon hst ?_ ?_ h1
    · exact ho
    · exact hconns
    · exact hlog

theorem out_result_engine_inv (hI : conn_inv L Q) {w : world} {fuel : Nat} {s s1 : s2s_st}
    {out : Nat} {nad : nad_st} (h : _out_result w fuel s out nad = .ok s1)
    (hk : ∀ from_ to_, (nad_find_attr nad 0 "from" none).bind w.jid_new = some from_ →
      (nad_find_attr nad 0 "to" none).bind w.jid_new = some to_ →
      (nad_find_attr nad 0 "type" (some "valid")).isSome = true →
      valid_keeps Q s out (s2s_route_key to_.domain from_.domain))
    (hv : engine_inv L Q s) : engine_inv L Q s1 := by
  unfold _out_result at h
  cases ho : xhash_get s.conns out with
  | none => rw [ho] at h; simp at h
  | some o =>
    rw [ho] at h
    simp only at h
    cases hf : (nad_find_attr nad 0 "from" none).bind w.jid_new with
    | none => rw [hf] at h; simp only [Except.ok.injEq] at h; rw [← h]; exact hv
    | some from_ =>
      rw [hf] at h
      simp only at h
      cases ht : (nad_find_attr nad 0 "to" none).bind w.jid_new with
      | none => rw [ht] at h; simp only [Except.ok.injEq] at h; rw [← h]; exact hv
      | some to_ =>
        rw [ht] at h
        simp only at h
        by_cases hty : (nad_find_attr nad 0 "type" (some "valid")).isSome = true
        · simp only [hty, if_true] at h
          refine out_flush_route_queue_engine_inv hI h ⟨hv.1, ?_⟩
          intro c1 o1 h1
          have h1' : xhash_get (xhash_put s.conns out
              { o with states := xhash_put o.states (s2s_route_key to_.domain from_.domain)
                                   conn_VALID }) c1 = some o1 := h1
          by_cases hcc : c1 = out
          · subst hcc
            rw [xhash_get_put_same] at h1'
            simp only [Option.some.injEq] at h1'
            subst h1'
            exact hk from_ to_ hf ht hty o o ho rfl rfl (hv.2 _ _ ho)
          · rw [xhash_get_put_other _ _ _ _ hcc] at h1'
            exact hv.2 _ _ h1'
        · have htf : (nad_find_attr nad 0 "type" (some "valid")).isSome = false := by
            simpa using hty
          simp only [htf, Bool.false_eq_true, if_false, Except.ok.injEq] at h
          rw [← h]
          apply bounce_engine_inv hI
          have h1 := engine_inv_log hI
            { s := sx_t.out out, rkey := s2s_route_key to_.domain from_.domain,
              call := sx_call.error stream_err_INVALID_ID "dialback negotiation failed" }
            (by intro n e hc; simp at hc) hv
          exact engine_inv_log hI
            { s := sx_t.out out, rkey := s2s_route_key to_.domain from_.domain,
              call := sx_call.close } (by intro n e hc; simp at hc) h1

theorem sx_features_engine_inv (hI : conn_inv L Q) {w : world} {s s2 : s2s_st} {out : Nat}
    {o o0 : conn_st} {nad : nad_st} {b : Bool}
    (ho : xhash_get s.conns out = some o0) (hon : o.online = o0.online)
    (hst : o.states = o0.states)
    (h : sx_features w s out o nad = .ok (s2, b)) (hv : engine_inv L Q s) :
    engine_inv L Q s2 := by
  have hlog : engine_inv L Q (sx_do s (sx_t.out out) "" sx_call.starttls) :=
    engine_inv_log hI _ (by intro n e hc; simp at hc) hv
  rcases sx_features_inv h with ⟨_, h2, _⟩ | ⟨_, h2⟩ | ⟨_, _, h2 | h2⟩
  · rw [h2]; exact hv
  · rw [h2]; exact hlog
  · exact go_online_engine_inv hI ho hon hst h2 hv
  · refine go_online_engine_inv hI ?_ hon hst h2 hlog
    exact ho

end invariants

section invariants
variable {L : List sx_rec → Prop} {Q : List sx_rec → Nat → conn_st → Prop}

theorem valid_result_key_some {w : world} {nad : nad_st} {from_ to_ : jid_st}
    (hd : NAD_ENS_URI nad 0 = some uri_DIALBACK) (hn : NAD_ENAME nad 0 = "result")
    (hf : (nad_find_attr nad 0 "from" none).bind w.jid_new = some from_)
    (ht : (nad_find_attr nad 0 "to" none).bind w.jid_new = some to_)
    (hty : (nad_find_attr nad 0 "type" (some "valid")).isSome = true) :
    valid_result_key w nad = some (s2s_route_key to_.domain from_.domain) := by
  unfold valid_result_key
  rw [if_pos ⟨hd, hn, hty⟩, hf, ht]

theorem is_features_dialback {nad : nad_st} (hd : NAD_ENS_URI nad 0 = some uri_DIALBACK) :
    is_features nad = false := by
  unfold is_features
  rw [hd]
  have : (some uri_DIALBACK = some uri_STREAMS) = False := by
    simp only [Option.some.injEq, eq_iff_iff, iff_false]
    decide
  simp [this]

/-- The `event_PACKET` handler keeps the invariant when accepting the positive
answer that the packet carries, if it carries one, keeps `Q`. -/
theorem sx_packet_engine_inv (hI : conn_inv L Q) {w : world} {fuel : Nat} {s s3 : s2s_st}
    {out : Nat} {o : conn_st} {nad : nad_st} (ho : xhash_get s.conns out = some o)
    (h : sx_packet w fuel s out o nad = .ok s3)
    (hk : ∀ rkey, valid_result_key w nad = some rkey → valid_keeps Q s out rkey)
    (hv : engine_inv L Q s) : engine_inv L Q s3 := by
  obtain ⟨s2, b, hf, hcase⟩ := sx_packet_inv h
  have hc : engine_inv L Q (count_packet s out o) :=
    engine_inv_store hI out o { o with packet_count := o.packet_count + 1 } ho rfl rfl rfl rfl hv
  have hget : xhash_get (count_packet s out o).conns out
      = some { o with packet_count := o.packet_count + 1 } := by
    show xhash_get (xhash_put s.conns out _) out = _
    rw [xhash_get_put_same]
  have h2 : engine_inv L Q s2 := sx_features_engine_inv hI hget rfl rfl hf hc
  rcases hcase with h3 | ⟨hbf, hd, hn, h3⟩ | ⟨_, _, _, h3⟩
  · rw [h3]; exact h2
  · have hs2 : s2 = count_packet s out o := by
      have hnf := is_features_dialback hd
      rcases sx_features_inv hf with ⟨_, e, _⟩ | ⟨hb, _⟩ | ⟨_, hff, _⟩
      · exact e
      · rw [hbf] at hb; simp at hb
      · rw [hnf] at hff; simp at hff
    refine out_result_engine_inv hI h3 ?_ h2
    intro from_ to_ hfr hto hty
    have hkk := hk _ (valid_result_key_some hd hn hfr hto hty)
    rw [hs2]
    intro o' o1 ho' hon hst hq
    rw [hget] at ho'
    simp only [Option.some.injEq] at ho'
    subst ho'
    exact hkk o o1 ho hon hst hq
  · exact out_verify_engine_inv hI h3 h2

theorem close_retry_route_engine_inv (hI : conn_inv L Q) {w : world} {fuel : Nat}
    {s s1 : s2s_st} {rkey : String}
    (h : close_retry_route w fuel s rkey = .ok s1) (hv : engine_inv L Q s) :
    engine_inv L Q s1 := by
  rcases close_retry_route_inv h with ⟨_, hs⟩ | ⟨_, sa, ret, retry, hr, hc⟩
  · rw [hs]; exact bounce_engine_inv hI _ _ _ hv
  · have hsa : engine_inv L Q sa := out_route_engine_inv hI fuel hr hv
    rcases hc with ⟨_, _, hs⟩ | ⟨_, _, hf⟩ | ⟨_, hs⟩
    · rw [hs]; exact hsa
    · exact out_flush_route_queue_engine_inv hI hf hsa
    · rw [hs]; exact bounce_engine_inv hI _ _ _ hsa

theorem close_retry_loop_engine_inv (hI : conn_inv L Q) (w : world) (fuel : Nat) :
    ∀ (l : List String) (s s1 : s2s_st), close_retry_loop w fuel l s = .ok s1 →
      engine_inv L Q s → engine_inv L Q s1 := by
  intro l
  induction l with
  | nil => intro s s1 h hv; simp only [close_retry_loop, Except.ok.injEq] at h; rw [← h]; exact hv
  | cons r t ih =>
    intro s s1 h hv
    unfold close_retry_loop at h
    cases hr : close_retry_route w fuel s r with
    | error f => rw [hr] at h; simp at h
    | ok sa =>
      rw [hr] at h
      exact ih sa s1 h (close_retry_route_engine_inv hI hr hv)

theorem out_mio_callback_engine_inv (hI : conn_inv L Q) {w : world} {fuel : Nat}
    {s s1 : s2s_st} {a : mio_action_t} {out : Nat}
    (h : _out_mio_callback w fuel s a out = .ok s1) (hv : engine_inv L Q s) :
    engine_inv L Q s1 := by
  obtain ⟨o, ho, hc⟩ := out_mio_callback_inv h
  have hst : engine_inv L Q (conn_store s out { o with last_activity := s.now }) :=
    engine_inv_store hI out o { o with last_activity := s.now } ho rfl rfl rfl rfl hv
  rcases hc with ⟨_, hs | hs | hs⟩ | ⟨_, sb, sc, hu, hl, hs⟩
  · rw [hs]; exact hv
  · rw [hs]; exact hst
  · rw [hs]; exact engine_inv_log hI _ (by intro n e hc; simp at hc) hst
  · have hsb : engine_inv L Q sb := by
      rw [close_unregister_frame hu]; exact engine_inv_of_same rfl rfl hv
    rw [hs]
    have := close_retry_loop_engine_inv hI w fuel _ _ _ hl hsb
    exact engine_inv_of_same rfl rfl this

theorem mio_close_engine_inv (hI : conn_inv L Q) {w : world} {fuel : Nat} {s s1 : s2s_st}
    {out : Nat} (h : mio_close w fuel s out = .ok s1) (hv : engine_inv L Q s) :
    engine_inv L Q s1 := by
  rcases mio_close_inv h with hs | ⟨sa, o1, hc, ho1, hs⟩
  · rw [hs]; exact hv
  · rw [hs]
    have hsa := out_mio_callback_engine_inv hI hc hv
    exact engine_inv_store hI out o1 { o1 with fd_closed := true } ho1 rfl rfl rfl rfl hsa

theorem out_sx_callback_engine_inv (hI : conn_inv L Q) {w : world} {fuel : Nat}
    {s s1 : s2s_st} {out : Nat} {e : sx_event_t} {r : Int}
    (h : _out_sx_callback w fuel s out e = .ok (s1, r))
    (hk : ∀ nad rkey, e = sx_event_t.event_PACKET nad → valid_result_key w nad = some rkey →
      valid_keeps Q s out rkey)
    (hv : engine_inv L Q s) : engine_inv L Q s1 := by
  obtain ⟨o, ho, hc⟩ := out_sx_callback_inv h
  rcases hc with hs | ⟨s', hs', hs⟩ | ⟨_, _, hg⟩ | ⟨nad, he, hp⟩ | ⟨_, hm⟩
  · rw [hs]; exact hv
  · rw [hs]
    have h' : engine_inv L Q s' := by
      rcases hs' with hs' | hs'
      · rw [hs']; exact hv
      · exact mark_bad_conn_engine_inv hs' hv
    exact engine_inv_log hI _ (by intro n e hc; simp at hc) h'
  · exact go_online_engine_inv hI ho rfl rfl hg hv
  · exact sx_packet_engine_inv hI ho hp (fun rkey hr => hk nad rkey he hr) hv
  · exact mio_close_engine_inv hI hm hv

theorem out_bounce_domain_queues_engine_inv (hI : conn_inv L Q) (s : s2s_st) (domain : String)
    (err : err_t) (hv : engine_inv L Q s) :
    engine_inv L Q (out_bounce_domain_queues s domain err).1 := by
  unfold out_bounce_domain_queues
  generalize (s.outq.map (fun e => e.1)) = keys
  have : ∀ (keys : List String) (acc : s2s_st × Int), engine_inv L Q acc.1 →
      engine_inv L Q (keys.foldl
        (fun acc rkey =>
          if s2s_route_key_match domain rkey then
            ((out_bounce_route_queue acc.1 rkey err).1, acc.2 + (out_bounce_route_queue acc.1 rkey err).2)
          else acc) acc).1 := by
    intro keys
    induction keys with
    | nil => intro acc h; exact h
    | cons k t ih =>
      intro acc h
      simp only [List.foldl_cons]
      apply ih
      split
      · exact bounce_engine_inv hI _ _ _ h
      · exact h
  exact this keys (s, 0) hv

theorem flush_domain_loop_engine_inv (hI : conn_inv L Q) (w : world) (fuel : Nat)
    (domain : String) :
    ∀ (l : List String) (s s1 : s2s_st), flush_domain_loop w fuel domain l s = .ok s1 →
      engine_inv L Q s → engine_inv L Q s1 := by
  intro l
  induction l with
  | nil => intro s s1 h hv; simp only [flush_domain_loop, Except.ok.injEq] at h; rw [← h]; exact hv
  | cons r t ih =>
    intro s s1 h hv
    unfold flush_domain_loop at h
    split at h
    · simp at h
    · split at h
      · cases hf : out_flush_route_queue w fuel s r with
        | error f => rw [hf] at h; simp at h
        | ok sa =>
          rw [hf] at h
          exact ih sa s1 h (out_flush_route_queue_engine_inv hI hf hv)
      · exact ih s s1 h hv

theorem out_resolve_engine_inv (hI : conn_inv L Q) {w : world} {fuel : Nat} {s s1 : s2s_st}
    {domain : String} {results : xht dnsres_st} {expiry : Int}
    (h : out_resolve w fuel s domain results expiry = .ok s1) (hv : engine_inv L Q s) :
    engine_inv L Q s1 := by
  unfold out_resolve at h
  split at h
  · simp only [Except.ok.injEq] at h
    rw [← h]
    apply out_bounce_domain_queues_engine_inv hI
    split
    · exact engine_inv_of_same rfl rfl hv
    · exact hv
  · split at h
    · simp only [Except.ok.injEq] at h; rw [← h]; exact hv
    · simp only at h
      split at h
      · simp at h
      · rename_i s2 hf
        have h2 : engine_inv L Q s2 := by
          unfold out_flush_domain_queues at hf
          exact flush_domain_loop_engine_inv hI w fuel domain _ _ _ hf
            (engine_inv_of_same rfl rfl hv)
        split at h
        · simp at h
        · split at h
          · simp only [Except.ok.injEq] at h; rw [← h]; exact engine_inv_of_same rfl rfl h2
          · simp only [Except.ok.injEq] at h; rw [← h]; exact h2

end invariants

section invariants
variable {L : List sx_rec → Prop} {Q : List sx_rec → Nat → conn_st → Prop}

/-- Every top-level operation keeps the invariant, if accepting the positive
answer that a received packet carries (when it carries one) keeps `Q`. -/
theorem step_engine_inv (hI : conn_inv L Q) {w : world} {fuel : Nat} {s s1 : s2s_st} {o : op_t}
    (h : step w fuel s o = .ok s1)
    (hk : ∀ out nad rkey, o = op_t.sx out (sx_event_t.event_PACKET nad) →
      valid_result_key w nad = some rkey → valid_keeps Q s out rkey)
    (hv : engine_inv L Q s) : engine_inv L Q s1 := by
  cases o with
  | packet pkt =>
    simp only [step] at h
    cases hp : out_packet w fuel s pkt with
    | error f => rw [hp] at h; simp at h
    | ok x =>
      obtain ⟨s2, r⟩ := x
      rw [hp] at h
      simp only [Except.ok.injEq] at h
      rw [← h]
      exact out_packet_engine_inv hI hp hv
  | flush rkey => simp only [step] at h; exact out_flush_route_queue_engine_inv hI h hv
  | bounce rkey err =>
    simp only [step, Except.ok.injEq] at h
    rw [← h]; exact bounce_engine_inv hI _ _ _ hv
  | resolve domain results expiry => simp only [step] at h; exact out_resolve_engine_inv hI h hv
  | sx out e =>
    simp only [step] at h
    cases hp : _out_sx_callback w fuel s out e with
    | error f => rw [hp] at h; simp at h
    | ok x =>
      obtain ⟨s2, r⟩ := x
      rw [hp] at h
      simp only [Except.ok.injEq] at h
      rw [← h]
      refine out_sx_callback_engine_inv hI hp ?_ hv
      intro nad rkey he hr
      exact hk out nad rkey (by rw [he]) hr
  | mio out a =>
    cases a with
    | action_CLOSE => simp only [step] at h; exact mio_close_engine_inv hI h hv
    | action_ACCEPT => simp only [step] at h; exact out_mio_callback_engine_inv hI h hv
    | action_READ n => simp only [step] at h; exact out_mio_callback_engine_inv hI h hv
    | action_WRITE => simp only [step] at h; exact out_mio_callback_engine_inv hI h hv
  | stream_header out id rv ssf =>
    simp only [step] at h
    split at h
    · simp at h
    · rename_i o ho
      simp only [Except.ok.injEq] at h
      rw [← h]
      exact engine_inv_store hI out o { o with s_id := id, res_version := rv, ssf := ssf }
        ho rfl rfl rfl rfl hv
  | tick dt =>
    simp only [step, Except.ok.injEq] at h
    rw [← h]; exact engine_inv_of_same rfl rfl hv

/-- The invariant holds in every state reached by operations that receive
positive answers only where `good` holds, if accepting a positive answer where
`good` holds keeps `Q`. -/
theorem reachable_engine_inv (hI : conn_inv L Q) (hnil : L []) {w : world}
    {good : conn_st → String → Bool}
    (hgood : ∀ l c o rkey, good o rkey = true → Q l c o →
      Q l c { o with states := xhash_put o.states rkey conn_VALID })
    (hcongr : ∀ o o1 rkey, o1.online = o.online → o1.states = o.states →
      good o1 rkey = good o rkey)
    {s : s2s_st} (h : reachable_by w (fun s o => accepts_valid w good s o = true) s) :
    engine_inv L Q s := by
  induction h with
  | start cfg =>
    refine ⟨hnil, ?_⟩
    intro c o hc
    simp [s2s_start, xhash_get] at hc
  | step s s1 fuel o _ hok hstep ih =>
    refine step_engine_inv hI hstep ?_ ih
    intro out nad rkey ho hr o0 o1 hget hon hst hq
    rw [ho] at hok
    simp only [accepts_valid, hr, hget] at hok
    exact hgood _ _ _ _ (by rw [hcongr o0 o1 rkey hon hst]; exact hok) hq

end invariants

theorem reachable_by_run {w : world} {ok : s2s_st → op_t → Bool} (fuel : Nat) :
    ∀ (ops : List op_t) {s s1 : s2s_st}, reachable_by w (fun s o => ok s o = true) s →
      run_by w fuel ok s ops = some s1 → reachable_by w (fun s o => ok s o = true) s1 := by
  intro ops
  induction ops with
  | nil =>
    intro s s1 hs h
    simp only [run_by, Option.some.injEq] at h
    rw [← h]; exact hs
  | cons o t ih =>
    intro s s1 hs h
    unfold run_by at h
    by_cases hok : ok s o = true
    · simp only [hok, if_true] at h
      cases hst : step w fuel s o with
      | error f => rw [hst] at h; simp at h
      | ok s2 =>
        rw [hst] at h
        exact ih (reachable_by.step s s2 fuel o hs hok hst) h
    · simp only [hok] at h
      simp at h

theorem reachable_by_weaken {w : world} {ok : s2s_st → op_t → Prop} {s : s2s_st}
    (h : reachable_by w ok s) : reachable w s := by
  induction h with
  | start cfg => exact reachable_by.start cfg
  | step s s1 fuel o _ _ hstep ih => exact reachable_by.step s s1 fuel o ih trivial hstep

theorem conn_state_put (o : conn_st) (rkey r : String) (v : conn_state_t) :
    conn_state { o with states := xhash_put o.states rkey v } r
      = if r = rkey then v else conn_state o r := by
  unfold conn_state
  by_cases hr : r = rkey
  · subst hr
    show (match xhash_get (xhash_put o.states r v) r with | some st => st | none => conn_NONE) = _
    rw [xhash_get_put_same]; simp
  · show (match xhash_get (xhash_put o.states rkey v) r with | some st => st | none => conn_NONE) = _
    rw [xhash_get_put_other _ _ _ _ hr]; simp [hr]

/-- The invariant behind C7: a connection that is not online has no VALID
route. -/
theorem offline_not_valid_inv :
    conn_inv (fun _ => True)
      (fun _ _ o => o.online = false → ∀ r, conn_state o r ≠ conn_VALID) where
  mono := fun _ _ _ _ h => h
  frame := by
    intro l c o o1 hon hst h hoff r
    rw [conn_state_congr hst]
    exact h (by rw [← hon]; exact hoff) r
  fresh := by
    intro l c o _ hst _ r
    unfold conn_state
    rw [hst]
    simp [xhash_get]
  dialback := by
    intro l c o rkey n t _ _ h hoff r
    have := conn_state_put o rkey r conn_INPROGRESS
    have e : conn_state { o with states := xhash_put o.states rkey conn_INPROGRESS,
                                 states_time := t } r
        = conn_state { o with states := xhash_put o.states rkey conn_INPROGRESS } r := rfl
    rw [e, this]
    by_cases hr : r = rkey
    · simp [hr]
    · simp only [hr, if_false]; exact h hoff r
  online := by
    intro l c o _ hoff
    simp at hoff
  other := fun _ _ _ _ => trivial
  stanza := fun _ _ _ _ _ _ _ _ _ _ => trivial

/-- C7 (amended). In every state reached by engine operations in which a
positive dialback answer (a `<db:result type="valid">` with parseable `from`
and `to`) is received only on connections that are online: a connection whose
`online` is false has no route key that maps to VALID in its `states` table. -/
theorem C7_offline_has_no_valid_route (w : world) (s : s2s_st)
    (h : reachable_by w (fun s o => accepts_valid w valid_when_online s o = true) s)
    (c : Nat) (o : conn_st) (ho : xhash_get s.conns c = some o) (hoff : o.online = false)
    (r : String) : conn_state o r ≠ conn_VALID := by
  have hinv := @reachable_engine_inv _ _ offline_not_valid_inv trivial w
    valid_when_online ?_ ?_ s h
  · exact hinv.2 c o ho hoff r
  · intro l c o rkey hg _ hoff
    simp only [valid_when_online] at hg
    rw [hg] at hoff; simp at hoff
  · intro o o1 rkey hon _
    simp only [valid_when_online, hon]

theorem has_dbr_append (l l1 : List sx_rec) (c : Nat) (r : String)
    (h : has_dbr l c r = true) : has_dbr (l ++ l1) c r = true := by
  unfold has_dbr at *
  rw [List.any_append, h]
  rfl

theorem dialback_first_from_append (l : List sx_rec) (x : sx_rec) :
    ∀ pre, dialback_first_from pre (l ++ [x])
      = (dialback_first_from pre l && dbr_before (pre ++ l) x) := by
  induction l with
  | nil => intro pre; simp [dialback_first_from]
  | cons a t ih =>
    intro pre
    have e : dialback_first_from pre (a :: t ++ [x])
        = (dbr_before pre a && dialback_first_from (pre ++ [a]) (t ++ [x])) := rfl
    have e2 : dialback_first_from pre (a :: t)
        = (dbr_before pre a && dialback_first_from (pre ++ [a]) t) := rfl
    rw [e, e2, ih (pre ++ [a])]
    simp [Bool.and_assoc]

theorem dialback_first_from_split (pre : List sx_rec) (x : sx_rec) (post : List sx_rec) :
    ∀ pre0, dialback_first_from pre0 (pre ++ x :: post) = true →
      dbr_before (pre0 ++ pre) x = true := by
  induction pre with
  | nil =>
    intro pre0 h
    simp only [List.nil_append, dialback_first_from, Bool.and_eq_true] at h
    simpa using h.1
  | cons a t ih =>
    intro pre0 h
    simp only [List.cons_append, dialback_first_from, Bool.and_eq_true] at h
    have := ih (pre0 ++ [a]) h.2
    simpa using this

theorem dbr_before_other (pre : List sx_rec) (r : sx_rec)
    (hr : ∀ n e, r.call ≠ sx_call.nad_write_elem n e) : dbr_before pre r = true := by
  unfold dbr_before
  split
  · rename_i n e _ hc
    exact absurd hc (hr n e)
  · rfl

/-- The invariant behind C2: every stanza in the trace comes after a
`<db:result>` for its route on its connection, and every route of a connection
that is not in state NONE has had its `<db:result>` written. -/
theorem dialback_first_inv :
    conn_inv (fun l => dialback_first l = true)
      (fun l c o => ∀ r, conn_state o r ≠ conn_NONE → has_dbr l c r = true) where
  mono := fun l l1 c o h r hr => has_dbr_append l l1 c r (h r hr)
  frame := by
    intro l c o o1 _ hst h r hr
    rw [conn_state_congr hst] at hr
    exact h r hr
  fresh := by
    intro l c o _ hst r hr
    exfalso
    apply hr
    unfold conn_state
    rw [hst]
    simp [xhash_get]
  dialback := by
    intro l c o rkey n t hn hu h r hr
    by_cases hrr : r = rkey
    · subst hrr
      unfold has_dbr
      rw [List.any_append]
      simp [is_dbr, hn, hu]
    · apply has_dbr_append
      apply h r
      have e : conn_state { o with states := xhash_put o.states rkey conn_INPROGRESS,
                                   states_time := t } r
          = conn_state { o with states := xhash_put o.states rkey conn_INPROGRESS } r := rfl
      rw [e, conn_state_put] at hr
      simpa [hrr] using hr
  online := fun l c o h r hr => h r hr
  other := by
    intro l r h hr
    show dialback_first_from [] (l ++ [r]) = true
    rw [dialback_first_from_append]
    simp only [Bool.and_eq_true]
    exact ⟨h, dbr_before_other _ r hr⟩
  stanza := by
    intro l c o rkey n e h hq _ hv
    show dialback_first_from [] (l ++ [_]) = true
    rw [dialback_first_from_append]
    simp only [Bool.and_eq_true]
    refine ⟨h, ?_⟩
    simp only [dbr_before, List.nil_append]
    exact hq rkey (by rw [hv]; decide)

/-- C2 (amended). In every execution of the outbound engine in which a positive
dialback answer (a `<db:result type="valid">` with parseable `from` and `to`)
is received on a connection only for routes for which the engine has started
dialback on that connection (state INPROGRESS or VALID): no non-dialback stanza
for a route is written on a connection unless a `<db:result>` for that route
was written on that connection earlier. -/
theorem C2_dialback_before_stanza (w : world) (s : s2s_st)
    (h : reachable_by w (fun s o => accepts_valid w valid_when_asked s o = true) s)
    (pre post : List sx_rec) (c : Nat) (r : String) (n : nad_st) (e : Nat)
    (hlog : s.sx_log = pre ++ { s := sx_t.out c, rkey := r, call := sx_call.nad_write_elem n e } :: post) :
    has_dbr pre c r = true := by
  have hinv := @reachable_engine_inv _ _ dialback_first_inv rfl w
    valid_when_asked ?_ ?_ s h
  · have h1 : dialback_first_from [] s.sx_log = true := hinv.1
    rw [hlog] at h1
    have := dialback_first_from_split pre _ post [] h1
    simpa [dbr_before] using this
  · intro l c o rkey hg hq r hr
    rw [conn_state_put] at hr
    simp only [valid_when_asked, decide_eq_true_eq] at hg
    by_cases hrr : r = rkey
    · rw [hrr]; exact hq rkey hg
    · simp only [hrr, if_false] at hr
      exact hq r hr
  · intro o o1 rkey _ hst
    simp only [valid_when_asked, conn_state_congr hst]

/-! ## The statements on the concrete scenario -/

/-- The claim C7 as stated fails: a peer that answers the stream header with a
positive dialback result instead of its features gets its route VALID on a
connection that is not online. -/
theorem C7_counterexample :
    reachable demo_world st_early_valid ∧
    xhash_get st_early_valid.conns 0 = some (demo_conn st_early_valid 0) ∧
    (demo_conn st_early_valid 0).online = false ∧
    conn_state (demo_conn st_early_valid 0) "a.example/b.example" = conn_VALID :=
  ⟨reachable_by_weaken
      (@reachable_by_run demo_world any_op 5 ops_early_valid (s2s_start (demo_cfg true 300))
        st_early_valid (reachable_by.start (demo_cfg true 300)) (by decide)),
    by decide, by decide, by decide⟩

theorem C7_offline_has_no_valid_route_witness :
    xhash_get st_connect_online.conns 0 = some (demo_conn st_connect_online 0) ∧
    (demo_conn st_connect_online 0).online = false ∧
    conn_state (demo_conn st_connect_online 0) "a.example/b.example" ≠ conn_VALID :=
  ⟨by decide, by decide,
    C7_offline_has_no_valid_route demo_world st_connect_online
      (@reachable_by_run demo_world (accepts_valid demo_world valid_when_online) 5 ops_connect
        (s2s_start (demo_cfg false 300)) st_connect_online
        (reachable_by.start (demo_cfg false 300)) (by decide))
      0 (demo_conn st_connect_online 0) (by decide) (by decide) "a.example/b.example"⟩

/-- The claim C2 as stated fails: after an unsolicited positive dialback result
for route `c.example/b.example`, a stanza for that route is written on
connection 0, on which no `<db:result>` for that route was ever written. -/
theorem C2_counterexample :
    reachable demo_world st_unasked_valid ∧
    st_unasked_valid.sx_log = st_online.sx_log ++
      [{ s := sx_t.out 0, rkey := "c.example/b.example",
         call := sx_call.nad_write_elem (strip_client_ns (demo_msg "c.example" "b.example").nad) 1 }] ∧
    has_dbr st_online.sx_log 0 "c.example/b.example" = false :=
  ⟨reachable_by_weaken
      (@reachable_by_run demo_world any_op 5 ops_unasked_valid (s2s_start (demo_cfg false 300))
        st_unasked_valid (reachable_by.start (demo_cfg false 300)) (by decide)),
    by decide, by decide⟩

theorem C2_dialback_before_stanza_witness :
    st_valid_asked.sx_log = st_online.sx_log ++
      { s := sx_t.out 0, rkey := "a.example/b.example",
        call := sx_call.nad_write_elem
                  (strip_client_ns (demo_msg "a.example" "b.example").nad) 1 } :: [] ∧
    has_dbr st_online.sx_log 0 "a.example/b.example" = true :=
  ⟨by decide,
    C2_dialback_before_stanza demo_world st_valid_asked
      (@reachable_by_run demo_world (accepts_valid demo_world valid_when_asked) 5 ops_valid
        (s2s_start (demo_cfg false 300)) st_valid_asked
        (reachable_by.start (demo_cfg false 300)) (by decide))
      st_online.sx_log [] 0 "a.example/b.example"
      (strip_client_ns (demo_msg "a.example" "b.example").nad) 1 (by decide)⟩

theorem C6_outq_entry_iff_pending_witness :
    reachable demo_world st_connect ∧
    ((xhash_get st_connect.outq "a.example/b.example").isSome = true ↔
      queued st_connect "a.example/b.example" ≠ []) :=
  ⟨reachable_by_weaken
      (@reachable_by_run demo_world any_op 5 ops_connect (s2s_start (demo_cfg false 300))
        st_connect (reachable_by.start (demo_cfg false 300)) (by decide)),
    (C6_outq_entry_iff_pending demo_world st_connect
      (reachable_by_weaken
        (@reachable_by_run demo_world any_op 5 ops_connect (s2s_start (demo_cfg false 300))
          st_connect (reachable_by.start (demo_cfg false 300)) (by decide)))
      "a.example/b.example").1⟩

/-- The claim C9 as stated fails: a `<db:verify>` that carries `from`, `to` and
`id`, whose `id` names no incoming connection, is dropped: `verify` is not
decremented and nothing is written. -/
theorem C9_counterexample :
    (nad_find_attr (demo_db "verify" "b.example" "a.example" "gone" "valid") 0 "from" none).isSome
      = true ∧
    (nad_find_attr (demo_db "verify" "b.example" "a.example" "gone" "valid") 0 "to" none).isSome
      = true ∧
    nad_find_attr (demo_db "verify" "b.example" "a.example" "gone" "valid") 0 "id" none
      = some "gone" ∧
    _out_verify demo_world st_online 0 (demo_db "verify" "b.example" "a.example" "gone" "valid")
      = .ok st_online := by
  decide

theorem C9_out_verify_counts_and_replies_witness :
    xhash_get st_online.conns 0 = some (demo_conn st_online 0) ∧
    xhash_get st_online.inc "in1" = some conn_zero ∧
    ∃ s1 o1, _out_verify demo_world st_online 0
        (demo_db "verify" "b.example" "a.example" "in1" "valid") = .ok s1 ∧
      xhash_get s1.conns 0 = some o1 ∧ o1.verify = (demo_conn st_online 0).verify - 1 := by
  have h := C9_out_verify_counts_and_replies demo_world st_online 0 (demo_conn st_online 0)
    (demo_db "verify" "b.example" "a.example" "in1" "valid")
    { node := "", domain := "b.example", resource := "" }
    { node := "", domain := "a.example", resource := "" } "in1" conn_zero
    (by decide) (by decide) (by decide) (by decide) (by decide)
  obtain ⟨⟨s1, o1, _, _, h1, h2, h3, _⟩, _⟩ := h
  exact ⟨by decide, by decide, s1, o1, h1, h2, h3⟩

/-- The claim C10 as stated fails for `retry_limit = 0`: the queue of the
route is five seconds old, older than `retry_limit`, yet on close the engine
reconnects (a new connection 1 is initialised) and bounces nothing; the queue
stays. -/
theorem C10_counterexample :
    st_aged.retry_limit = 0 ∧
    xhash_get st_aged.outq "a.example/b.example"
      = some (demo_queue st_aged "a.example/b.example") ∧
    jqueue_age st_aged.now (demo_queue st_aged "a.example/b.example") > st_aged.retry_limit ∧
    step demo_world 5 st_aged (.mio 0 .action_CLOSE) = .ok st_closed ∧
    (st_closed.sx_log.map (fun r => (r.s, is_client_init r.call)))
      = (st_aged.sx_log.map (fun r => (r.s, is_client_init r.call))) ++ [(sx_t.out 1, true)] ∧
    queued st_closed "a.example/b.example" = queued st_aged "a.example/b.example" ∧
    queued st_aged "a.example/b.example" ≠ [] := by
  decide

theorem C10_close_retries_or_bounces_witness :
    xhash_get st_aged.conns 0 = some (demo_conn st_aged 0) ∧
    close_unregister st_aged 0 (demo_conn st_aged 0)
      = .ok (except_get st_aged (close_unregister st_aged 0 (demo_conn st_aged 0))) ∧
    xhash_get (except_get st_aged (close_unregister st_aged 0 (demo_conn st_aged 0))).out_dest
      "b.example" = none :=
  ⟨by decide, by decide,
    (C10_close_retries_or_bounces demo_world 5 st_aged
      (except_get st_aged (close_unregister st_aged 0 (demo_conn st_aged 0))) 0
      (demo_conn st_aged 0) (by decide) (by decide)).1 "a.example/b.example" (by decide)
      "a.example" "b.example" (by decide)⟩

theorem C8_out_result_valid_or_bounce_witness :
    xhash_get st_online.conns 0 = some (demo_conn st_online 0) ∧ 0 < st_online.next_conn ∧
    _out_result demo_world 5 st_online 0 (demo_db "result" "b.example" "a.example" "" "valid") =
      out_flush_route_queue demo_world 5
        (conn_store st_online 0
          { demo_conn st_online 0 with
            states := xhash_put (demo_conn st_online 0).states "a.example/b.example" conn_VALID })
        "a.example/b.example" :=
  ⟨by decide, by decide,
    ((C8_out_result_valid_or_bounce demo_world 5 st_online 0 (demo_conn st_online 0)
      (demo_db "result" "b.example" "a.example" "" "valid")
      { node := "", domain := "b.example", resource := "" }
      { node := "", domain := "a.example", resource := "" }
      (by decide) (by decide) (by decide) (by decide)).1 (by decide)).1⟩

theorem C1_out_packet_writes_or_queues_witness :
    out_route demo_world 5 st_valid "a.example/b.example" true
      = .ok ((demo_route st_valid "a.example/b.example").1, 0, some 0) ∧
    ∃ s2, out_packet demo_world 5 st_valid (demo_msg "a.example" "b.example") = .ok (s2, 0) := by
  have h := C1_out_packet_writes_or_queues demo_world 5 st_valid
    (demo_route st_valid "a.example/b.example").1 (demo_msg "a.example" "b.example") 0 0
    (by decide)
  obtain ⟨o, s2, _, h2, _⟩ := h
  exact ⟨by decide, s2, h2⟩

theorem C3_out_packet_starts_dialback_witness :
    out_route demo_world 5 st_online "c.example/b.example" true
      = .ok ((demo_route st_online "c.example/b.example").1, 0, some 0) ∧
    (demo_conn (demo_route st_online "c.example/b.example").1 0).online = true ∧
    xhash_get (demo_conn (demo_route st_online "c.example/b.example").1 0).states
      "c.example/b.example" = none ∧
    ∃ s2, out_packet demo_world 5 st_online (demo_msg "c.example" "b.example") = .ok (s2, 0) ∧
      s2.sx_log = st_online.sx_log ++
        [{ s := sx_t.out 0, rkey := "c.example/b.example",
           call := sx_call.nad_write (db_result_nad "c.example" "b.example"
                     (demo_world.s2s_db_key st_online.local_secret "b.example"
                       (demo_conn (demo_route st_online "c.example/b.example").1 0).s_id)) }] := by
  have h := (C3_out_packet_starts_dialback demo_world 5 st_online
    (demo_route st_online "c.example/b.example").1 (demo_msg "c.example" "b.example") 0 0
    (demo_conn (demo_route st_online "c.example/b.example").1 0)
    (by decide) (by decide) (by decide) (by decide) (by decide) (by decide) (by decide)).1
    (by decide)
  obtain ⟨s2, o2, h1, _, _, h4, _⟩ := h
  exact ⟨by decide, by decide, by decide, s2, h1, h4⟩

theorem host_weight_range (weight : Int) (h0 : 0 ≤ weight) (h1 : weight ≤ 65535) :
    host_weight weight = (if weight = 0 then 16 else 256 * weight) ∧
    16 ≤ host_weight weight ∧ host_weight weight ≤ 16776960 := by
  unfold host_weight to_int32
  by_cases hz : weight = 0
  · simp [hz]
  · simp only [hz, if_false]
    have e : (weight * 256 + 2147483648) % 4294967296 = weight * 256 + 2147483648 :=
      Int.emod_eq_of_lt (by omega) (by omega)
    rw [e]
    refine ⟨by ring, by omega, by omega⟩

/-- C15. For an SRV record with raw weight `w` in 0..65535 whose `ip/port` key
is not yet in `hosts` (and the table has room, and the port passes the
assertion of `dns_make_ipport`): `_dns_add_host` returns, and the new host is
stored under its key with weight 16 when `w = 0` and `256·w` otherwise, so its
stored weight lies in 16..16776960. -/
theorem C15_new_host_weight (q : dnsquery_st) (host : String) (port prio weight ttl : Int)
    (hw0 : 0 ≤ weight) (hw1 : weight ≤ 65535) (hp0 : 0 < port) (hp1 : port < 65536)
    (hnew : xhash_get q.hosts (fmt_ipport host port) = none)
    (hroom : xhash_count q.hosts < DNS_MAX_RESULTS) :
    ∃ q1 res, _dns_add_host q host port prio weight ttl = .ok q1 ∧
      xhash_get q1.hosts (fmt_ipport host port) = some res ∧
      res.key = fmt_ipport host port ∧ res.prio = prio ∧
      res.weight = (if weight = 0 then 16 else 256 * weight) ∧
      16 ≤ res.weight ∧ res.weight ≤ 16776960 := by
  obtain ⟨h1, h2, h3⟩ := host_weight_range weight hw0 hw1
  refine ⟨{ q with hosts := xhash_put q.hosts (fmt_ipport host port)
                    { key := fmt_ipport host port, prio := prio, weight := host_weight weight,
                      expiry := to_uint32 ttl } },
    { key := fmt_ipport host port, prio := prio, weight := host_weight weight,
      expiry := to_uint32 ttl }, ?_, ?_, rfl, rfl, h1, h2, h3⟩
  · unfold _dns_add_host dns_make_ipport
    simp only [hp0, hp1, and_self, if_true, hnew, hroom]
  · show xhash_get (xhash_put q.hosts _ _) _ = _
    rw [xhash_get_put_same]

/-! ## C17: the bounds of the final TTLs -/

theorem clamp_ttl_bounds (s : s2s_st) (e : Int) (h : s.dns_min_ttl ≤ s.dns_max_ttl) :
    s.dns_min_ttl ≤ clamp_ttl s e ∧ clamp_ttl s e ≤ s.dns_max_ttl := by
  unfold clamp_ttl
  simp only
  split <;> split <;> constructor <;> omega

theorem clamp_ttl_mono (s : s2s_st) (a b : Int) (h : a ≤ b) : clamp_ttl s a ≤ clamp_ttl s b := by
  unfold clamp_ttl
  simp only
  repeat' split
  all_goals omega

theorem final_results_mem (s : s2s_st) (q : dnsquery_st) (e : String × dnsres_st)
    (h : e ∈ final_results s q) :
    ∃ e0 ∈ q.results, e.1 = e0.1 ∧ e.2 = { e0.2 with expiry := clamp_ttl s e0.2.expiry + s.now } := by
  unfold final_results at h
  simp only [List.mem_map] at h
  obtain ⟨e0, h0, he⟩ := h
  exact ⟨e0, h0, by rw [← he], by rw [← he]⟩

/-- What `_dns_result_a` does after the last host: it hands the clamped
results to `out_resolve`. -/
theorem dns_result_a_last {w : world} {fuel : Nat} {s : s2s_st} {q q1 : dnsquery_st}
    {ans : ub_answer} (hadd : addr_add { q with have_async_id := false } ans = .ok q1)
    (hlast : q1.hosts = []) :
    _dns_result_a w fuel s q ans =
      match out_resolve w fuel s
          (match w.idna_to_unicode q1.name with | some d => d | none => q1.name)
          (final_results s q1) (clamp_ttl s q1.expiry + s.now) with
      | .error f => .error f
      | .ok s1 => .ok (s1, none) := by
  unfold _dns_result_a
  rw [hadd]
  simp only [hlast]
  rfl

/-- C17. When the last host of a query has been resolved (no host is left in
`hosts` after the answer was recorded) and `dns_min_ttl ≤ dns_max_ttl`:
`_dns_result_a` calls `out_resolve` with the decoded domain name, the results of
the query under their keys with clamped absolute expiries (`final_results`) and
the clamped absolute aggregate expiry; the aggregate expiry and the expiry of
every result of that mapping lie between `now + dns_min_ttl` and
`now + dns_max_ttl`, whatever TTLs were recorded; and when there are results
and the domain has a cache entry, `out_resolve` stores exactly this mapping and
this expiry in the entry before it flushes the queues. -/
theorem C17_final_ttl_bounds (w : world) (fuel : Nat) (s : s2s_st) (q q1 : dnsquery_st)
    (ans : ub_answer) (domain : String) (hmm : s.dns_min_ttl ≤ s.dns_max_ttl)
    (hadd : addr_add { q with have_async_id := false } ans = .ok q1)
    (hlast : q1.hosts = [])
    (hdom : domain = (match w.idna_to_unicode q1.name with | some d => d | none => q1.name)) :
    _dns_result_a w fuel s q ans =
      (match out_resolve w fuel s domain (final_results s q1) (clamp_ttl s q1.expiry + s.now) with
       | .error f => .error f
       | .ok s1 => .ok (s1, none)) ∧
    (final_results s q1).map (fun e => e.1) = q1.results.map (fun e => e.1) ∧
    s.now + s.dns_min_ttl ≤ clamp_ttl s q1.expiry + s.now ∧
    clamp_ttl s q1.expiry + s.now ≤ s.now + s.dns_max_ttl ∧
    (∀ e ∈ final_results s q1,
      s.now + s.dns_min_ttl ≤ e.2.expiry ∧ e.2.expiry ≤ s.now + s.dns_max_ttl) ∧
    (∀ dns, q1.results ≠ [] → xhash_get s.dnscache domain = some dns →
      out_resolve w fuel s domain (final_results s q1) (clamp_ttl s q1.expiry + s.now) =
        match out_flush_domain_queues w fuel
            (dns_store s domain
              { dns with query := none, results := some (final_results s q1),
                         expiry := clamp_ttl s q1.expiry + s.now, pending := false })
            domain with
        | .error f => .error f
        | .ok s2 =>
          match xhash_get s2.dnscache domain with
          | none => .error .abort
          | some d =>
            if !s2.dns_cache_enabled && !d.pending then
              .ok { s2 with dnscache := xhash_zap s2.dnscache domain }
            else .ok s2) := by
  subst hdom
  refine ⟨dns_result_a_last hadd hlast, ?_, ?_, ?_, ?_, ?_⟩
  · unfold final_results
    simp [List.map_map, Function.comp_def]
  · have := (clamp_ttl_bounds s q1.expiry hmm).1; omega
  · have := (clamp_ttl_bounds s q1.expiry hmm).2; omega
  · intro e he
    obtain ⟨e0, _, _, h2⟩ := final_results_mem s q1 e he
    rw [h2]
    have := clamp_ttl_bounds s e0.2.expiry hmm
    constructor
    · show s.now + s.dns_min_ttl ≤ clamp_ttl s e0.2.expiry + s.now; omega
    · show clamp_ttl s e0.2.expiry + s.now ≤ s.now + s.dns_max_ttl; omega
  · intro dns hne hg
    have hc : xhash_count (final_results s q1) ≠ 0 := by
      unfold final_results xhash_count
      rw [List.length_map]
      intro h0
      exact hne (List.length_eq_zero.1 h0)
    unfold out_resolve
    simp only [hc, if_false, hg]

/-! ## C16: the TTL of the query and the TTLs of its results -/

theorem xhash_get_mem {κ α : Type} [DecidableEq κ] (h : List (κ × α)) (k : κ) (v : α)
    (hg : xhash_get h k = some v) : (k, v) ∈ h := by
  induction h with
  | nil => simp [xhash_get] at hg
  | cons e t ih =>
    obtain ⟨k', v'⟩ := e
    by_cases hk : k' = k
    · simp only [xhash_get, hk, if_true, Option.some.injEq] at hg
      rw [hk, hg]; exact List.mem_cons_self _ _
    · simp only [xhash_get, hk, if_false] at hg
      exact List.mem_cons_of_mem _ (ih hg)

theorem mem_xhash_replace {κ α : Type} [DecidableEq κ] (h : List (κ × α)) (k : κ) (v : α)
    (e : κ × α) (he : e ∈ xhash_replace h k v) : e ∈ h ∨ e = (k, v) := by
  induction h with
  | nil => simp [xhash_replace] at he
  | cons a t ih =>
    obtain ⟨k', v'⟩ := a
    by_cases hk : k' = k
    · simp only [xhash_replace, hk, if_true, List.mem_cons] at he
      rcases he with he | he
      · right; exact he
      · rcases ih he with h1 | h1
        · left; exact List.mem_cons_of_mem _ h1
        · right; exact h1
    · simp only [xhash_replace, hk, if_false, List.mem_cons] at he
      rcases he with he | he
      · left; rw [he]; exact List.mem_cons_self _ _
      · rcases ih he with h1 | h1
        · left; exact List.mem_cons_of_mem _ h1
        · right; exact h1

theorem mem_xhash_put {κ α : Type} [DecidableEq κ] (h : List (κ × α)) (k : κ) (v : α)
    (e : κ × α) (he : e ∈ xhash_put h k v) : e ∈ h ∨ e = (k, v) := by
  unfold xhash_put at he
  split at he
  · exact mem_xhash_replace h k v e he
  · simp only [List.mem_append, List.mem_singleton] at he
    exact he

theorem xhash_replace_ne_nil {κ α : Type} [DecidableEq κ] (h : List (κ × α)) (k : κ) (v : α)
    (hn : h ≠ []) : xhash_replace h k v ≠ [] := by
  cases h with
  | nil => exact absurd rfl hn
  | cons a t =>
    obtain ⟨k', v'⟩ := a
    by_cases hk : k' = k <;> simp [xhash_replace, hk]

theorem xhash_put_ne_nil {κ α : Type} [DecidableEq κ] (h : List (κ × α)) (k : κ) (v : α) :
    xhash_put h k v ≠ [] := by
  unfold xhash_put
  split
  · rename_i x hx
    apply xhash_replace_ne_nil
    intro hnil
    rw [hnil] at hx
    simp [xhash_get] at hx
  · simp

theorem dns_merge_expiry (res : dnsres_st) (prio weight ttl : Int) :
    (dns_merge res prio weight ttl).expiry = if ttl > res.expiry then ttl else res.expiry := by
  unfold dns_merge
  simp only
  repeat' split
  all_goals rfl

theorem to_uint32_nonneg (x : Int) : 0 ≤ to_uint32 x :=
  Int.emod_nonneg x (by decide)

/-- `_dns_add_result` keeps the relation between the TTLs and leaves a result
behind unless the table is full; it does not touch `hosts`. -/
theorem dns_add_result_ok {q q1 : dnsquery_st} {ip : String} {port prio weight ttl : Int}
    (h : _dns_add_result q ip port prio weight ttl = .ok q1) (hq : query_ok q) :
    query_ok q1 ∧ q1.hosts = q.hosts ∧ q1.name = q.name := by
  unfold _dns_add_result at h
  cases hm : dns_make_ipport ip port with
  | error f => rw [hm] at h; simp at h
  | ok ipport =>
    rw [hm] at h
    simp only at h
    cases hg : xhash_get q.results ipport with
    | some res =>
      rw [hg] at h
      simp only [Except.ok.injEq] at h
      rw [← h]
      refine ⟨⟨?_, ?_⟩, rfl, rfl⟩
      · intro e he
        show e.2.expiry ≤ (if to_uint32 ttl > q.expiry then to_uint32 ttl else q.expiry)
        rcases mem_xhash_replace _ _ _ e he with h1 | h1
        · have := hq.1 e h1
          split <;> omega
        · rw [h1]
          show (dns_merge res prio weight (to_uint32 ttl)).expiry ≤ _
          rw [dns_merge_expiry]
          have := hq.1 _ (xhash_get_mem _ _ _ hg)
          simp only at this
          split <;> split <;> omega
      · intro hnil
        exfalso
        have hne : q.results ≠ [] := by
          intro hh; rw [hh] at hg; simp [xhash_get] at hg
        exact xhash_replace_ne_nil _ _ _ hne hnil
    | none =>
      rw [hg] at h
      simp only at h
      split at h
      · simp only [Except.ok.injEq] at h
        rw [← h]
        refine ⟨⟨?_, ?_⟩, rfl, rfl⟩
        · intro e he
          show e.2.expiry ≤ (if to_uint32 ttl > q.expiry then to_uint32 ttl else q.expiry)
          rcases mem_xhash_put _ _ _ e he with h1 | h1
          · have := hq.1 e h1
            split <;> omega
          · rw [h1]
            show to_uint32 ttl ≤ _
            split <;> omega
        · intro hnil
          exact absurd hnil (xhash_put_ne_nil _ _ _)
      · simp only [Except.ok.injEq] at h
        rw [← h]; exact ⟨hq, rfl, rfl⟩

theorem addr_loop_ok (ttl : Int) : ∀ (l : List (Option String)) {q q1 : dnsquery_st},
    addr_loop ttl l q = .ok q1 → query_ok q → query_ok q1 ∧ q1.hosts = q.hosts ∧ q1.name = q.name := by
  intro l
  induction l with
  | nil =>
    intro q q1 h hq
    simp only [addr_loop, Except.ok.injEq] at h
    rw [← h]; exact ⟨hq, rfl, rfl⟩
  | cons a t ih =>
    intro q q1 h hq
    cases a with
    | none => simp only [addr_loop] at h; exact ih h hq
    | some ip =>
      simp only [addr_loop] at h
      cases hr : _dns_add_result q ip q.cur_port q.cur_prio q.cur_weight (ttl_limit q ttl) with
      | error f => rw [hr] at h; simp at h
      | ok q2 =>
        rw [hr] at h
        obtain ⟨h1, h2, h3⟩ := dns_add_result_ok hr hq
        obtain ⟨h4, h5, h6⟩ := ih h h1
        exact ⟨h4, h5.trans h2, h6.trans h3⟩

theorem addr_add_ok {q q1 : dnsquery_st} {ans : ub_answer}
    (h : addr_add q ans = .ok q1) (hq : query_ok q) :
    query_ok q1 ∧ q1.hosts = q.hosts ∧ q1.name = q.name := by
  unfold addr_add at h
  split at h
  · exact addr_loop_ok _ _ h hq
  · simp only [Except.ok.injEq] at h
    rw [← h]; exact ⟨hq, rfl, rfl⟩

theorem dns_add_host_frame {q q1 : dnsquery_st} {ip : String} {port prio weight ttl : Int}
    (h : _dns_add_host q ip port prio weight ttl = .ok q1) :
    q1.results = q.results ∧ q1.expiry = q.expiry := by
  unfold _dns_add_host at h
  cases hm : dns_make_ipport ip port with
  | error f => rw [hm] at h; simp at h
  | ok ipport =>
    rw [hm] at h
    simp only at h
    split at h
    · simp only [Except.ok.injEq] at h; rw [← h]; exact ⟨rfl, rfl⟩
    · split at h
      · simp only [Except.ok.injEq] at h; rw [← h]; exact ⟨rfl, rfl⟩
      · simp only [Except.ok.injEq] at h; rw [← h]; exact ⟨rfl, rfl⟩

theorem srv_add_frame {q q1 : dnsquery_st} {rr : srv_rr} (h : srv_add q rr = .ok q1) :
    q1.results = q.results ∧ q1.expiry = q.expiry := by
  unfold srv_add at h
  repeat' split at h
  all_goals first
    | (simp only [Except.ok.injEq] at h; rw [← h]; exact ⟨rfl, rfl⟩)
    | exact dns_add_host_frame h

theorem srv_loop_frame : ∀ (l : List srv_rr) {q q1 : dnsquery_st}, srv_loop l q = .ok q1 →
    q1.results = q.results ∧ q1.expiry = q.expiry := by
  intro l
  induction l with
  | nil => intro q q1 h; simp only [srv_loop, Except.ok.injEq] at h; rw [← h]; exact ⟨rfl, rfl⟩
  | cons a t ih =>
    intro q q1 h
    simp only [srv_loop] at h
    cases hr : srv_add q a with
    | error f => rw [hr] at h; simp at h
    | ok q2 =>
      rw [hr] at h
      obtain ⟨h1, h2⟩ := srv_add_frame hr
      obtain ⟨h3, h4⟩ := ih h
      exact ⟨h3.trans h1, h4.trans h2⟩

theorem query_ok_congr {q q1 : dnsquery_st} (hr : q1.results = q.results)
    (he : q1.expiry = q.expiry) (hq : query_ok q) : query_ok q1 := by
  unfold query_ok at *
  rw [hr, he]; exact hq

theorem dns_srv_next_frame (s : s2s_st) (q : dnsquery_st) :
    (dns_srv_next s q).results = q.results ∧ (dns_srv_next s q).expiry = q.expiry := by
  unfold dns_srv_next
  simp only
  repeat' split
  all_goals exact ⟨rfl, rfl⟩

/-- Every state of a query satisfies the relation between the TTLs. -/
theorem query_run_ok {w : world} {q : dnsquery_st} (h : query_run w q) : query_ok q := by
  induction h with
  | start s dns q hq =>
    unfold dns_resolve_domain at hq
    simp only [Option.some.injEq] at hq
    rw [← hq]
    refine query_ok_congr (dns_srv_next_frame _ _).1 (dns_srv_next_frame _ _).2 ?_
    exact ⟨fun e he => by simp at he, fun _ => rfl⟩
  | srv s q q1 ans _ hstep ih =>
    unfold _dns_result_srv at hstep
    simp only at hstep
    split at hstep
    · simp at hstep
    · rename_i q2 hq2
      simp only [Except.ok.injEq] at hstep
      rw [← hstep]
      refine query_ok_congr (dns_srv_next_frame _ _).1 (dns_srv_next_frame _ _).2 ?_
      have hfr : q2.results = q.results ∧ q2.expiry = q.expiry := by
        split at hq2
        · simp only [Except.ok.injEq] at hq2; rw [← hq2]; exact ⟨rfl, rfl⟩
        · split at hq2
          · have := srv_loop_frame _ hq2
            exact this
          · simp only [Except.ok.injEq] at hq2; rw [← hq2]; exact ⟨rfl, rfl⟩
      exact query_ok_congr hfr.1 hfr.2 ih
  | aaaa q q1 ans _ hstep ih =>
    unfold _dns_result_aaaa at hstep
    split at hstep
    · simp at hstep
    · rename_i q2 hq2
      simp only [Except.ok.injEq] at hstep
      rw [← hstep]
      have := (addr_add_ok hq2 (query_ok_congr rfl rfl ih)).1
      exact query_ok_congr rfl rfl this
  | a fuel s s1 q q1 ans _ hstep ih =>
    unfold _dns_result_a at hstep
    split at hstep
    · simp at hstep
    · rename_i q2 hq2
      have h2 := (addr_add_ok hq2 (query_ok_congr rfl rfl ih)).1
      split at hstep
      · split at hstep
        · simp at hstep
        · split at hstep
          · simp at hstep
          · simp only [Except.ok.injEq, Prod.mk.injEq, Option.some.injEq] at hstep
            rw [← hstep.2]
            split
            · exact query_ok_congr rfl rfl h2
            · exact query_ok_congr rfl rfl h2
      · split at hstep
        · simp at hstep
        · simp at hstep

theorem dns_add_result_max {q q1 : dnsquery_st} {ip : String} {port prio weight ttl : Int}
    (h : _dns_add_result q ip port prio weight ttl = .ok q1) (hq : query_ok q)
    (hm : query_max q) : query_max q1 := by
  unfold _dns_add_result at h
  cases hmk : dns_make_ipport ip port with
  | error f => rw [hmk] at h; simp at h
  | ok ipport =>
    rw [hmk] at h
    simp only at h
    cases hg : xhash_get q.results ipport with
    | some res =>
      rw [hg] at h
      simp only [Except.ok.injEq] at h
      rw [← h]
      intro _
      have hres : res.expiry ≤ q.expiry := hq.1 _ (xhash_get_mem _ _ _ hg)
      have hne : q.results ≠ [] := by
        intro hh; rw [hh] at hg; simp [xhash_get] at hg
      by_cases hT : to_uint32 ttl > q.expiry
      · refine ⟨ipport, dns_merge res prio weight (to_uint32 ttl), ?_, ?_⟩
        · show xhash_get (xhash_replace q.results ipport _) ipport = _
          rw [xhash_get_replace_same, hg]; rfl
        · show _ = (if to_uint32 ttl > q.expiry then to_uint32 ttl else q.expiry)
          rw [dns_merge_expiry, if_pos hT, if_pos (by omega)]
      · obtain ⟨k, r, hk, hr⟩ := hm hne
        by_cases hkk : k = ipport
        · subst hkk
          rw [hg] at hk
          simp only [Option.some.injEq] at hk
          subst hk
          refine ⟨k, dns_merge res prio weight (to_uint32 ttl), ?_, ?_⟩
          · show xhash_get (xhash_replace q.results k _) k = _
            rw [xhash_get_replace_same, hg]; rfl
          · show _ = (if to_uint32 ttl > q.expiry then to_uint32 ttl else q.expiry)
            rw [dns_merge_expiry, if_neg hT, if_neg (by omega)]
            exact hr
        · refine ⟨k, r, ?_, ?_⟩
          · show xhash_get (xhash_replace q.results ipport _) k = _
            rw [xhash_get_replace_other _ _ _ _ hkk]; exact hk
          · show _ = (if to_uint32 ttl > q.expiry then to_uint32 ttl else q.expiry)
            rw [if_neg hT]; exact hr
    | none =>
      rw [hg] at h
      simp only at h
      split at h
      · simp only [Except.ok.injEq] at h
        rw [← h]
        intro _
        by_cases hT : to_uint32 ttl > q.expiry
        · refine ⟨ipport, _, xhash_get_put_same _ _ _, ?_⟩
          show _ = (if to_uint32 ttl > q.expiry then to_uint32 ttl else q.expiry)
          rw [if_pos hT]
        · by_cases hnil : q.results = []
          · refine ⟨ipport, _, xhash_get_put_same _ _ _, ?_⟩
            show _ = (if to_uint32 ttl > q.expiry then to_uint32 ttl else q.expiry)
            rw [if_neg hT]
            have h0 := hq.2 hnil
            have := to_uint32_nonneg ttl
            show to_uint32 ttl = q.expiry
            omega
          · obtain ⟨k, r, hk, hr⟩ := hm hnil
            have hkk : k ≠ ipport := by
              intro hh; rw [hh, hg] at hk; simp at hk
            refine ⟨k, r, ?_, ?_⟩
            · show xhash_get (xhash_put q.results ipport _) k = _
              rw [xhash_get_put_other _ _ _ _ hkk]; exact hk
            · show _ = (if to_uint32 ttl > q.expiry then to_uint32 ttl else q.expiry)
              rw [if_neg hT]; exact hr
      · simp only [Except.ok.injEq] at h
        rw [← h]; exact hm

theorem addr_loop_max (ttl : Int) : ∀ (l : List (Option String)) {q q1 : dnsquery_st},
    addr_loop ttl l q = .ok q1 → query_ok q → query_max q → query_max q1 := by
  intro l
  induction l with
  | nil =>
    intro q q1 h _ hm
    simp only [addr_loop, Except.ok.injEq] at h
    rw [← h]; exact hm
  | cons a t ih =>
    intro q q1 h hq hm
    cases a with
    | none => simp only [addr_loop] at h; exact ih h hq hm
    | some ip =>
      simp only [addr_loop] at h
      cases hr : _dns_add_result q ip q.cur_port q.cur_prio q.cur_weight (ttl_limit q ttl) with
      | error f => rw [hr] at h; simp at h
      | ok q2 =>
        rw [hr] at h
        exact ih h (dns_add_result_ok hr hq).1 (dns_add_result_max hr hq hm)

theorem addr_add_max {q q1 : dnsquery_st} {ans : ub_answer}
    (h : addr_add q ans = .ok q1) (hq : query_ok q) (hm : query_max q) : query_max q1 := by
  unfold addr_add at h
  split at h
  · exact addr_loop_max _ _ h hq hm
  · simp only [Except.ok.injEq] at h
    rw [← h]; exact hm

theorem query_max_congr {q q1 : dnsquery_st} (hr : q1.results = q.results)
    (he : q1.expiry = q.expiry) (hq : query_max q) : query_max q1 := by
  unfold query_max at *
  rw [hr, he]; exact hq

/-- In every state of a query that has results, the TTL of the query is the TTL
of one of them. -/
theorem query_run_max {w : world} {q : dnsquery_st} (h : query_run w q) : query_max q := by
  induction h with
  | start s dns q hq =>
    unfold dns_resolve_domain at hq
    simp only [Option.some.injEq] at hq
    rw [← hq]
    refine query_max_congr (dns_srv_next_frame _ _).1 (dns_srv_next_frame _ _).2 ?_
    intro hne; exact absurd rfl hne
  | srv s q q1 ans _ hstep ih =>
    unfold _dns_result_srv at hstep
    simp only at hstep
    split at hstep
    · simp at hstep
    · rename_i q2 hq2
      simp only [Except.ok.injEq] at hstep
      rw [← hstep]
      refine query_max_congr (dns_srv_next_frame _ _).1 (dns_srv_next_frame _ _).2 ?_
      have hfr : q2.results = q.results ∧ q2.expiry = q.expiry := by
        split at hq2
        · simp only [Except.ok.injEq] at hq2; rw [← hq2]; exact ⟨rfl, rfl⟩
        · split at hq2
          · have := srv_loop_frame _ hq2
            exact this
          · simp only [Except.ok.injEq] at hq2; rw [← hq2]; exact ⟨rfl, rfl⟩
      exact query_max_congr hfr.1 hfr.2 ih
  | aaaa q q1 ans hprev hstep ih =>
    unfold _dns_result_aaaa at hstep
    split at hstep
    · simp at hstep
    · rename_i q2 hq2
      simp only [Except.ok.injEq] at hstep
      rw [← hstep]
      have hok : query_ok q := query_run_ok hprev
      have := addr_add_max hq2 (query_ok_congr rfl rfl hok) (query_max_congr rfl rfl ih)
      exact query_max_congr rfl rfl this
  | a fuel s s1 q q1 ans hprev hstep ih =>
    unfold _dns_result_a at hstep
    split at hstep
    · simp at hstep
    · rename_i q2 hq2
      have hok : query_ok q := query_run_ok hprev
      have h2 := addr_add_max hq2 (query_ok_congr rfl rfl hok) (query_max_congr rfl rfl ih)
      split at hstep
      · split at hstep
        · simp at hstep
        · split at hstep
          · simp at hstep
          · simp only [Except.ok.injEq, Prod.mk.injEq, Option.some.injEq] at hstep
            rw [← hstep.2]
            split
            · exact query_max_congr rfl rfl h2
            · exact query_max_congr rfl rfl h2
      · split at hstep
        · simp at hstep
        · simp at hstep

theorem final_results_max (s : s2s_st) (q : dnsquery_st) (hm : query_max q)
    (hne : final_results s q ≠ []) :
    ∃ e ∈ final_results s q, e.2.expiry = clamp_ttl s q.expiry + s.now := by
  have hq : q.results ≠ [] := by
    intro hh; apply hne; unfold final_results; rw [hh]; rfl
  obtain ⟨k, r, hk, hr⟩ := hm hq
  refine ⟨(k, { r with expiry := clamp_ttl s r.expiry + s.now }), ?_, ?_⟩
  · unfold final_results
    exact List.mem_map.2 ⟨(k, r), xhash_get_mem _ _ _ hk, rfl⟩
  · show clamp_ttl s r.expiry + s.now = _
    rw [hr]

/-- C16 (amended). After a resolution has been finalized and stored by
`out_resolve`, the cache entry's expiry is ≤ the expiry of at least one result
in its results mapping, and it is ≥ the expiry of every result (it is the
largest of them), for every sequence of DNS answers: in every state of a
query, when the last host has been resolved, `_dns_result_a` hands to
`out_resolve` an aggregate expiry `E` and a mapping `R` with `r.expiry ≤ E`
for every result and, when `R` is not empty, `r.expiry = E` for one of them;
and `out_resolve` stores exactly `R` and `E` in the cache entry of the domain
before it flushes the queues. -/
theorem C16_entry_expiry_bounds_results (w : world) (fuel : Nat) (s : s2s_st)
    (q q1 : dnsquery_st) (ans : ub_answer) (hrun : query_run w q)
    (hadd : addr_add { q with have_async_id := false } ans = .ok q1)
    (hlast : q1.hosts = []) :
    ∃ (domain : String) (R : xht dnsres_st) (E : Int),
      _dns_result_a w fuel s q ans =
        (match out_resolve w fuel s domain R E with
         | .error f => .error f
         | .ok s1 => .ok (s1, none)) ∧
      (∀ e ∈ R, e.2.expiry ≤ E) ∧
      (R ≠ [] → ∃ e ∈ R, e.2.expiry = E) ∧
      (∀ dns, xhash_count R ≠ 0 → xhash_get s.dnscache domain = some dns →
        out_resolve w fuel s domain R E =
          match out_flush_domain_queues w fuel
              (dns_store s domain
                { dns with query := none, results := some R, expiry := E, pending := false })
              domain with
          | .error f => .error f
          | .ok s2 =>
            match xhash_get s2.dnscache domain with
            | none => .error .abort
            | some d =>
              if !s2.dns_cache_enabled && !d.pending then
                .ok { s2 with dnscache := xhash_zap s2.dnscache domain }
              else .ok s2) := by
  have hq0 : query_ok q := query_run_ok hrun
  have hq1 : query_ok { q with have_async_id := false } := query_ok_congr rfl rfl hq0
  have hok : query_ok q1 := (addr_add_ok hadd hq1).1
  have hm0 : query_max q := query_run_max hrun
  have hmax : query_max q1 := addr_add_max hadd hq1 (query_max_congr rfl rfl hm0)
  refine ⟨_, final_results s q1, clamp_ttl s q1.expiry + s.now, dns_result_a_last hadd hlast,
    ?_, final_results_max s q1 hmax, ?_⟩
  · intro e he
    obtain ⟨e0, h0, _, h2⟩ := final_results_mem s q1 e he
    rw [h2]
    have := clamp_ttl_mono s _ _ (hok.1 e0 h0)
    show clamp_ttl s e0.2.expiry + s.now ≤ clamp_ttl s q1.expiry + s.now
    omega
  · intro dns hc hg
    unfold out_resolve
    simp only [hc, if_false, hg]

/-! ## C18: a resolution without results -/

/-- What `out_bounce_domain_queues` does, for any snapshot of keys: only the
trace and `outq` change; the trace grows by bounces to the router; a queue is
either gone or untouched; the queues of the matching keys of the snapshot are
gone and their packets that can be bounced were bounced; the queues of keys
that do not match are untouched. -/
theorem bounce_domain_fold (domain : String) (err : err_t) (keys : List String) :
    ∀ (s : s2s_st) (n : Int) (res : s2s_st),
      (keys.foldl
        (fun acc rkey =>
          if s2s_route_key_match domain rkey then
            ((out_bounce_route_queue acc.1 rkey err).1, acc.2 + (out_bounce_route_queue acc.1 rkey err).2)
          else acc) (s, n)).1 = res →
      res = { s with sx_log := res.sx_log, outq := res.outq } ∧
      (∃ extra, res.sx_log = s.sx_log ++ extra ∧
        (∀ r ∈ extra, r.s = sx_t.router ∧ ∃ p, r.call = sx_call.bounce p err) ∧
        (∀ k ∈ keys, s2s_route_key_match domain k = true → ∀ q, xhash_get s.outq k = some q →
          ∀ p ∈ q.items, bounceable p = true →
            { s := sx_t.router, rkey := k, call := sx_call.bounce p.nad err } ∈ extra)) ∧
      (∀ k, xhash_get res.outq k = none ∨ xhash_get res.outq k = xhash_get s.outq k) ∧
      (∀ k ∈ keys, s2s_route_key_match domain k = true → xhash_get res.outq k = none) ∧
      (∀ k, s2s_route_key_match domain k = false → xhash_get res.outq k = xhash_get s.outq k) := by
  induction keys with
  | nil =>
    intro s n res h
    simp only [List.foldl_nil] at h
    subst h
    exact ⟨rfl, ⟨[], by simp, by simp, by simp⟩, fun k => Or.inr rfl, by simp, fun k _ => rfl⟩
  | cons k t ih =>
    intro s n res h
    simp only [List.foldl_cons] at h
    by_cases hm : s2s_route_key_match domain k = true
    · simp only [hm, if_true] at h
      obtain ⟨hfr, ⟨extra, hlog, hrecs, hmem⟩, hq, hnone, hother⟩ := ih _ _ res h
      have heq := out_bounce_route_queue_eq s k err
      have hlog0 : (out_bounce_route_queue s k err).1.sx_log
          = s.sx_log ++ bounce_recs k err (queued s k) := by rw [heq]
      have hq0 : (out_bounce_route_queue s k err).1.outq = xhash_zap s.outq k := by rw [heq]
      rw [hq0] at hq hmem hother
      rw [hlog0] at hlog
      refine ⟨?_, ⟨bounce_recs k err (queued s k) ++ extra, ?_, ?_, ?_⟩, ?_, ?_, ?_⟩
      · rw [hfr, heq]
      · rw [hlog]; simp
      · intro r hr
        rcases List.mem_append.1 hr with hr | hr
        · unfold bounce_recs at hr
          simp only [List.mem_map] at hr
          obtain ⟨p, _, hp⟩ := hr
          rw [← hp]
          exact ⟨rfl, p.nad, rfl⟩
        · exact hrecs r hr
      · intro k' hk' hm' q hg p hp hb
        by_cases hkk : k' = k
        · subst hkk
          apply List.mem_append_left
          unfold bounce_recs
          simp only [List.mem_map, List.mem_filter]
          exact ⟨p, ⟨by rw [queued_of_get hg]; exact hp, hb⟩, rfl⟩
        · apply List.mem_append_right
          have hk't : k' ∈ t := by
            rcases List.mem_cons.1 hk' with h1 | h1
            · exact absurd h1 hkk
            · exact h1
          refine hmem k' hk't hm' q ?_ p hp hb
          rw [xhash_get_zap_other _ _ _ hkk]; exact hg
      · intro k'
        rcases hq k' with h1 | h1
        · left; exact h1
        · by_cases hkk : k' = k
          · left
            rw [h1, hkk]
            exact xhash_get_zap_same _ _
          · right
            rw [h1]
            exact xhash_get_zap_other _ _ _ hkk
      · intro k' hk' hm'
        rcases List.mem_cons.1 hk' with h1 | h1
        · rcases hq k' with h2 | h2
          · exact h2
          · rw [h2, h1]
            exact xhash_get_zap_same _ _
        · exact hnone k' h1 hm'
      · intro k' hm'
        rw [hother k' hm']
        have hkk : k' ≠ k := by
          intro e; rw [e, hm] at hm'; simp at hm'
        exact xhash_get_zap_other _ _ _ hkk
    · simp only [hm] at h
      obtain ⟨hfr, ⟨extra, hlog, hrecs, hmem⟩, hq, hnone, hother⟩ := ih _ _ res h
      refine ⟨hfr, ⟨extra, hlog, hrecs, ?_⟩, hq, ?_, hother⟩
      · intro k' hk' hm' q hg p hp hb
        rcases List.mem_cons.1 hk' with h1 | h1
        · rw [h1] at hm'; exact absurd hm' hm
        · exact hmem k' h1 hm' q hg p hp hb
      · intro k' hk' hm'
        rcases List.mem_cons.1 hk' with h1 | h1
        · rw [h1] at hm'; exact absurd hm' hm
        · exact hnone k' h1 hm'

theorem xhash_get_none_of_not_mem {κ α : Type} [DecidableEq κ] (h : List (κ × α)) (k : κ)
    (hk : k ∉ h.map (fun e => e.1)) : xhash_get h k = none := by
  cases hg : xhash_get h k with
  | none => rfl
  | some v =>
    exfalso
    apply hk
    simp only [List.mem_map]
    exact ⟨(k, v), xhash_get_mem h k v hg, rfl⟩

theorem clamp_ttl_zero (s : s2s_st) (h : 0 ≤ s.dns_min_ttl) : clamp_ttl s 0 = s.dns_min_ttl := by
  unfold clamp_ttl
  simp only
  repeat' split
  all_goals omega

/-- C18 (amended). When the resolution chain finishes with zero results (the
last answer is recorded, no host is left and `results` is empty) and a cache
entry exists for the domain: `_dns_result_a` returns; the entry becomes a
negative entry (results NULL, query and pending cleared) whose expiry is `now`
plus the TTL 0 clamped to `dns_max_ttl` and then to `dns_min_ttl`, which is
`now + dns_min_ttl` when `dns_min_ttl` is not negative; nothing is flushed (the
connections are untouched and the trace grows only by bounces to the router
with remote-server-not-found); the queue of every route to the domain is gone
and each of its packets that can be bounced was bounced; the queues of the
other routes are untouched. -/
theorem C18_no_results_negative_entry (w : world) (fuel : Nat) (s : s2s_st)
    (q q1 : dnsquery_st) (ans : ub_answer) (domain : String) (dns : dnscache_st)
    (hrun : query_run w q)
    (hadd : addr_add { q with have_async_id := false } ans = .ok q1)
    (hlast : q1.hosts = []) (hzero : q1.results = [])
    (hdom : domain = (match w.idna_to_unicode q1.name with | some d => d | none => q1.name))
    (hdns : xhash_get s.dnscache domain = some dns) :
    ∃ s1 extra, _dns_result_a w fuel s q ans = .ok (s1, none) ∧
      xhash_get s1.dnscache domain =
        some { dns with query := none, results := none, expiry := clamp_ttl s 0 + s.now,
                        pending := false } ∧
      (0 ≤ s.dns_min_ttl → clamp_ttl s 0 + s.now = s.now + s.dns_min_ttl) ∧
      s1.conns = s.conns ∧
      s1.sx_log = s.sx_log ++ extra ∧
      (∀ r ∈ extra, r.s = sx_t.router ∧
        ∃ p, r.call = sx_call.bounce p stanza_err_REMOTE_SERVER_NOT_FOUND) ∧
      (∀ k, s2s_route_key_match domain k = true →
        xhash_get s1.outq k = none ∧
        ∀ q0, xhash_get s.outq k = some q0 → ∀ p ∈ q0.items, bounceable p = true →
          { s := sx_t.router, rkey := k,
            call := sx_call.bounce p.nad stanza_err_REMOTE_SERVER_NOT_FOUND } ∈ extra) ∧
      (∀ k, s2s_route_key_match domain k = false → xhash_get s1.outq k = xhash_get s.outq k) := by
  have hq0 : query_ok q := query_run_ok hrun
  have hq1 : query_ok { q with have_async_id := false } := query_ok_congr rfl rfl hq0
  have hok : query_ok q1 := (addr_add_ok hadd hq1).1
  have hexp : q1.expiry = 0 := hok.2 hzero
  have hres : _dns_result_a w fuel s q ans =
      .ok ((out_bounce_domain_queues
        (dns_store s domain
          { dns with query := none, results := none, expiry := clamp_ttl s 0 + s.now,
                     pending := false })
        domain stanza_err_REMOTE_SERVER_NOT_FOUND).1, none) := by
    rw [dns_result_a_last hadd hlast, ← hdom]
    unfold out_resolve final_results
    simp only [hzero, List.map_nil, xhash_count, List.length_nil, if_true, hdns, hexp]
  obtain ⟨hfr, ⟨extra, hlog, hrecs, hmem⟩, hq, hnone, hother⟩ :=
    bounce_domain_fold domain stanza_err_REMOTE_SERVER_NOT_FOUND
      ((dns_store s domain
          { dns with query := none, results := none, expiry := clamp_ttl s 0 + s.now,
                     pending := false }).outq.map (fun e => e.1))
      (dns_store s domain
          { dns with query := none, results := none, expiry := clamp_ttl s 0 + s.now,
                     pending := false }) 0 _ rfl
  have hcl : 0 ≤ s.dns_min_ttl → clamp_ttl s 0 + s.now = s.now + s.dns_min_ttl := by
    intro hmin
    rw [clamp_ttl_zero s hmin]; omega
  refine ⟨_, extra, hres, ?_, hcl, ?_, ?_, hrecs, ?_, ?_⟩
  · unfold out_bounce_domain_queues
    rw [hfr]
    show xhash_get (xhash_put s.dnscache domain _) domain = _
    rw [xhash_get_put_same]
  · unfold out_bounce_domain_queues
    rw [hfr]; rfl
  · unfold out_bounce_domain_queues
    exact hlog
  · intro k hm
    unfold out_bounce_domain_queues
    by_cases hk : k ∈ s.outq.map (fun e => e.1)
    · refine ⟨hnone k hk hm, ?_⟩
      intro q0 hg p hp hb
      exact hmem k hk hm q0 hg p hp hb
    · have hn := xhash_get_none_of_not_mem s.outq k hk
      constructor
      · rcases hq k with h1 | h1
        · exact h1
        · rw [h1]; exact hn
      · intro q0 hg
        rw [hn] at hg; simp at hg
  · intro k hm
    unfold out_bounce_domain_queues
    exact hother k hm

/-! ## C20: the priorities of the timed queue -/

theorem to_int32_of_range (x : Int) (h0 : -2147483648 ≤ x) (h1 : x < 2147483648) :
    to_int32 x = x := by
  unfold to_int32
  rw [Int.emod_eq_of_lt (by omega) (by omega)]
  omega

theorem to_int32_to_uint64 (x : Int) : to_int32 (to_uint64 x) = to_int32 x := by
  unfold to_int32 to_uint64
  omega

theorem mem_jqueue_push_prio (q : timed_queue) (t : mio_timeout_st) (p : Int) (n : jqueue_node)
    (h : n ∈ (jqueue_push_prio q t p).nodes) : n ∈ q.nodes ∨ n = { priority := p, data := t } := by
  unfold jqueue_push_prio at h
  simp only [List.mem_append, List.mem_reverse, List.mem_singleton] at h
  rcases h with (h | h) | h
  · left; exact List.mem_reverse.1 ((List.dropWhile_sublist _).subset h)
  · right; exact h
  · left; exact List.mem_reverse.1 ((List.takeWhile_sublist _).subset h)

/-- The part of C20 that holds: `_mio_add_timeout` stores the deadline of the
new entry measured from `init_time`, when that number fits an `int`, and keeps
the priorities of the other entries. -/
theorem mio_add_timeout_priority_ok (q : timed_queue) (now : timeval) (id : Nat) (fn : Option Nat)
    (d1 d2 : Nat) (msec : Int) (hq : priority_ok q = true)
    (hm0 : 0 ≤ msec) (hm1 : msec < 18446744073709551616)
    (h0 : -2147483648 ≤ now.tv_usec.tdiv 1000 + (now.tv_sec - q.init_time) * 1000 + msec)
    (h1 : now.tv_usec.tdiv 1000 + (now.tv_sec - q.init_time) * 1000 + msec < 2147483648) :
    priority_ok (_mio_add_timeout q now id fn d1 d2 msec).1 = true := by
  unfold priority_ok at *
  rw [List.all_eq_true] at *
  intro n hn
  have hmsec : to_uint64 msec = msec := by
    unfold to_uint64; exact Int.emod_eq_of_lt hm0 hm1
  rcases mem_jqueue_push_prio _ _ _ n hn with h | h
  · exact hq n h
  · rw [h]
    simp only [decide_eq_true_eq]
    rw [to_int32_to_uint64, hmsec, to_int32_of_range _ h0 h1]
    unfold deadline_ms
    simp only [hmsec]
    show _ = _ - q.init_time * 1000
    ring

/-- C20 at a concrete input: a timeout of two hours registered at second 10 in
a queue with `init_time = 0` has priority 7210000, its deadline.  The rebase of
a run at second 3700 stores 7210000 − 3700 = 7206300, where the deadline
measured from the new `init_time` is 7210000 − 3700000 = 3510000: the
priorities no longer are deadlines.  A timeout of one hour registered at second
3701, after the rebase, gets priority 3601000: its priority is smaller than
that of the older entry although its deadline (second 7301) is later than the
older entry's (second 7210). -/
theorem C20_rebase_breaks_priorities :
    priority_ok tq_one = true ∧
    tq_one.nodes.map (fun n => n.priority) = [7210000] ∧
    tq_rebased.init_time = 3700 ∧
    tq_rebased.nodes.map (fun n => n.priority) = [7206300] ∧
    tq_rebased.nodes.map (fun n => deadline_ms n.data - tq_rebased.init_time * 1000) = [3510000] ∧
    priority_ok tq_rebased = false ∧
    tq_two.nodes.map (fun n => (n.data.id, n.priority, deadline_ms n.data))
      = [(2, 3601000, 7301000), (1, 7206300, 7210000)] ∧
    (∃ a ∈ tq_two.nodes, ∃ b ∈ tq_two.nodes,
      a.priority < b.priority ∧ deadline_ms b.data < deadline_ms a.data) := by
  decide

/-! ## C13: the partition loop of `dns_select` -/

theorem running_sums_append (ws : List Int) (x : Int) :
    running_sums (ws ++ [x]) = running_sums ws ++ [ws.sum + x] := by
  unfold running_sums
  rw [List.length_append, List.length_singleton, List.range_succ, List.map_append]
  congr 1
  · apply List.map_congr_left
    intro i hi
    rw [List.mem_range] at hi
    rw [List.take_append_of_le_length (by omega)]
  · simp

theorem sel_inv_l_ne_nil {L : sel_list} {done : List dnsres_st} (h : sel_inv L done)
    (hd : done ≠ []) : L.l ≠ [] := by
  obtain ⟨_, h2, _⟩ := h
  obtain ⟨_, ⟨r, hr, hp⟩, hl⟩ := h2 hd
  rw [hl]
  intro hnil
  have : r ∈ done.filter (fun r => decide (r.prio = L.p)) := by
    simp [List.mem_filter, hr, hp]
  rw [hnil] at this
  simp at this

theorem sel_add_inv (L : sel_list) (done : List dnsres_st) (r : dnsres_st) (h : sel_inv L done) :
    sel_inv (sel_add L r) (done ++ [r]) := by
  obtain ⟨h1, h2, h3, h4⟩ := h
  by_cases hd : done = []
  · subst hd
    have hl := h1 rfl
    unfold sel_add
    simp only [hl, List.length_nil, true_or, if_true, le_refl]
    refine ⟨by simp, fun _ => ⟨by simp, ⟨r, by simp, rfl⟩, by simp⟩, by simp, ?_⟩
    simp [running_sums]
  · obtain ⟨hlow, ⟨r0, hr0, hp0⟩, hl⟩ := h2 hd
    have hne : L.l ≠ [] := sel_inv_l_ne_nil ⟨h1, h2, h3, h4⟩ hd
    have hlen : ¬ L.l.length = 0 := by
      intro e; exact hne (List.length_eq_zero.1 e)
    unfold sel_add
    by_cases hgt : L.p > r.prio
    · simp only [hgt, or_true, if_true, le_refl]
      refine ⟨by simp, fun _ => ⟨?_, ⟨r, by simp, rfl⟩, ?_⟩, by simp, by simp [running_sums]⟩
      · intro x hx
        rcases List.mem_append.1 hx with hx | hx
        · have := hlow x hx
          show r.prio ≤ x.prio
          omega
        · simp only [List.mem_singleton] at hx
          rw [hx]
      · show [] ++ [r] = (done ++ [r]).filter (fun x => decide (x.prio = r.prio))
        rw [List.filter_append]
        have : done.filter (fun x => decide (x.prio = r.prio)) = [] := by
          rw [List.filter_eq_nil_iff]
          intro x hx
          have := hlow x hx
          simp only [decide_eq_true_eq]
          omega
        rw [this]
        simp
    · simp only [hlen, hgt, or_self, if_false]
      by_cases hle : r.prio ≤ L.p
      · have heq : r.prio = L.p := by omega
        simp only [hle, if_true]
        refine ⟨by simp, fun _ => ⟨?_, ⟨r0, by simp [hr0], hp0⟩, ?_⟩, ?_, ?_⟩
        · intro x hx
          rcases List.mem_append.1 hx with hx | hx
          · exact hlow x hx
          · simp only [List.mem_singleton] at hx
            rw [hx]
            show L.p ≤ r.prio
            omega
        · show L.l ++ [r] = (done ++ [r]).filter (fun x => decide (x.prio = L.p))
          rw [List.filter_append, ← hl]
          simp [heq]
        · show L.wt + r.weight = ((L.l ++ [r]).map (fun r => r.weight)).sum
          rw [h3]; simp
        · show L.rw ++ [L.wt + r.weight] = running_sums ((L.l ++ [r]).map (fun r => r.weight))
          rw [List.map_append, List.map_singleton, running_sums_append, ← h4, ← h3]
      · simp only [hle, if_false]
        refine ⟨by simp, fun _ => ⟨?_, ⟨r0, by simp [hr0], hp0⟩, ?_⟩, h3, h4⟩
        · intro x hx
          rcases List.mem_append.1 hx with hx | hx
          · exact hlow x hx
          · simp only [List.mem_singleton] at hx
            rw [hx]
            omega
        · rw [List.filter_append, ← hl]
          have : [r].filter (fun x => decide (x.prio = L.p)) = [] := by
            simp only [List.filter_cons, List.filter_nil]
            have : ¬ r.prio = L.p := by omega
            simp [this]
          rw [this]
          simp

theorem sel_fold_inv : ∀ (rs done : List dnsres_st) (L : sel_list), sel_inv L done →
    sel_inv (rs.foldl sel_add L) (done ++ rs) := by
  intro rs
  induction rs with
  | nil => intro done L h; simpa using h
  | cons r t ih =>
    intro done L h
    have := ih (done ++ [r]) (sel_add L r) (sel_add_inv L done r h)
    simpa using this

theorem sel_inv_zero : sel_inv { l := [], rw := [], p := 0, wt := 0 } [] :=
  ⟨fun _ => rfl, fun h => absurd rfl h, by simp, by simp [running_sums]⟩

/-- The filter by the attained lower bound is the filter by minimality. -/
theorem min_prio_members_eq (l : List dnsres_st) (p : Int) (hlow : ∀ r ∈ l, p ≤ r.prio)
    (hat : ∃ r ∈ l, r.prio = p) :
    min_prio_members l = l.filter (fun r => decide (r.prio = p)) := by
  unfold min_prio_members
  apply List.filter_congr
  intro r hr
  obtain ⟨r0, hr0, hp0⟩ := hat
  have h1 := hlow r hr
  by_cases hp : r.prio = p
  · simp only [hp, decide_True, decide_eq_true_eq]
    intro r' hr'
    exact hlow r' hr'
  · simp only [hp, decide_False, decide_eq_false_iff_not]
    intro hall
    have := hall r0 hr0
    omega

/-- A candidate list, filled from empty with the members of a class: it holds
the members of minimal prio, with their weight total and running weights. -/
theorem sel_fold_spec (rs : List dnsres_st) :
    let L := rs.foldl sel_add { l := [], rw := [], p := 0, wt := 0 }
    L.l = min_prio_members rs ∧ L.wt = (L.l.map (fun r => r.weight)).sum ∧
    L.rw = running_sums (L.l.map (fun r => r.weight)) ∧
    (rs ≠ [] → L.l ≠ [] ∧ (∀ r ∈ rs, L.p ≤ r.prio) ∧ ∃ r ∈ L.l, r.prio = L.p) := by
  intro L
  have h := sel_fold_inv rs [] _ sel_inv_zero
  simp only [List.nil_append] at h
  obtain ⟨h1, h2, h3, h4⟩ := h
  refine ⟨?_, h3, h4, ?_⟩
  · by_cases hd : rs = []
    · rw [h1 hd, hd]; rfl
    · obtain ⟨hlow, hat, hl⟩ := h2 hd
      rw [min_prio_members_eq rs _ hlow hat]
      exact hl
  · intro hd
    obtain ⟨hlow, ⟨r0, hr0, hp0⟩, hl⟩ := h2 hd
    refine ⟨sel_inv_l_ne_nil ⟨h1, h2, h3, h4⟩ hd, hlow, r0, ?_, hp0⟩
    show r0 ∈ L.l
    rw [hl]
    simp [List.mem_filter, hr0, hp0]

/-- The bad-host test of `dns_select` is the test `is_bad` when the bad-host
cache is in use or empty. -/
theorem bad_lookup_eq (s : s2s_st) (now : Int) (ipport : String)
    (hbad : 0 < s.dns_bad_timeout ∨ s.dns_bad = []) :
    (match (if s.dns_bad_timeout > 0 then xhash_get s.dns_bad ipport else none) with
      | some b => !(decide (now > b.expiry))
      | none => false) = is_bad s now ipport := by
  unfold is_bad
  rcases hbad with h | h
  · simp only [gt_iff_lt, h, if_true]
    cases xhash_get s.dns_bad ipport with
    | none => rfl
    | some b =>
      simp only
      by_cases hb : b.expiry < now
      · simp [hb]
      · simp [hb]; omega
  · have hn : (if s.dns_bad_timeout > 0 then xhash_get s.dns_bad ipport else none) = none := by
      rw [h]; split <;> rfl
    rw [hn, h]
    rfl

/-- One round of the partition loop, by the class of the entry. -/
theorem dns_select_step_lists (s : s2s_st) (now : Int) (acc : sel_acc) (e : String × dnsres_st)
    (hbad : 0 < s.dns_bad_timeout ∨ s.dns_bad = []) :
    let acc1 := dns_select_step s now acc e
    acc1.reuse = (if unexpired now e && !is_bad s now e.1 && decide (class_of s e = res_class.reusable)
                  then sel_add acc.reuse e.2 else acc.reuse) ∧
    acc1.aaaa = (if unexpired now e && !is_bad s now e.1 && decide (class_of s e = res_class.ipv6)
                 then sel_add acc.aaaa e.2 else acc.aaaa) ∧
    acc1.a = (if unexpired now e && !is_bad s now e.1 && decide (class_of s e = res_class.ipv4)
              then sel_add acc.a e.2 else acc.a) ∧
    acc1.bad = (if unexpired now e && is_bad s now e.1 then acc.bad ++ [e.2] else acc.bad) := by
  intro acc1
  have hb := bad_lookup_eq s now e.1 hbad
  show (dns_select_step s now acc e).reuse = _ ∧ (dns_select_step s now acc e).aaaa = _ ∧
    (dns_select_step s now acc e).a = _ ∧ (dns_select_step s now acc e).bad = _
  unfold dns_select_step
  simp only
  rw [hb]
  by_cases hx : now > e.2.expiry
  · have hu : unexpired now e = false := by
      unfold unexpired; simp; omega
    simp only [hx, if_true, hu, Bool.false_and, Bool.false_eq_true, if_false]
    repeat' split
    all_goals refine ⟨?_, ?_, ?_, ?_⟩ <;> rfl
  · have hu : unexpired now e = true := by
      unfold unexpired; simp; omega
    simp only [hx, if_false, hu, Bool.true_and]
    by_cases hbd : is_bad s now e.1 = true
    · simp only [hbd, if_true, Bool.not_true, Bool.false_and]
      refine ⟨?_, ?_, ?_, ?_⟩ <;> first | rfl | trivial
    · have hbf : is_bad s now e.1 = false := by simpa using hbd
      simp only [hbf, Bool.false_eq_true, if_false, Bool.not_false, Bool.true_and]
      unfold class_of
      by_cases hr : (s.out_reuse && (xhash_get s.out_host e.1).isSome) = true
      · simp only [hr, if_true]
        refine ⟨?_, ?_, ?_, ?_⟩ <;> first | rfl | trivial
      · simp only [hr]
        by_cases hc : e.1.data.contains ':' = true
        · simp only [hc, if_true]
          refine ⟨?_, ?_, ?_, ?_⟩ <;> rfl
        · simp only [hc]
          refine ⟨?_, ?_, ?_, ?_⟩ <;> rfl

/-- The lists after the partition loop are the folds of `sel_add` over the
members of the classes. -/
theorem dns_select_fold_lists (s : s2s_st) (now : Int)
    (hbad : 0 < s.dns_bad_timeout ∨ s.dns_bad = []) :
    ∀ (results : xht dnsres_st) (acc : sel_acc),
      (results.foldl (dns_select_step s now) acc).reuse
        = (class_members s now res_class.reusable results).foldl sel_add acc.reuse ∧
      (results.foldl (dns_select_step s now) acc).aaaa
        = (class_members s now res_class.ipv6 results).foldl sel_add acc.aaaa ∧
      (results.foldl (dns_select_step s now) acc).a
        = (class_members s now res_class.ipv4 results).foldl sel_add acc.a ∧
      (results.foldl (dns_select_step s now) acc).bad = acc.bad ++ bad_members s now results := by
  intro results
  induction results with
  | nil => intro acc; simp [class_members, bad_members]
  | cons e t ih =>
    intro acc
    simp only [List.foldl_cons]
    obtain ⟨h1, h2, h3, h4⟩ := ih (dns_select_step s now acc e)
    obtain ⟨g1, g2, g3, g4⟩ := dns_select_step_lists s now acc e hbad
    rw [h1, h2, h3, h4, g1, g2, g3, g4]
    unfold class_members bad_members
    simp only [List.filter_cons]
    refine ⟨?_, ?_, ?_, ?_⟩
    · split <;> simp
    · split <;> simp
    · split <;> simp
    · split <;> simp

/-- C13. After the partition loop of `dns_select` over the results, in any
iteration order (`results` is any list), when the bad-host cache is in use or
empty: each of the reusable, IPv6 and IPv4 lists holds exactly the unexpired,
non-bad results of its class whose prio is the minimum prio occurring in the
class (in iteration order); its weight total is the sum of their weights; and
its running weights are the running sums, the `i`-th being the sum of the
weights of the list entries 0..i. -/
theorem C13_partition_lists (s : s2s_st) (now : Int) (results : xht dnsres_st)
    (hbad : 0 < s.dns_bad_timeout ∨ s.dns_bad = []) :
    ∀ (cls : res_class) (L : sel_list),
      L = (match cls with
           | res_class.reusable => (results.foldl (dns_select_step s now) sel_acc_zero).reuse
           | res_class.ipv6 => (results.foldl (dns_select_step s now) sel_acc_zero).aaaa
           | res_class.ipv4 => (results.foldl (dns_select_step s now) sel_acc_zero).a) →
      L.l = min_prio_members (class_members s now cls results) ∧
      L.wt = (L.l.map (fun r => r.weight)).sum ∧
      L.rw = running_sums (L.l.map (fun r => r.weight)) ∧
      L.rw.length = L.l.length ∧
      ∀ i, i < L.l.length → L.rw.get? i = some (((L.l.take (i + 1)).map (fun r => r.weight)).sum) := by
  intro cls L hL
  obtain ⟨h1, h2, h3, _⟩ := dns_select_fold_lists s now hbad results sel_acc_zero
  have hspec : L = (class_members s now cls results).foldl sel_add
      { l := [], rw := [], p := 0, wt := 0 } := by
    cases cls with
    | reusable => rw [hL]; exact h1
    | ipv6 => rw [hL]; exact h2
    | ipv4 => rw [hL]; exact h3
  obtain ⟨g1, g2, g3, _⟩ := sel_fold_spec (class_members s now cls results)
  rw [← hspec] at g1 g2 g3
  refine ⟨g1, g2, g3, ?_, ?_⟩
  · rw [g3]; simp [running_sums]
  · intro i hi
    rw [g3]
    unfold running_sums
    simp only [List.length_map, List.get?_eq_getElem?, List.getElem?_map]
    rw [List.getElem?_range (by simpa using hi)]
    simp [List.map_take]

/-! ## C12: the order of preference of `dns_select` -/

theorem running_sums_length (ws : List Int) : (running_sums ws).length = ws.length := by
  simp [running_sums]

/-- The weighted pick finds an entry of the list whenever the draw is not above
the weight total. -/
theorem sel_pick_some (L : sel_list) (hl : L.l ≠ [])
    (hwt : L.wt = (L.l.map (fun r => r.weight)).sum)
    (hrw : L.rw = running_sums (L.l.map (fun r => r.weight))) (r : Int) (hr : r ≤ L.wt) :
    ∃ x ∈ L.l, sel_pick L r = some x.key := by
  have hmem : ∃ a, (a, L.wt) ∈ L.l.zip L.rw := by
    obtain ⟨init, a, hia⟩ : ∃ init a, L.l = init ++ [a] :=
      ⟨L.l.dropLast, L.l.getLast hl, (List.dropLast_append_getLast hl).symm⟩
    refine ⟨a, ?_⟩
    rw [hrw, hwt, hia, List.map_append, List.map_singleton, running_sums_append,
      List.zip_append (by rw [running_sums_length, List.length_map])]
    simp
  obtain ⟨a, ha⟩ := hmem
  unfold sel_pick
  cases hf : (L.l.zip L.rw).find? (fun x => decide (x.2 ≥ r)) with
  | none =>
    exfalso
    rw [List.find?_eq_none] at hf
    have := hf _ ha
    simp only [decide_eq_true_eq] at this
    exact this hr
  | some x =>
    refine ⟨x.1, ?_, rfl⟩
    have hx := List.mem_of_find?_eq_some hf
    exact (List.of_mem_zip hx).1

theorem dns_select_finish_ok (n : Nat) (dns : dnscache_st) (k ip p : String)
    (h : strchr_split k '/' = some (ip, p)) :
    dns_select_finish n dns (some k) = .ok (n, dns, 0, ip, atoi p) := by
  unfold dns_select_finish
  simp only [h]

theorem class_members_mem {s : s2s_st} {now : Int} {cls : res_class} {results : xht dnsres_st}
    {r : dnsres_st} (h : r ∈ class_members s now cls results) :
    ∃ e ∈ results, e.2 = r ∧ unexpired now e = true ∧ is_bad s now e.1 = false ∧
      class_of s e = cls := by
  unfold class_members at h
  simp only [List.mem_map, List.mem_filter, Bool.and_eq_true, Bool.not_eq_true',
    decide_eq_true_eq] at h
  obtain ⟨e, ⟨he, ⟨h1, h2⟩, h3⟩, h4⟩ := h
  exact ⟨e, he, h4, h1, h2, h3⟩

theorem mem_class_members {s : s2s_st} {now : Int} {results : xht dnsres_st}
    {e : String × dnsres_st} (he : e ∈ results) (h1 : unexpired now e = true)
    (h2 : is_bad s now e.1 = false) : e.2 ∈ class_members s now (class_of s e) results := by
  unfold class_members
  simp only [List.mem_map, List.mem_filter, Bool.and_eq_true, Bool.not_eq_true',
    decide_eq_true_eq]
  exact ⟨e, ⟨he, ⟨h1, h2⟩, rfl⟩, rfl⟩

theorem bad_members_mem {s : s2s_st} {now : Int} {results : xht dnsres_st}
    {r : dnsres_st} (h : r ∈ bad_members s now results) :
    ∃ e ∈ results, e.2 = r ∧ unexpired now e = true ∧ is_bad s now e.1 = true := by
  unfold bad_members at h
  simp only [List.mem_map, List.mem_filter, Bool.and_eq_true] at h
  obtain ⟨e, ⟨he, h1, h2⟩, h4⟩ := h
  exact ⟨e, he, h4, h1, h2⟩

theorem min_prio_members_subset (l : List dnsres_st) (r : dnsres_st)
    (h : r ∈ min_prio_members l) : r ∈ l := by
  unfold min_prio_members at h
  exact (List.mem_filter.1 h).1

/-- The facts about one candidate list after the partition loop that the pick
needs. -/
theorem sel_list_facts (s : s2s_st) (now : Int) (results : xht dnsres_st) (cls : res_class)
    (L : sel_list)
    (hL : L = (class_members s now cls results).foldl sel_add { l := [], rw := [], p := 0, wt := 0 })
    (hw : ∀ e ∈ results, 0 ≤ e.2.weight) :
    L.wt = (L.l.map (fun r => r.weight)).sum ∧
    L.rw = running_sums (L.l.map (fun r => r.weight)) ∧ 0 ≤ L.wt ∧
    (∀ r ∈ L.l, ∃ e ∈ results, e.2 = r ∧ unexpired now e = true ∧ is_bad s now e.1 = false ∧
      class_of s e = cls) ∧
    (class_members s now cls results ≠ [] → L.l ≠ []) := by
  obtain ⟨g1, g2, g3, g4⟩ := sel_fold_spec (class_members s now cls results)
  rw [← hL] at g1 g2 g3 g4
  have hmem : ∀ r ∈ L.l, ∃ e ∈ results, e.2 = r ∧ unexpired now e = true ∧
      is_bad s now e.1 = false ∧ class_of s e = cls := by
    intro r hr
    rw [g1] at hr
    exact class_members_mem (min_prio_members_subset _ _ hr)
  refine ⟨g2, g3, ?_, hmem, fun h => (g4 h).1⟩
  rw [g2]
  apply List.sum_nonneg
  intro x hx
  simp only [List.mem_map] at hx
  obtain ⟨r, hr, hrx⟩ := hx
  obtain ⟨e, he, her, _⟩ := hmem r hr
  rw [← hrx, ← her]
  exact hw e he

/-- Picking from a candidate list whose keys hold a slash returns one of its
entries. -/
theorem pick_from_list (L : sel_list) (n : Nat) (dns : dnscache_st) (rnd : Nat) (hl : L.l ≠ [])
    (hwt : L.wt = (L.l.map (fun r => r.weight)).sum)
    (hrw : L.rw = running_sums (L.l.map (fun r => r.weight))) (h0 : 0 ≤ L.wt)
    (hkeys : ∀ r ∈ L.l, (strchr_split r.key '/').isSome = true) :
    ∃ r ∈ L.l, ∃ ip p, strchr_split r.key '/' = some (ip, p) ∧
      dns_select_finish n dns (sel_pick L (Int.tmod (rnd : Int) (L.wt + 1)))
        = .ok (n, dns, 0, ip, atoi p) := by
  have hlt : Int.tmod (rnd : Int) (L.wt + 1) < L.wt + 1 := Int.tmod_lt_of_pos _ (by omega)
  obtain ⟨x, hx, hp⟩ := sel_pick_some L hl hwt hrw (Int.tmod (rnd : Int) (L.wt + 1)) (by omega)
  have hk := hkeys x hx
  cases hs : strchr_split x.key '/' with
  | none => rw [hs] at hk; simp at hk
  | some ipp =>
    obtain ⟨ip, p⟩ := ipp
    exact ⟨x, hx, ip, p, hs, by rw [hp]; exact dns_select_finish_ok n dns x.key ip p hs⟩

/-- C12. `dns_select` on a cache entry with results, when the bad-host cache is
in use or empty, every stored weight is ≥ 0 and every result key holds a
slash.  With `acc` the lists after the partition loop: (1) when the order of
preference (reusable; else of IPv6 and IPv4 the one with the lower prio, IPv6
on a tie; else the one that is not empty) names a list, `dns_select` returns 0
with the address of an entry of that list; (2) when the three lists are empty
and the bad list is not, it returns the address of an entry of the bad list if
`allow_bad = 1`, and (3) returns -1 if `allow_bad = 0`; (4) the entries of the
three lists are unexpired results whose address is not bad, the entries of the
bad list are unexpired results whose address is bad, and the three lists are
all empty only if no unexpired non-bad result exists.  Hence (5) while an
unexpired non-bad result exists, `dns_select` returns the address of an
unexpired result that is not bad. -/
theorem C12_dns_select_order (w : world) (s : s2s_st) (now : Int) (dns : dnscache_st)
    (allow_bad : Bool) (results : xht dnsres_st) (acc : sel_acc)
    (hres : dns.results = some results)
    (hacc : acc = results.foldl (dns_select_step s now) sel_acc_zero)
    (hbad : 0 < s.dns_bad_timeout ∨ s.dns_bad = [])
    (hw : ∀ e ∈ results, 0 ≤ e.2.weight)
    (hkeys : ∀ e ∈ results, (strchr_split e.2.key '/').isSome = true) :
    (∀ L, sel_order acc = some L →
      ∃ r ∈ L.l, ∃ ip p, strchr_split r.key '/' = some (ip, p) ∧
        dns_select w s now dns allow_bad = .ok (s.n_rand + 1, dns, 0, ip, atoi p)) ∧
    (sel_order acc = none → acc.bad ≠ [] → allow_bad = true →
      ∃ r ∈ acc.bad, ∃ ip p dns1, strchr_split r.key '/' = some (ip, p) ∧
        dns_select w s now dns allow_bad = .ok (s.n_rand + 1, dns1, 0, ip, atoi p)) ∧
    (sel_order acc = none → acc.bad ≠ [] → allow_bad = false →
      ∃ dns1, dns_select w s now dns allow_bad = .ok (s.n_rand + 1, dns1, -1, "", 0)) ∧
    ((∀ L, sel_order acc = some L → ∀ r ∈ L.l, ∃ e ∈ results, e.2 = r ∧
        unexpired now e = true ∧ is_bad s now e.1 = false) ∧
     (∀ r ∈ acc.bad, ∃ e ∈ results, e.2 = r ∧ unexpired now e = true ∧ is_bad s now e.1 = true) ∧
     (sel_order acc = none → ∀ e ∈ results, unexpired now e = true → is_bad s now e.1 = true)) ∧
    ((∃ e ∈ results, unexpired now e = true ∧ is_bad s now e.1 = false) →
      ∃ e ∈ results, unexpired now e = true ∧ is_bad s now e.1 = false ∧
        ∃ ip p, strchr_split e.2.key '/' = some (ip, p) ∧
          dns_select w s now dns allow_bad = .ok (s.n_rand + 1, dns, 0, ip, atoi p)) := by
  obtain ⟨f1, f2, f3, f4⟩ := dns_select_fold_lists s now hbad results sel_acc_zero
  rw [← hacc] at f1 f2 f3 f4
  obtain ⟨r1, r2, r3, r4, r5⟩ := sel_list_facts s now results res_class.reusable acc.reuse f1 hw
  obtain ⟨a1, a2, a3, a4, a5⟩ := sel_list_facts s now results res_class.ipv6 acc.aaaa f2 hw
  obtain ⟨b1, b2, b3, b4, b5⟩ := sel_list_facts s now results res_class.ipv4 acc.a f3 hw
  have hbadl : acc.bad = bad_members s now results := by
    rw [f4]; simp [sel_acc_zero]
  have hk : ∀ (cls : res_class) (L : sel_list),
      (∀ r ∈ L.l, ∃ e ∈ results, e.2 = r ∧ unexpired now e = true ∧
        is_bad s now e.1 = false ∧ class_of s e = cls) →
      ∀ r ∈ L.l, (strchr_split r.key '/').isSome = true := by
    intro cls L hL r hr
    obtain ⟨e, he, her, _⟩ := hL r hr
    rw [← her]; exact hkeys e he
  have hlen : ∀ (l : List dnsres_st), l.length > 0 ↔ l ≠ [] := fun l => List.length_pos
  -- the four branches of the code
  have hsel : dns_select w s now dns allow_bad =
      (if acc.reuse.l.length > 0 then
        (if acc.reuse.wt + 1 > 0 then
          dns_select_finish (s.n_rand + 1) dns
            (sel_pick acc.reuse (Int.tmod (w.rand s.n_rand : Int) (acc.reuse.wt + 1)))
         else .error .abort)
      else if acc.aaaa.l.length > 0 ∧ (acc.a.l.length = 0 ∨ acc.aaaa.p ≤ acc.a.p) then
        (if acc.aaaa.wt + 1 > 0 then
          dns_select_finish (s.n_rand + 1) dns
            (sel_pick acc.aaaa (Int.tmod (w.rand s.n_rand : Int) (acc.aaaa.wt + 1)))
         else .error .abort)
      else if acc.a.l.length > 0 then
        (if acc.a.wt + 1 > 0 then
          dns_select_finish (s.n_rand + 1) dns
            (sel_pick acc.a (Int.tmod (w.rand s.n_rand : Int) (acc.a.wt + 1)))
         else .error .abort)
      else if acc.bad.length > 0 then
        (if !allow_bad then
          .ok (s.n_rand + 1, (if acc.c_expired_good > 0 then { dns with expiry := 0 } else dns),
               -1, "", 0)
         else dns_select_finish (s.n_rand + 1)
            (if acc.c_expired_good > 0 then { dns with expiry := 0 } else dns)
            ((acc.bad.get? (w.rand s.n_rand % acc.bad.length)).map (fun r => r.key)))
      else .error .abort) := by
    unfold dns_select
    rw [hres]
    simp only
    rw [← hacc]
  -- (1) as a fact about the three lists
  have hone : ∀ L, sel_order acc = some L →
      L.l ≠ [] ∧ (∀ r ∈ L.l, ∃ e ∈ results, e.2 = r ∧ unexpired now e = true ∧
        is_bad s now e.1 = false) ∧
      ∃ r ∈ L.l, ∃ ip p, strchr_split r.key '/' = some (ip, p) ∧
        dns_select w s now dns allow_bad = .ok (s.n_rand + 1, dns, 0, ip, atoi p) := by
    intro L hL
    unfold sel_order at hL
    by_cases hr : acc.reuse.l ≠ []
    · simp only [hr, ne_eq, not_false_eq_true, if_true, Option.some.injEq] at hL
      subst hL
      refine ⟨hr, fun r h => ?_, ?_⟩
      · obtain ⟨e, he, h1, h2, h3, _⟩ := r4 r h
        exact ⟨e, he, h1, h2, h3⟩
      · obtain ⟨r, hrm, ip, p, hsp, hfin⟩ :=
          pick_from_list acc.reuse (s.n_rand + 1) dns (w.rand s.n_rand) hr r1 r2 r3 (hk _ _ r4)
        refine ⟨r, hrm, ip, p, hsp, ?_⟩
        rw [hsel, if_pos ((hlen _).2 hr), if_pos (by omega)]
        exact hfin
    · have hr0 : acc.reuse.l = [] := by simpa using hr
      have hrl : ¬ acc.reuse.l.length > 0 := by rw [hr0]; simp
      simp only [hr0, ne_eq, not_true_eq_false, if_false] at hL
      have h6 : acc.aaaa.l ≠ [] → (acc.a.l = [] ∨ acc.aaaa.p ≤ acc.a.p) →
          acc.aaaa.l ≠ [] ∧ (∀ r ∈ acc.aaaa.l, ∃ e ∈ results, e.2 = r ∧ unexpired now e = true ∧
            is_bad s now e.1 = false) ∧
          ∃ r ∈ acc.aaaa.l, ∃ ip p, strchr_split r.key '/' = some (ip, p) ∧
            dns_select w s now dns allow_bad = .ok (s.n_rand + 1, dns, 0, ip, atoi p) := by
        intro h6 hcond
        refine ⟨h6, fun r h => ?_, ?_⟩
        · obtain ⟨e, he, h1, h2, h3, _⟩ := a4 r h
          exact ⟨e, he, h1, h2, h3⟩
        · obtain ⟨r, hrm, ip, p, hsp, hfin⟩ :=
            pick_from_list acc.aaaa (s.n_rand + 1) dns (w.rand s.n_rand) h6 a1 a2 a3 (hk _ _ a4)
          refine ⟨r, hrm, ip, p, hsp, ?_⟩
          have hc : acc.aaaa.l.length > 0 ∧ (acc.a.l.length = 0 ∨ acc.aaaa.p ≤ acc.a.p) := by
            refine ⟨(hlen _).2 h6, ?_⟩
            rcases hcond with h | h
            · left; rw [h]; rfl
            · right; exact h
          rw [hsel, if_neg hrl, if_pos hc, if_pos (by omega)]
          exact hfin
      have h4 : acc.a.l ≠ [] → (acc.aaaa.l = [] ∨ ¬ acc.aaaa.p ≤ acc.a.p) →
          acc.a.l ≠ [] ∧ (∀ r ∈ acc.a.l, ∃ e ∈ results, e.2 = r ∧ unexpired now e = true ∧
            is_bad s now e.1 = false) ∧
          ∃ r ∈ acc.a.l, ∃ ip p, strchr_split r.key '/' = some (ip, p) ∧
            dns_select w s now dns allow_bad = .ok (s.n_rand + 1, dns, 0, ip, atoi p) := by
        intro h4 hcond
        refine ⟨h4, fun r h => ?_, ?_⟩
        · obtain ⟨e, he, h1, h2, h3, _⟩ := b4 r h
          exact ⟨e, he, h1, h2, h3⟩
        · obtain ⟨r, hrm, ip, p, hsp, hfin⟩ :=
            pick_from_list acc.a (s.n_rand + 1) dns (w.rand s.n_rand) h4 b1 b2 b3 (hk _ _ b4)
          refine ⟨r, hrm, ip, p, hsp, ?_⟩
          have hc : ¬ (acc.aaaa.l.length > 0 ∧ (acc.a.l.length = 0 ∨ acc.aaaa.p ≤ acc.a.p)) := by
            intro ⟨c1, c2⟩
            rcases hcond with h | h
            · exact (hlen _).1 c1 h
            · rcases c2 with c2 | c2
              · exact h4 (List.length_eq_zero.1 c2)
              · exact h c2
          rw [hsel, if_neg hrl, if_neg hc, if_pos ((hlen _).2 h4), if_pos (by omega)]
          exact hfin
      by_cases h6e : acc.aaaa.l = []
      · by_cases h4e : acc.a.l = []
        · simp [h6e, h4e] at hL
        · simp only [h6e, h4e, ne_eq, not_true_eq_false, false_and, if_false, not_false_eq_true,
            if_true, Option.some.injEq] at hL
          subst hL
          exact h4 h4e (Or.inl h6e)
      · by_cases h4e : acc.a.l = []
        · simp only [h6e, h4e, ne_eq, not_false_eq_true, not_true_eq_false, and_false, if_false,
            if_true, Option.some.injEq] at hL
          subst hL
          exact h6 h6e (Or.inl h4e)
        · simp only [h6e, h4e, ne_eq, not_false_eq_true, and_self, if_true] at hL
          by_cases hp : acc.aaaa.p ≤ acc.a.p
          · simp only [hp, if_true, Option.some.injEq] at hL
            subst hL
            exact h6 h6e (Or.inr hp)
          · simp only [hp, if_false, Option.some.injEq] at hL
            subst hL
            exact h4 h4e (Or.inr hp)
  -- the three lists are empty
  have hnone : sel_order acc = none → acc.reuse.l = [] ∧ acc.aaaa.l = [] ∧ acc.a.l = [] := by
    intro h
    unfold sel_order at h
    by_cases hr : acc.reuse.l = []
    · by_cases h6e : acc.aaaa.l = []
      · by_cases h4e : acc.a.l = []
        · exact ⟨hr, h6e, h4e⟩
        · simp [hr, h6e, h4e] at h
      · by_cases h4e : acc.a.l = []
        · simp [hr, h6e, h4e] at h
        · simp only [hr, h6e, h4e, ne_eq, not_true_eq_false, if_false, not_false_eq_true,
            and_self, if_true] at h
          split at h <;> simp at h
    · simp [hr] at h
  have hbranch : sel_order acc = none → acc.bad ≠ [] →
      dns_select w s now dns allow_bad =
        (if !allow_bad then
          .ok (s.n_rand + 1, (if acc.c_expired_good > 0 then { dns with expiry := 0 } else dns),
               -1, "", 0)
         else dns_select_finish (s.n_rand + 1)
            (if acc.c_expired_good > 0 then { dns with expiry := 0 } else dns)
            ((acc.bad.get? (w.rand s.n_rand % acc.bad.length)).map (fun r => r.key))) := by
    intro h hb
    obtain ⟨e1, e2, e3⟩ := hnone h
    rw [hsel, e1, e2, e3]
    simp only [List.length_nil, gt_iff_lt, lt_self_iff_false, if_false, false_and]
    rw [if_pos (List.length_pos.2 hb)]
  have hbmem : ∀ r ∈ acc.bad, ∃ e ∈ results, e.2 = r ∧ unexpired now e = true ∧
      is_bad s now e.1 = true := by
    intro r hr
    rw [hbadl] at hr
    exact bad_members_mem hr
  have hall : sel_order acc = none → ∀ e ∈ results, unexpired now e = true →
      is_bad s now e.1 = true := by
    intro h e he hu
    obtain ⟨e1, e2, e3⟩ := hnone h
    by_contra hb
    have hbf : is_bad s now e.1 = false := by simpa using hb
    have hm := mem_class_members he hu hbf
    have hne : class_members s now (class_of s e) results ≠ [] := by
      intro hnil; rw [hnil] at hm; simp at hm
    cases hc : class_of s e with
    | reusable => rw [hc] at hne; exact r5 hne e1
    | ipv6 => rw [hc] at hne; exact a5 hne e2
    | ipv4 => rw [hc] at hne; exact b5 hne e3
  refine ⟨fun L hL => (hone L hL).2.2, ?_, ?_, ⟨fun L hL => (hone L hL).2.1, hbmem, hall⟩, ?_⟩
  · intro h hb hab
    rw [hbranch h hb, hab]
    simp only [Bool.not_true, Bool.false_eq_true, if_false]
    have hidx : w.rand s.n_rand % acc.bad.length < acc.bad.length :=
      Nat.mod_lt _ (List.length_pos.2 hb)
    obtain ⟨r, hr⟩ : ∃ r, acc.bad.get? (w.rand s.n_rand % acc.bad.length) = some r :=
      ⟨acc.bad.get ⟨_, hidx⟩, List.get?_eq_get hidx⟩
    have hrm : r ∈ acc.bad := List.get?_mem hr
    obtain ⟨e, he, her, _⟩ := hbmem r hrm
    have hk1 := hkeys e he
    rw [her] at hk1
    cases hs : strchr_split r.key '/' with
    | none => rw [hs] at hk1; simp at hk1
    | some ipp =>
      obtain ⟨ip, p⟩ := ipp
      refine ⟨r, hrm, ip, p,
        (if acc.c_expired_good > 0 then { dns with expiry := 0 } else dns), hs, ?_⟩
      rw [hr]
      exact dns_select_finish_ok _ _ r.key ip p hs
  · intro h hb hab
    rw [hbranch h hb, hab]
    exact ⟨_, rfl⟩
  · intro ⟨e, he, hu, hb⟩
    cases hso : sel_order acc with
    | none =>
      have := hall hso e he hu
      rw [hb] at this; simp at this
    | some L =>
      obtain ⟨_, hmemL, r, hr, ip, p, hsp, hsel1⟩ := hone L hso
      obtain ⟨e1, he1, her, hu1, hb1⟩ := hmemL r hr
      exact ⟨e1, he1, hu1, hb1, ip, p, by rw [her]; exact hsp, hsel1⟩

/-! ## C11: a failed connect -/

theorem sel_pick_mem {L : sel_list} {r : Int} {k : String} (h : sel_pick L r = some k) :
    ∃ x ∈ L.l, x.key = k := by
  unfold sel_pick at h
  split at h
  · rename_i x hf
    simp only [Option.some.injEq] at h
    exact ⟨x.1, (List.of_mem_zip (List.mem_of_find?_eq_some hf)).1, h⟩
  · simp at h

theorem dns_select_finish_inv {n n1 : Nat} {dns dns1 : dnscache_st} {k : Option String}
    {ret : Int} {ip : String} {port : Int}
    (h : dns_select_finish n dns k = .ok (n1, dns1, ret, ip, port)) :
    ∃ key p, k = some key ∧ strchr_split key '/' = some (ip, p) ∧ port = atoi p ∧ ret = 0 := by
  unfold dns_select_finish at h
  split at h
  · simp at h
  · rename_i key
    split at h
    · simp at h
    · rename_i ip0 p0 hs
      simp only [Except.ok.injEq, Prod.mk.injEq] at h
      obtain ⟨_, _, h3, h4, h5⟩ := h
      refine ⟨key, p0, rfl, ?_, h5.symm, h3.symm⟩
      rw [hs, h4]

/-- When `dns_select` returns 0, the address is read from the key of an entry
of one of the three lists, or of the bad list if bad hosts are allowed. -/
theorem dns_select_ok_inv {w : world} {s : s2s_st} {now : Int} {dns dns1 : dnscache_st}
    {ab : Bool} {results : xht dnsres_st} {n : Nat} {ip : String} {port : Int}
    (hres : dns.results = some results)
    (h : dns_select w s now dns ab = .ok (n, dns1, 0, ip, port)) :
    ∃ r p, strchr_split r.key '/' = some (ip, p) ∧ port = atoi p ∧
      (r ∈ (results.foldl (dns_select_step s now) sel_acc_zero).reuse.l ∨
       r ∈ (results.foldl (dns_select_step s now) sel_acc_zero).aaaa.l ∨
       r ∈ (results.foldl (dns_select_step s now) sel_acc_zero).a.l ∨
       (ab = true ∧ r ∈ (results.foldl (dns_select_step s now) sel_acc_zero).bad)) := by
  unfold dns_select at h
  rw [hres] at h
  simp only at h
  split at h
  · split at h
    · obtain ⟨key, p, hk, hs, hp, _⟩ := dns_select_finish_inv h
      obtain ⟨x, hx, hxk⟩ := sel_pick_mem hk
      exact ⟨x, p, by rw [hxk]; exact hs, hp, Or.inl hx⟩
    · simp at h
  · split at h
    · split at h
      · obtain ⟨key, p, hk, hs, hp, _⟩ := dns_select_finish_inv h
        obtain ⟨x, hx, hxk⟩ := sel_pick_mem hk
        exact ⟨x, p, by rw [hxk]; exact hs, hp, Or.inr (Or.inl hx)⟩
      · simp at h
    · split at h
      · split at h
        · obtain ⟨key, p, hk, hs, hp, _⟩ := dns_select_finish_inv h
          obtain ⟨x, hx, hxk⟩ := sel_pick_mem hk
          exact ⟨x, p, by rw [hxk]; exact hs, hp, Or.inr (Or.inr (Or.inl hx))⟩
        · simp at h
      · split at h
        · split at h
          · simp at h
          · rename_i hab
            obtain ⟨key, p, hk, hs, hp, _⟩ := dns_select_finish_inv h
            simp only [Option.map_eq_some'] at hk
            obtain ⟨x, hx, hxk⟩ := hk
            exact ⟨x, p, by rw [hxk]; exact hs, hp,
              Or.inr (Or.inr (Or.inr ⟨by simpa using hab, List.get?_mem hx⟩))⟩
        · simp at h

/-- The entries of the three lists are unexpired results whose address is not
bad. -/
theorem sel_lists_mem (s : s2s_st) (now : Int) (results : xht dnsres_st)
    (hbad : 0 < s.dns_bad_timeout ∨ s.dns_bad = []) (r : dnsres_st)
    (h : r ∈ (results.foldl (dns_select_step s now) sel_acc_zero).reuse.l ∨
         r ∈ (results.foldl (dns_select_step s now) sel_acc_zero).aaaa.l ∨
         r ∈ (results.foldl (dns_select_step s now) sel_acc_zero).a.l) :
    ∃ e ∈ results, e.2 = r ∧ unexpired now e = true ∧ is_bad s now e.1 = false := by
  obtain ⟨f1, f2, f3, _⟩ := dns_select_fold_lists s now hbad results sel_acc_zero
  have key : ∀ cls, r ∈ ((class_members s now cls results).foldl sel_add
      { l := [], rw := [], p := 0, wt := 0 }).l →
      ∃ e ∈ results, e.2 = r ∧ unexpired now e = true ∧ is_bad s now e.1 = false := by
    intro cls hr
    obtain ⟨g1, _⟩ := sel_fold_spec (class_members s now cls results)
    rw [g1] at hr
    obtain ⟨e, he, h1, h2, h3, _⟩ := class_members_mem (min_prio_members_subset _ _ hr)
    exact ⟨e, he, h1, h2, h3⟩
  rcases h with h | h | h
  · rw [f1] at h; exact key _ h
  · rw [f2] at h; exact key _ h
  · rw [f3] at h; exact key _ h

/-- With bad hosts not allowed, `dns_select` never returns the address of a
result whose key is bad. -/
theorem dns_select_not_bad {w : world} {s : s2s_st} {now : Int} {dns dns1 : dnscache_st}
    {results : xht dnsres_st} {n : Nat} {ip : String} {port : Int}
    (hres : dns.results = some results) (hbad : 0 < s.dns_bad_timeout ∨ s.dns_bad = [])
    (hkeyed : results_keyed results)
    (h : dns_select w s now dns false = .ok (n, dns1, 0, ip, port)) :
    is_bad s now (fmt_ipport ip port) = false := by
  obtain ⟨r, p, hs, hp, hmem⟩ := dns_select_ok_inv hres h
  have hm : r ∈ (results.foldl (dns_select_step s now) sel_acc_zero).reuse.l ∨
      r ∈ (results.foldl (dns_select_step s now) sel_acc_zero).aaaa.l ∨
      r ∈ (results.foldl (dns_select_step s now) sel_acc_zero).a.l := by
    rcases hmem with h1 | h1 | h1 | ⟨h1, _⟩
    · exact Or.inl h1
    · exact Or.inr (Or.inl h1)
    · exact Or.inr (Or.inr h1)
    · simp at h1
  obtain ⟨e, he, her, _, hb⟩ := sel_lists_mem s now results hbad r hm
  obtain ⟨hk1, hk2⟩ := hkeyed e he
  have : fmt_ipport ip port = e.1 := by
    rw [hp]
    apply hk2
    rw [← hk1, her]; exact hs
  rw [this]; exact hb

/-- C11 (amended). For every `out_route` call in which `mio_connect` fails (one
pass through its body reaches the recursive call): the address `ip/port` of
the failed connect is recorded in the bad-host cache with expiry
`now + dns_bad_timeout` when `dns_bad_timeout > 0`, and the cache is left as it
was otherwise; the failed connection is removed from `out_host` (when
connections are re-used) and from `out_dest`, and its record is freed;
`out_route` continues as `out_route` with `allow_bad = 0` on that engine; and
when `dns_bad_timeout > 0`, `dns_select` without bad hosts on that engine never
returns the address that just failed, for a cache entry whose results sit under
their composed keys. -/
theorem C11_connect_failure (w : world) (s s1 : s2s_st) (route : String) (ab : Bool)
    (h : out_route_try w s route ab = .ok (route_res.retry s1)) :
    ∃ rfrom dkey ip port, strchr_split route '/' = some (rfrom, dkey) ∧
      w.mio_connect s.n_connect ip port = false ∧
      (0 < s.dns_bad_timeout →
        ∃ b, xhash_get s1.dns_bad (fmt_ipport ip port) = some b ∧
          b.expiry = s.now + s.dns_bad_timeout) ∧
      (s.dns_bad_timeout ≤ 0 → s1.dns_bad = s.dns_bad) ∧
      (s.out_reuse = true → xhash_get s1.out_host (fmt_ipport ip port) = none) ∧
      xhash_get s1.out_dest dkey = none ∧
      xhash_get s1.conns s.next_conn = none ∧
      (∀ fuel, out_route w (fuel + 1) s route ab = out_route w fuel s1 route false) ∧
      (0 < s.dns_bad_timeout →
        ∀ (dns dns1 : dnscache_st) (results : xht dnsres_st) (n : Nat) (ip1 : String) (port1 : Int),
          dns.results = some results → results_keyed results →
          dns_select w s1 s1.now dns false = .ok (n, dns1, 0, ip1, port1) →
          fmt_ipport ip1 port1 ≠ fmt_ipport ip port) := by
  obtain ⟨rfrom, dkey, hsplit, hcase⟩ := out_route_try_inv h
  rcases hcase with ⟨c, o, _, ho, hr⟩ | ⟨_, dc, nr, ret, hr⟩ |
      ⟨_, dc, nr, c, o, ip, port, _, _, ho, hr⟩ | ⟨_, dc, nr, ip, port, hr⟩
  · simp at hr
  · simp at hr
  · simp at hr
  · unfold out_route_connect at hr
    by_cases hc : w.mio_connect s.n_connect ip port = true
    · simp [hc] at hr
    · have hcf : w.mio_connect s.n_connect ip port = false := by simpa using hc
      simp only [hcf, Bool.false_eq_true, if_false, route_res.retry.injEq] at hr
      have hbadget : 0 < s.dns_bad_timeout →
          ∃ b, xhash_get s1.dns_bad (fmt_ipport ip port) = some b ∧
            b.expiry = s.now + s.dns_bad_timeout := by
        intro ht
        rw [hr]
        show ∃ b, xhash_get (if s.dns_bad_timeout > 0 then
            (match xhash_get s.dns_bad (fmt_ipport ip port) with
              | some b => xhash_put s.dns_bad (fmt_ipport ip port)
                  { b with expiry := s.now + s.dns_bad_timeout }
              | none => xhash_put s.dns_bad (fmt_ipport ip port)
                  { key := fmt_ipport ip port, prio := 0, weight := 0,
                    expiry := s.now + s.dns_bad_timeout })
            else s.dns_bad) (fmt_ipport ip port) = some b ∧ b.expiry = s.now + s.dns_bad_timeout
        rw [if_pos ht]
        cases hg : xhash_get s.dns_bad (fmt_ipport ip port) with
        | none => exact ⟨_, xhash_get_put_same _ _ _, rfl⟩
        | some b => exact ⟨_, xhash_get_put_same _ _ _, rfl⟩
      refine ⟨rfrom, dkey, ip, port, hsplit, hcf, hbadget, ?_, ?_, ?_, ?_, ?_, ?_⟩
      · intro ht
        rw [hr]
        show (if s.dns_bad_timeout > 0 then _ else s.dns_bad) = s.dns_bad
        rw [if_neg (by omega)]
      · intro hre
        rw [hr]
        show xhash_get (if s.out_reuse then
            xhash_zap (if s.out_reuse then
                xhash_put s.out_host (fmt_ipport ip port) s.next_conn else s.out_host)
              (fmt_ipport ip port)
            else (if s.out_reuse then
                xhash_put s.out_host (fmt_ipport ip port) s.next_conn else s.out_host))
          (fmt_ipport ip port) = none
        rw [hre]
        simp only [if_true]
        exact xhash_get_zap_same _ _
      · rw [hr]
        show xhash_get (xhash_zap (xhash_put s.out_dest dkey s.next_conn) dkey) dkey = none
        exact xhash_get_zap_same _ _
      · rw [hr]
        show xhash_get (xhash_zap (xhash_put s.conns s.next_conn _) s.next_conn) s.next_conn = none
        exact xhash_get_zap_same _ _
      · intro fuel
        show (match out_route_try w s route ab with
          | Except.error f => (Except.error f : Except fault (s2s_st × Int × Option Nat))
          | Except.ok (route_res.done s1 ret out) => Except.ok (s1, ret, out)
          | Except.ok (route_res.retry s1) => out_route w fuel s1 route false) = _
        rw [h]
      · intro ht dns dns1 results n ip1 port1 hres hkeyed hsel heq
        obtain ⟨b, hb, hbe⟩ := hbadget ht
        have hnow : s1.now = s.now := by rw [hr]; rfl
        have hto : s1.dns_bad_timeout = s.dns_bad_timeout := by rw [hr]; rfl
        have hnb := dns_select_not_bad hres (Or.inl (by rw [hto]; exact ht)) hkeyed hsel
        rw [heq] at hnb
        unfold is_bad at hnb
        rw [hb] at hnb
        simp only [decide_eq_false_iff_not, hbe, hnow] at hnb
        omega

/-! ## C14: the weighted pick -/

/-- The weighted pick is the entry at the index where the loop stops. -/
theorem sel_pick_index : ∀ (l : List dnsres_st) (rw : List Int) (p wt r : Int),
    rw.length = l.length →
    sel_pick { l := l, rw := rw, p := p, wt := wt } r
      = ((sel_index rw r).bind (fun i => l.get? i)).map (fun x => x.key) := by
  intro l
  induction l with
  | nil =>
    intro rw p wt r h
    have : rw = [] := List.length_eq_zero.1 (by simpa using h)
    subst this
    simp [sel_pick, sel_index]
  | cons a t ih =>
    intro rw p wt r h
    cases rw with
    | nil => simp at h
    | cons x rt =>
      have ht : rt.length = t.length := by simpa using h
      have := ih rt p wt r ht
      unfold sel_pick at this ⊢
      simp only [List.zip_cons_cons, List.find?_cons, sel_index]
      by_cases hx : x ≥ r
      · simp [hx]
      · simp only [hx, decide_False, if_false]
        simp only at this
        rw [this]
        cases sel_index rt r with
        | none => simp
        | some i => simp

theorem running_sums_cons (x : Int) (t : List Int) :
    running_sums (x :: t) = x :: (running_sums t).map (fun y => x + y) := by
  unfold running_sums
  rw [List.length_cons, List.range_succ_eq_map]
  simp [List.map_map, Function.comp_def]

theorem take_sum_nonneg (ws : List Int) (h : ∀ x ∈ ws, 0 ≤ x) (k : Nat) : 0 ≤ (ws.take k).sum :=
  List.sum_nonneg (fun x hx => h x (List.mem_of_mem_take hx))

/-- Where the loop of the weighted pick stops, for running sums above a base
`b`: at the first index whose running sum reaches `r`. -/
theorem sel_index_running : ∀ (ws : List Int) (b r : Int) (i : Nat), (∀ x ∈ ws, 0 ≤ x) →
    (sel_index ((running_sums ws).map (fun y => b + y)) r = some i ↔
      i < ws.length ∧ r ≤ b + (ws.take (i + 1)).sum ∧ (i = 0 ∨ b + (ws.take i).sum < r)) := by
  intro ws
  induction ws with
  | nil => intro b r i _; simp [running_sums, sel_index]
  | cons x t ih =>
    intro b r i hpos
    have hx : 0 ≤ x := hpos x (List.mem_cons_self _ _)
    have ht : ∀ y ∈ t, 0 ≤ y := fun y hy => hpos y (List.mem_cons_of_mem _ hy)
    rw [running_sums_cons]
    simp only [List.map_cons, List.map_map, Function.comp_def, sel_index]
    have hmap : (running_sums t).map (fun y => b + (x + y))
        = (running_sums t).map (fun y => (b + x) + y) := by
      apply List.map_congr_left
      intro y _; ring
    rw [hmap]
    by_cases hge : b + x ≥ r
    · simp only [hge, if_true, Option.some.injEq]
      constructor
      · intro h0
        subst h0
        simp only [List.length_cons, Nat.zero_lt_succ, zero_add, List.take_succ_cons,
          List.take_zero, List.sum_cons, List.sum_nil, add_zero, true_or, and_true, true_and]
        omega
      · intro ⟨_, _, h3⟩
        cases i with
        | zero => rfl
        | succ j =>
          exfalso
          rcases h3 with h3 | h3
          · simp at h3
          · simp only [List.take_succ_cons, List.sum_cons] at h3
            have := take_sum_nonneg t ht j
            omega
    · simp only [hge, if_false]
      cases i with
      | zero =>
        simp only [List.length_cons, Nat.zero_lt_succ, zero_add, List.take_succ_cons,
          List.take_zero, List.sum_cons, List.sum_nil, add_zero, true_or, and_true, true_and]
        constructor
        · intro h; simp at h
        · intro h; omega
      | succ j =>
        have := ih (b + x) r j ht
        simp only [Option.map_eq_some', Nat.add_right_cancel_iff, exists_eq_right]
        rw [this]
        simp only [List.length_cons, Nat.add_lt_add_iff_right, List.take_succ_cons, List.sum_cons,
          Nat.add_one_ne_zero, false_or]
        have hs := take_sum_nonneg t ht j
        constructor
        · intro ⟨h1, h2, h3⟩
          refine ⟨h1, by omega, ?_⟩
          rcases h3 with h3 | h3
          · subst h3; simp; omega
          · omega
        · intro ⟨h1, h2, h3⟩
          refine ⟨h1, by omega, ?_⟩
          by_cases hj : j = 0
          · left; exact hj
          · right; omega

theorem count_range : ∀ (n A C : Nat), C ≤ n →
    ((List.range n).filter (fun r => decide (A ≤ r ∧ r < C))).length = C - A := by
  intro n
  induction n with
  | zero => intro A C h; simp; omega
  | succ m ih =>
    intro A C h
    rw [List.range_succ, List.filter_append, List.length_append]
    by_cases hC : C ≤ m
    · rw [ih A C hC]
      have : ¬ (A ≤ m ∧ m < C) := by omega
      simp [this]
    · have hCm : C = m + 1 := by omega
      have hcongr : (List.range m).filter (fun r => decide (A ≤ r ∧ r < C))
          = (List.range m).filter (fun r => decide (A ≤ r ∧ r < m)) := by
        apply List.filter_congr
        intro r hr
        rw [List.mem_range] at hr
        have : (A ≤ r ∧ r < C) ↔ (A ≤ r ∧ r < m) := by omega
        simp [this]
      rw [hcongr, ih A m (le_refl _)]
      by_cases hA : A ≤ m
      · have : (A ≤ m ∧ m < C) := by omega
        simp [this]; omega
      · have : ¬ (A ≤ m ∧ m < C) := by omega
        simp [this]; omega

theorem cast_take_sum (ws : List Nat) (k : Nat) :
    ((ws.map (fun (n : Nat) => (n : Int))).take k).sum = (((ws.take k).sum : Nat) : Int) := by
  induction ws generalizing k with
  | nil => simp
  | cons x t ih =>
    cases k with
    | zero => simp
    | succ j =>
      simp only [List.map_cons, List.take_succ_cons, List.sum_cons]
      rw [ih j]
      push_cast
      rfl

theorem take_sum_le (ws : List Nat) (k : Nat) : (ws.take k).sum ≤ ws.sum := by
  induction ws generalizing k with
  | nil => simp
  | cons x t ih =>
    cases k with
    | zero => simp
    | succ j => simp only [List.take_succ_cons, List.sum_cons]; have := ih j; omega

theorem take_succ_sum (ws : List Nat) (i : Nat) :
    (ws.take (i + 1)).sum = (ws.take i).sum + ws.getD i 0 := by
  induction ws generalizing i with
  | nil => simp
  | cons x t ih =>
    cases i with
    | zero => simp
    | succ j =>
      simp only [List.take_succ_cons, List.sum_cons, List.getD_cons_succ]
      rw [ih j]; omega

/-- The number of draws that stop the weighted pick at index `i`, for the
running sums of natural weights. -/
theorem pick_count_running (ws : List Nat) (i : Nat) (hi : i < ws.length) :
    pick_count (running_sums (ws.map (fun (n : Nat) => (n : Int)))) ws.sum i
      = ws.getD i 0 + (if i = 0 then 1 else 0) := by
  unfold pick_count
  have hpos : ∀ x ∈ ws.map (fun (n : Nat) => (n : Int)), 0 ≤ x := by
    intro x hx
    simp only [List.mem_map] at hx
    obtain ⟨n, _, hn⟩ := hx
    rw [← hn]; exact Int.ofNat_nonneg n
  have hchar : ∀ r : Nat,
      (sel_index (running_sums (ws.map (fun (n : Nat) => (n : Int)))) (r : Int) = some i ↔
        (if i = 0 then 0 else (ws.take i).sum + 1) ≤ r ∧ r < (ws.take (i + 1)).sum + 1) := by
    intro r
    have h := sel_index_running (ws.map (fun (n : Nat) => (n : Int))) 0 (r : Int) i hpos
    have hid : (running_sums (ws.map (fun (n : Nat) => (n : Int)))).map (fun y => (0 : Int) + y)
        = running_sums (ws.map (fun (n : Nat) => (n : Int))) := by
      simp
    rw [hid] at h
    rw [h, cast_take_sum, cast_take_sum]
    simp only [List.length_map, hi, true_and, zero_add]
    by_cases h0 : i = 0
    · subst h0
      simp only [if_true, Nat.zero_le, true_and, true_or, and_true]
      omega
    · simp only [h0, if_false, false_or]
      omega
  have hcongr : (List.range (ws.sum + 1)).filter
        (fun (r : Nat) =>
          decide (sel_index (running_sums (ws.map (fun (n : Nat) => (n : Int)))) (r : Int) = some i))
      = (List.range (ws.sum + 1)).filter
        (fun (r : Nat) => decide ((if i = 0 then 0 else (ws.take i).sum + 1) ≤ r ∧
                          r < (ws.take (i + 1)).sum + 1)) := by
    apply List.filter_congr
    intro r _
    simp only [hchar r]
  rw [hcongr, count_range _ _ _ (by have := take_sum_le ws (i + 1); omega)]
  rw [take_succ_sum]
  by_cases h0 : i = 0
  · subst h0; simp
  · simp only [h0, if_false]; omega

/-- C14 (amended). For a non-empty candidate list `L` with stored weights
`w_0..w_{n-1}` (natural numbers), running weights their running sums and total
`W = Σ w_i`: the pick of `dns_select` for a draw `r` is the entry at the first
index whose running weight is ≥ `r`; of the `W + 1` draws `r` in `0..W`,
exactly `w_0 + 1` select entry 0 and exactly `w_i` select entry `i > 0`.  So
for a uniform draw entry 0 is selected with probability `(w_0 + 1)/(W + 1)` and
entry `i > 0` with probability `w_i/(W + 1)`. -/
theorem C14_pick_counts (L : sel_list) (ws : List Nat) (i : Nat)
    (hw : L.l.map (fun r => r.weight) = ws.map (fun (n : Nat) => (n : Int)))
    (hrw : L.rw = running_sums (L.l.map (fun r => r.weight)))
    (hi : i < L.l.length) :
    (∀ r : Int, sel_pick L r = ((sel_index L.rw r).bind (fun j => L.l.get? j)).map (fun x => x.key)) ∧
    (List.range (ws.sum + 1)).length = ws.sum + 1 ∧
    pick_count L.rw ws.sum i = ws.getD i 0 + (if i = 0 then 1 else 0) := by
  have hlen : ws.length = L.l.length := by
    have := congrArg List.length hw
    simpa using this.symm
  refine ⟨?_, by simp, ?_⟩
  · intro r
    have hl : L.rw.length = L.l.length := by
      rw [hrw, running_sums_length, List.length_map]
    exact sel_pick_index L.l L.rw L.p L.wt r hl
  · rw [hrw, hw]
    exact pick_count_running ws i (by omega)

/-! ## The statements about the resolver on concrete resolutions -/

theorem q_srv_run : query_run demo_world q_srv :=
  query_run.srv (st_asked 30) q_start q_srv ans_none
    (query_run.start (st_asked 30)
      { name := "b.example", pending := true, expiry := 0, init_time := 1000, query := none,
        results := none } q_start (by decide))
    (by decide)

theorem q_aaaa_run : query_run demo_world q_aaaa :=
  query_run.aaaa q_srv q_aaaa (ans_addr 100 ["::1"]) q_srv_run (by decide)

theorem q_aaaa_none_run : query_run demo_world q_aaaa_none :=
  query_run.aaaa q_srv q_aaaa_none ans_none q_srv_run (by decide)

theorem C15_new_host_weight_witness :
    xhash_get q_empty.hosts (fmt_ipport "h.example" 5269) = none ∧
    ∃ q1 res, _dns_add_host q_empty "h.example" 5269 10 0 300 = .ok q1 ∧
      xhash_get q1.hosts (fmt_ipport "h.example" 5269) = some res ∧ res.weight = 16 := by
  obtain ⟨q1, res, h1, h2, _, _, h5, _⟩ :=
    C15_new_host_weight q_empty "h.example" 5269 10 0 300 (by decide) (by decide) (by decide)
      (by decide) (by decide) (by decide)
  exact ⟨by decide, q1, res, h1, h2, by simpa using h5⟩

/-- The claim C16 as stated fails: after a resolution in which the AAAA answer
has TTL 100 and the A answer TTL 200, the cache entry expires at 1200 and its
result `::1/5269` at 1100, before the entry. -/
theorem C16_counterexample :
    query_run demo_world q_aaaa ∧
    _dns_result_a demo_world 5 (st_asked 30) q_aaaa (ans_addr 200 ["1.2.3.4"])
      = .ok (st_resolved, none) ∧
    (demo_dns st_resolved "b.example").expiry = 1200 ∧
    (demo_dns st_resolved "b.example").results =
      some [("::1/5269", { key := "::1/5269", prio := 0, weight := 0, expiry := 1100 }),
            ("1.2.3.4/5269", { key := "1.2.3.4/5269", prio := 0, weight := 0, expiry := 1200 })] :=
  ⟨q_aaaa_run, by decide, by decide, by decide⟩

theorem C16_entry_expiry_bounds_results_witness :
    addr_add { q_aaaa with have_async_id := false } (ans_addr 200 ["1.2.3.4"]) = .ok q_last ∧
    q_last.hosts = [] ∧
    ∃ (domain : String) (R : xht dnsres_st) (E : Int),
      _dns_result_a demo_world 5 (st_asked 30) q_aaaa (ans_addr 200 ["1.2.3.4"]) =
        (match out_resolve demo_world 5 (st_asked 30) domain R E with
         | .error f => .error f
         | .ok s1 => .ok (s1, none)) ∧
      (∀ e ∈ R, e.2.expiry ≤ E) ∧ (R ≠ [] → ∃ e ∈ R, e.2.expiry = E) := by
  obtain ⟨d, R, E, h1, h2, h3, _⟩ :=
    C16_entry_expiry_bounds_results demo_world 5 (st_asked 30) q_aaaa q_last
      (ans_addr 200 ["1.2.3.4"]) q_aaaa_run (by decide) (by decide)
  exact ⟨by decide, by decide, d, R, E, h1, h2, h3⟩

theorem C17_final_ttl_bounds_witness :
    (st_asked 300).now = 1000 ∧ (st_asked 300).dns_min_ttl = 300 ∧
    (st_asked 300).dns_max_ttl = 3600 ∧
    addr_add { q_aaaa with have_async_id := false } (ans_addr 200 ["1.2.3.4"]) = .ok q_last ∧
    q_last.hosts = [] ∧ q_last.expiry = 200 ∧
    q_last.results.map (fun e => (e.1, e.2.expiry)) = [("::1/5269", 100), ("1.2.3.4/5269", 200)] ∧
    _dns_result_a demo_world 5 (st_asked 300) q_aaaa (ans_addr 200 ["1.2.3.4"])
      = .ok (st_clamped, none) ∧
    (demo_dns st_clamped "b.example").expiry = 1300 ∧
    ((demo_dns st_clamped "b.example").results.getD []).map (fun e => (e.1, e.2.expiry))
      = [("::1/5269", 1300), ("1.2.3.4/5269", 1300)] ∧
    (∀ e ∈ final_results (st_asked 300) q_last, 1300 ≤ e.2.expiry ∧ e.2.expiry ≤ 4600) := by
  have h := C17_final_ttl_bounds demo_world 5 (st_asked 300) q_aaaa q_last
    (ans_addr 200 ["1.2.3.4"]) "b.example" (by decide) (by decide) (by decide) (by decide)
  exact ⟨by decide, by decide, by decide, by decide, by decide, by decide, by decide, by decide,
    by decide, by decide, h.2.2.2.2.1⟩

/-- The claim C18 as stated fails for a negative `dns_min_ttl`: with
`dns_min_ttl = -5` and `now = 1000`, a resolution without results leaves a
negative entry that expires at 1000, not at `now + dns_min_ttl = 995`, the
clamp of the TTL 0 being 0. -/
theorem C18_counterexample :
    (st_asked (-5)).dns_min_ttl = -5 ∧ (st_asked (-5)).now = 1000 ∧
    query_run demo_world q_aaaa_none ∧ q_last_none.results = [] ∧
    _dns_result_a demo_world 5 (st_asked (-5)) q_aaaa_none ans_none
      = .ok (st_unresolved (-5), none) ∧
    (demo_dns (st_unresolved (-5)) "b.example").results = none ∧
    (demo_dns (st_unresolved (-5)) "b.example").expiry = 1000 ∧
    (demo_dns (st_unresolved (-5)) "b.example").expiry
      ≠ (st_asked (-5)).now + (st_asked (-5)).dns_min_ttl :=
  ⟨by decide, by decide, q_aaaa_none_run, by decide, by decide, by decide, by decide, by decide⟩

theorem C18_no_results_negative_entry_witness :
    addr_add { q_aaaa_none with have_async_id := false } ans_none = .ok q_last_none ∧
    q_last_none.hosts = [] ∧ q_last_none.results = [] ∧
    xhash_get (st_asked 30).dnscache "b.example" = some (demo_dns (st_asked 30) "b.example") ∧
    ∃ s1, _dns_result_a demo_world 5 (st_asked 30) q_aaaa_none ans_none = .ok (s1, none) ∧
      (∃ d, xhash_get s1.dnscache "b.example" = some d ∧ d.results = none ∧ d.expiry = 1030 ∧
        d.pending = false) ∧
      xhash_get s1.outq "a.example/b.example" = none := by
  obtain ⟨s1, extra, h1, h2, _, _, _, _, h7, _⟩ :=
    C18_no_results_negative_entry demo_world 5 (st_asked 30) q_aaaa_none q_last_none ans_none
      "b.example" (demo_dns (st_asked 30) "b.example") q_aaaa_none_run (by decide) (by decide)
      (by decide) (by decide) (by decide)
  exact ⟨by decide, by decide, by decide, by decide, s1, h1,
    ⟨_, h2, rfl, by decide, rfl⟩, (h7 _ (by decide)).1⟩

/-! ## The statements about the selection on concrete engines -/

/-- The claim C11 as stated fails when the bad-host cache is disabled: with
`dns_bad_timeout = 0` the connect to `1.2.3.4/5269` fails, nothing is recorded
in the bad-host cache, and the retry with `allow_bad = 0` selects
`1.2.3.4/5269` again and connects to it. -/
theorem C11_counterexample :
    (st_cached 0).dns_bad_timeout = 0 ∧ (st_cached 0).n_connect = 0 ∧
    world_fail_once.mio_connect 0 "1.2.3.4" 5269 = false ∧
    out_route_try world_fail_once (st_cached 0) "a.example/b.example" true
      = .ok (route_res.retry
          (demo_retry world_fail_once (st_cached 0) "a.example/b.example" true)) ∧
    (demo_retry world_fail_once (st_cached 0) "a.example/b.example" true).dns_bad = [] ∧
    (dns_select world_fail_once
        (demo_retry world_fail_once (st_cached 0) "a.example/b.example" true) 1000
        (demo_dns (demo_retry world_fail_once (st_cached 0) "a.example/b.example" true)
          "b.example") false).map (fun r => (r.2.2.1, r.2.2.2.1, r.2.2.2.2))
      = .ok (0, "1.2.3.4", 5269) ∧
    (out_route world_fail_once 4
        (demo_retry world_fail_once (st_cached 0) "a.example/b.example" true)
        "a.example/b.example" false).map
        (fun r => (r.2.1, r.2.2, r.1.conns.map (fun c => (c.1, c.2.key))))
      = .ok (0, some 1, [(1, "1.2.3.4/5269")]) := by
  decide

theorem C11_connect_failure_witness :
    out_route_try world_fail (st_cached 60) "a.example/b.example" true
      = .ok (route_res.retry (demo_retry world_fail (st_cached 60) "a.example/b.example" true)) ∧
    ∃ ip port, world_fail.mio_connect (st_cached 60).n_connect ip port = false ∧
      ∃ b, xhash_get (demo_retry world_fail (st_cached 60) "a.example/b.example" true).dns_bad
          (fmt_ipport ip port) = some b ∧ b.expiry = 1060 := by
  obtain ⟨_, _, ip, port, _, h2, h3, _⟩ :=
    C11_connect_failure world_fail (st_cached 60)
      (demo_retry world_fail (st_cached 60) "a.example/b.example" true) "a.example/b.example"
      true (by decide)
  obtain ⟨b, hb1, hb2⟩ := h3 (by decide)
  exact ⟨by decide, ip, port, h2, b, hb1, by rw [hb2]; decide⟩

theorem C12_dns_select_order_witness :
    (demo_dns (st_cached 60) "b.example").results = some demo_res ∧
    (0 < (st_cached 60).dns_bad_timeout ∨ (st_cached 60).dns_bad = []) ∧
    (∀ e ∈ demo_res, 0 ≤ e.2.weight) ∧
    (∀ e ∈ demo_res, (strchr_split e.2.key '/').isSome = true) ∧
    (∃ e ∈ demo_res, unexpired 1000 e = true ∧ is_bad (st_cached 60) 1000 e.1 = false) ∧
    ∃ e ∈ demo_res, unexpired 1000 e = true ∧ is_bad (st_cached 60) 1000 e.1 = false ∧
      ∃ ip p, strchr_split e.2.key '/' = some (ip, p) ∧
        dns_select demo_world (st_cached 60) 1000 (demo_dns (st_cached 60) "b.example") true
          = .ok ((st_cached 60).n_rand + 1, demo_dns (st_cached 60) "b.example", 0, ip, atoi p) :=
  ⟨by decide, by decide, by decide, by decide, by decide,
   (C12_dns_select_order demo_world (st_cached 60) 1000 (demo_dns (st_cached 60) "b.example")
      true demo_res (demo_res.foldl (dns_select_step (st_cached 60) 1000) sel_acc_zero)
      (by decide) rfl (by decide) (by decide) (by decide)).2.2.2.2 (by decide)⟩

theorem C13_partition_lists_witness :
    (0 < (st_cached 60).dns_bad_timeout ∨ (st_cached 60).dns_bad = []) ∧
    (demo_res.foldl (dns_select_step (st_cached 60) 1000) sel_acc_zero).a.l
      = min_prio_members (class_members (st_cached 60) 1000 res_class.ipv4 demo_res) ∧
    (demo_res.foldl (dns_select_step (st_cached 60) 1000) sel_acc_zero).a.wt
      = (((demo_res.foldl (dns_select_step (st_cached 60) 1000) sel_acc_zero).a.l).map
          (fun r => r.weight)).sum :=
  ⟨by decide,
   (C13_partition_lists (st_cached 60) 1000 demo_res (by decide) res_class.ipv4 _ rfl).1,
   (C13_partition_lists (st_cached 60) 1000 demo_res (by decide) res_class.ipv4 _ rfl).2.1⟩

/-- The claim C14 as stated fails: for the list of two entries of weight 16
(total 32), of the 33 draws `0..32` seventeen select entry 0 and sixteen select
entry 1, so entry 0 is selected with probability 17/33, not 16/32. -/
theorem C14_counterexample :
    [({ key := "1.2.3.4/5269", prio := 10, weight := 16, expiry := 1100 } : dnsres_st),
     { key := "1.2.3.5/5269", prio := 10, weight := 16, expiry := 1100 }].foldl sel_add
      { l := [], rw := [], p := 0, wt := 0 } = demo_list ∧
    demo_list.l.map (fun r => r.weight) = [16, 16] ∧ demo_list.wt = 32 ∧
    (List.range (32 + 1)).length = 33 ∧
    pick_count demo_list.rw 32 0 = 17 ∧ pick_count demo_list.rw 32 1 = 16 ∧
    sel_pick demo_list 16 = some "1.2.3.4/5269" ∧ sel_pick demo_list 17 = some "1.2.3.5/5269" ∧
    17 * 32 ≠ 16 * 33 := by
  decide

theorem C14_pick_counts_witness :
    demo_list.l.map (fun r => r.weight) = [16, 16].map (fun (n : Nat) => (n : Int)) ∧
    demo_list.rw = running_sums (demo_list.l.map (fun r => r.weight)) ∧
    0 < demo_list.l.length ∧
    pick_count demo_list.rw ([16, 16] : List Nat).sum 0 = 17 :=
  ⟨by decide, by decide, by decide,
   (C14_pick_counts demo_list [16, 16] 0 (by decide) (by decide) (by decide)).2.2⟩

/-- C19 at a concrete input: in the engine `st_connect` the only queue belongs
to the route `a.example/b.example`, whose to-domain `b.example` is not
`b.example.org` but is the beginning of it.  `out_flush_domain_queues` for
`b.example.org` passes the test of the loop for that route and does what
`out_flush_route_queue` does for it, whose loop hands the queued message of
`b.example` to `out_packet`; `out_bounce_domain_queues` for the same domain
leaves that queue alone. -/
theorem C19_flushes_prefix_domain :
    st_connect.outq.map (fun e => e.1) = ["a.example/b.example"] ∧
    strchr_split "a.example/b.example" '/' = some ("a.example", "b.example") ∧
    "b.example" ≠ "b.example.org" ∧
    flush_domain_match "b.example.org" "b.example" = true ∧
    out_flush_domain_queues demo_world 5 st_connect "b.example.org"
      = out_flush_route_queue demo_world 5 st_connect "a.example/b.example" ∧
    flush_loop demo_world 5 (demo_queue st_connect "a.example/b.example").items.length st_connect
      "a.example/b.example" [] = .ok (demo_flush st_connect "a.example/b.example") ∧
    (demo_flush st_connect "a.example/b.example").2.2 = [demo_msg "a.example" "b.example"] ∧
    (out_bounce_domain_queues st_connect "b.example.org" stanza_err_REMOTE_SERVER_NOT_FOUND).2
      = 0 := by
  decide

/-! ## C21: the timeout of the poll -/

theorem to_int32_id (x : Int) (h0 : -2147483648 ≤ x) (h1 : x < 2147483648) : to_int32 x = x := by
  unfold to_int32
  omega

theorem rebase_front (q : timed_queue) (now : timeval) (n : jqueue_node) (rest : List jqueue_node)
    (h : q.nodes = n :: rest) :
    ∃ n1 rest1, (_mio_run_rebase q now).nodes = n1 :: rest1 ∧ n1.data = n.data := by
  unfold _mio_run_rebase
  split
  · rw [h]; exact ⟨_, _, rfl, rfl⟩
  · exact ⟨n, rest, h, rfl⟩

theorem run_timeout_front (q : timed_queue) (now : timeval) (timeout : Int) (n : jqueue_node)
    (rest : List jqueue_node) (h : q.nodes = n :: rest) :
    run_timeout q now timeout =
      if (if timeout < 0 ∨ timeout_msec n.data now < timeout then
            to_int32 (to_int32 (timeout_msec n.data now) + 5) else timeout) ≥ 0 then
        (if timeout < 0 ∨ timeout_msec n.data now < timeout then
            to_int32 (to_int32 (timeout_msec n.data now) + 5) else timeout)
      else -1 := by
  unfold run_timeout
  rw [h]

/-- C21 (amended). For every call of `run(timeout)` in which no immediate
timeout callback returns non-zero, with a timed queue whose front entry has the
remaining time `msec` (zero or negative when the entry is overdue) and `msec`
and `msec + 5` in the range of an `int`: when `msec < timeout` (or `timeout` is
negative) the backend is polled with `msec + 5` if that is not negative and
with -1, no timeout, if it is negative; when `msec ≥ timeout ≥ 0` it is polled
with `timeout`. -/
theorem C21_poll_timeout (w : mio_world) (m m1 : mio_priv_st) (now : timeval) (timeout : Int)
    (n : jqueue_node) (rest : List jqueue_node)
    (himm : run_immed w m.immed_timeout m = (m1, false))
    (hq : m1.timed_timeout.nodes = n :: rest)
    (hlo : -2147483648 ≤ timeout_msec n.data now)
    (hhi : timeout_msec n.data now + 5 < 2147483648) :
    (timeout < 0 ∨ timeout_msec n.data now < timeout →
      (_mio_run_poll w m now timeout).2 =
        some (if timeout_msec n.data now + 5 ≥ 0 then timeout_msec n.data now + 5 else -1)) ∧
    (timeout_msec n.data now ≥ timeout → timeout ≥ 0 →
      (_mio_run_poll w m now timeout).2 = some timeout) := by
  obtain ⟨n1, rest1, hr, hd⟩ := rebase_front m1.timed_timeout now n rest hq
  have hpoll : (_mio_run_poll w m now timeout).2 =
      some (run_timeout (_mio_run_rebase m1.timed_timeout now) now timeout) := by
    unfold _mio_run_poll
    rw [himm]
  rw [hpoll, run_timeout_front _ now timeout n1 rest1 hr, hd]
  have h32 : to_int32 (timeout_msec n.data now) = timeout_msec n.data now :=
    to_int32_id _ hlo (by omega)
  have h32b : to_int32 (timeout_msec n.data now + 5) = timeout_msec n.data now + 5 :=
    to_int32_id _ (by omega) hhi
  constructor
  · intro h
    rw [if_pos h, h32, h32b]
  · intro h1 h2
    have hn : ¬ (timeout < 0 ∨ timeout_msec n.data now < timeout) := by omega
    rw [if_neg hn, if_pos h2]

/-- The claim C21 as stated fails for an entry that is overdue by more than 5
ms, and for a run that an immediate timeout stops: the only timed timeout, of
one second, was registered at second 10; at second 11.010 its remaining time
is -10 ms, below the caller's 100 ms, and the backend is polled with -1 (no
timeout), not with -10 + 5 = -5; and when the callback of an immediate timeout
returns non-zero the backend is not polled at all. -/
theorem C21_counterexample :
    (mio_timer.timed_timeout.nodes.map
        (fun n => timeout_msec n.data { tv_sec := 11, tv_usec := 10000 })) = [-10] ∧
    (_mio_run_poll demo_app mio_timer { tv_sec := 11, tv_usec := 10000 } 100).2 = some (-1) ∧
    (mio_immed.timed_timeout.nodes.map
        (fun n => timeout_msec n.data { tv_sec := 10, tv_usec := 950000 })) = [50] ∧
    (_mio_run_poll demo_app mio_immed { tv_sec := 10, tv_usec := 950000 } 100).2 = none := by
  decide

theorem C21_poll_timeout_witness :
    run_immed demo_app mio_timer.immed_timeout mio_timer = (mio_timer, false) ∧
    (_mio_run_poll demo_app mio_timer { tv_sec := 10, tv_usec := 950000 } 100).2 = some 55 ∧
    (_mio_run_poll demo_app mio_timer { tv_sec := 10, tv_usec := 950000 } 20).2 = some 20 :=
  ⟨by decide,
   (C21_poll_timeout demo_app mio_timer mio_timer { tv_sec := 10, tv_usec := 950000 } 100
      { priority := 11000,
        data := { id := 0, fn := some 1, data1 := 0, data2 := 0, msec := 1000,
                  t_0 := { tv_sec := 10, tv_usec := 0 } } } []
      (by decide) (by decide) (by decide) (by decide)).1 (by decide),
   (C21_poll_timeout demo_app mio_timer mio_timer { tv_sec := 10, tv_usec := 950000 } 20
      { priority := 11000,
        data := { id := 0, fn := some 1, data1 := 0, data2 := 0, msec := 1000,
                  t_0 := { tv_sec := 10, tv_usec := 0 } } } []
      (by decide) (by decide) (by decide) (by decide)).2 (by decide) (by decide)⟩

/-! ## C22: the end of a connect -/

/-- C22 at a concrete input: the descriptor 3 is connecting and neither
`mio_read` nor `mio_write` was called on it (its type is `type_CONNECT`
itself).  When the connect completes, `_mio__connect` makes it NORMAL, arms
read interest and calls the handler with `action_WRITE` all the same, because
`type_CONNECT & type_CONNECT_READ` and `type_CONNECT & type_CONNECT_WRITE` are
both `type_CONNECT`, not 0.  For each of the four types with the CONNECT bit
the outcome is the same. -/
theorem C22_connect_actions_all :
    (xhash_get mio_connecting.fds 3).map (fun f => (f.type, f.rd)) = some (type_CONNECT, false) ∧
    mio_connecting.acts = [] ∧
    type_CONNECT &&& type_CONNECT_READ = type_CONNECT ∧
    type_CONNECT &&& type_CONNECT_WRITE = type_CONNECT ∧
    _mio__connect demo_app mio_connecting 3 =
      .ok { mio_connecting with
              fds := [(3, demo_fd type_NORMAL true true)],
              acts := [{ handler := 1, a := mio_action_t.action_WRITE, fd := 3, arg := some 2 }] } ∧
    (∀ t ∈ [type_CONNECT, type_CONNECT_READ, type_CONNECT_WRITE,
            type_CONNECT_READ ||| type_CONNECT_WRITE],
      _mio__connect demo_app { mio_connecting with fds := [(3, demo_fd t false true)] } 3 =
        _mio__connect demo_app mio_connecting 3) := by
  decide

/-! ## C23: closing a descriptor -/

theorem mio_fd_get {m : mio_priv_st} {h : Nat} {f : mio_priv_fd_st} (hf : mio_fd m h = .ok f) :
    xhash_get m.fds h = some f ∧ f.freed = false := by
  unfold mio_fd at hf
  cases hg : xhash_get m.fds h with
  | none => rw [hg] at hf; simp at hf
  | some g =>
    rw [hg] at hf
    simp only at hf
    split at hf
    · simp at hf
    · simp only [Except.ok.injEq] at hf
      subst hf
      exact ⟨rfl, by simpa using ‹¬ g.freed = true›⟩

/-- What one `_mio_close` does to a descriptor that is not CLOSED: the handler,
if there is one, is called once with `action_CLOSE`; the record is taken out of
the poll set, its OS descriptor closed, its type CLOSED, its handler and
context cleared; it is released when the backend allows it. -/
theorem mio_close_open (w : mio_world) (m : mio_priv_st) (h : Nat) (f : mio_priv_fd_st)
    (hf : mio_fd m h = .ok f) (ht : f.type ≠ type_CLOSED) :
    _mio_close w m h =
      .ok { m with
        fds := xhash_put (xhash_put m.fds h { f with in_set := false }) h
          { f with in_set := false, os_open := false, type := type_CLOSED, app := none,
                   arg := none, freed := m.can_free },
        acts := m.acts ++
          (match f.app with
           | some app => [{ handler := app, a := mio_action_t.action_CLOSE, fd := h, arg := f.arg }]
           | none => []) } := by
  unfold _mio_close
  rw [hf]
  simp only [ht, if_false]
  have hfr := (mio_fd_get hf).2
  unfold close_notify ACT mio_fd_store
  cases ha : f.app with
  | none =>
    simp only [ne_eq, not_true_eq_false, if_false, List.append_nil]
    cases hc : m.can_free <;> simp [hc, hfr]
  | some app =>
    simp only [ne_eq, reduceCtorEq, not_false_eq_true, if_true]
    cases hc : m.can_free <;> simp [hc, hfr]

theorem close_count_append (m : mio_priv_st) (h : Nat) (fds : List (Nat × mio_priv_fd_st))
    (extra : List act_rec) (hl : extra.length ≤ 1) :
    close_count { m with fds := fds, acts := m.acts ++ extra } h ≤ close_count m h + 1 := by
  unfold close_count
  simp only [List.filter_append, List.length_append]
  have := List.length_filter_le
    (fun r => decide (r.fd = h ∧ r.a = mio_action_t.action_CLOSE)) extra
  omega

/-- After a close, every further close of the same descriptor either finds the
record CLOSED and does nothing, or finds it released. -/
theorem close_many_closed (w : mio_world) (h : Nat) (g : mio_priv_fd_st) :
    ∀ (n : Nat) (m m1 : mio_priv_st), xhash_get m.fds h = some g → g.type = type_CLOSED →
      close_many w h n m = .ok m1 → m1 = m := by
  intro n
  induction n with
  | zero =>
    intro m m1 _ _ hc
    simp only [close_many, Except.ok.injEq] at hc
    exact hc.symm
  | succ k ih =>
    intro m m1 hg ht hc
    simp only [close_many] at hc
    by_cases hfr : g.freed = true
    · have hcl : _mio_close w m h = .error .abort := by
        unfold _mio_close mio_fd
        rw [hg]
        simp only [hfr, if_true]
      rw [hcl] at hc
      simp at hc
    · have hcl : _mio_close w m h = .ok m := by
        unfold _mio_close mio_fd
        rw [hg]
        have hff : g.freed = false := by simpa using hfr
        simp only [hff, Bool.false_eq_true, if_false, ht, if_true]
      rw [hcl] at hc
      exact ih m m1 hg ht hc

/-- C23. For every descriptor whose record is live: `_mio_close` on a CLOSED
descriptor returns the reactor unchanged (no state changes, no handler is
called); over any sequence of close calls on a descriptor that is not CLOSED,
the reactor after the sequence is the reactor after the first call, the
handler calls of the sequence are at most one call, with `action_CLOSE`, and
the descriptor has type CLOSED with handler and context cleared; and while the
backend defers the release of slots, every such sequence runs to its end. -/
theorem C23_close_idempotent (w : mio_world) (m : mio_priv_st) (h : Nat) (f : mio_priv_fd_st)
    (hf : mio_fd m h = .ok f) :
    (f.type = type_CLOSED → _mio_close w m h = .ok m) ∧
    (f.type ≠ type_CLOSED → ∃ mc, _mio_close w m h = .ok mc ∧
      (∀ n m1, close_many w h (n + 1) m = .ok m1 →
        m1 = mc ∧
        close_count m1 h ≤ close_count m h + 1 ∧
        (∃ extra, m1.acts = m.acts ++ extra ∧ extra.length ≤ 1 ∧
          ∀ r ∈ extra, r.fd = h ∧ r.a = mio_action_t.action_CLOSE) ∧
        ∃ f1, xhash_get m1.fds h = some f1 ∧ f1.type = type_CLOSED ∧ f1.app = none ∧
          f1.arg = none ∧ f1.os_open = false ∧ f1.in_set = false) ∧
      (m.can_free = false → ∀ n, close_many w h (n + 1) m = .ok mc)) := by
  constructor
  · intro ht
    unfold _mio_close
    rw [hf]
    simp only [ht, if_true]
  · intro ht
    have hc := mio_close_open w m h f hf ht
    refine ⟨_, hc, ?_, ?_⟩
    · intro n m1 hm
      simp only [close_many, hc] at hm
      have hg : xhash_get (xhash_put (xhash_put m.fds h { f with in_set := false }) h
          { f with in_set := false, os_open := false, type := type_CLOSED, app := none,
                   arg := none, freed := m.can_free }) h = some _ := xhash_get_put_same _ _ _
      have h1 := close_many_closed w h _ n _ m1 hg rfl hm
      subst h1
      refine ⟨rfl, ?_, ?_, ?_⟩
      · apply close_count_append
        cases f.app <;> simp
      · refine ⟨_, rfl, ?_, ?_⟩
        · cases f.app <;> simp
        · intro r hr
          cases ha : f.app with
          | none => rw [ha] at hr; simp at hr
          | some app =>
            rw [ha] at hr
            simp only [List.mem_singleton] at hr
            rw [hr]; exact ⟨rfl, rfl⟩
      · exact ⟨_, hg, rfl, rfl, rfl, rfl, rfl⟩
    · intro hcf n
      simp only [close_many, hc]
      have hstep : ∀ (k : Nat) (mm : mio_priv_st) (g : mio_priv_fd_st),
          xhash_get mm.fds h = some g → g.type = type_CLOSED → g.freed = false →
          close_many w h k mm = .ok mm := by
        intro k
        induction k with
        | zero => intro mm g _ _ _; rfl
        | succ j ih =>
          intro mm g hg hgt hgf
          simp only [close_many]
          have : _mio_close w mm h = .ok mm := by
            unfold _mio_close mio_fd
            rw [hg]
            simp only [hgf, Bool.false_eq_true, if_false, hgt, if_true]
          rw [this]
          exact ih mm g hg hgt hgf
      exact hstep n _ _ (xhash_get_put_same _ _ _) rfl hcf

theorem C23_close_idempotent_witness :
    mio_fd mio_normal 3 = .ok (demo_fd type_NORMAL true false) ∧
    demo_fd type_NORMAL true false ≠ demo_fd type_CLOSED true false ∧
    ∃ mc, _mio_close demo_app mio_normal 3 = .ok mc ∧ close_many demo_app 3 3 mio_normal = .ok mc ∧
      close_count mc 3 = 1 := by
  obtain ⟨mc, h1, _, h3⟩ :=
    (C23_close_idempotent demo_app mio_normal 3 (demo_fd type_NORMAL true false)
      (by decide)).2 (by decide)
  refine ⟨by decide, by decide, mc, h1, h3 (by decide) 2, ?_⟩
  have : mc = except_get mio_normal (_mio_close demo_app mio_normal 3) := by rw [h1]; rfl
  rw [this]
  decide

/-! ## C24: cancelling and running a timeout early -/

theorem unlink_none (t : Nat) : ∀ (l : List jqueue_node),
    (∀ n ∈ l, n.data.id ≠ t) → jqueue_unlink l t = none := by
  intro l
  induction l with
  | nil => intro _; rfl
  | cons a rest ih =>
    intro h
    have ha : a.data.id ≠ t := h a (List.mem_cons_self _ _)
    simp only [jqueue_unlink, ha, if_false]
    rw [ih (fun n hn => h n (List.mem_cons_of_mem _ hn))]

theorem unlink_some (t : Nat) : ∀ (l : List jqueue_node) (x : jqueue_node) (r : List jqueue_node),
    jqueue_unlink l t = some (x, r) →
    ∃ pre post, l = pre ++ x :: post ∧ r = pre ++ post ∧ x.data.id = t ∧
      ∀ n ∈ pre, n.data.id ≠ t := by
  intro l
  induction l with
  | nil => intro x r h; simp [jqueue_unlink] at h
  | cons a rest ih =>
    intro x r h
    by_cases ha : a.data.id = t
    · simp only [jqueue_unlink, ha, if_true, Option.some.injEq, Prod.mk.injEq] at h
      obtain ⟨h1, h2⟩ := h
      subst h1; subst h2
      exact ⟨[], rest, rfl, rfl, ha, fun n hn => by simp at hn⟩
    · simp only [jqueue_unlink, ha, if_false] at h
      cases hu : jqueue_unlink rest t with
      | none => rw [hu] at h; simp at h
      | some p =>
        obtain ⟨y, r1⟩ := p
        rw [hu] at h
        simp only [Option.some.injEq, Prod.mk.injEq] at h
        obtain ⟨h1, h2⟩ := h
        subst h1; subst h2
        obtain ⟨pre, post, e1, e2, e3, e4⟩ := ih y r1 hu
        refine ⟨a :: pre, post, by rw [e1]; rfl, by rw [e2]; rfl, e3, ?_⟩
        intro n hn
        rcases List.mem_cons.1 hn with h0 | h0
        · rw [h0]; exact ha
        · exact e4 n h0

theorem unlink_none_inv (t : Nat) : ∀ (l : List jqueue_node),
    jqueue_unlink l t = none → ∀ n ∈ l, n.data.id ≠ t := by
  intro l
  induction l with
  | nil => intro _ n hn; simp at hn
  | cons a rest ih =>
    intro hu n hn
    by_cases ha : a.data.id = t
    · simp [jqueue_unlink, ha] at hu
    · simp only [jqueue_unlink, ha, if_false] at hu
      cases hr : jqueue_unlink rest t with
      | some p => rw [hr] at hu; simp at hu
      | none =>
        rcases List.mem_cons.1 hn with h0 | h0
        · rw [h0]; exact ha
        · exact ih hr n h0

theorem unlink_found (t : Nat) (l : List jqueue_node) (h : ∃ n ∈ l, n.data.id = t) :
    ∃ x r, jqueue_unlink l t = some (x, r) := by
  cases hu : jqueue_unlink l t with
  | some p => exact ⟨p.1, p.2, rfl⟩
  | none =>
    exfalso
    obtain ⟨n, hn, hid⟩ := h
    exact unlink_none_inv t l hu n hn hid

theorem fires_once_append_cancel (t : Nat) : ∀ (l : List timer_ev),
    fires_once (l ++ [timer_ev.cancel t]) = fires_once l := by
  intro l
  induction l with
  | nil => simp [fires_once]
  | cons e rest ih =>
    cases e with
    | fire u => simp [fires_once, ih]
    | cancel u => simp [fires_once, ih]

theorem fires_once_append_fire (t : Nat) : ∀ (l : List timer_ev),
    fires_once l = true → timer_ev.fire t ∉ l → timer_ev.cancel t ∉ l →
    fires_once (l ++ [timer_ev.fire t]) = true := by
  intro l
  induction l with
  | nil => intro _ _ _; simp [fires_once]
  | cons e rest ih =>
    intro h hf hc
    have hf1 : timer_ev.fire t ∉ rest := fun hh => hf (List.mem_cons_of_mem _ hh)
    have hc1 : timer_ev.cancel t ∉ rest := fun hh => hc (List.mem_cons_of_mem _ hh)
    have key : ∀ u : Nat, u ≠ t → timer_ev.fire u ∉ rest →
        timer_ev.fire u ∉ rest ++ [timer_ev.fire t] := by
      intro u hne hr hh
      rcases List.mem_append.1 hh with h0 | h0
      · exact hr h0
      · simp only [List.mem_singleton, timer_ev.fire.injEq] at h0
        exact hne h0
    cases e with
    | fire u =>
      simp only [fires_once, Bool.and_eq_true, decide_eq_true_eq] at h
      have hne : u ≠ t := by
        intro hh; apply hf; rw [hh]; exact List.mem_cons_self _ _
      simp only [List.cons_append, fires_once, Bool.and_eq_true, decide_eq_true_eq]
      exact ⟨key u hne h.1, ih h.2 hf1 hc1⟩
    | cancel u =>
      simp only [fires_once, Bool.and_eq_true, decide_eq_true_eq] at h
      have hne : u ≠ t := by
        intro hh; apply hc; rw [hh]; exact List.mem_cons_self _ _
      simp only [List.cons_append, fires_once, Bool.and_eq_true, decide_eq_true_eq]
      exact ⟨key u hne h.1, ih h.2 hf1 hc1⟩

theorem push_prio_perm (q : timed_queue) (t : mio_timeout_st) (p : Int) :
    List.Perm (jqueue_push_prio q t p).nodes ({ priority := p, data := t } :: q.nodes) := by
  unfold jqueue_push_prio
  simp only
  have h1 : List.Perm
      ((q.nodes.reverse.dropWhile (fun n => decide (n.priority > p))).reverse ++
        [({ priority := p, data := t } : jqueue_node)] ++
        (q.nodes.reverse.takeWhile (fun n => decide (n.priority > p))).reverse)
      (({ priority := p, data := t } : jqueue_node) ::
        ((q.nodes.reverse.takeWhile (fun n => decide (n.priority > p))) ++
         (q.nodes.reverse.dropWhile (fun n => decide (n.priority > p))))) := by
    rw [List.append_assoc]
    refine List.Perm.trans List.perm_append_comm ?_
    simp only [List.singleton_append, List.cons_append, List.nil_append]
    refine List.Perm.cons _ ?_
    exact List.Perm.append (List.reverse_perm _) (List.reverse_perm _)
  refine List.Perm.trans h1 (List.Perm.cons _ ?_)
  rw [List.takeWhile_append_dropWhile]
  exact List.reverse_perm _

theorem timer_ok_push (q : timed_queue) (t : mio_timeout_st) (p : Int) (ev : List timer_ev)
    (h : timer_ok q.nodes t.id ev) : timer_ok (jqueue_push_prio q t p).nodes (t.id + 1) ev := by
  obtain ⟨h1, h2, h3, h4⟩ := h
  have hp := push_prio_perm q t p
  have hmem : ∀ n, n ∈ (jqueue_push_prio q t p).nodes ↔
      n ∈ ({ priority := p, data := t } : jqueue_node) :: q.nodes := fun n => hp.mem_iff
  refine ⟨?_, ?_, ?_, h4⟩
  · rw [(hp.map (fun n => n.data.id)).nodup_iff]
    simp only [List.map_cons, List.nodup_cons]
    refine ⟨?_, h1⟩
    intro hin
    obtain ⟨n, hn, he⟩ := List.mem_map.1 hin
    have := h2 n hn
    rw [he] at this
    exact Nat.lt_irrefl _ this
  · intro n hn
    rcases List.mem_cons.1 ((hmem n).1 hn) with h0 | h0
    · rw [h0]; exact Nat.lt_succ_self _
    · exact Nat.lt_succ_of_lt (h2 n h0)
  · intro u hu
    obtain ⟨hu1, hu2⟩ := h3 u hu
    refine ⟨Nat.lt_succ_of_lt hu1, ?_⟩
    intro n hn
    rcases List.mem_cons.1 ((hmem n).1 hn) with h0 | h0
    · rw [h0]; exact fun hh => by simp only at hh; omega
    · exact hu2 n h0

theorem timer_ok_unlink (pre post : List jqueue_node) (x : jqueue_node) (next : Nat)
    (ev : List timer_ev) (h : timer_ok (pre ++ x :: post) next ev) :
    timer_ok (pre ++ post) next ev ∧ (∀ n ∈ pre ++ post, n.data.id ≠ x.data.id) ∧
      x.data.id < next ∧ timer_ev.fire x.data.id ∉ ev ∧ timer_ev.cancel x.data.id ∉ ev := by
  obtain ⟨h1, h2, h3, h4⟩ := h
  have hsub : ∀ n ∈ pre ++ post, n ∈ pre ++ x :: post := by
    intro n hn
    rcases List.mem_append.1 hn with h0 | h0
    · exact List.mem_append_left _ h0
    · exact List.mem_append_right _ (List.mem_cons_of_mem _ h0)
  have hx : x ∈ pre ++ x :: post := List.mem_append_right _ (List.mem_cons_self _ _)
  have hnd : (x.data.id :: (pre ++ post).map (fun n => n.data.id)).Nodup := by
    have hperm : List.Perm (pre ++ x :: post) (x :: (pre ++ post)) := List.perm_middle
    have := (hperm.map (fun n => n.data.id)).nodup_iff.1 h1
    simpa using this
  rw [List.nodup_cons] at hnd
  refine ⟨⟨hnd.2, fun n hn => h2 n (hsub n hn), ?_, h4⟩, ?_, h2 x hx, ?_, ?_⟩
  · intro u hu
    obtain ⟨hu1, hu2⟩ := h3 u hu
    exact ⟨hu1, fun n hn => hu2 n (hsub n hn)⟩
  · intro n hn he
    apply hnd.1
    rw [← he]
    exact List.mem_map.2 ⟨n, hn, rfl⟩
  · intro hf
    exact (h3 _ (Or.inl hf)).2 x hx rfl
  · intro hc
    exact (h3 _ (Or.inr hc)).2 x hx rfl

theorem timer_ok_cancel (nodes : List jqueue_node) (next t : Nat) (ev : List timer_ev)
    (h : timer_ok nodes next ev) (ht : t < next) (hn : ∀ n ∈ nodes, n.data.id ≠ t) :
    timer_ok nodes next (ev ++ [timer_ev.cancel t]) := by
  obtain ⟨h1, h2, h3, h4⟩ := h
  refine ⟨h1, h2, ?_, by rw [fires_once_append_cancel]; exact h4⟩
  intro u hu
  simp only [List.mem_append, List.mem_singleton, reduceCtorEq, or_false,
    timer_ev.cancel.injEq] at hu
  rcases hu with hu | hu | hu
  · exact h3 u (Or.inl hu)
  · exact h3 u (Or.inr hu)
  · rw [hu]; exact ⟨ht, hn⟩

theorem timer_ok_fire (nodes : List jqueue_node) (next t : Nat) (ev : List timer_ev)
    (h : timer_ok nodes next ev) (ht : t < next) (hn : ∀ n ∈ nodes, n.data.id ≠ t)
    (hf : timer_ev.fire t ∉ ev) (hc : timer_ev.cancel t ∉ ev) :
    timer_ok nodes next (ev ++ [timer_ev.fire t]) := by
  obtain ⟨h1, h2, h3, h4⟩ := h
  refine ⟨h1, h2, ?_, fires_once_append_fire t ev h4 hf hc⟩
  intro u hu
  simp only [List.mem_append, List.mem_singleton, reduceCtorEq, or_false,
    timer_ev.fire.injEq] at hu
  rcases hu with (hu | hu) | hu
  · exact h3 u (Or.inl hu)
  · rw [hu]; exact ⟨ht, hn⟩
  · exact h3 u (Or.inr hu)

/-- The relation for a reactor. -/
theorem timer_ok_step (m : mio_priv_st) (op : timer_op)
    (h : timer_ok m.timed_timeout.nodes m.next_timeout m.events) :
    timer_ok (timer_step m op).timed_timeout.nodes (timer_step m op).next_timeout
      (timer_step m op).events := by
  cases op with
  | add now fn d1 d2 msec =>
    exact timer_ok_push m.timed_timeout
      { id := m.next_timeout, fn := fn, data1 := d1, data2 := d2, msec := to_uint64 msec,
        t_0 := now } _ m.events h
  | cancel t =>
    show timer_ok (_mio_cancel_timeout m t).timed_timeout.nodes
      (_mio_cancel_timeout m t).next_timeout (_mio_cancel_timeout m t).events
    unfold _mio_cancel_timeout
    simp only
    cases hu : jqueue_unlink m.timed_timeout.nodes t with
    | none =>
      have hno := unlink_none_inv t _ hu
      by_cases ht : t < m.next_timeout
      · simp only [ht, if_true, hu]
        exact timer_ok_cancel _ _ _ _ h ht hno
      · simp only [ht, if_false, hu]
        exact h
    | some p =>
      obtain ⟨x, r⟩ := p
      obtain ⟨pre, post, e1, e2, e3, _⟩ := unlink_some t _ x r hu
      rw [e1] at h
      obtain ⟨g1, g2, g3, _, _⟩ := timer_ok_unlink pre post x _ _ h
      rw [e3] at g2 g3
      have ht : t < m.next_timeout := g3
      have hu2 : jqueue_unlink
          (if t < m.next_timeout then
            { m with events := m.events ++ [timer_ev.cancel t] } else m).timed_timeout.nodes t
          = some (x, r) := by
        simp only [ht, if_true]; exact hu
      rw [hu2]
      simp only [ht, if_true, e2]
      exact timer_ok_cancel _ _ _ _ g1 ht g2
  | early t =>
    show timer_ok (_mio_run_timeout_early m t).timed_timeout.nodes
      (_mio_run_timeout_early m t).next_timeout (_mio_run_timeout_early m t).events
    unfold _mio_run_timeout_early
    cases hu : jqueue_unlink m.timed_timeout.nodes t with
    | none => exact h
    | some p =>
      obtain ⟨x, r⟩ := p
      obtain ⟨pre, post, e1, e2, e3, _⟩ := unlink_some t _ x r hu
      rw [e1] at h
      obtain ⟨g1, g2, g3, g4, g5⟩ := timer_ok_unlink pre post x _ _ h
      simp only
      cases hfn : x.data.fn with
      | none => simp only [e2]; exact g1
      | some fn =>
        simp only [e2]
        exact timer_ok_fire _ _ _ _ g1 g3 g2 g4 g5
  | rebase now =>
    show timer_ok (_mio_run_rebase m.timed_timeout now).nodes m.next_timeout m.events
    unfold _mio_run_rebase
    split
    · simp only
      obtain ⟨h1, h2, h3, h4⟩ := h
      refine ⟨?_, ?_, ?_, h4⟩
      · simpa [List.map_map, Function.comp_def] using h1
      · intro n hn
        obtain ⟨n0, hn0, he⟩ := List.mem_map.1 hn
        rw [← he]; exact h2 n0 hn0
      · intro u hu
        obtain ⟨hu1, hu2⟩ := h3 u hu
        refine ⟨hu1, ?_⟩
        intro n hn
        obtain ⟨n0, hn0, he⟩ := List.mem_map.1 hn
        rw [← he]; exact hu2 n0 hn0
    · exact h
  | check now =>
    show timer_ok (check_loop now m.timed_timeout.nodes m).timed_timeout.nodes
      (check_loop now m.timed_timeout.nodes m).next_timeout
      (check_loop now m.timed_timeout.nodes m).events
    have key : ∀ (l : List jqueue_node) (mm : mio_priv_st),
        timer_ok l mm.next_timeout mm.events →
        timer_ok (check_loop now l mm).timed_timeout.nodes (check_loop now l mm).next_timeout
          (check_loop now l mm).events := by
      intro l
      induction l with
      | nil => intro mm hh; exact hh
      | cons a rest ih =>
        intro mm hh
        simp only [check_loop]
        split
        · exact hh
        · obtain ⟨g1, g2, g3, g4, g5⟩ := timer_ok_unlink [] rest a _ _ hh
          simp only [List.nil_append] at g1 g2
          cases hfn : a.data.fn with
          | none => exact ih mm g1
          | some fn =>
            exact ih { mm with events := mm.events ++ [timer_ev.fire a.data.id] }
              (timer_ok_fire _ _ _ _ g1 g3 g2 g4 g5)
    exact key _ m h

theorem timer_ok_run (ops : List timer_op) : ∀ (m : mio_priv_st),
    timer_ok m.timed_timeout.nodes m.next_timeout m.events →
    timer_ok (timer_run m ops).timed_timeout.nodes (timer_run m ops).next_timeout
      (timer_run m ops).events := by
  induction ops with
  | nil => intro m h; exact h
  | cons op rest ih =>
    intro m h
    exact ih (timer_step m op) (timer_ok_step m op h)

theorem timer_ok_new : timer_ok mio_new.timed_timeout.nodes mio_new.next_timeout mio_new.events :=
  ⟨List.nodup_nil, fun n hn => by simp [mio_new, tq_empty] at hn,
   fun t ht => by simp [mio_new] at ht, rfl⟩

theorem unlink_at (t : Nat) (x : jqueue_node) (post : List jqueue_node) (hx : x.data.id = t) :
    ∀ (pre : List jqueue_node), (∀ n ∈ pre, n.data.id ≠ t) →
      jqueue_unlink (pre ++ x :: post) t = some (x, pre ++ post) := by
  intro pre
  induction pre with
  | nil => intro _; simp [jqueue_unlink, hx]
  | cons a rest ih =>
    intro h
    have ha : a.data.id ≠ t := h a (List.mem_cons_self _ _)
    have hr := ih (fun n hn => h n (List.mem_cons_of_mem _ hn))
    show jqueue_unlink (a :: (rest ++ x :: post)) t = _
    simp only [jqueue_unlink, ha, if_false, hr]
    rfl

theorem cancel_timeout_eq (m : mio_priv_st) (t : Nat) :
    _mio_cancel_timeout m t =
      { m with
        events := if t < m.next_timeout then m.events ++ [timer_ev.cancel t] else m.events,
        timed_timeout :=
          match jqueue_unlink m.timed_timeout.nodes t with
          | none => m.timed_timeout
          | some (_, rest) => { m.timed_timeout with nodes := rest } } := by
  unfold _mio_cancel_timeout
  by_cases ht : t < m.next_timeout
  · simp only [ht, if_true]
    cases jqueue_unlink m.timed_timeout.nodes t <;> rfl
  · simp only [ht, if_false]
    cases jqueue_unlink m.timed_timeout.nodes t <;> rfl

/-- C24. `cancel_timeout` and `run_timeout_early` unlink exactly the entry whose
record is the one given: when no entry matches the timed queue is unchanged
(and early-run changes nothing at all); when the queue is `pre ++ x :: post`
with `x` the first entry of that record, it becomes `pre ++ post`, so its size
decreases by one and the other entries keep their order; `run_timeout_early`
invokes the callback of `x`, if it has one, exactly once, and `cancel_timeout`
invokes no callback.  Over every sequence of calls of the timer interface
(add, cancel, early run, rebase, check) on a new reactor, no callback of a
registered timeout is invoked twice and none after the timeout was cancelled. -/
theorem C24_unlink_exactly_one :
    (∀ (m : mio_priv_st) (t : Nat),
      ((∀ n ∈ m.timed_timeout.nodes, n.data.id ≠ t) →
        (_mio_cancel_timeout m t).timed_timeout = m.timed_timeout ∧
        _mio_run_timeout_early m t = m) ∧
      (∀ pre x post, m.timed_timeout.nodes = pre ++ x :: post → x.data.id = t →
        (∀ n ∈ pre, n.data.id ≠ t) →
        (_mio_cancel_timeout m t).timed_timeout.nodes = pre ++ post ∧
        timed_size (_mio_cancel_timeout m t) + 1 = timed_size m ∧
        (_mio_run_timeout_early m t).timed_timeout.nodes = pre ++ post ∧
        timed_size (_mio_run_timeout_early m t) + 1 = timed_size m ∧
        (_mio_run_timeout_early m t).events =
          m.events ++ (if x.data.fn.isSome then [timer_ev.fire t] else [])) ∧
      (_mio_cancel_timeout m t).events.filter is_fire = m.events.filter is_fire) ∧
    (∀ ops : List timer_op, fires_once (timer_run mio_new ops).events = true) := by
  refine ⟨?_, fun ops => (timer_ok_run ops mio_new timer_ok_new).2.2.2⟩
  intro m t
  refine ⟨?_, ?_, ?_⟩
  · intro hno
    have hu := unlink_none t _ hno
    constructor
    · rw [cancel_timeout_eq, hu]
    · unfold _mio_run_timeout_early
      rw [hu]
  · intro pre x post hq hx hpre
    have hu := unlink_at t x post hx pre hpre
    rw [← hq] at hu
    have hc : (_mio_cancel_timeout m t).timed_timeout.nodes = pre ++ post := by
      rw [cancel_timeout_eq, hu]
    have he : (_mio_run_timeout_early m t).timed_timeout.nodes = pre ++ post ∧
        (_mio_run_timeout_early m t).events =
          m.events ++ (if x.data.fn.isSome then [timer_ev.fire t] else []) := by
      unfold _mio_run_timeout_early
      rw [hu]
      simp only
      cases hfn : x.data.fn with
      | none => simp
      | some fn => simp [hx]
    refine ⟨hc, ?_, he.1, ?_, he.2⟩
    · unfold timed_size; rw [hc, hq]; simp; omega
    · unfold timed_size; rw [he.1, hq]; simp; omega
  · rw [cancel_timeout_eq]
    simp only
    split
    · simp [List.filter_append, is_fire]
    · rfl

theorem C24_unlink_exactly_one_witness :
    fires_once
      (timer_run mio_new
        [.add { tv_sec := 10, tv_usec := 0 } (some 1) 0 0 1000,
         .add { tv_sec := 10, tv_usec := 0 } (some 1) 0 0 500,
         .cancel 0, .early 1, .early 1, .check { tv_sec := 20, tv_usec := 0 }]).events = true ∧
    (timer_run mio_new
        [.add { tv_sec := 10, tv_usec := 0 } (some 1) 0 0 1000,
         .add { tv_sec := 10, tv_usec := 0 } (some 1) 0 0 500,
         .cancel 0, .early 1, .early 1, .check { tv_sec := 20, tv_usec := 0 }]).events
      = [timer_ev.cancel 0, timer_ev.fire 1] :=
  ⟨C24_unlink_exactly_one.2 _, by decide⟩

/-! ## C26: the range of the stored weights -/

theorem dns_merge_weight (res : dnsres_st) (prio weight ttl : Int) :
    (dns_merge res prio weight ttl).weight =
      if prio ≤ res.prio then
        (if res.weight + weight > 16776960 then 16776960 else res.weight + weight)
      else res.weight := by
  unfold dns_merge
  by_cases h1 : prio < res.prio
  · have h2 : prio ≤ res.prio := le_of_lt h1
    by_cases h3 : res.weight + weight > 16776960 <;> by_cases h4 : ttl > res.expiry <;>
      simp [h1, h2, h3, h4]
  · by_cases h2 : prio = res.prio
    · have h5 : prio ≤ res.prio := le_of_eq h2
      by_cases h3 : res.weight + weight > 16776960 <;> by_cases h4 : ttl > res.expiry <;>
        simp [h1, h2, h3, h4]
    · have h5 : ¬ prio ≤ res.prio := by omega
      by_cases h4 : ttl > res.expiry <;> simp [h1, h2, h4, h5]

theorem dns_merge_weight_ok (res : dnsres_st) (prio weight ttl : Int)
    (h1 : weight_ok res.weight) (h2 : weight_ok weight) :
    weight_ok (dns_merge res prio weight ttl).weight := by
  rw [dns_merge_weight]
  unfold weight_ok at *
  repeat' split
  all_goals omega

theorem dns_merge_weight_host (res : dnsres_st) (prio weight ttl : Int)
    (h1 : 16 ≤ res.weight ∧ res.weight ≤ 16776960) (h2 : 16 ≤ weight ∧ weight ≤ 16776960) :
    16 ≤ (dns_merge res prio weight ttl).weight ∧
      (dns_merge res prio weight ttl).weight ≤ 16776960 := by
  rw [dns_merge_weight]
  repeat' split
  all_goals omega

theorem xhash_replace_length {κ α : Type} [DecidableEq κ] (h : List (κ × α)) (k : κ) (v : α) :
    (xhash_replace h k v).length = h.length := by
  induction h with
  | nil => rfl
  | cons a t ih =>
    obtain ⟨k', v'⟩ := a
    by_cases hk : k' = k <;> simp [xhash_replace, hk, ih]

theorem to_uint16_range (x : Int) : 0 ≤ to_uint16 x ∧ to_uint16 x ≤ 65535 := by
  unfold to_uint16
  constructor
  · exact Int.emod_nonneg x (by decide)
  · have := Int.emod_lt_of_pos x (show (0 : Int) < 65536 by decide)
    omega

theorem dns_add_host_weights {q q1 : dnsquery_st} {ip : String} {port prio weight ttl : Int}
    (h : _dns_add_host q ip port prio weight ttl = .ok q1) (hw0 : 0 ≤ weight)
    (hw1 : weight ≤ 65535) (hq : weights_ok q) : weights_ok q1 ∧ q1.cur_weight = q.cur_weight := by
  have hr := (host_weight_range weight hw0 hw1).2
  obtain ⟨g1, g2, g3, g4⟩ := hq
  unfold _dns_add_host at h
  cases hm : dns_make_ipport ip port with
  | error f => rw [hm] at h; simp at h
  | ok ipport =>
    rw [hm] at h
    simp only at h
    cases hg : xhash_get q.hosts ipport with
    | some res =>
      rw [hg] at h
      simp only [Except.ok.injEq] at h
      rw [← h]
      refine ⟨⟨?_, g2, g3, g4⟩, rfl⟩
      intro e he
      rcases mem_xhash_replace _ _ _ e he with h1 | h1
      · exact g1 e h1
      · rw [h1]
        exact dns_merge_weight_host res prio _ _ (g1 _ (xhash_get_mem _ _ _ hg)) hr
    | none =>
      rw [hg] at h
      simp only at h
      split at h
      · simp only [Except.ok.injEq] at h
        rw [← h]
        refine ⟨⟨?_, g2, g3, g4⟩, rfl⟩
        intro e he
        rcases mem_xhash_put _ _ _ e he with h1 | h1
        · exact g1 e h1
        · rw [h1]; exact hr
      · simp only [Except.ok.injEq] at h
        rw [← h]; exact ⟨⟨g1, g2, g3, g4⟩, rfl⟩

theorem srv_add_weights {q q1 : dnsquery_st} {rr : srv_rr} (h : srv_add q rr = .ok q1)
    (hq : weights_ok q) : weights_ok q1 ∧ q1.cur_weight = q.cur_weight := by
  unfold srv_add at h
  repeat' split at h
  all_goals first
    | (simp only [Except.ok.injEq] at h; rw [← h]; exact ⟨hq, rfl⟩)
    | exact dns_add_host_weights h (to_uint16_range _).1 (to_uint16_range _).2 hq

theorem srv_loop_weights : ∀ (l : List srv_rr) {q q1 : dnsquery_st}, srv_loop l q = .ok q1 →
    weights_ok q → weights_ok q1 := by
  intro l
  induction l with
  | nil => intro q q1 h hq; simp only [srv_loop, Except.ok.injEq] at h; rw [← h]; exact hq
  | cons a t ih =>
    intro q q1 h hq
    simp only [srv_loop] at h
    cases hr : srv_add q a with
    | error f => rw [hr] at h; simp at h
    | ok q2 =>
      rw [hr] at h
      exact ih h (srv_add_weights hr hq).1

theorem dns_add_result_weights {q q1 : dnsquery_st} {ip : String} {port prio weight ttl : Int}
    (h : _dns_add_result q ip port prio weight ttl = .ok q1) (hw : weight_ok weight)
    (hq : weights_ok q) :
    weights_ok q1 ∧ q1.cur_weight = q.cur_weight ∧ q1.cur_port = q.cur_port ∧
      q1.cur_prio = q.cur_prio ∧ q1.cur_expiry = q.cur_expiry := by
  obtain ⟨g1, g2, g3, g4⟩ := hq
  unfold _dns_add_result at h
  cases hm : dns_make_ipport ip port with
  | error f => rw [hm] at h; simp at h
  | ok ipport =>
    rw [hm] at h
    simp only at h
    cases hg : xhash_get q.results ipport with
    | some res =>
      rw [hg] at h
      simp only [Except.ok.injEq] at h
      rw [← h]
      refine ⟨⟨g1, ?_, g3, ?_⟩, rfl, rfl, rfl, rfl⟩
      · intro e he
        rcases mem_xhash_replace _ _ _ e he with h1 | h1
        · exact g2 e h1
        · rw [h1]
          exact dns_merge_weight_ok res prio _ _ (g2 _ (xhash_get_mem _ _ _ hg)) hw
      · show xhash_count (xhash_replace q.results ipport _) ≤ DNS_MAX_RESULTS
        unfold xhash_count
        rw [xhash_replace_length]
        exact g4
    | none =>
      rw [hg] at h
      simp only at h
      split at h
      · rename_i hlt
        simp only [Except.ok.injEq] at h
        rw [← h]
        refine ⟨⟨g1, ?_, g3, ?_⟩, rfl, rfl, rfl, rfl⟩
        · intro e he
          rcases mem_xhash_put _ _ _ e he with h1 | h1
          · exact g2 e h1
          · rw [h1]; exact hw
        · show xhash_count (xhash_put q.results ipport _) ≤ DNS_MAX_RESULTS
          unfold xhash_put
          rw [hg]
          unfold xhash_count at *
          simp only [List.length_append, List.length_singleton]
          omega
      · simp only [Except.ok.injEq] at h
        rw [← h]; exact ⟨⟨g1, g2, g3, g4⟩, rfl, rfl, rfl, rfl⟩

theorem addr_loop_weights (ttl : Int) : ∀ (l : List (Option String)) {q q1 : dnsquery_st},
    addr_loop ttl l q = .ok q1 → weights_ok q → weights_ok q1 := by
  intro l
  induction l with
  | nil =>
    intro q q1 h hq
    simp only [addr_loop, Except.ok.injEq] at h
    rw [← h]; exact hq
  | cons a t ih =>
    intro q q1 h hq
    cases a with
    | none => simp only [addr_loop] at h; exact ih h hq
    | some ip =>
      simp only [addr_loop] at h
      cases hr : _dns_add_result q ip q.cur_port q.cur_prio q.cur_weight (ttl_limit q ttl) with
      | error f => rw [hr] at h; simp at h
      | ok q2 =>
        rw [hr] at h
        exact ih h (dns_add_result_weights hr hq.2.2.1 hq).1

theorem addr_add_weights {q q1 : dnsquery_st} {ans : ub_answer}
    (h : addr_add q ans = .ok q1) (hq : weights_ok q) : weights_ok q1 := by
  unfold addr_add at h
  split at h
  · exact addr_loop_weights _ _ h hq
  · simp only [Except.ok.injEq] at h
    rw [← h]; exact hq

theorem dns_srv_next_weights (s : s2s_st) (q : dnsquery_st) (hq : weights_ok q) :
    weights_ok (dns_srv_next s q) := by
  obtain ⟨g1, g2, g3, g4⟩ := hq
  unfold dns_srv_next
  simp only
  have hz : weight_ok 0 := ⟨Or.inl rfl, by omega⟩
  repeat' split
  all_goals first
    | exact ⟨g1, g2, g3, g4⟩
    | exact ⟨g1, g2, hz, g4⟩

theorem weights_ok_of {q q1 : dnsquery_st} (hh : ∀ e ∈ q1.hosts, e ∈ q.hosts)
    (hr : q1.results = q.results) (hc : weight_ok q1.cur_weight) (hq : weights_ok q) :
    weights_ok q1 := by
  obtain ⟨g1, g2, _, g4⟩ := hq
  refine ⟨fun e he => g1 e (hh e he), ?_, hc, ?_⟩
  · rw [hr]; exact g2
  · rw [hr]; exact g4

/-- Every state of a query has its weights in range. -/
theorem query_run_weights {w : world} {q : dnsquery_st} (h : query_run w q) : weights_ok q := by
  induction h with
  | start s dns q hq =>
    unfold dns_resolve_domain at hq
    simp only [Option.some.injEq] at hq
    rw [← hq]
    apply dns_srv_next_weights
    have hz : weight_ok 0 := ⟨Or.inl rfl, by omega⟩
    refine ⟨fun e he => by simp at he, fun e he => by simp at he, hz, ?_⟩
    simp [xhash_count, DNS_MAX_RESULTS]
  | srv s q q1 ans _ hstep ih =>
    unfold _dns_result_srv at hstep
    simp only at hstep
    split at hstep
    · simp at hstep
    · rename_i q2 hq2
      simp only [Except.ok.injEq] at hstep
      rw [← hstep]
      apply dns_srv_next_weights
      have h0 : weights_ok { q with have_async_id := false } :=
        weights_ok_of (fun e he => he) rfl ih.2.2.1 ih
      split at hq2
      · simp only [Except.ok.injEq] at hq2; rw [← hq2]; exact h0
      · split at hq2
        · exact srv_loop_weights _ hq2 h0
        · simp only [Except.ok.injEq] at hq2; rw [← hq2]; exact h0
  | aaaa q q1 ans _ hstep ih =>
    unfold _dns_result_aaaa at hstep
    split at hstep
    · simp at hstep
    · rename_i q2 hq2
      simp only [Except.ok.injEq] at hstep
      rw [← hstep]
      have h0 : weights_ok { q with have_async_id := false } :=
        weights_ok_of (fun e he => he) rfl ih.2.2.1 ih
      have h2 := addr_add_weights hq2 h0
      exact weights_ok_of (fun e he => he) rfl h2.2.2.1 h2
  | a fuel s s1 q q1 ans _ hstep ih =>
    unfold _dns_result_a at hstep
    split at hstep
    · simp at hstep
    · rename_i q2 hq2
      have h0 : weights_ok { q with have_async_id := false } :=
        weights_ok_of (fun e he => he) rfl ih.2.2.1 ih
      have h2 := addr_add_weights hq2 h0
      split at hstep
      · rename_i ipport res rest hhosts
        split at hstep
        · simp at hstep
        · split at hstep
          · simp at hstep
          · simp only [Except.ok.injEq, Prod.mk.injEq, Option.some.injEq] at hstep
            rw [← hstep.2]
            have hres : 16 ≤ res.weight ∧ res.weight ≤ 16776960 :=
              h2.1 (ipport, res) (by rw [hhosts]; exact List.mem_cons_self _ _)
            have hsub : ∀ e ∈ rest, e ∈ q2.hosts := by
              intro e he; rw [hhosts]; exact List.mem_cons_of_mem _ he
            have hw : weight_ok res.weight := ⟨Or.inr hres.1, hres.2⟩
            split
            · exact weights_ok_of hsub rfl hw h2
            · exact weights_ok_of hsub rfl hw h2
      · split at hstep
        · simp at hstep
        · simp at hstep

theorem sum_le_length_mul (l : List (String × dnsres_st)) (M : Int)
    (h : ∀ e ∈ l, e.2.weight ≤ M) : (l.map (fun e => e.2.weight)).sum ≤ l.length * M := by
  induction l with
  | nil => simp
  | cons a t ih =>
    have h1 := h a (List.mem_cons_self _ _)
    have h2 := ih (fun e he => h e (List.mem_cons_of_mem _ he))
    simp only [List.map_cons, List.sum_cons, List.length_cons]
    push_cast
    linarith

/-- The bounds of C26 that hold on the code: in every state of a query, when
the last host has been resolved, the mapping that `_dns_result_a` hands to
`out_resolve` has at most `DNS_MAX_RESULTS` = 50 entries, each with a weight
that is 0 or at least 16, and at most 16776960, so that the weights of any
selection of its entries add up to less than 2^31. -/
theorem final_results_weights (w : world) (s : s2s_st)
    (q q1 : dnsquery_st) (ans : ub_answer) (hrun : query_run w q)
    (hadd : addr_add { q with have_async_id := false } ans = .ok q1) :
    (∀ e ∈ final_results s q1, (e.2.weight = 0 ∨ 16 ≤ e.2.weight) ∧ e.2.weight ≤ 16776960) ∧
    xhash_count (final_results s q1) ≤ 50 ∧
    (∀ L : List (String × dnsres_st), List.Sublist L (final_results s q1) →
      (L.map (fun e => e.2.weight)).sum < 2147483648) := by
  have hq0 : weights_ok q := query_run_weights hrun
  have hq1 : weights_ok { q with have_async_id := false } :=
    weights_ok_of (fun e he => he) rfl hq0.2.2.1 hq0
  obtain ⟨_, g2, _, g4⟩ := addr_add_weights hadd hq1
  have hR : ∀ e ∈ final_results s q1, weight_ok e.2.weight := by
    intro e he
    obtain ⟨e0, h0, _, h2⟩ := final_results_mem s q1 e he
    rw [h2]; exact g2 e0 h0
  have hlen : xhash_count (final_results s q1) ≤ 50 := by
    unfold final_results xhash_count
    rw [List.length_map]
    exact g4
  refine ⟨hR, hlen, ?_⟩
  intro L hL
  have h1 := sum_le_length_mul L 16776960 (fun e he => (hR e (hL.subset he)).2)
  have h2 : L.length ≤ 50 := le_trans hL.length_le hlen
  have h3 : (L.length : Int) ≤ 50 := by exact_mod_cast h2
  nlinarith

/-! ## C25, C27, C28: the resolver driver at concrete answers -/

theorem dns_merge_prio (res : dnsres_st) (prio weight ttl : Int) (h : prio < res.prio) :
    (dns_merge res prio weight ttl).prio = prio := by
  unfold dns_merge
  by_cases h3 : res.weight + weight > 16776960 <;> by_cases h4 : ttl > res.expiry <;>
    simp [h, h3, h4]

theorem q_start_run : query_run demo_world q_start :=
  query_run.start (st_asked 30)
    { name := "b.example", pending := true, expiry := 0, init_time := 1000, query := none,
      results := none } q_start (by decide)

/-- C26 on the code. The lower bound of C26 is broken by the synthesized
fallback: the SRV lookup of `b.example` names no host, so `_dns_result_srv`
looks up the domain itself on port 5269 with `cur_weight = 0`; the AAAA answer
`::1` and the A answer `1.2.3.4` are recorded by `_dns_add_result` with that
weight, and the cache entry that `dns_select` reads holds `::1/5269` and
`1.2.3.4/5269` with weight 0, below the 16 that the comment in `dns_select`
guarantees and that `_dns_add_host` gives to a host of weight 0. -/
theorem C26_fallback_weight_zero :
    query_run demo_world q_start ∧
    _dns_result_srv (st_asked 30) q_start ans_none = .ok q_srv ∧
    q_srv.hosts = [] ∧ q_srv.cur_port = 5269 ∧ q_srv.cur_weight = 0 ∧
    _dns_result_aaaa q_srv (ans_addr 100 ["::1"]) = .ok q_aaaa ∧
    _dns_result_a demo_world 5 (st_asked 30) q_aaaa (ans_addr 200 ["1.2.3.4"])
      = .ok (st_resolved, none) ∧
    ((demo_dns st_resolved "b.example").results.getD []).map (fun e => (e.1, e.2.weight))
      = [("::1/5269", 0), ("1.2.3.4/5269", 0)] ∧
    (∃ e ∈ (demo_dns st_resolved "b.example").results.getD [], e.2.weight < 16) ∧
    (except_get q_empty (_dns_add_host q_empty "1.2.3.4" 5269 0 0 200)).hosts.map
        (fun e => (e.1, e.2.weight)) = [("1.2.3.4/5269", 16)] :=
  ⟨q_start_run, by decide, by decide, by decide, by decide, by decide, by decide, by decide,
    by decide, by decide⟩

/-- C25 on the code: for an entry that is present with a numerically higher
prio than the new record's, the update of `_dns_add_host` and `_dns_add_result`
lowers the stored prio to the new prio and then adds the new weight to the
stored weight (capped at 16776960): the test for the reset comes after the prio
was lowered and never holds.  Two SRV records for `xmpp.b.example.` port 5269,
the first with prio 20 and weight 10 (stored 2560), the second with prio 10 and
weight 5 (stored 1280), leave the host with prio 10 and weight 3840, not 1280;
the same happens to a result. -/
theorem C25_lower_prio_adds_weight :
    (∀ (res : dnsres_st) (prio weight ttl : Int), prio < res.prio →
      (dns_merge res prio weight ttl).prio = prio ∧
      (dns_merge res prio weight ttl).weight =
        (if res.weight + weight > 16776960 then 16776960 else res.weight + weight)) ∧
    host_weight 10 = 2560 ∧ host_weight 5 = 1280 ∧
    q_srv_twice.hosts =
      [("xmpp.b.example./5269",
        { key := "xmpp.b.example./5269", prio := 10, weight := 3840, expiry := 300 })] ∧
    q_result.results =
      [("1.2.3.4/5269", { key := "1.2.3.4/5269", prio := 20, weight := 2560, expiry := 300 })] ∧
    (_dns_add_result q_result "1.2.3.4" 5269 10 1280 300).map (fun q => q.results) =
      .ok [("1.2.3.4/5269", { key := "1.2.3.4/5269", prio := 10, weight := 3840, expiry := 300 })] := by
  refine ⟨?_, by decide, by decide, by decide, by decide, by decide⟩
  intro res prio weight ttl h
  refine ⟨dns_merge_prio res prio weight ttl h, ?_⟩
  rw [dns_merge_weight, if_pos (le_of_lt h)]

/-- C27 on the code: the key of the host `a` on port 5269 is `a/5269`; the
host-expansion step of `_dns_result_a` reads the host `a` back, but it ends the
port text after `strlen(host) + 1` = 2 characters and reads the port 52.  For
the host `abc`, where `strlen(host) + 1` is the length of `5269`, the port is
read back as 5269.  For the host `xmpp.b.example.` the terminator is written
beyond the end of the buffer. -/
theorem C27_port_not_read_back :
    dns_make_ipport "a" 5269 = .ok "a/5269" ∧
    (q_host "a").hosts.map (fun e => e.1) = ["a/5269"] ∧
    (_dns_result_a demo_world 5 (st_asked 30) (q_host "a") ans_none).map
        (fun r => r.2.map (fun q => (q.cur_host, q.cur_port)))
      = .ok (some (some "a", 52)) ∧
    (_dns_result_a demo_world 5 (st_asked 30) (q_host "abc") ans_none).map
        (fun r => r.2.map (fun q => (q.cur_host, q.cur_port)))
      = .ok (some (some "abc", 5269)) ∧
    (q_host "xmpp.b.example.").hosts.map (fun e => e.1) = ["xmpp.b.example./5269"] ∧
    (_dns_result_a demo_world 5 (st_asked 30) (q_host "xmpp.b.example.") ans_none).map
        (fun r => r.2.map (fun q => (q.cur_host, q.cur_port)))
      = .error .abort := by
  decide

/-- C28 on the code: an SRV record with port 0 reaches `dns_make_ipport`
through `_dns_add_host` and fails its assertion.  And after an SRV answer that
names a host on port 5269, the driver asks for the A records of the domain
itself while `cur_port` still is 0; an A answer with an address then reaches
`dns_make_ipport` through `_dns_add_result` with port 0 and fails the
assertion as well. -/
theorem C28_port_assertion_fails :
    query_run demo_world q_start ∧
    _dns_result_srv (st_asked 30) q_start (ans_srv [srv_rec "xmpp.b.example." 0 10 5 300])
      = .error .abort ∧
    _dns_result_srv (st_asked 30) q_start (ans_srv [srv_rec "xmpp.b.example." 5269 10 5 300])
      = .ok q_srv_host ∧
    q_srv_host.async_req = some (ub_rrtype.A, "b.example") ∧ q_srv_host.cur_port = 0 ∧
    dns_make_ipport "1.2.3.4" 0 = .error .abort ∧
    (_dns_result_a demo_world 5 (st_asked 30) q_srv_host (ans_addr 200 ["1.2.3.4"])).map
        (fun r => r.2) = .error .abort :=
  ⟨q_start_run, by decide, by decide, by decide, by decide, by decide, by decide⟩

/-! ## C30: the retries of `out_route` -/

theorem select_only (s : s2s_st) (dns : dnscache_st) (ab : Bool)
    (hres : dns.results = some demo_res) (hbt : s.dns_bad_timeout = 0) (hh : s.out_host = []) :
    dns_select world_fail s 1000 dns ab = .ok (s.n_rand + 1, dns, 0, "1.2.3.4", 5269) := by
  have hcolon : ("1.2.3.4/5269" : String).data.contains ':' = false := by decide
  have hsplit : strchr_split "1.2.3.4/5269" '/' = some ("1.2.3.4", "5269") := by decide
  have hatoi : atoi "5269" = 5269 := by decide
  have hacc : demo_res.foldl (dns_select_step s 1000) sel_acc_zero =
      { sel_acc_zero with
          a := { l := [{ key := "1.2.3.4/5269", prio := 10, weight := 5120, expiry := 1100 }],
                 rw := [5120], p := 10, wt := 5120 } } := by
    unfold demo_res
    simp only [List.foldl, dns_select_step, hbt, hh, xhash_get, hcolon]
    simp [sel_add, sel_acc_zero]
  unfold dns_select
  rw [hres]
  simp only [hacc]
  simp [sel_acc_zero, world_fail, demo_world, sel_pick, dns_select_finish, hsplit, hatoi]


theorem route_try_fails (s : s2s_st) (dns : dnscache_st) (ab : Bool)
    (hd : s.out_dest = []) (hc : xhash_get s.dnscache "b.example" = some dns)
    (hp : dns.pending = false) (he : dns.expiry = 1100) (hres : dns.results = some demo_res)
    (hnow : s.now = 1000) (hbt : s.dns_bad_timeout = 0) (hh : s.out_host = [])
    (hr : s.out_reuse = true) (hconns : s.conns = []) :
    out_route_try world_fail s "a.example/b.example" ab =
      .ok (route_res.retry
        { s with n_connect := s.n_connect + 1, n_rand := s.n_rand + 1,
                 next_conn := s.next_conn + 1,
                 dnscache := xhash_put s.dnscache "b.example" dns }) := by
  have hsplit : strchr_split "a.example/b.example" '/' = some ("a.example", "b.example") := by
    decide
  have hfmt : fmt_ipport "1.2.3.4" 5269 = "1.2.3.4/5269" := by decide
  have hsel := select_only (dns_ensure s "b.example") dns ab hres hbt hh
  have hens : dns_ensure s "b.example" = s := by
    unfold dns_ensure
    rw [hc]
  rw [hens] at hsel
  unfold out_route_try
  rw [hsplit]
  simp only [hd, xhash_get, dns_entry, hc, hp, hens, hnow, he, hsel]
  simp [dns_store, hr, hh, hfmt, xhash_get, out_route_connect, world_fail, out_route_register,
    out_route_unregister, mark_bad, hbt, new_conn, hd, hconns, xhash_put, xhash_zap, hnow, he]

theorem st_loop_retry (k : Nat) (ab : Bool) :
    out_route_try world_fail (st_loop k) "a.example/b.example" ab =
      .ok (route_res.retry (st_loop (k + 1))) := by
  have hdc : xhash_put (st_cached 0).dnscache "b.example" (demo_dns (st_cached 0) "b.example")
      = (st_cached 0).dnscache := by decide
  rw [route_try_fails (st_loop k) (demo_dns (st_cached 0) "b.example") ab
    (by show (st_cached 0).out_dest = []; decide)
    (by show xhash_get (st_cached 0).dnscache "b.example" = _; decide)
    (by decide) (by decide) (by decide)
    (by show (st_cached 0).now = 1000; decide)
    (by show (st_cached 0).dns_bad_timeout = 0; decide)
    (by show (st_cached 0).out_host = []; decide)
    (by show (st_cached 0).out_reuse = true; decide)
    (by show (st_cached 0).conns = []; decide)]
  simp only [st_loop, hdc]

theorem st_loop_no_end : ∀ (fuel k : Nat) (ab : Bool),
    out_route world_fail fuel (st_loop k) "a.example/b.example" ab = .error .fuel := by
  intro fuel
  induction fuel with
  | zero => intro k ab; rfl
  | succ n ih =>
    intro k ab
    simp only [out_route, st_loop_retry]
    exact ih (k + 1) false

/-- C30 on the code: with `dns_bad_timeout = 0` and a `mio_connect` that fails
every time, `out_route` for a domain whose cache entry holds one result does
not return.  Every pass through its body in the engine `st_loop k` reaches the
recursive call in the engine `st_loop (k + 1)`, which differs only in the
counters, so the chain of retries has no end: whatever the number of passes
allowed, `out_route` is still retrying (the bound of the claim would be two
passes).  The engine is the one in which `out_resolve` flushes the queue of
`b.example`: the run "a message for `b.example` arrives, the resolver
answers" does not return either. -/
theorem C30_retries_without_end :
    (st_cached 0).dns_bad_timeout = 0 ∧
    (demo_dns (st_cached 0) "b.example").results = some demo_res ∧ demo_res.length = 1 ∧
    st_loop 0 = st_cached 0 ∧
    (∀ (k : Nat) (ab : Bool),
      out_route_try world_fail (st_loop k) "a.example/b.example" ab =
        .ok (route_res.retry (st_loop (k + 1)))) ∧
    (∀ fuel : Nat,
      out_route world_fail fuel (st_cached 0) "a.example/b.example" true = .error .fuel) ∧
    run world_fail 10 (s2s_start { demo_cfg false 300 with dns_bad_timeout := 0 })
      [.packet (demo_msg "a.example" "b.example"), .resolve "b.example" demo_res 1100]
      = .error .fuel := by
  refine ⟨by decide, by decide, by decide, by decide, st_loop_retry, ?_, by decide⟩
  intro fuel
  have h0 : st_loop 0 = st_cached 0 := by decide
  rw [← h0]
  exact st_loop_no_end fuel 0 true

/-- C29 on the code: in an execution in which positive dialback answers arrive
only for routes that were dialled, the route `a.example/b.example` is VALID on
the online connection 0 when a message from the second local domain
`c.example` for `b.example` arrives.  `out_route` finds the connection through
`out_dest` and, the connection being online, does not add the route to
`routes`; `out_packet` starts dialback, so `states` holds
`c.example/b.example` while `routes` does not.  When the connection closes, the
queue of `c.example/b.example` is neither retried nor bounced: it stays as it
was and nothing is written or returned to the router. -/
theorem C29_state_without_route :
    run_by demo_world 5 (accepts_valid demo_world valid_when_asked)
        (s2s_start (demo_cfg false 300))
        (ops_valid ++ [.packet (demo_msg "c.example" "b.example")]) = some st_second ∧
    (demo_conn st_second 0).online = true ∧
    xhash_get st_second.out_dest "b.example" = some 0 ∧
    (demo_conn st_second 0).routes.map (fun e => e.1) = ["a.example/b.example"] ∧
    (demo_conn st_second 0).states =
      [("a.example/b.example", conn_VALID), ("c.example/b.example", conn_INPROGRESS)] ∧
    queued st_second "c.example/b.example" = [demo_msg "c.example" "b.example"] ∧
    step demo_world 5 st_second (.mio 0 .action_CLOSE) = .ok st_second_closed ∧
    st_second_closed.dead_conn = [0] ∧
    queued st_second_closed "c.example/b.example" = [demo_msg "c.example" "b.example"] ∧
    st_second_closed.sx_log = st_second.sx_log ∧ st_second_closed.n_connect = st_second.n_connect := by
  decide

theorem dns_entry_ensure (s : s2s_st) (dkey : String) :
    dns_entry (dns_ensure s dkey) dkey = dns_entry s dkey := by
  cases h : xhash_get s.dnscache dkey with
  | none => simp only [dns_entry, dns_ensure, h, xhash_get_put_same]
  | some d => simp only [dns_entry, dns_ensure, h]

theorem dns_entry_store (s : s2s_st) (dkey : String) (d : dnscache_st) :
    dns_entry (dns_store s dkey d) dkey = d := by
  unfold dns_entry dns_store
  simp only [xhash_get_put_same]

theorem dns_entry_kick (w : world) (s : s2s_st) (dkey : String) (dns : dnscache_st) :
    (dns_entry (dns_kick w s dkey dns) dkey).pending = true := by
  unfold dns_kick
  rw [dns_entry_store]
  rfl

theorem dns_ensure_of_pending (s : s2s_st) (dkey : String)
    (h : (dns_entry s dkey).pending = true) : dns_ensure s dkey = s := by
  unfold dns_ensure
  cases hg : xhash_get s.dnscache dkey with
  | none =>
    unfold dns_entry at h
    rw [hg] at h
    simp at h
  | some d => rfl

/-- When one pass of `out_route` returns 0 without a connection, no connection
is registered for the destination and its resolution is pending. -/
theorem out_route_try_none {w : world} {s s1 : s2s_st} {route rfrom dkey : String} {ab : Bool}
    (hsplit : strchr_split route '/' = some (rfrom, dkey))
    (h : out_route_try w s route ab = .ok (route_res.done s1 0 none)) :
    route_blocked s1 dkey := by
  unfold out_route_try at h
  rw [hsplit] at h
  simp only at h
  cases hd : xhash_get s.out_dest dkey with
  | some c =>
    rw [hd] at h
    simp only at h
    cases ha : out_route_add s route c false with
    | error f => rw [ha] at h; simp at h
    | ok x =>
      obtain ⟨s2, ret2, out2⟩ := x
      obtain ⟨_, _, _, _, e3⟩ := out_route_add_inv ha
      rw [ha] at h
      simp only [Except.ok.injEq, route_res.done.injEq] at h
      rw [e3] at h
      simp at h
  | none =>
    rw [hd] at h
    simp only at h
    by_cases hp : (dns_entry s dkey).pending = true
    · simp only [hp, if_true, Except.ok.injEq, route_res.done.injEq, and_true] at h
      rw [← h]
      exact ⟨hd, by rw [dns_entry_ensure]; exact hp⟩
    · simp only [hp, Bool.false_eq_true, if_false] at h
      by_cases hexp : (dns_ensure s dkey).now > (dns_entry s dkey).expiry
      · simp only [hexp, if_true, Except.ok.injEq, route_res.done.injEq, and_true] at h
        rw [← h]
        exact ⟨hd, dns_entry_kick _ _ _ _⟩
      · simp only [hexp, if_false] at h
        cases hsel : dns_select w (dns_ensure s dkey) (dns_ensure s dkey).now (dns_entry s dkey) ab with
        | error f => rw [hsel] at h; simp at h
        | ok x =>
          obtain ⟨nr, dns1, ret, ip, port⟩ := x
          rw [hsel] at h
          simp only at h
          by_cases hret : ret = 0
          · simp only [hret, ne_eq, not_true_eq_false, if_false] at h
            split at h
            · simp only [Except.ok.injEq, route_res.done.injEq, and_true] at h
              rw [← h]
              exact ⟨hd, dns_entry_kick _ _ _ _⟩
            · split at h
              · rename_i c0 _
                split at h
                · simp at h
                · rename_i s3 ret3 out3 ha
                  obtain ⟨_, _, _, _, e3⟩ := out_route_add_inv ha
                  simp only [Except.ok.injEq, route_res.done.injEq] at h
                  rw [e3] at h
                  simp at h
              · unfold out_route_connect at h
                simp only at h
                split at h <;> simp at h
          · simp only [hret, ne_eq, not_false_eq_true, if_true, Except.ok.injEq,
              route_res.done.injEq] at h
            omega

/-- When one pass of `out_route` yields a connection, it returns 0 and the
connection is registered for the destination. -/
theorem out_route_try_some {w : world} {s s1 : s2s_st} {route rfrom dkey : String} {ab : Bool}
    {ret : Int} {c : Nat}
    (hsplit : strchr_split route '/' = some (rfrom, dkey))
    (h : out_route_try w s route ab = .ok (route_res.done s1 ret (some c))) :
    ret = 0 ∧ xhash_get s1.out_dest dkey = some c := by
  obtain ⟨rfrom1, dkey1, hs1, hcase⟩ := out_route_try_inv h
  rw [hsplit] at hs1
  simp only [Option.some.injEq, Prod.mk.injEq] at hs1
  obtain ⟨h1, h2⟩ := hs1
  subst h1 h2
  rcases hcase with ⟨c0, o, hd, _, hr⟩ | ⟨_, dc, nr, ret0, hr⟩ | ⟨_, dc, nr, c0, o, ip, port, _, _, _, hr⟩ |
      ⟨_, dc, nr, ip, port, hr⟩
  · simp only [route_res.done.injEq, Option.some.injEq] at hr
    obtain ⟨e1, e2, e3⟩ := hr
    subst e1 e2 e3
    exact ⟨rfl, hd⟩
  · simp at hr
  · simp only [route_res.done.injEq, Option.some.injEq] at hr
    obtain ⟨e1, e2, e3⟩ := hr
    subst e1 e2 e3
    exact ⟨rfl, xhash_get_put_same _ _ _⟩
  · unfold out_route_connect at hr
    simp only at hr
    split at hr
    · simp only [route_res.done.injEq, Option.some.injEq] at hr
      obtain ⟨e1, e2, e3⟩ := hr
      subst e1 e2 e3
      exact ⟨rfl, xhash_get_put_same _ _ _⟩
    · simp at hr

theorem out_route_split {w : world} : ∀ (fuel : Nat) {s : s2s_st} {route : String} {ab : Bool}
    {x : s2s_st × Int × Option Nat}, out_route w fuel s route ab = .ok x →
    ∃ rfrom dkey, strchr_split route '/' = some (rfrom, dkey)
  | 0, _, _, _, _, h => by simp [out_route] at h
  | fuel + 1, s, route, ab, x, h => by
    unfold out_route at h
    cases ht : out_route_try w s route ab with
    | error f => rw [ht] at h; simp at h
    | ok r =>
      obtain ⟨rfrom, dkey, hs, _⟩ := out_route_try_inv ht
      exact ⟨rfrom, dkey, hs⟩

/-- The situation after `out_route` returned: a connection it yields is
registered for the destination and the return value is 0; when it returns 0
without a connection the route is blocked. -/
theorem out_route_after {w : world} {route rfrom dkey : String}
    (hsplit : strchr_split route '/' = some (rfrom, dkey)) :
    ∀ (fuel : Nat) {s s1 : s2s_st} {ab : Bool} {ret : Int} {out : Option Nat},
    out_route w fuel s route ab = .ok (s1, ret, out) →
    (∀ c, out = some c → ret = 0 ∧ xhash_get s1.out_dest dkey = some c) ∧
    (out = none → ret = 0 → route_blocked s1 dkey)
  | 0, _, _, _, _, _, h => by simp [out_route] at h
  | fuel + 1, s, s1, ab, ret, out, h => by
    unfold out_route at h
    split at h
    · simp at h
    · rename_i s2 ret2 out2 htry
      simp only [Except.ok.injEq, Prod.mk.injEq] at h
      obtain ⟨h1, h2, h3⟩ := h
      subst h1 h2 h3
      constructor
      · intro c hc
        subst hc
        exact out_route_try_some hsplit htry
      · intro hn hr
        subst hn hr
        exact out_route_try_none hsplit htry
    · exact out_route_after hsplit fuel h

/-- With a connection registered for the destination, `out_route` yields that
connection and only updates its list of routes. -/
theorem out_route_registered {w : world} {fuel : Nat} {s s1 : s2s_st} {route rfrom dkey : String}
    {ab : Bool} {ret : Int} {out : Option Nat} {c : Nat}
    (hsplit : strchr_split route '/' = some (rfrom, dkey))
    (hd : xhash_get s.out_dest dkey = some c)
    (h : out_route w fuel s route ab = .ok (s1, ret, out)) :
    ∃ o, xhash_get s.conns c = some o ∧
      s1 = { s with conns := add_route s.conns c o route false } ∧ ret = 0 ∧ out = some c := by
  cases fuel with
  | zero => simp [out_route] at h
  | succ fuel =>
    unfold out_route out_route_try at h
    rw [hsplit] at h
    simp only [hd] at h
    cases ha : out_route_add s route c false with
    | error f => rw [ha] at h; simp at h
    | ok x =>
      obtain ⟨s2, ret2, out2⟩ := x
      rw [ha] at h
      simp only [Except.ok.injEq, Prod.mk.injEq] at h
      obtain ⟨o, ho, e1, e2, e3⟩ := out_route_add_inv ha
      exact ⟨o, ho, by rw [← h.1, e1], by rw [← h.2.1, e2], by rw [← h.2.2, e3]⟩

/-- On a blocked route `out_route` returns 0 without a connection and leaves
the engine as it is. -/
theorem out_route_blocked {w : world} {fuel : Nat} {s s1 : s2s_st} {route rfrom dkey : String}
    {ab : Bool} {ret : Int} {out : Option Nat}
    (hsplit : strchr_split route '/' = some (rfrom, dkey))
    (hb : route_blocked s dkey)
    (h : out_route w fuel s route ab = .ok (s1, ret, out)) :
    s1 = s ∧ ret = 0 ∧ out = none := by
  cases fuel with
  | zero => simp [out_route] at h
  | succ fuel =>
    unfold out_route out_route_try at h
    rw [hsplit] at h
    simp only [hb.1, hb.2, if_true, Except.ok.injEq, Prod.mk.injEq] at h
    rw [dns_ensure_of_pending s dkey hb.2] at h
    exact ⟨h.1.symm, h.2.1.symm, h.2.2.symm⟩

theorem flush_inv_unique {s : s2s_st} {rkey dkey : String} {m1 m2 : Option (Nat × Bool × Bool)}
    (h1 : flush_inv s rkey dkey m1) (h2 : flush_inv s rkey dkey m2) : m1 = m2 := by
  cases m1 with
  | none =>
    cases m2 with
    | none => rfl
    | some x =>
      obtain ⟨c, onl, v⟩ := x
      have e1 : xhash_get s.out_dest dkey = none := h1.1
      have e2 : xhash_get s.out_dest dkey = some c := h2.1
      rw [e1] at e2; simp at e2
  | some x =>
    obtain ⟨c, onl, v⟩ := x
    cases m2 with
    | none =>
      have e1 : xhash_get s.out_dest dkey = none := h2.1
      have e2 : xhash_get s.out_dest dkey = some c := h1.1
      rw [e1] at e2; simp at e2
    | some y =>
      obtain ⟨c2, onl2, v2⟩ := y
      obtain ⟨e1, o1, g1, a1, b1⟩ := h1
      obtain ⟨e2, o2, g2, a2, b2⟩ := h2
      rw [e1] at e2
      simp only [Option.some.injEq] at e2
      subst e2
      rw [g1] at g2
      simp only [Option.some.injEq] at g2
      subst g2
      rw [← a1, ← a2, ← b1, ← b2]

theorem flush_inv_congr {s s1 : s2s_st} {rkey dkey : String} {m : Option (Nat × Bool × Bool)}
    (hd : s1.out_dest = s.out_dest) (hc : s1.dnscache = s.dnscache) (hn : s1.conns = s.conns)
    (h : flush_inv s rkey dkey m) : flush_inv s1 rkey dkey m := by
  cases m with
  | none =>
    obtain ⟨a, b⟩ := h
    refine ⟨by rw [hd]; exact a, ?_⟩
    unfold dns_entry at b ⊢
    rw [hc]; exact b
  | some x =>
    obtain ⟨c, onl, v⟩ := x
    obtain ⟨a, o, b, e1, e2⟩ := h
    exact ⟨by rw [hd]; exact a, o, by rw [hn]; exact b, e1, e2⟩

theorem flush_inv_store {s s1 : s2s_st} {rkey dkey : String} {c : Nat} {onl v : Bool} (o1 : conn_st)
    (hd : s1.out_dest = s.out_dest) (h : flush_inv s rkey dkey (some (c, onl, v)))
    (hon : o1.online = onl) (hv : decide (conn_state o1 rkey = conn_VALID) = v) :
    flush_inv (conn_store s1 c o1) rkey dkey (some (c, onl, v)) := by
  obtain ⟨a, _⟩ := h
  refine ⟨?_, o1, ?_, hon, hv⟩
  · show xhash_get s1.out_dest dkey = some c
    rw [hd]; exact a
  · show xhash_get (xhash_put s1.conns c o1) c = some o1
    exact xhash_get_put_same _ _ _

/-- The situation of a route is the same after `out_route`; on a blocked route
`out_route` returns 0 without a connection, and with a registered connection it
yields that connection. -/
theorem out_route_keeps_mode {w : world} {fuel : Nat} {s s1 : s2s_st} {rkey rfrom dkey : String}
    {ab : Bool} {ret : Int} {out : Option Nat}
    (hsplit : strchr_split rkey '/' = some (rfrom, dkey))
    (hr : out_route w fuel s rkey ab = .ok (s1, ret, out)) (m : Option (Nat × Bool × Bool))
    (hm : flush_inv s rkey dkey m) :
    flush_inv s1 rkey dkey m ∧ ret = 0 ∧
      (m = none → out = none) ∧ (∀ c onl v, m = some (c, onl, v) → out = some c) := by
  cases m with
  | none =>
    obtain ⟨e1, e2, e3⟩ := out_route_blocked hsplit hm hr
    subst e1
    exact ⟨hm, e2, fun _ => e3, by simp⟩
  | some x =>
    obtain ⟨c, onl, v⟩ := x
    obtain ⟨hd, o, ho, hon, hv⟩ := hm
    obtain ⟨o0, ho0, e1, e2, e3⟩ := out_route_registered hsplit hd hr
    rw [ho] at ho0
    simp only [Option.some.injEq] at ho0
    subst ho0
    obtain ⟨o1, g1, g2, g3, _⟩ := add_route_get_same rkey false ho
    refine ⟨?_, e2, by simp, ?_⟩
    · refine ⟨by rw [e1]; exact hd, o1, by rw [e1]; exact g1, by rw [g2]; exact hon, ?_⟩
      rw [conn_state_congr g3]; exact hv
    · intro c1 onl1 v1 he
      simp only [Option.some.injEq, Prod.mk.injEq] at he
      rw [e3, he.1]

theorem filter_elem_inits (l : List sx_rec) (h : ∀ x ∈ l, is_client_init x.call = true) :
    l.filter (fun x => is_elem_write x.call) = [] := by
  rw [List.filter_eq_nil_iff]
  intro x hx
  have := h x hx
  cases hc : x.call <;> simp_all [is_client_init, is_elem_write]

theorem filter_elem_bounce (rkey : String) (err : err_t) (items : List pkt_st) :
    (bounce_recs rkey err items).filter (fun x => is_elem_write x.call) = [] := by
  rw [List.filter_eq_nil_iff]
  intro x hx
  have := bounce_recs_not_stanza rkey err items x hx
  cases hc : x.call <;> simp_all [is_elem_write]

theorem filter_elem_write_rec (c : Nat) (rkey : String) (p : pkt_st) :
    [write_rec c rkey p].filter (fun x => is_elem_write x.call) =
      if p.db = false then [write_rec c rkey p] else [] := by
  cases hdb : p.db <;> simp [write_rec, pkt_write, hdb, is_elem_write]

/-- One call of `out_packet` for a packet of the route.  Either it returns -1:
then the route was in none of the situations, its queue is gone and the packets
that were queued, followed by the packet, were bounced.  Or it returns 0: then the route is in a situation `m` afterwards,
which is the situation it was in before if it was in one; the packet was
written when `m` writes it and was queued otherwise; and no other stanza was
written. -/
theorem out_packet_step {w : world} {fuel : Nat} {s s2 : s2s_st} {p : pkt_st} {r : Int}
    {rkey rfrom dkey : String}
    (hsplit : strchr_split rkey '/' = some (rfrom, dkey))
    (hkey : s2s_route_key p.from_.domain p.to_.domain = rkey)
    (h : out_packet w fuel s p = .ok (s2, r)) :
    (r = -1 ∧ (∀ m, ¬ flush_inv s rkey dkey m) ∧ xhash_get s2.outq rkey = none ∧
      ∃ inits, (∀ x ∈ inits, is_client_init x.call = true) ∧
        s2.sx_log = s.sx_log ++
          (inits ++ bounce_recs rkey stanza_err_SERVICE_UNAVAILABLE (queued s rkey ++ [p]))) ∨
    (r = 0 ∧ ∃ m, flush_inv s2 rkey dkey m ∧ (∀ m1, flush_inv s rkey dkey m1 → m1 = m) ∧
      s2.outq = (if mode_writes m p = true then s.outq else (_out_packet_queue s p).outq) ∧
      ∃ extra, s2.sx_log = s.sx_log ++ extra ∧
        List.Sublist (if mode_writes m p = true then [write_rec (mode_conn m) rkey p] else [])
          extra ∧
        extra.filter (fun x => is_elem_write x.call) =
          (if mode_writes m p = true ∧ p.db = false then [write_rec (mode_conn m) rkey p]
           else [])) := by
  subst hkey
  obtain ⟨s1, ret, out, hr, hcase⟩ := out_packet_inv h
  have hst := out_route_static fuel hr
  have hqq := out_packet_queue_congr s s1 p (static_outq hst) (static_now hst)
  obtain ⟨_, ⟨inits, hlog, hinits⟩, _⟩ := out_route_props fuel hr
  obtain ⟨hsome, hnone⟩ := out_route_after hsplit fuel hr
  have hfi := filter_elem_inits inits hinits
  rcases hcase with ⟨ho, hret, hr0, hs2⟩ | ⟨ho, hret, hr1, hs2⟩ | ⟨c, o, ho, hc, hr0, hsub⟩
  · right
    have hb : flush_inv s1 (s2s_route_key p.from_.domain p.to_.domain) dkey none := hnone ho hret
    refine ⟨hr0, none, ?_, ?_, ?_, inits, ?_, ?_, ?_⟩
    · rw [hs2]; exact flush_inv_congr rfl rfl rfl hb
    · intro m1 hm1
      exact flush_inv_unique (out_route_keeps_mode hsplit hr m1 hm1).1 hb
    · simp only [mode_writes, Bool.false_eq_true, if_false]
      rw [hs2, hqq]
    · rw [hs2]; exact hlog
    · simp [mode_writes]
    · simp [mode_writes, hfi]
  · left
    refine ⟨hr1, ?_, ?_, ?_⟩
    · intro m hm
      exact hret (out_route_keeps_mode hsplit hr m hm).2.1
    · obtain ⟨q, hq1, _⟩ := queued_out_packet_queue s1 p
      rw [hs2, out_bounce_route_queue_some _ _ _ q hq1]
      exact xhash_get_zap_same _ _
    · obtain ⟨q, hq1, hq2⟩ := queued_out_packet_queue s1 p
      have hqs : queued s1 (s2s_route_key p.from_.domain p.to_.domain)
          = queued s (s2s_route_key p.from_.domain p.to_.domain) := by
        unfold queued; rw [static_outq hst]
      refine ⟨inits, hinits, ?_⟩
      rw [hs2, out_bounce_route_queue_some _ _ _ q hq1]
      show s1.sx_log ++ _ = _
      rw [hlog, List.append_assoc, hq2, hqs]
  · right
    have hm : flush_inv s1 (s2s_route_key p.from_.domain p.to_.domain) dkey
        (some (c, o.online,
          decide (conn_state o (s2s_route_key p.from_.domain p.to_.domain) = conn_VALID))) :=
      ⟨(hsome c ho).2, o, hc, rfl, rfl⟩
    have huniq : ∀ m1, flush_inv s (s2s_route_key p.from_.domain p.to_.domain) dkey m1 →
        m1 = some (c, o.online,
          decide (conn_state o (s2s_route_key p.from_.domain p.to_.domain) = conn_VALID)) :=
      fun m1 hm1 => flush_inv_unique (out_route_keeps_mode hsplit hr m1 hm1).1 hm
    rcases hsub with ⟨hoff, hs2⟩ | ⟨hon, hcond, o1, hon1, hst1, _, hs2⟩ | ⟨hon, hdb, hip, hs2⟩ |
        ⟨hon, hdb, hnn, hd⟩
    · refine ⟨hr0, _, ?_, huniq, ?_, inits, ?_, ?_, ?_⟩
      · rw [hs2]; exact flush_inv_congr rfl rfl rfl hm
      · simp only [mode_writes, hoff, Bool.false_and, Bool.false_eq_true, if_false]
        rw [hs2, hqq]
      · rw [hs2]; exact hlog
      · simp [mode_writes, hoff]
      · simp [mode_writes, hoff, hfi]
    · have hw : mode_writes (some (c, o.online,
          decide (conn_state o (s2s_route_key p.from_.domain p.to_.domain) = conn_VALID))) p
          = true := by
        rcases hcond with hv | hv
        · simp [mode_writes, hon, hv]
        · simp [mode_writes, hon, hv]
      refine ⟨hr0, _, ?_, huniq, ?_,
        inits ++ [write_rec c (s2s_route_key p.from_.domain p.to_.domain) p], ?_, ?_, ?_⟩
      · rw [hs2]
        refine flush_inv_store o1 rfl hm hon1 ?_
        rw [conn_state_congr hst1]
      · rw [hw, if_pos rfl, hs2]
        exact static_outq hst
      · rw [hs2]
        show s1.sx_log ++ _ = _
        rw [hlog, List.append_assoc]
        rfl
      · rw [hw, if_pos rfl]
        exact List.sublist_append_right _ _
      · rw [List.filter_append, hfi, filter_elem_write_rec, hw]
        cases hdb : p.db <;> simp [mode_conn]
    · have hw : mode_writes (some (c, o.online,
          decide (conn_state o (s2s_route_key p.from_.domain p.to_.domain) = conn_VALID))) p
          = false := by
        simp [mode_writes, hon, hdb, hip]
      refine ⟨hr0, _, ?_, huniq, ?_, inits, ?_, ?_, ?_⟩
      · rw [hs2]; exact flush_inv_congr rfl rfl rfl hm
      · rw [hw, hs2, hqq]; simp
      · rw [hs2]; exact hlog
      · rw [hw]; simp
      · rw [hw]; simp [hfi]
    · have hw : mode_writes (some (c, o.online,
          decide (conn_state o (s2s_route_key p.from_.domain p.to_.domain) = conn_VALID))) p
          = false := by
        simp [mode_writes, hon, hdb, hnn]
      obtain ⟨i, hi⟩ := route_key_has_slash p.from_.domain p.to_.domain
      have ho2 : xhash_get (_out_packet_queue s1 p).conns c = some o := hc
      rw [out_dialback_ok w _ c o _ i ho2 hi] at hd
      simp only [Except.ok.injEq, Prod.mk.injEq, and_true] at hd
      generalize db_result_nad _ _ _ = n at hd
      refine ⟨hr0, _, ?_, huniq, ?_, inits ++ [sx_rec.mk (sx_t.out c)
        (s2s_route_key p.from_.domain p.to_.domain) (sx_call.nad_write n)], ?_, ?_, ?_⟩
      · rw [← hd]
        refine flush_inv_store _ rfl hm rfl ?_
        have hst2 : conn_state
            { o with states := xhash_put o.states (s2s_route_key p.from_.domain p.to_.domain)
                                 conn_INPROGRESS,
                     states_time := xhash_put o.states_time
                                 (s2s_route_key p.from_.domain p.to_.domain)
                                 (_out_packet_queue s1 p).now }
            (s2s_route_key p.from_.domain p.to_.domain) = conn_INPROGRESS := by
          unfold conn_state
          show (match xhash_get (xhash_put o.states _ conn_INPROGRESS) _ with
                | some st => st | none => conn_NONE) = _
          rw [xhash_get_put_same]
        rw [hst2, hnn]
        decide
      · rw [hw, ← hd]
        simp only [Bool.false_eq_true, if_false]
        show (_out_packet_queue s1 p).outq = _
        exact hqq
      · rw [← hd]
        show s1.sx_log ++ _ = _
        rw [hlog, List.append_assoc]
      · rw [hw]; simp
      · rw [hw, List.filter_append, hfi]
        simp [is_elem_write]

theorem flush_inv_pull {s : s2s_st} {rkey dkey : String} {m : Option (Nat × Bool × Bool)}
    (outq : xht (jqueue_st pkt_st)) (h : flush_inv s rkey dkey m) :
    flush_inv { s with outq := outq } rkey dkey m :=
  flush_inv_congr rfl rfl rfl h

/-- The loop of `out_flush_route_queue` on a route that is in situation `m`.
With `rest` the packets still to be pulled and `R` the packets queued behind
them: the loop runs to its end and hands all of `rest` to `out_packet`, in
order; the route stays in situation `m`; the packets of `rest` that `m` does not
write are queued behind `R`, in order; the packets that `m` writes are written
in order, and no other stanza is written. -/
theorem flush_loop_mode (w : world) (fuel : Nat) {rkey rfrom dkey : String}
    (hsplit : strchr_split rkey '/' = some (rfrom, dkey)) (m : Option (Nat × Bool × Bool)) :
    ∀ (n : Nat) (s : s2s_st) (handed rest R : List pkt_st) (s1 : s2s_st) (early : Bool)
      (h1 : List pkt_st),
      flush_inv s rkey dkey m → queued s rkey = rest ++ R →
      (xhash_get s.outq rkey).isSome = true → rest.length = n →
      (∀ p ∈ rest, s2s_route_key p.from_.domain p.to_.domain = rkey) →
      flush_loop w fuel n s rkey handed = .ok (s1, early, h1) →
      early = false ∧ h1 = handed ++ rest ∧ flush_inv s1 rkey dkey m ∧
      (xhash_get s1.outq rkey).isSome = true ∧
      queued s1 rkey = R ++ rest.filter (fun p => !mode_writes m p) ∧
      ∃ extra, s1.sx_log = s.sx_log ++ extra ∧
        List.Sublist ((rest.filter (mode_writes m)).map (write_rec (mode_conn m) rkey)) extra ∧
        extra.filter (fun x => is_elem_write x.call) =
          ((rest.filter (mode_writes m)).filter (fun p => !p.db)).map
            (write_rec (mode_conn m) rkey) := by
  intro n
  induction n with
  | zero =>
    intro s handed rest R s1 early h1 hm hq hsome hlen hkey h
    simp only [flush_loop, Except.ok.injEq, Prod.mk.injEq] at h
    obtain ⟨hs, he, hh⟩ := h
    subst hs he hh
    have hrest : rest = [] := List.length_eq_zero.mp hlen
    subst hrest
    exact ⟨rfl, by simp, hm, hsome, by simpa using hq, [], by simp, by simp, by simp⟩
  | succ n ih =>
    intro s handed rest R s1 early h1 hm hq hsome hlen hkey h
    cases rest with
    | nil => simp at hlen
    | cons p rest' =>
      simp only [List.length_cons, Nat.add_right_cancel_iff] at hlen
      cases hg : xhash_get s.outq rkey with
      | none => rw [hg] at hsome; simp at hsome
      | some q =>
        have hitems : q.items = p :: (rest' ++ R) := by
          rw [← queued_of_get hg, hq]; rfl
        unfold flush_loop at h
        simp only [hg, jqueue_pull, hitems] at h
        cases hop : out_packet w fuel
            { s with outq := xhash_replace s.outq rkey { q with items := rest' ++ R } } p with
        | error f => rw [hop] at h; simp at h
        | ok x =>
          obtain ⟨sb, ret⟩ := x
          rw [hop] at h
          simp only at h
          have hpk : s2s_route_key p.from_.domain p.to_.domain = rkey :=
            hkey p (List.mem_cons_self _ _)
          have hkey' : ∀ p1 ∈ rest', s2s_route_key p1.from_.domain p1.to_.domain = rkey :=
            fun p1 hp1 => hkey p1 (List.mem_cons_of_mem _ hp1)
          have hm' := flush_inv_pull (xhash_replace s.outq rkey { q with items := rest' ++ R }) hm
          have hga : xhash_get
              ({ s with outq := xhash_replace s.outq rkey { q with items := rest' ++ R } } : s2s_st).outq
              rkey = some { q with items := rest' ++ R } := by
            simp only [xhash_get_replace_same, hg, Option.map_some']
          rcases out_packet_step hsplit hpk hop with ⟨_, hno, _⟩ | ⟨hret, m2, hm2, huniq, houtq, e1, hlog1, hsub1, hfil1⟩
          · exact absurd hm' (hno m)
          · have hmm : m = m2 := huniq m hm'
            subst hmm
            subst hret
            simp only [ne_eq, not_true_eq_false, if_false] at h
            by_cases hw : mode_writes m p = true
            · simp only [hw, if_true] at houtq hsub1 hfil1
              have hqd : queued sb rkey = rest' ++ R := by
                unfold queued; rw [houtq, hga]
              have hsb : (xhash_get sb.outq rkey).isSome = true := by rw [houtq, hga]; rfl
              obtain ⟨g1, g2, g3, g4, g5, e2, hlog2, hsub2, hfil2⟩ :=
                ih sb (handed ++ [p]) rest' R s1 early h1 hm2 hqd hsb hlen hkey' h
              refine ⟨g1, by rw [g2]; simp, g3, g4, ?_, e1 ++ e2, ?_, ?_, ?_⟩
              · rw [g5]; simp [hw]
              · rw [hlog2, hlog1, List.append_assoc]
              · simp only [List.filter_cons, hw, if_true, List.map_cons]
                exact List.Sublist.append hsub1 hsub2
              · rw [List.filter_append, hfil1, hfil2]
                simp only [List.filter_cons, hw, if_true]
                cases hdb : p.db <;> simp
            · have hwf : mode_writes m p = false := by
                cases hx : mode_writes m p
                · rfl
                · exact absurd hx hw
              simp only [hwf, Bool.false_eq_true, if_false, false_and] at houtq hsub1 hfil1
              obtain ⟨q2, hq2a, hq2b⟩ := queued_out_packet_queue
                ({ s with outq := xhash_replace s.outq rkey { q with items := rest' ++ R } } : s2s_st) p
              rw [hpk] at hq2a hq2b
              rw [queued_of_get hga] at hq2b
              have hqd : queued sb rkey = rest' ++ (R ++ [p]) := by
                unfold queued; rw [houtq, hq2a]
                simp only [hq2b, List.append_assoc]
              have hsb : (xhash_get sb.outq rkey).isSome = true := by rw [houtq, hq2a]; rfl
              obtain ⟨g1, g2, g3, g4, g5, e2, hlog2, hsub2, hfil2⟩ :=
                ih sb (handed ++ [p]) rest' (R ++ [p]) s1 early h1 hm2 hqd hsb hlen hkey' h
              refine ⟨g1, by rw [g2]; simp, g3, g4, ?_, e1 ++ e2, ?_, ?_, ?_⟩
              · rw [g5]; simp [hwf]
              · rw [hlog2, hlog1, List.append_assoc]
              · simp only [List.filter_cons, hwf, Bool.false_eq_true, if_false]
                exact List.Sublist.trans hsub2 (List.sublist_append_right _ _)
              · rw [List.filter_append, hfil1, hfil2]
                simp only [List.filter_cons, hwf, Bool.false_eq_true, if_false, List.nil_append]

/-- In every situation the stanzas of a list are written all or not at all:
the stanzas that are written followed by the stanzas that are not are the
stanzas of the list, in order, and either no stanza is written or every packet
is. -/
theorem mode_stanza_split (m : Option (Nat × Bool × Bool)) (l : List pkt_st) :
    (l.filter (mode_writes m)).filter (fun p => !p.db) ++
        (l.filter (fun p => !mode_writes m p)).filter (fun p => !p.db)
      = l.filter (fun p => !p.db) ∧
    ((l.filter (mode_writes m)).filter (fun p => !p.db) = [] ∨
      l.filter (fun p => !mode_writes m p) = []) := by
  have key : (∀ p, mode_writes m p = true) ∨ (∀ p, p.db = false → mode_writes m p = false) := by
    cases m with
    | none => right; intro p _; rfl
    | some x =>
      obtain ⟨c, onl, v⟩ := x
      cases onl with
      | false => right; intro p _; rfl
      | true =>
        cases v with
        | true => left; intro p; rfl
        | false => right; intro p hp; simp [mode_writes, hp]
  rcases key with hall | hnone
  · have h1 : l.filter (mode_writes m) = l := List.filter_eq_self.2 (fun p _ => hall p)
    have h2 : l.filter (fun p => !mode_writes m p) = [] :=
      List.filter_eq_nil_iff.2 (fun p _ => by simp [hall p])
    rw [h1, h2]
    exact ⟨by simp, Or.inr rfl⟩
  · have h1 : (l.filter (mode_writes m)).filter (fun p => !p.db) = [] := by
      rw [List.filter_eq_nil_iff]
      intro p hp
      have hw : mode_writes m p = true := (List.mem_filter.1 hp).2
      cases hdb : p.db with
      | true => simp
      | false => rw [hnone p hdb] at hw; simp at hw
    have h2 : (l.filter (fun p => !mode_writes m p)).filter (fun p => !p.db)
        = l.filter (fun p => !p.db) := by
      rw [List.filter_filter]
      apply List.filter_congr
      intro p _
      cases hdb : p.db with
      | true => simp
      | false => simp [hnone p hdb]
    rw [h1, h2]
    exact ⟨by simp, Or.inl rfl⟩

/-- In a situation of the route, `out_route` returns 0 when it has fuel for one
pass. -/
theorem out_route_returns {w : world} {s : s2s_st} {rkey rfrom dkey : String} {ab : Bool}
    (hsplit : strchr_split rkey '/' = some (rfrom, dkey)) (m : Option (Nat × Bool × Bool))
    (hm : flush_inv s rkey dkey m) (n : Nat) :
    ∃ s1 out, out_route w (n + 1) s rkey ab = .ok (s1, 0, out) ∧
      ∀ c, out = some c → ∃ o, xhash_get s1.conns c = some o := by
  cases m with
  | none =>
    refine ⟨dns_ensure s dkey, none, ?_, by simp⟩
    unfold out_route out_route_try
    rw [hsplit]
    simp only [hm.1, hm.2, if_true]
  | some x =>
    obtain ⟨c, onl, v⟩ := x
    obtain ⟨hd, o, ho, _, _⟩ := hm
    obtain ⟨o1, g1, _⟩ := add_route_get_same rkey false ho
    refine ⟨{ s with conns := add_route s.conns c o rkey false }, some c, ?_, ?_⟩
    · unfold out_route out_route_try
      rw [hsplit]
      simp only [hd, out_route_add, ho]
    · intro c1 hc1
      simp only [Option.some.injEq] at hc1
      subst hc1
      exact ⟨o1, g1⟩

/-- In a situation of the route, `out_packet` returns 0 for a packet of the
route when `out_route` has fuel for one pass. -/
theorem out_packet_returns {w : world} {s : s2s_st} {p : pkt_st} {rkey rfrom dkey : String}
    (hsplit : strchr_split rkey '/' = some (rfrom, dkey))
    (hkey : s2s_route_key p.from_.domain p.to_.domain = rkey)
    (m : Option (Nat × Bool × Bool)) (hm : flush_inv s rkey dkey m) (n : Nat) :
    ∃ s2, out_packet w (n + 1) s p = .ok (s2, 0) := by
  subst hkey
  obtain ⟨s1, out, hr, hc⟩ := @out_route_returns w s _ rfrom dkey true hsplit m hm n
  unfold out_packet
  simp only [hr]
  cases out with
  | none =>
    refine ⟨_out_packet_queue s1 p, ?_⟩
    simp
  | some c =>
    obtain ⟨o, ho⟩ := hc c rfl
    simp only [ho]
    by_cases honl : o.online = true
    · simp only [honl, Bool.not_true, Bool.false_eq_true, if_false]
      by_cases hcond : conn_state o (s2s_route_key p.from_.domain p.to_.domain) = conn_VALID ∨
          p.db = true
      · simp only [hcond, if_true]
        by_cases hdb : p.db = true
        · simp only [hdb, if_true]
          exact ⟨_, rfl⟩
        · simp only [hdb, if_false]
          exact ⟨_, rfl⟩
      · simp only [hcond, if_false]
        by_cases hip : conn_state o (s2s_route_key p.from_.domain p.to_.domain) = conn_INPROGRESS
        · simp only [hip, if_true]
          exact ⟨_, rfl⟩
        · simp only [hip, if_false]
          obtain ⟨i, hi⟩ := route_key_has_slash p.from_.domain p.to_.domain
          have ho2 : xhash_get (_out_packet_queue s1 p).conns c = some o := ho
          rw [out_dialback_ok w _ c o _ i ho2 hi]
          exact ⟨_, rfl⟩
    · have honf : o.online = false := by cases h' : o.online <;> simp_all
      simp only [honf, Bool.not_false, if_true]
      exact ⟨_, rfl⟩

/-- In a situation of the route, the loop of `out_flush_route_queue` runs to
its end. -/
theorem flush_loop_returns (w : world) (fuel : Nat) {rkey rfrom dkey : String}
    (hsplit : strchr_split rkey '/' = some (rfrom, dkey)) (m : Option (Nat × Bool × Bool)) :
    ∀ (n : Nat) (s : s2s_st) (handed rest R : List pkt_st),
      flush_inv s rkey dkey m → queued s rkey = rest ++ R →
      (xhash_get s.outq rkey).isSome = true → rest.length = n →
      (∀ p ∈ rest, s2s_route_key p.from_.domain p.to_.domain = rkey) →
      ∃ s1 h1, flush_loop w (fuel + 1) n s rkey handed = .ok (s1, false, h1) := by
  intro n
  induction n with
  | zero =>
    intro s handed rest R hm hq hsome hlen hkey
    exact ⟨s, handed, rfl⟩
  | succ n ih =>
    intro s handed rest R hm hq hsome hlen hkey
    cases rest with
    | nil => simp at hlen
    | cons p rest' =>
      simp only [List.length_cons, Nat.add_right_cancel_iff] at hlen
      cases hg : xhash_get s.outq rkey with
      | none => rw [hg] at hsome; simp at hsome
      | some q =>
        have hitems : q.items = p :: (rest' ++ R) := by
          rw [← queued_of_get hg, hq]; rfl
        have hpk : s2s_route_key p.from_.domain p.to_.domain = rkey :=
          hkey p (List.mem_cons_self _ _)
        have hkey' : ∀ p1 ∈ rest', s2s_route_key p1.from_.domain p1.to_.domain = rkey :=
          fun p1 hp1 => hkey p1 (List.mem_cons_of_mem _ hp1)
        have hm' := flush_inv_pull (xhash_replace s.outq rkey { q with items := rest' ++ R }) hm
        have hga : xhash_get
            ({ s with outq := xhash_replace s.outq rkey { q with items := rest' ++ R } } : s2s_st).outq
            rkey = some { q with items := rest' ++ R } := by
          simp only [xhash_get_replace_same, hg, Option.map_some']
        obtain ⟨sb, hop⟩ := out_packet_returns (w := w) hsplit hpk m hm' fuel
        unfold flush_loop
        simp only [hg, jqueue_pull, hitems, hop, ne_eq, not_true_eq_false, if_false]
        rcases out_packet_step hsplit hpk hop with ⟨h0, _⟩ | ⟨_, m2, hm2, huniq, houtq, _⟩
        · omega
        · have hmm : m = m2 := huniq m hm'
          subst hmm
          by_cases hw : mode_writes m p = true
          · simp only [hw, if_true] at houtq
            have hqd : queued sb rkey = rest' ++ R := by
              unfold queued; rw [houtq, hga]
            have hsb : (xhash_get sb.outq rkey).isSome = true := by rw [houtq, hga]; rfl
            exact ih sb (handed ++ [p]) rest' R hm2 hqd hsb hlen hkey'
          · have hwf : mode_writes m p = false := by
              cases hx : mode_writes m p
              · rfl
              · exact absurd hx hw
            simp only [hwf, Bool.false_eq_true, if_false] at houtq
            obtain ⟨q2, hq2a, hq2b⟩ := queued_out_packet_queue
              ({ s with outq := xhash_replace s.outq rkey { q with items := rest' ++ R } } : s2s_st) p
            rw [hpk] at hq2a hq2b
            rw [queued_of_get hga] at hq2b
            have hqd : queued sb rkey = rest' ++ (R ++ [p]) := by
              unfold queued; rw [houtq, hq2a]
              simp only [hq2b, List.append_assoc]
            have hsb : (xhash_get sb.outq rkey).isSome = true := by rw [houtq, hq2a]; rfl
            exact ih sb (handed ++ [p]) rest' (R ++ [p]) hm2 hqd hsb hlen hkey'

/-- In a situation of the route, `out_flush_route_queue` returns when
`out_route` has fuel for one pass, and the route is in the same situation
afterwards. -/
theorem out_flush_route_queue_returns (w : world) (fuel : Nat) (s : s2s_st)
    {rkey rfrom dkey : String} (q : jqueue_st pkt_st)
    (hsplit : strchr_split rkey '/' = some (rfrom, dkey)) (m : Option (Nat × Bool × Bool))
    (hm : flush_inv s rkey dkey m) (hq : xhash_get s.outq rkey = some q)
    (hkey : ∀ p ∈ q.items, s2s_route_key p.from_.domain p.to_.domain = rkey) :
    ∃ s2, out_flush_route_queue w (fuel + 1) s rkey = .ok s2 ∧ flush_inv s2 rkey dkey m := by
  obtain ⟨s1, h1, hl⟩ := flush_loop_returns w fuel hsplit m q.items.length s [] q.items [] hm
    (by rw [queued_of_get hq]; simp) (by rw [hq]; rfl) rfl hkey
  obtain ⟨_, _, hm1, hsome, _⟩ := flush_loop_mode w (fuel + 1) hsplit m q.items.length s [] q.items []
    s1 false h1 hm (by rw [queued_of_get hq]; simp) (by rw [hq]; rfl) rfl hkey hl
  unfold out_flush_route_queue
  simp only [hq, hl]
  cases hg1 : xhash_get s1.outq rkey with
  | none => rw [hg1] at hsome; simp at hsome
  | some q1 =>
    simp only
    split
    · exact ⟨_, rfl, flush_inv_congr rfl rfl rfl hm1⟩
    · exact ⟨_, rfl, hm1⟩

/-- C5 (amended). Stanzas are written in queue order, and a dialback packet is
written as soon as the connection is online.  For a route whose queue holds
packets of that route.  First, when the route is in a situation (no connection
registered and the resolution pending, or a connection registered) and
`out_route` has fuel for one pass, `out_flush_route_queue` returns and the
route is in the same situation afterwards.  Second, whenever
`out_flush_route_queue` returns: either it handed only the first packet to
`out_packet`, which bounced the queue (the queue is gone and nothing but stream
initialisations and the bounces of the queued packets was logged); or it handed
all packets of the queue to `out_packet` in queue order, and there is a
situation `m` of the route (no connection, or connection `c` with its `online`
flag and the validity of the route) in which the route is afterwards, such
that: the packets that `m` writes (all when the connection is online and the
route VALID, the dialback packets when it is online and the route not yet
VALID, none otherwise) were written on `c` in queue order; the stanzas among
them are the only stanzas written; the other packets are queued afterwards in
their original relative order, the queue being deleted when none is left; and
the stanzas are written all or not at all, so that the written stanzas followed
by the queued stanzas are the stanzas of the queue in their original order. -/
theorem C5_flush_stanzas_in_order (w : world) (fuel : Nat) (s : s2s_st) (rkey : String)
    (q : jqueue_st pkt_st) (hq : xhash_get s.outq rkey = some q)
    (hkey : ∀ p ∈ q.items, s2s_route_key p.from_.domain p.to_.domain = rkey) :
    (∀ rfrom dkey m, strchr_split rkey '/' = some (rfrom, dkey) → flush_inv s rkey dkey m →
      fuel ≠ 0 →
      ∃ s2, out_flush_route_queue w fuel s rkey = .ok s2 ∧ flush_inv s2 rkey dkey m) ∧
    ∀ s2, out_flush_route_queue w fuel s rkey = .ok s2 →
    ∃ (s1 : s2s_st) (early : Bool) (handed : List pkt_st) (extra : List sx_rec),
      flush_loop w fuel q.items.length s rkey [] = .ok (s1, early, handed) ∧
      s2.sx_log = s.sx_log ++ extra ∧
      ((early = true ∧ handed = q.items.take 1 ∧ xhash_get s2.outq rkey = none ∧
          ∃ inits, (∀ x ∈ inits, is_client_init x.call = true) ∧
            extra = inits ++ bounce_recs rkey stanza_err_SERVICE_UNAVAILABLE
              (q.items.tail ++ q.items.take 1)) ∨
       (early = false ∧ handed = q.items ∧
          ∃ (m : Option (Nat × Bool × Bool)) (W K : List pkt_st),
            W = q.items.filter (mode_writes m) ∧
            K = q.items.filter (fun p => !mode_writes m p) ∧
            (q.items ≠ [] → ∃ rfrom dkey, strchr_split rkey '/' = some (rfrom, dkey) ∧
              flush_inv s2 rkey dkey m) ∧
            List.Sublist (W.map (write_rec (mode_conn m) rkey)) extra ∧
            extra.filter (fun x => is_elem_write x.call) =
              (W.filter (fun p => !p.db)).map (write_rec (mode_conn m) rkey) ∧
            queued s2 rkey = K ∧
            (K = [] → xhash_get s2.outq rkey = none) ∧
            W.filter (fun p => !p.db) ++ K.filter (fun p => !p.db)
              = q.items.filter (fun p => !p.db) ∧
            (W.filter (fun p => !p.db) = [] ∨ K = []))) := by
  refine ⟨?_, ?_⟩
  · intro rfrom dkey m hsplit hm hfuel
    cases fuel with
    | zero => exact absurd rfl hfuel
    | succ n => exact out_flush_route_queue_returns w n s q hsplit m hm hq hkey
  intro s2 hflush
  unfold out_flush_route_queue at hflush
  rw [hq] at hflush
  simp only at hflush
  cases hl : flush_loop w fuel q.items.length s rkey [] with
  | error f => rw [hl] at hflush; simp at hflush
  | ok x =>
    obtain ⟨s1, early, handed⟩ := x
    rw [hl] at hflush
    -- the end of the flush, for a loop that ran to its end
    have hend : ∀ K, early = false → (xhash_get s1.outq rkey).isSome = true → queued s1 rkey = K →
        queued s2 rkey = K ∧ (K = [] → xhash_get s2.outq rkey = none) ∧
        s2.sx_log = s1.sx_log ∧ s2.out_dest = s1.out_dest ∧ s2.dnscache = s1.dnscache ∧
        s2.conns = s1.conns := by
      intro K he hsome hK
      subst he
      simp only at hflush
      cases hg1 : xhash_get s1.outq rkey with
      | none => rw [hg1] at hsome; simp at hsome
      | some q1 =>
        rw [hg1] at hflush
        simp only at hflush
        rw [queued_of_get hg1] at hK
        by_cases hsz : jqueue_size q1 = 0
        · simp only [hsz, if_true, Except.ok.injEq] at hflush
          have hq1 : q1.items = [] := by
            unfold jqueue_size at hsz
            exact List.length_eq_zero.mp (by exact_mod_cast hsz)
          rw [← hflush]
          refine ⟨?_, fun _ => xhash_get_zap_same _ _, rfl, rfl, rfl, rfl⟩
          unfold queued
          simp only [xhash_get_zap_same]
          rw [← hK, hq1]
        · simp only [hsz, if_false, Except.ok.injEq] at hflush
          rw [← hflush]
          refine ⟨by rw [queued_of_get hg1]; exact hK, ?_, rfl, rfl, rfl, rfl⟩
          intro hK0
          exfalso
          apply hsz
          unfold jqueue_size
          rw [hK, hK0]; rfl
    cases hit : q.items with
    | nil =>
      rw [hit] at hl
      simp only [List.length_nil, flush_loop, Except.ok.injEq, Prod.mk.injEq] at hl
      obtain ⟨e1, e2, e3⟩ := hl
      subst e1 e2 e3
      obtain ⟨g1, g2, g3, _⟩ := hend [] rfl (by rw [hq]; rfl) (by rw [queued_of_get hq, hit])
      refine ⟨s, false, [], [], rfl, by rw [g3]; simp, Or.inr ⟨rfl, rfl, none, [], [], ?_⟩⟩
      exact ⟨rfl, rfl, fun h => absurd rfl h, by simp, by simp, g1, g2, by simp, Or.inl rfl⟩
    | cons p rest =>
      rw [hit] at hl hkey
      have hpk : s2s_route_key p.from_.domain p.to_.domain = rkey := hkey p (List.mem_cons_self _ _)
      have hkey' : ∀ p1 ∈ rest, s2s_route_key p1.from_.domain p1.to_.domain = rkey :=
        fun p1 hp1 => hkey p1 (List.mem_cons_of_mem _ hp1)
      simp only [List.length_cons] at hl
      unfold flush_loop at hl
      simp only [hq, jqueue_pull, hit] at hl
      cases hop : out_packet w fuel
          { s with outq := xhash_replace s.outq rkey { q with items := rest } } p with
      | error f => rw [hop] at hl; simp at hl
      | ok x =>
        obtain ⟨sb, ret⟩ := x
        rw [hop] at hl
        simp only at hl
        have hga : xhash_get
            ({ s with outq := xhash_replace s.outq rkey { q with items := rest } } : s2s_st).outq
            rkey = some { q with items := rest } := by
          simp only [xhash_get_replace_same, hq, Option.map_some']
        obtain ⟨s1r, retr, outr, hroute, _⟩ := out_packet_inv hop
        rw [hpk] at hroute
        obtain ⟨rfrom, dkey, hsplit⟩ := out_route_split fuel hroute
        rcases out_packet_step hsplit hpk hop with
          ⟨hret, _, hnoq, inits, hinits, hlog⟩ |
          ⟨hret, m, hm, _, houtq, e1, hlog1, hsub1, hfil1⟩
        · subst hret
          simp only [ne_eq, Int.reduceNeg, Int.neg_eq_zero, one_ne_zero, not_false_eq_true, if_true,
            Except.ok.injEq, Prod.mk.injEq] at hl
          obtain ⟨e1, e2, e3⟩ := hl
          subst e1 e2 e3
          simp only [Except.ok.injEq] at hflush
          subst hflush
          rw [queued_of_get hga] at hlog
          refine ⟨_, true, _, _, rfl, hlog, Or.inl ⟨rfl, by simp, hnoq, inits, hinits, ?_⟩⟩
          simp
        · subst hret
          simp only [ne_eq, not_true_eq_false, if_false, List.nil_append] at hl
          by_cases hw : mode_writes m p = true
          · simp only [hw, if_true] at houtq hsub1 hfil1
            have hqd : queued sb rkey = rest ++ [] := by
              unfold queued; rw [houtq, hga]; simp
            have hsb : (xhash_get sb.outq rkey).isSome = true := by rw [houtq, hga]; rfl
            obtain ⟨g1, g2, g3, g4, g5, e2, hlog2, hsub2, hfil2⟩ :=
              flush_loop_mode w fuel hsplit m rest.length sb [p] rest [] s1 early handed hm hqd hsb
                rfl hkey' hl
            simp only [List.nil_append] at g5
            obtain ⟨k1, k2, k3, k4, k5, k6⟩ := hend _ g1 g4 g5
            obtain ⟨sp1, sp2⟩ := mode_stanza_split m (p :: rest)
            refine ⟨s1, early, handed, e1 ++ e2, rfl, ?_, Or.inr ⟨g1, by rw [g2]; rfl, m, _, _, rfl,
              rfl, ?_, ?_, ?_, ?_, ?_, sp1, sp2⟩⟩
            · rw [k3, hlog2, hlog1, List.append_assoc]
            · intro _
              exact ⟨rfrom, dkey, hsplit, flush_inv_congr k4 k5 k6 g3⟩
            · simp only [List.filter_cons, hw, if_true, List.map_cons]
              exact List.Sublist.append hsub1 hsub2
            · rw [List.filter_append, hfil1, hfil2]
              simp only [List.filter_cons, hw, if_true]
              cases hdb : p.db <;> simp
            · rw [k1]; simp [hw]
            · intro hK
              apply k2
              simpa [hw] using hK
          · have hwf : mode_writes m p = false := by
              cases hx : mode_writes m p
              · rfl
              · exact absurd hx hw
            simp only [hwf, Bool.false_eq_true, if_false, false_and] at houtq hsub1 hfil1
            obtain ⟨q2, hq2a, hq2b⟩ := queued_out_packet_queue
              ({ s with outq := xhash_replace s.outq rkey { q with items := rest } } : s2s_st) p
            rw [hpk] at hq2a hq2b
            rw [queued_of_get hga] at hq2b
            have hqd : queued sb rkey = rest ++ [p] := by
              unfold queued; rw [houtq, hq2a]
              simp only [hq2b]
            have hsb : (xhash_get sb.outq rkey).isSome = true := by rw [houtq, hq2a]; rfl
            obtain ⟨g1, g2, g3, g4, g5, e2, hlog2, hsub2, hfil2⟩ :=
              flush_loop_mode w fuel hsplit m rest.length sb [p] rest [p] s1 early handed hm hqd hsb
                rfl hkey' hl
            obtain ⟨k1, k2, k3, k4, k5, k6⟩ := hend _ g1 g4 g5
            obtain ⟨sp1, sp2⟩ := mode_stanza_split m (p :: rest)
            refine ⟨s1, early, handed, e1 ++ e2, rfl, ?_, Or.inr ⟨g1, by rw [g2]; rfl, m, _, _, rfl,
              rfl, ?_, ?_, ?_, ?_, ?_, sp1, sp2⟩⟩
            · rw [k3, hlog2, hlog1, List.append_assoc]
            · intro _
              exact ⟨rfrom, dkey, hsplit, flush_inv_congr k4 k5 k6 g3⟩
            · simp only [List.filter_cons, hwf, Bool.false_eq_true, if_false]
              exact List.Sublist.trans hsub2 (List.sublist_append_right _ _)
            · rw [List.filter_append, hfil1, hfil2]
              simp only [List.filter_cons, hwf, Bool.false_eq_true, if_false, List.nil_append]
            · rw [k1]; simp [hwf]
            · intro hK
              simp [hwf] at hK

/-- The claim C5 as stated fails for a dialback packet that is queued behind a
stanza.  A message and then a verification request for `b.example` are queued
while the connection is being made; the connection goes online and dialback
for the route starts.  A flush of the queue then writes the verification
request and puts the message back, and the message is written only when the
peer has accepted the dialback key: the packet that was enqueued second is
written first.  Such a flush happens when the resolver answers for
`b.example.net`, of which the to-domain `b.example` is an initial part. -/
theorem C5_counterexample :
    queued st_mixed "a.example/b.example"
      = [demo_msg "a.example" "b.example", demo_verify "a.example" "b.example"] ∧
    (demo_conn st_mixed 0).online = true ∧
    conn_state (demo_conn st_mixed 0) "a.example/b.example" = conn_INPROGRESS ∧
    out_flush_route_queue demo_world 5 st_mixed "a.example/b.example" = .ok st_mixed_flushed ∧
    st_mixed_flushed.sx_log = st_mixed.sx_log ++
      [write_rec 0 "a.example/b.example" (demo_verify "a.example" "b.example")] ∧
    queued st_mixed_flushed "a.example/b.example" = [demo_msg "a.example" "b.example"] ∧
    step demo_world 5 st_mixed_flushed
      (.sx 0 (.event_PACKET (demo_db "result" "b.example" "a.example" "" "valid")))
      = .ok st_mixed_valid ∧
    st_mixed_valid.sx_log = st_mixed.sx_log ++
      [write_rec 0 "a.example/b.example" (demo_verify "a.example" "b.example"),
       write_rec 0 "a.example/b.example" (demo_msg "a.example" "b.example")] ∧
    run demo_world 5 (s2s_start (demo_cfg false 300)) ops_mixed_net = .ok st_mixed_net ∧
    st_mixed_net.sx_log = st_mixed.sx_log ++
      [write_rec 0 "a.example/b.example" (demo_verify "a.example" "b.example"),
       { s := sx_t.out 1, rkey := "a.example/b.example.net",
         call := sx_call.client_init none none none }] ∧
    queued st_mixed_net "a.example/b.example" = [demo_msg "a.example" "b.example"] :=
  ⟨by decide, by decide, by decide, by decide, by decide, by decide, by decide, by decide,
    by decide, by decide, by decide⟩

theorem C5_flush_stanzas_in_order_witness :
    xhash_get st_mixed.outq "a.example/b.example"
      = some (demo_queue st_mixed "a.example/b.example") ∧
    (∀ p ∈ (demo_queue st_mixed "a.example/b.example").items,
      s2s_route_key p.from_.domain p.to_.domain = "a.example/b.example") ∧
    out_flush_route_queue demo_world 5 st_mixed "a.example/b.example" = .ok st_mixed_flushed ∧
    (demo_queue st_mixed "a.example/b.example").items
      = [demo_msg "a.example" "b.example", demo_verify "a.example" "b.example"] ∧
    flush_inv st_mixed_flushed "a.example/b.example" "b.example" (some (0, true, false)) ∧
    queued st_mixed_flushed "a.example/b.example" = [demo_msg "a.example" "b.example"] ∧
    ∃ (s1 : s2s_st) (early : Bool) (handed : List pkt_st) (extra : List sx_rec),
      flush_loop demo_world 5 (demo_queue st_mixed "a.example/b.example").items.length st_mixed
        "a.example/b.example" [] = .ok (s1, early, handed) ∧
      st_mixed_flushed.sx_log = st_mixed.sx_log ++ extra := by
  obtain ⟨s1, early, handed, extra, h1, h2, _⟩ :=
    (C5_flush_stanzas_in_order demo_world 5 st_mixed "a.example/b.example"
      (demo_queue st_mixed "a.example/b.example") (by decide) (by decide)).2
      st_mixed_flushed (by decide)
  exact ⟨by decide, by decide, by decide, by decide,
    ⟨by decide, demo_conn st_mixed_flushed 0, by decide, by decide, by decide⟩, by decide,
    s1, early, handed, extra, h1, h2⟩

end S2S
